import Mathlib

/-!
NukiBle: frame codec, dispatcher and command orchestration.

A shallow embedding of `src/NukiBle.cpp`.  Byte buffers are lists of naturals
(each element one `unsigned char`), 16-bit fields are naturals split into two
little-endian bytes.  Every function that copies from or into a buffer returns
an `Option`: `none` stands for an access outside the bounds of the object it
addresses (behaviour the C++ program leaves undefined), `some` for a regular
run.

`NukiUtils` (`calculateCrc`, `crcValid`, `encode`, `decode`, `generateNonce`)
and `nukiConstants.h` are not among the sources.  The CRC helpers and the
command ids are modelled from the specification, the secretbox is a parameter
(`SecretBox`), nonces, the clock and the link state are inputs (`Tick`), and
the sizes and constants of `nukiConstants.h` are a parameter (`NukiConstants`).
-/

namespace NukiBle

/-- A byte buffer: one list element per `unsigned char`. -/
abbrev Bytes := List Nat

/-- The two bytes `memcpy` reads from a `uint16_t` on the little-endian target. -/
def le16 (v : Nat) : Bytes := [v % 256, v / 256 % 256]

/-- The `uint16_t` formed by two bytes, low byte first
(`memcpy(&v, b, 2)`, and `((uint16_t)b[1] << 8) | b[0]`). -/
def fromLe16 (b0 b1 : Nat) : Nat := b0 + 256 * b1

/-- Source side of `memcpy(dst, &buf[off], n)`: the `n` bytes of `buf` from offset
`off`, or `none` when the range leaves the buffer. -/
def readBytes (buf : Bytes) (off n : Nat) : Option Bytes :=
  if off + n ≤ buf.length then some ((buf.drop off).take n) else none

/-! ## CRC helpers (`NukiUtils`) -/

/-- One shift of the CRC register: shift left by one bit within 16 bits and
xor the polynomial `0x1021` when the bit shifted out was set. -/
def crcShift (crc : Nat) : Nat :=
  if 32768 ≤ crc then ((2 * crc) % 65536) ^^^ 0x1021 else (2 * crc) % 65536

/-- Feeds one byte into the CRC register: xor into the high byte, eight shifts. -/
def crcByte (crc b : Nat) : Nat :=
  crcShift^[8] (crc ^^^ (b * 256))

/-- CRC-16/CCITT-FALSE of a byte sequence (polynomial `0x1021`, initial value
`0xFFFF`, no reflection, no final xor). -/
def crc16 (data : Bytes) : Nat := data.foldl crcByte 0xFFFF

/-- Modelled from the spec: `calculateCrc` of `NukiUtils` is missing from the
sources; the specification names it CRC-16/CCITT(-FALSE) over the framed bytes.
`calculateCrc data start length` is the CRC of `data[start .. start + length)`. -/
def calculateCrc (data : Bytes) (start length : Nat) : Nat :=
  crc16 ((data.drop start).take length)

/-- Modelled from the spec: `crcValid` of `NukiUtils` is missing from the
sources; the specification puts the CRC in the last two bytes of a frame,
little-endian, computed over everything before it.  A buffer of fewer than two
bytes has no CRC field: reading one is an access outside the buffer (`none`). -/
def crcValid (pData : Bytes) : Option Bool :=
  if pData.length < 2 then none
  else
    let receivedCrc := fromLe16 (pData.getD (pData.length - 2) 0) (pData.getD (pData.length - 1) 0)
    let dataCrc := calculateCrc pData 0 (pData.length - 2)
    some (decide (receivedCrc = dataCrc))

/-! ## Constants (`nukiConstants.h`) -/

namespace NukiCommand

/-- Modelled from the spec: command id table of the specification (section 6);
`nukiConstants.h` is missing from the sources. -/
def RequestData : Nat := 0x01
/-- Modelled from the spec: command id table (section 6). -/
def PublicKey : Nat := 0x03
/-- Modelled from the spec: command id table (section 6). -/
def Challenge : Nat := 0x04
/-- Modelled from the spec: command id table (section 6). -/
def AuthorizationId : Nat := 0x07
/-- Modelled from the spec: command id table (section 6). -/
def KeyturnerStates : Nat := 0x0C
/-- Modelled from the spec: command id table (section 6). -/
def Status : Nat := 0x0E
/-- Modelled from the spec: command id table (section 6). -/
def BatteryReport : Nat := 0x11
/-- Modelled from the spec: command id table (section 6). -/
def ErrorReport : Nat := 0x12
/-- Modelled from the spec: command id table (section 6). -/
def Config : Nat := 0x15
/-- Modelled from the spec: command id table (section 6). -/
def AdvancedConfig : Nat := 0x19
/-- Modelled from the spec: command id table (section 6). -/
def AuthorizationEntry : Nat := 0x23
/-- Modelled from the spec: command id table (section 6). -/
def LogEntry : Nat := 0x31
/-- Modelled from the spec: command id table (section 6). -/
def LogEntryCount : Nat := 0x33
/-- Modelled from the spec: command id table (section 6). -/
def KeypadCode : Nat := 0x44
/-- Modelled from the spec: command id table (section 6). -/
def KeypadCodeCount : Nat := 0x45
/-- Modelled from the spec: command id table (section 6). -/
def TimeControlEntry : Nat := 0x52

end NukiCommand

/-- What `NukiBle.cpp` takes from `nukiConstants.h` and from the class
declaration and neither the sources nor the specification fix: the ids of the
enumerators the specification's table leaves out, the two timeouts, the
`sizeof` of the records copied by the dispatcher, and the build switch
`DEBUG_NUKI_READABLE_DATA`. -/
structure NukiConstants where
  /-- Value of `NukiCommand::Empty`. -/
  Empty : Nat
  /-- Value of `NukiCommand::AuthorizationEntryCount`. -/
  AuthorizationEntryCount : Nat
  /-- Macro `CMD_TIMEOUT` (milliseconds). -/
  CMD_TIMEOUT : Nat
  /-- Macro `PAIRING_TIMEOUT` (milliseconds). -/
  PAIRING_TIMEOUT : Nat
  /-- Size of the array `lockId`. -/
  sizeofLockId : Nat
  /-- Size of `AuthorizationEntry`. -/
  sizeofAuthorizationEntry : Nat
  /-- Size of `KeyTurnerState`. -/
  sizeofKeyTurnerState : Nat
  /-- Size of `BatteryReport`. -/
  sizeofBatteryReport : Nat
  /-- Size of `Config`. -/
  sizeofConfig : Nat
  /-- Size of `AdvancedConfig`. -/
  sizeofAdvancedConfig : Nat
  /-- Size of `LogEntry`. -/
  sizeofLogEntry : Nat
  /-- Size of the member `logEntryCount`. -/
  sizeofLogEntryCount : Nat
  /-- Size of the member `loggingEnabled`. -/
  sizeofLoggingEnabled : Nat
  /-- Size of `TimeControlEntry`. -/
  sizeofTimeControlEntry : Nat
  /-- Size of `KeypadEntry`. -/
  sizeofKeypadEntry : Nat
  /-- Whether `DEBUG_NUKI_READABLE_DATA` is defined. -/
  debugReadableData : Bool

/-- The secretbox of libsodium behind `encode` and `decode` of `NukiUtils`
(`crypto_secretbox_easy`, `crypto_secretbox_open_easy`), as a parameter.
`encode input nonce key` is the ciphertext, `none` when the helper returns a
negative value; `decode input nonce key` is the plaintext, `none` when the
helper reports failure, in which case it has not written the output buffer.
The ciphertext is `crypto_secretbox_MACBYTES = 16` bytes longer than the
plaintext. -/
structure SecretBox where
  /-- Seal `input` under `nonce` and `key`. -/
  encode : Bytes → Bytes → Bytes → Option Bytes
  /-- Open `input` under `nonce` and `key`. -/
  decode : Bytes → Bytes → Bytes → Option Bytes
  /-- A ciphertext is 16 bytes longer than its plaintext. -/
  encode_length : ∀ m n k c, encode m n k = some c → c.length = m.length + 16
  /-- A plaintext is 16 bytes shorter than its ciphertext. -/
  decode_length : ∀ c n k m, decode c n k = some m → m.length + 16 = c.length

/-- The two indication characteristics of the lock, and any other one. -/
inductive Characteristic where
  /-- Pairing characteristic `keyturnerGdioUUID` (plain frames). -/
  | gdio
  /-- User characteristic `userDataUUID` (encrypted frames). -/
  | usdio
  /-- A characteristic with another UUID. -/
  | other
  deriving DecidableEq, Repr

/-- States of the command state machines (`NukiCommandState`). -/
inductive NukiCommandState where
  | Idle
  | CmdSent
  | ChallengeSent
  | ChallengeRespReceived
  | CmdAccepted
  deriving DecidableEq, Repr

/-- Results of a command (`NukiCmdResult`). -/
inductive NukiCmdResult where
  | Success
  | Failed
  | TimeOut
  | Working
  | NotPaired
  deriving DecidableEq, Repr

/-- Categories of an action (`NukiCommandType`); `Unknown` stands for a value
outside the four enumerators. -/
inductive NukiCommandType where
  | Command
  | CommandWithChallenge
  | CommandWithChallengeAndAccept
  | CommandWithChallengeAndPin
  | Unknown
  deriving DecidableEq, Repr

/-- An action in flight (`NukiAction`): `payload` is the content of the fixed
payload array, `payloadLen` the number of bytes in use. -/
structure NukiAction where
  cmdType : NukiCommandType
  command : Nat
  payload : Bytes
  payloadLen : Nat
  deriving DecidableEq, Repr

/-- The members of a `NukiBle` object the modelled functions read or write,
the credential store `preferences`, and the frames written so far to the two
characteristics (`written`, oldest first). -/
structure Session where
  secretKeyK : Bytes
  authorizationId : Bytes
  lockId : Bytes
  pinCode : Nat
  bleAddress : Bytes
  remotePublicKey : Bytes
  challengeNonceK : Bytes
  sentNonce : Bytes
  receivedStatus : Nat
  lastMsgCodeReceived : Nat
  crcCheckOke : Bool
  nukiCommandState : NukiCommandState
  timeNow : Nat
  keyTurnerState : Bytes
  batteryReport : Bytes
  config : Bytes
  advancedConfig : Bytes
  errorCode : Nat
  loggingEnabled : Bytes
  logEntryCount : Bytes
  nrOfKeypadCodes : Nat
  listOfAuthorizationEntries : List Bytes
  listOfLogEntries : List Bytes
  listOfTimeControlEntries : List Bytes
  listOfKeyPadEntries : List Bytes
  preferences : List (String × Bytes)
  written : List (Characteristic × Bytes)
  authenticator : Bytes
  isPaired : Bool
  myPublicKey : Bytes
  myPrivateKey : Bytes
  deviceId : Nat
  deviceName : Bytes
  deriving DecidableEq, Repr

/-- What the environment supplies to one step of a state machine: the value of
`millis()`, whether `connectBle` succeeds, the bytes `generateNonce` produces,
and the indications delivered while the caller sleeps after the step. -/
structure Tick where
  now : Nat
  connected : Bool
  nonce : Bytes
  inbound : List (Characteristic × Bytes × Bytes)
  deriving DecidableEq, Repr

/-! ## Outbound frames -/

/-- Body of `NukiBle::sendEncryptedMessage` up to the write: the bytes of
`dataToSend`, inside `some` when `encode` succeeded.  The outer `none` is an
access outside `payload`. -/
def encryptedFrame (box : SecretBox) (s : Session) (nonce : Bytes)
    (commandIdentifier : Nat) (payload : Bytes) (payloadLen : Nat) : Option (Option Bytes) := do
  let p ← readBytes payload 0 payloadLen
  -- plainData[6 + payloadLen]: authorizationId, commandIdentifier, payload
  let plainData := s.authorizationId ++ le16 commandIdentifier ++ p
  let dataCrc := calculateCrc plainData 0 plainData.length
  let plainDataWithCrc := plainData ++ le16 dataCrc
  match box.encode plainDataWithCrc nonce s.secretKeyK with
  | some plainDataEncr =>
    -- additionalData[30]: sentNonce, authorizationId, sizeof(plainDataEncr)
    let additionalData := nonce ++ s.authorizationId ++ le16 plainDataEncr.length
    some (some (additionalData ++ plainDataEncr))
  | none => some none

/-- Model of `NukiBle::sendEncryptedMessage`: `payloadLen` is a `uint8_t`
parameter, `generateNonce` fills `sentNonce` with `t.nonce`, and the frame is
written to the user characteristic when `encode` succeeded and `connectBle`
holds. -/
def sendEncryptedMessage (box : SecretBox) (s : Session) (t : Tick)
    (commandIdentifier : Nat) (payload : Bytes) (payloadLen : Nat) : Option Session := do
  let frame ← encryptedFrame box s t.nonce commandIdentifier payload (payloadLen % 256)
  let s1 := { s with sentNonce := t.nonce }
  match frame with
  | some dataToSend =>
    if t.connected then some { s1 with written := s1.written ++ [(Characteristic.usdio, dataToSend)] }
    else some s1
  | none => some s1

/-- Body of `NukiBle::sendPlainMessage` up to the write: the first
`payloadLen + 4` bytes of the 200-byte array `dataToSend`; `none` when the
copies leave `dataToSend` or `payload`. -/
def plainFrame (commandIdentifier : Nat) (payload : Bytes) (payloadLen : Nat) : Option Bytes := do
  if 200 < payloadLen + 4 then none
  else
    let p ← readBytes payload 0 payloadLen
    let body := le16 commandIdentifier ++ p
    let dataCrc := calculateCrc body 0 (payloadLen + 2)
    some (body ++ le16 dataCrc)

/-- Model of `NukiBle::sendPlainMessage`: the frame is written to the pairing
characteristic when `connectBle` holds. -/
def sendPlainMessage (s : Session) (t : Tick)
    (commandIdentifier : Nat) (payload : Bytes) (payloadLen : Nat) : Option Session := do
  let dataToSend ← plainFrame commandIdentifier payload (payloadLen % 256)
  if t.connected then some { s with written := s.written ++ [(Characteristic.gdio, dataToSend)] }
  else some s

/-! ## Dispatcher -/

/-- Model of `NukiBle::handleReturnMessage`; `data` is the content of the array
the pointer `data` refers to (the function reads it at the offsets of its
copies, whatever `dataLen` says: `dataLen` is only printed).  The
cases of the switch that only print (`RequestData`, `AuthorizationAuthenticator`,
`AuthorizationData`, `OpeningsClosingsSummary`, `AuthorizationIdConfirmation`,
`AuthorizationIdInvite`, `TimeControlEntryCount`, `KeypadCodeId`,
`KeypadAction`, `default`) are the last branch.  A record is kept as the bytes
copied into it; the arguments of the logging macros are not modelled. -/
def handleReturnMessage (K : NukiConstants) (s : Session) (returnCode : Nat) (data : Bytes) :
    Option Session :=
  let s1 := { s with lastMsgCodeReceived := returnCode }
  if returnCode = NukiCommand.PublicKey then do
    let key ← readBytes data 0 32
    some { s1 with remotePublicKey := key }
  else if returnCode = NukiCommand.Challenge then do
    let nonce ← readBytes data 0 32
    some { s1 with challengeNonceK := nonce }
  else if returnCode = NukiCommand.AuthorizationId then do
    let aid ← readBytes data 32 4
    let lid ← readBytes data 36 K.sizeofLockId
    let nonce ← readBytes data 52 32
    some { s1 with authorizationId := aid, lockId := lid, challengeNonceK := nonce }
  else if returnCode = NukiCommand.AuthorizationEntry then do
    let authEntry ← readBytes data 0 K.sizeofAuthorizationEntry
    some { s1 with listOfAuthorizationEntries := s1.listOfAuthorizationEntries ++ [authEntry] }
  else if returnCode = NukiCommand.KeyturnerStates then do
    let st ← readBytes data 0 K.sizeofKeyTurnerState
    some { s1 with keyTurnerState := st }
  else if returnCode = NukiCommand.Status then do
    let b ← readBytes data 0 1
    some { s1 with receivedStatus := b.getD 0 0 }
  else if returnCode = NukiCommand.BatteryReport then do
    let r ← readBytes data 0 K.sizeofBatteryReport
    some { s1 with batteryReport := r }
  else if returnCode = NukiCommand.ErrorReport then do
    let b ← readBytes data 0 1
    some { s1 with errorCode := b.getD 0 0 }
  else if returnCode = NukiCommand.Config then do
    let c ← readBytes data 0 K.sizeofConfig
    some { s1 with config := c }
  else if returnCode = K.AuthorizationEntryCount then do
    let _count ← readBytes data 0 2
    some s1
  else if returnCode = NukiCommand.LogEntry then do
    let logEntry ← readBytes data 0 K.sizeofLogEntry
    some { s1 with listOfLogEntries := s1.listOfLogEntries ++ [logEntry] }
  else if returnCode = NukiCommand.LogEntryCount then do
    -- memcpy(&loggingEnabled, data, sizeof(logEntryCount))
    let e ← readBytes data 0 K.sizeofLogEntryCount
    if K.sizeofLoggingEnabled < K.sizeofLogEntryCount then none
    else
      let c ← readBytes data 1 K.sizeofLogEntryCount
      some { s1 with loggingEnabled := e ++ s1.loggingEnabled.drop e.length, logEntryCount := c }
  else if returnCode = NukiCommand.AdvancedConfig then do
    let c ← readBytes data 0 K.sizeofAdvancedConfig
    some { s1 with advancedConfig := c }
  else if returnCode = NukiCommand.TimeControlEntry then do
    let e ← readBytes data 0 K.sizeofTimeControlEntry
    some { s1 with listOfTimeControlEntries := s1.listOfTimeControlEntries ++ [e] }
  else if returnCode = NukiCommand.KeypadCodeCount then do
    let c ← readBytes data 0 2
    some { s1 with nrOfKeypadCodes := fromLe16 (c.getD 0 0) (c.getD 1 0) }
  else if returnCode = NukiCommand.KeypadCode then
    if K.debugReadableData then do
      let e ← readBytes data 0 K.sizeofKeypadEntry
      some { s1 with listOfKeyPadEntries := s1.listOfKeyPadEntries ++ [e] }
    else some s1
  else some s1

/-- What `NukiBle::notifyCallback` decides for an indication. -/
inductive Dispatch where
  /-- The characteristic is neither GDIO nor USDIO: nothing is done. -/
  | ignored
  /-- `crcCheckOke` becomes false and `handleReturnMessage` is not called. -/
  | rejected
  /-- `crcCheckOke` becomes true and `handleReturnMessage` is called with
  `returnCode` and `dataLen = payload.length`; `payload` holds the first
  `dataLen` bytes of the array it is handed (`handedOver`). -/
  | accepted (returnCode : Nat) (payload : Bytes)
  deriving DecidableEq, Repr

/-- Body of `NukiBle::notifyCallback` up to the call of `handleReturnMessage`:
the command id and the `dataLen` bytes copied out of the frame.
`recData` is the received frame (`length = recData.length`); `decrInit` is what
the array `decrData` holds before `decode` runs (indeterminate stack content of
`encrMsgLen - 16` bytes), which is what it still holds when `decode` fails,
because the return value of `decode` is not looked at. -/
def notifyDispatch (box : SecretBox) (s : Session) (ch : Characteristic)
    (recData decrInit : Bytes) : Option Dispatch :=
  match ch with
  | Characteristic.gdio => do
    -- returnCode = ((uint16_t)recData[1] << 8) | recData[0]
    let rc ← readBytes recData 0 2
    let returnCode := fromLe16 (rc.getD 0 0) (rc.getD 1 0)
    let ok ← crcValid recData
    if ok then
      -- memcpy(plainData, &recData[2], length - 4) into plainData[200]
      if recData.length < 4 then none
      else if 200 < recData.length - 4 then none
      else do
        let plainData ← readBytes recData 2 (recData.length - 4)
        some (Dispatch.accepted returnCode plainData)
    else some Dispatch.rejected
  | Characteristic.usdio => do
    let recNonce ← readBytes recData 0 24
    let _recAuthorizationId ← readBytes recData 24 4
    let recMsgLen ← readBytes recData 28 2
    let encrMsgLen := fromLe16 (recMsgLen.getD 0 0) (recMsgLen.getD 1 0)
    let encrData ← readBytes recData 30 encrMsgLen
    -- decrData[encrMsgLen - crypto_secretbox_MACBYTES]
    if encrMsgLen < 16 then none
    else
      let decrData :=
        match box.decode encrData recNonce s.secretKeyK with
        | some m => m
        | none => decrInit
      let ok ← crcValid decrData
      if ok then do
        let rc ← readBytes decrData 4 2
        let returnCode := fromLe16 (rc.getD 0 0) (rc.getD 1 0)
        -- payload[sizeof(decrData) - 8]
        if decrData.length < 8 then none
        else do
          let payload ← readBytes decrData 6 (decrData.length - 8)
          some (Dispatch.accepted returnCode payload)
      else some Dispatch.rejected
  | Characteristic.other => some Dispatch.ignored

/-- The array `plainData[200]` of the pairing branch of `notifyCallback` after
`memcpy(plainData, &recData[2], length - 4)`: the `length - 4` bytes received,
followed by what the array held before from that offset on.  `before` is the
content of the array before the copy (indeterminate stack content); a byte it
does not give is taken as 0. -/
def plainDataArray (received before : Bytes) : Bytes :=
  received ++ (before.drop received.length ++ List.replicate 200 0).take (200 - received.length)

/-- The array `handleReturnMessage` is handed by `notifyCallback`: in the
pairing branch the whole array `plainData[200]`, of which only the first
`length - 4` bytes were received; in the user-data branch the array
`payload[sizeof(decrData) - 8]`, which holds the payload and nothing more. -/
def handedOver (ch : Characteristic) (payload before : Bytes) : Bytes :=
  match ch with
  | Characteristic.gdio => plainDataArray payload before
  | _ => payload

/-- Model of `NukiBle::notifyCallback`.  `decrInit` is the content the local
array of the branch holds before it is written (indeterminate stack content):
`decrData` in the user-data branch, `plainData` in the pairing branch. -/
def notifyCallback (K : NukiConstants) (box : SecretBox) (s : Session) (ch : Characteristic)
    (recData decrInit : Bytes) : Option Session := do
  match ← notifyDispatch box s ch recData decrInit with
  | Dispatch.ignored => some s
  | Dispatch.rejected => some { s with crcCheckOke := false }
  | Dispatch.accepted returnCode payload =>
    handleReturnMessage K { s with crcCheckOke := true } returnCode
      (handedOver ch payload decrInit)

/-! ## Credential store -/

/-- Contract of `Preferences::getBytes(key, buf, maxLen)` (CredentialStore
`get_bytes`): the number of bytes read and the buffer afterwards.  The count is
0, and the buffer untouched, when the key is absent, the stored value is empty
or it is longer than `maxLen`. -/
def getBytes (prefs : List (String × Bytes)) (key : String) (buf : Bytes) (maxLen : Nat) :
    Nat × Bytes :=
  match prefs.lookup key with
  | none => (0, buf)
  | some v =>
    if v.length = 0 ∨ maxLen < v.length then (0, buf)
    else (v.length, v ++ buf.drop v.length)

/-- Model of `NukiBle::retrieveCredentials`: the four reads are chained with
`&&`, so a read that yields 0 stops the chain and the members read before it
keep what was read into them.  `buff` is the content of the local array
`buff[6]` before the reads. -/
def retrieveCredentials (s : Session) (buff : Bytes) : Bool × Session :=
  let r1 := getBytes s.preferences "secretKeyK" s.secretKeyK 32
  let s1 := { s with secretKeyK := r1.2 }
  if r1.1 = 0 then (false, s1)
  else
    let r2 := getBytes s.preferences "bleAddress" buff 6
    if r2.1 = 0 then (false, s1)
    else
      let r3 := getBytes s.preferences "authorizationId" s.authorizationId 4
      let s3 := { s1 with authorizationId := r3.2 }
      if r3.1 = 0 then (false, s3)
      else
        let r4 := getBytes s.preferences "securityPinCode" (le16 s.pinCode) 2
        let s4 := { s3 with pinCode := fromLe16 (r4.2.getD 0 0) (r4.2.getD 1 0) }
        if r4.1 = 0 then (false, s4)
        else (true, { s4 with bleAddress := r2.2 })

/-! ## Command state machines -/

/-- The unsigned 32-bit difference `millis() - timeNow`. -/
def elapsed (now timeNow : Nat) : Nat := (now + 4294967296 - timeNow % 4294967296) % 4294967296

/-- Model of `NukiBle::cmdStateMachine`. -/
def cmdStateMachine (K : NukiConstants) (box : SecretBox) (s : Session) (t : Tick)
    (action : NukiAction) : Option (NukiCmdResult × Session) :=
  match s.nukiCommandState with
  | NukiCommandState.Idle => do
    let s1 := { s with lastMsgCodeReceived := K.Empty, timeNow := t.now }
    let s2 ← sendEncryptedMessage box s1 t NukiCommand.RequestData action.payload action.payloadLen
    some (NukiCmdResult.Working, { s2 with nukiCommandState := NukiCommandState.CmdSent })
  | NukiCommandState.CmdSent =>
    if K.CMD_TIMEOUT < elapsed t.now s.timeNow then
      some (NukiCmdResult.TimeOut,
        { s with timeNow := t.now, nukiCommandState := NukiCommandState.Idle })
    else if s.lastMsgCodeReceived ≠ NukiCommand.ErrorReport ∧ s.lastMsgCodeReceived ≠ K.Empty then
      some (NukiCmdResult.Success,
        { s with nukiCommandState := NukiCommandState.Idle, lastMsgCodeReceived := K.Empty })
    else if s.lastMsgCodeReceived = NukiCommand.ErrorReport then
      some (NukiCmdResult.Failed,
        { s with nukiCommandState := NukiCommandState.Idle, lastMsgCodeReceived := K.Empty })
    else some (NukiCmdResult.Working, s)
  | _ => some (NukiCmdResult.Failed, s)

/-- Model of `NukiBle::cmdChallStateMachine`.  In `ChallengeRespReceived` the
local `payloadLen` is a `uint8_t` and `payload` an array of that many bytes; a
copy that does not fit it is an access outside the array. -/
def cmdChallStateMachine (K : NukiConstants) (box : SecretBox) (s : Session) (t : Tick)
    (action : NukiAction) (sendPinCode : Bool) : Option (NukiCmdResult × Session) :=
  match s.nukiCommandState with
  | NukiCommandState.Idle => do
    let s1 := { s with lastMsgCodeReceived := K.Empty, timeNow := t.now }
    let s2 ← sendEncryptedMessage box s1 t NukiCommand.RequestData [0x04, 0x00] 2
    some (NukiCmdResult.Working, { s2 with nukiCommandState := NukiCommandState.ChallengeSent })
  | NukiCommandState.ChallengeSent =>
    if K.CMD_TIMEOUT < elapsed t.now s.timeNow then
      some (NukiCmdResult.TimeOut,
        { s with timeNow := t.now, nukiCommandState := NukiCommandState.Idle })
    else if s.lastMsgCodeReceived = NukiCommand.Challenge then
      some (NukiCmdResult.Working,
        { s with nukiCommandState := NukiCommandState.ChallengeRespReceived,
                 lastMsgCodeReceived := K.Empty })
    else some (NukiCmdResult.Working, s)
  | NukiCommandState.ChallengeRespReceived => do
    let s1 := { s with lastMsgCodeReceived := K.Empty, timeNow := t.now, crcCheckOke := false }
    let payloadLen0 := (action.payloadLen + 32) % 256
    let payloadLen := if sendPinCode then (payloadLen0 + 2) % 256 else payloadLen0
    let a ← readBytes action.payload 0 action.payloadLen
    if payloadLen < action.payloadLen + 32 then none
    else if sendPinCode ∧ payloadLen < action.payloadLen + 34 then none
    else
      let payload := a ++ s1.challengeNonceK ++ (if sendPinCode then le16 s1.pinCode else [])
      let s2 ← sendEncryptedMessage box s1 t action.command payload payloadLen
      some (NukiCmdResult.Working, { s2 with nukiCommandState := NukiCommandState.CmdSent })
  | NukiCommandState.CmdSent =>
    if K.CMD_TIMEOUT < elapsed t.now s.timeNow then
      some (NukiCmdResult.TimeOut,
        { s with timeNow := t.now, nukiCommandState := NukiCommandState.Idle })
    else if s.lastMsgCodeReceived = NukiCommand.ErrorReport then
      some (NukiCmdResult.Failed,
        { s with nukiCommandState := NukiCommandState.Idle, lastMsgCodeReceived := K.Empty })
    else if s.crcCheckOke then
      some (NukiCmdResult.Success, { s with nukiCommandState := NukiCommandState.Idle })
    else some (NukiCmdResult.Working, s)
  | _ => some (NukiCmdResult.Failed, s)

/-- Modelled from the spec: values of `CommandStatus` (`nukiConstants.h` is
missing from the sources): 0 is Complete, 1 is Accepted. -/
def CommandStatus.Complete : Nat := 0
/-- Modelled from the spec: values of `CommandStatus`: 1 is Accepted. -/
def CommandStatus.Accepted : Nat := 1

/-- Model of `NukiBle::cmdChallAccStateMachine`.  The casts
`(CommandStatus)lastMsgCodeReceived` compare the numeric value of the last
command id, taken as a `uint8_t`, with the numeric value of the status. -/
def cmdChallAccStateMachine (K : NukiConstants) (box : SecretBox) (s : Session) (t : Tick)
    (action : NukiAction) : Option (NukiCmdResult × Session) :=
  match s.nukiCommandState with
  | NukiCommandState.Idle => do
    let s1 := { s with lastMsgCodeReceived := K.Empty, timeNow := t.now }
    let s2 ← sendEncryptedMessage box s1 t NukiCommand.RequestData [0x04, 0x00] 2
    some (NukiCmdResult.Working, { s2 with nukiCommandState := NukiCommandState.ChallengeSent })
  | NukiCommandState.ChallengeSent =>
    if K.CMD_TIMEOUT < elapsed t.now s.timeNow then
      some (NukiCmdResult.TimeOut,
        { s with timeNow := t.now, nukiCommandState := NukiCommandState.Idle })
    else if s.lastMsgCodeReceived = NukiCommand.Challenge then
      some (NukiCmdResult.Working,
        { s with nukiCommandState := NukiCommandState.ChallengeRespReceived,
                 lastMsgCodeReceived := K.Empty })
    else some (NukiCmdResult.Working, s)
  | NukiCommandState.ChallengeRespReceived => do
    let s1 := { s with lastMsgCodeReceived := K.Empty, timeNow := t.now }
    let payloadLen := (action.payloadLen + 32) % 256
    let a ← readBytes action.payload 0 action.payloadLen
    if payloadLen < action.payloadLen + 32 then none
    else
      let payload := a ++ s1.challengeNonceK
      let s2 ← sendEncryptedMessage box s1 t action.command payload (action.payloadLen + 32)
      some (NukiCmdResult.Working, { s2 with nukiCommandState := NukiCommandState.CmdSent })
  | NukiCommandState.CmdSent =>
    if K.CMD_TIMEOUT < elapsed t.now s.timeNow then
      some (NukiCmdResult.TimeOut,
        { s with timeNow := t.now, nukiCommandState := NukiCommandState.Idle })
    else if s.lastMsgCodeReceived % 256 = CommandStatus.Accepted then
      some (NukiCmdResult.Working,
        { s with nukiCommandState := NukiCommandState.CmdAccepted,
                 lastMsgCodeReceived := K.Empty })
    else some (NukiCmdResult.Working, s)
  | NukiCommandState.CmdAccepted =>
    if K.CMD_TIMEOUT < elapsed t.now s.timeNow then
      some (NukiCmdResult.TimeOut,
        { s with timeNow := t.now, nukiCommandState := NukiCommandState.Idle })
    else if s.lastMsgCodeReceived = NukiCommand.ErrorReport then
      some (NukiCmdResult.Failed,
        { s with nukiCommandState := NukiCommandState.Idle, lastMsgCodeReceived := K.Empty })
    else if s.lastMsgCodeReceived % 256 = CommandStatus.Complete then
      some (NukiCmdResult.Success,
        { s with nukiCommandState := NukiCommandState.Idle, lastMsgCodeReceived := K.Empty })
    else some (NukiCmdResult.Working, s)

/-- Delivers the indications of one tick, in order, through `notifyCallback`. -/
def deliver (K : NukiConstants) (box : SecretBox) :
    Session → List (Characteristic × Bytes × Bytes) → Option Session
  | s, [] => some s
  | s, (ch, recData, decrInit) :: rest => do
    let s1 ← notifyCallback K box s ch recData decrInit
    deliver K box s1 rest

/-- The loop `while (1) { result = step(action); if (result != Working) return
result; delay(10); }` of `executeAction` over a finite schedule of ticks.  When
the schedule ends while the machine still answers `Working`, the outcome is
`Working`: the loop is still running. -/
def runLoop (K : NukiConstants) (box : SecretBox)
    (step : Session → Tick → Option (NukiCmdResult × Session)) :
    Session → List Tick → Option (NukiCmdResult × Session)
  | s, [] => some (NukiCmdResult.Working, s)
  | s, t :: ts => do
    let r ← step s t
    if r.1 ≠ NukiCmdResult.Working then some r
    else do
      let s1 ← deliver K box r.2 t.inbound
      runLoop K box step s1 ts

/-- Model of `NukiBle::executeAction`; `buff` is the initial content of the
local array of `retrieveCredentials`, `ticks` the schedule of the loop. -/
def executeAction (K : NukiConstants) (box : SecretBox) (s : Session) (action : NukiAction)
    (buff : Bytes) (ticks : List Tick) : Option (NukiCmdResult × Session) :=
  let r := retrieveCredentials s buff
  if r.1 then
    match action.cmdType with
    | NukiCommandType.Command =>
      runLoop K box (fun s t => cmdStateMachine K box s t action) r.2 ticks
    | NukiCommandType.CommandWithChallenge =>
      runLoop K box (fun s t => cmdChallStateMachine K box s t action false) r.2 ticks
    | NukiCommandType.CommandWithChallengeAndAccept =>
      runLoop K box (fun s t => cmdChallAccStateMachine K box s t action) r.2 ticks
    | NukiCommandType.CommandWithChallengeAndPin =>
      runLoop K box (fun s t => cmdChallStateMachine K box s t action true) r.2 ticks
    | NukiCommandType.Unknown => some (NukiCmdResult.Failed, r.2)
  else some (NukiCmdResult.NotPaired, r.2)

/-! ## Credential store: writing and removing -/

/-- Contract of `Preferences::putBytes(key, value, len)` (CredentialStore
`put_bytes`): the number of bytes written and the store afterwards; `ok` tells
whether the store accepts the write, a refused write returns 0 and changes
nothing. -/
def putBytes (prefs : List (String × Bytes)) (key : String) (value : Bytes) (len : Nat)
    (ok : Bool) : Nat × List (String × Bytes) :=
  if ok then (len, (key, value.take len) :: prefs.filter (fun e => e.1 ≠ key))
  else (0, prefs)

/-- Contract of `Preferences::remove(key)` (CredentialStore `remove`). -/
def remove (prefs : List (String × Bytes)) (key : String) : List (String × Bytes) :=
  prefs.filter (fun e => e.1 ≠ key)

/-- Model of `NukiBle::saveCredentials`: the four writes are chained with `&&`,
so a write that does not return the full length stops the chain.  `bleAddress`
is kept in the byte order of the store (`buff[i] = getNative()[5 - i]`);
`canWrite key` tells whether the store accepts the write of `key`. -/
def saveCredentials (s : Session) (canWrite : String → Bool) : Session :=
  let w1 := putBytes s.preferences "secretKeyK" s.secretKeyK 32 (canWrite "secretKeyK")
  if w1.1 ≠ 32 then { s with preferences := w1.2 }
  else
    let w2 := putBytes w1.2 "bleAddress" s.bleAddress 6 (canWrite "bleAddress")
    if w2.1 ≠ 6 then { s with preferences := w2.2 }
    else
      let w3 := putBytes w2.2 "authorizationId" s.authorizationId 4 (canWrite "authorizationId")
      if w3.1 ≠ 4 then { s with preferences := w3.2 }
      else
        let w4 := putBytes w3.2 "securityPinCode" (le16 s.pinCode) 2
          (canWrite "securityPinCode")
        { s with preferences := w4.2 }

/-- Model of `NukiBle::deleteCredentials`. -/
def deleteCredentials (s : Session) : Session :=
  { s with preferences :=
      remove (remove (remove s.preferences "secretKeyK") "bleAddress") "authorizationId" }

/-- Model of `NukiBle::unPairNuki`. -/
def unPairNuki (s : Session) : Session := deleteCredentials s

/-- Model of `NukiBle::getLastError`. -/
def getLastError (s : Session) : Nat := s.errorCode

/-! ## Pairing -/

namespace NukiCommand

/-- Modelled from the spec: command id table (section 6). -/
def AuthorizationAuthenticator : Nat := 0x05
/-- Modelled from the spec: command id table (section 6). -/
def AuthorizationData : Nat := 0x06
/-- Modelled from the spec: command id table (section 6). -/
def AuthorizationIdConfirmation : Nat := 0x1E
/-- Modelled from the spec: command id table (section 6). -/
def RequestLogEntries : Nat := 0x32

end NukiCommand

/-- The primitives of libsodium used by the pairing state machine, as a
parameter: `scalarmult n p` is `crypto_scalarmult_curve25519(q, n, p)`,
`hsalsa20 input k c` is `crypto_core_hsalsa20(out, input, k, c)`, and
`hmac input k` is `crypto_auth_hmacsha256(out, input, inlen, k)`. -/
structure Crypto where
  scalarmult : Bytes → Bytes → Bytes
  hsalsa20 : Bytes → Bytes → Bytes → Bytes
  hmac : Bytes → Bytes → Bytes

/-- States of the pairing state machine (`NukiPairingState`). -/
inductive NukiPairingState where
  | InitPairing
  | ReqRemPubKey
  | RecRemPubKey
  | SendPubKey
  | GenKeyPair
  | CalculateAuth
  | SendAuth
  | SendAuthData
  | SendAuthIdConf
  | RecStatus
  | Success
  | Timeout
  deriving DecidableEq, Repr

/-- Modelled from the spec: `isCharArrayNotEmpty` of `NukiUtils` is missing from
the sources; the specification waits for the array "to become non-zero": some
byte differs from 0. -/
def isCharArrayNotEmpty (array : Bytes) : Bool := array.any (fun b => b ≠ 0)

/-- The bytes of `"expand 32-byte k"`. -/
def sigma : Bytes := [101, 120, 112, 97, 110, 100, 32, 51, 50, 45, 98, 121, 116, 101, 32, 107]

/-- The four bytes `(deviceId >> (8 * i)) & 0xff`, `i = 0..3`. -/
def le32 (v : Nat) : Bytes := [v % 256, v / 256 % 256, v / 65536 % 256, v / 16777216 % 256]

/-- Model of `NukiBle::pairStateMachine`.  A case that ends in `break` falls to
the timeout check after the switch; `t.nonce` is what `generateNonce` puts
into `authorizationDataNonce`. -/
def pairStateMachine (K : NukiConstants) (C : Crypto) (s : Session) (t : Tick)
    (nukiPairingState : NukiPairingState) : Option (NukiPairingState × Session) :=
  let afterSwitch : Option (NukiPairingState × Session) :=
    if K.PAIRING_TIMEOUT < elapsed t.now s.timeNow then some (NukiPairingState.Timeout, s)
    else some (nukiPairingState, s)
  match nukiPairingState with
  | NukiPairingState.InitPairing =>
    some (NukiPairingState.ReqRemPubKey,
      { s with challengeNonceK := List.replicate 32 0, remotePublicKey := List.replicate 32 0,
               receivedStatus := 0xff })
  | NukiPairingState.ReqRemPubKey => do
    let s1 ← sendPlainMessage s t NukiCommand.RequestData (le16 NukiCommand.PublicKey) 2
    some (NukiPairingState.RecRemPubKey, { s1 with timeNow := t.now })
  | NukiPairingState.RecRemPubKey =>
    if isCharArrayNotEmpty s.remotePublicKey then some (NukiPairingState.SendPubKey, s)
    else afterSwitch
  | NukiPairingState.SendPubKey => do
    let s1 ← sendPlainMessage s t NukiCommand.PublicKey s.myPublicKey 32
    some (NukiPairingState.GenKeyPair, s1)
  | NukiPairingState.GenKeyPair =>
    let sharedKeyS := C.scalarmult s.myPrivateKey s.remotePublicKey
    some (NukiPairingState.CalculateAuth,
      { s with secretKeyK := C.hsalsa20 (List.replicate 16 0) sharedKeyS sigma,
               timeNow := t.now })
  | NukiPairingState.CalculateAuth =>
    if isCharArrayNotEmpty s.challengeNonceK then
      let hmacPayload := s.myPublicKey ++ s.remotePublicKey ++ s.challengeNonceK
      some (NukiPairingState.SendAuth,
        { s with authenticator := C.hmac hmacPayload s.secretKeyK,
                 challengeNonceK := List.replicate 32 0 })
    else afterSwitch
  | NukiPairingState.SendAuth => do
    let s1 ← sendPlainMessage s t NukiCommand.AuthorizationAuthenticator s.authenticator 32
    some (NukiPairingState.SendAuthData, { s1 with timeNow := t.now })
  | NukiPairingState.SendAuthData =>
    if isCharArrayNotEmpty s.challengeNonceK then
      -- memcpy(authorizationDataName, deviceName.c_str(), deviceName.size()) into 32 bytes
      if 32 < s.deviceName.length then none
      else do
        let authorizationDataName := s.deviceName ++ List.replicate (32 - s.deviceName.length) 0
        let authorizationDataNonce := t.nonce
        let authorizationData := [0x01] ++ le32 s.deviceId ++ authorizationDataName ++
          authorizationDataNonce ++ s.challengeNonceK
        let auth := C.hmac authorizationData s.secretKeyK
        let authorizationDataMessage := auth ++ [0x01] ++ le32 s.deviceId ++
          authorizationDataName ++ authorizationDataNonce
        let s1 := { s with authenticator := auth, challengeNonceK := List.replicate 32 0 }
        let s2 ← sendPlainMessage s1 t NukiCommand.AuthorizationData authorizationDataMessage 101
        some (NukiPairingState.SendAuthIdConf, { s2 with timeNow := t.now })
    else afterSwitch
  | NukiPairingState.SendAuthIdConf =>
    if isCharArrayNotEmpty s.authorizationId then do
      let confirmationData := s.authorizationId ++ s.challengeNonceK
      let auth := C.hmac confirmationData s.secretKeyK
      let confirmationDataMessage := auth ++ s.authorizationId
      let s1 := { s with authenticator := auth }
      let s2 ← sendPlainMessage s1 t NukiCommand.AuthorizationIdConfirmation
        confirmationDataMessage 36
      some (NukiPairingState.RecStatus, { s2 with timeNow := t.now })
    else afterSwitch
  | NukiPairingState.RecStatus =>
    if s.receivedStatus = 0 then some (NukiPairingState.Success, s)
    else afterSwitch
  | _ => some (NukiPairingState.Timeout, s)

/-- The loop `do { state = pairStateMachine(state); delay(50); } while (state is
neither Success nor Timeout)` of `pairNuki` over a finite schedule of ticks;
the indications of a tick arrive during its `delay`.  When the schedule ends
inside the loop the outcome is the state reached, not a terminal one. -/
def pairLoop (K : NukiConstants) (C : Crypto) (box : SecretBox) :
    NukiPairingState → Session → List Tick → Option (NukiPairingState × Session)
  | st, s, [] => some (st, s)
  | st, s, t :: ts => do
    let r ← pairStateMachine K C s t st
    let s1 ← deliver K box r.2 t.inbound
    if r.1 = NukiPairingState.Success ∨ r.1 = NukiPairingState.Timeout then some (r.1, s1)
    else pairLoop K C box r.1 s1 ts

/-- Model of `NukiBle::pairNuki`.  `BLEAddress("")` is the all-zero address,
`connected` is the result of `connectBle(bleAddress)`, `canWrite` the
behaviour of the store during `saveCredentials`.  The returned value is
`some b` when `pairNuki` returns `b`, `none` when the schedule ends inside the
pairing loop. -/
def pairNuki (K : NukiConstants) (C : Crypto) (box : SecretBox) (s : Session) (buff : Bytes)
    (connected : Bool) (canWrite : String → Bool) (ticks : List Tick) :
    Option (Option Bool × Session) :=
  let r := retrieveCredentials s buff
  if r.1 then some (some true, { r.2 with isPaired := true })
  else if r.2.bleAddress ≠ List.replicate 6 0 then
    if connected then do
      let e ← pairLoop K C box NukiPairingState.InitPairing r.2 ticks
      match e.1 with
      | NukiPairingState.Success =>
        some (some true, { saveCredentials e.2 canWrite with isPaired := true })
      | NukiPairingState.Timeout => some (some false, { e.2 with isPaired := false })
      | _ => some (none, e.2)
    else some (some false, { r.2 with isPaired := false })
  else some (some false, { r.2 with isPaired := false })

/-- Model of `NukiBle::retrieveLogEntries`: the payload is `startIndex` (4
bytes), `count` (2), `sortOrder` (1), `totalCount` (1); `listOfLogEntries` is
cleared before the action runs. -/
def retrieveLogEntries (K : NukiConstants) (box : SecretBox) (s : Session)
    (startIndex count sortOrder : Nat) (totalCount : Bool) (buff : Bytes) (ticks : List Tick) :
    Option (NukiCmdResult × Session) :=
  let payload := le32 startIndex ++ le16 count ++ [sortOrder % 256] ++
    [if totalCount then 1 else 0]
  let action : NukiAction :=
    { cmdType := NukiCommandType.CommandWithChallengeAndPin,
      command := NukiCommand.RequestLogEntries, payload := payload, payloadLen := 8 }
  executeAction K box { s with listOfLogEntries := [] } action buff ticks

/-! ## Sample data for the statements -/

/-- The frame with bit `j` of byte `i` inverted. -/
def flipBit (frame : Bytes) (i j : Nat) : Bytes :=
  frame.set i (frame.getD i 0 ^^^ 2 ^ j)

/-- The 16-byte tag of `tagBox`: the first 16 bytes of the key, zero-padded. -/
def tagOf (key : Bytes) : Bytes := (key ++ List.replicate 16 0).take 16

/-- Sealing of `tagBox`: the tag of the key, then the message. -/
def tagEncode (m _nonce key : Bytes) : Option Bytes := some (tagOf key ++ m)

/-- Opening of `tagBox`: fails unless the input starts with the tag of the key. -/
def tagDecode (c _nonce key : Bytes) : Option Bytes :=
  if 16 ≤ c.length ∧ c.take 16 = tagOf key then some (c.drop 16) else none

/-- A small instance of `SecretBox` (no secrecy, a key-dependent tag) on which
the statements can be evaluated. -/
def tagBox : SecretBox where
  encode := tagEncode
  decode := tagDecode
  encode_length := by
    intro m n k c h
    simp only [tagEncode, Option.some.injEq] at h
    subst h
    simp [tagOf]
    omega
  decode_length := by
    intro c n k m h
    unfold tagDecode at h
    split at h
    · simp only [Option.some.injEq] at h
      subst h
      simp
      omega
    · simp at h

/-- An instance of `NukiConstants` on which the statements can be evaluated. -/
def sampleConstants : NukiConstants :=
  { Empty := 0, AuthorizationEntryCount := 0x27, CMD_TIMEOUT := 5000, PAIRING_TIMEOUT := 30000,
    sizeofLockId := 16, sizeofAuthorizationEntry := 86, sizeofKeyTurnerState := 21,
    sizeofBatteryReport := 14, sizeofConfig := 74, sizeofAdvancedConfig := 28,
    sizeofLogEntry := 50, sizeofLogEntryCount := 2, sizeofLoggingEnabled := 1,
    sizeofTimeControlEntry := 10, sizeofKeypadEntry := 50, debugReadableData := false }

/-- A session with a key of 32 bytes `7`, authorization id `01 02 03 04`, an
empty credential store and nothing written yet. -/
def sampleSession : Session :=
  { secretKeyK := List.replicate 32 7, authorizationId := [1, 2, 3, 4], lockId := [],
    pinCode := 0, bleAddress := [], remotePublicKey := [], challengeNonceK := [],
    sentNonce := [], receivedStatus := 255, lastMsgCodeReceived := 0, crcCheckOke := false,
    nukiCommandState := NukiCommandState.Idle, timeNow := 0, keyTurnerState := [],
    batteryReport := [], config := [], advancedConfig := [], errorCode := 0,
    loggingEnabled := [0], logEntryCount := [0, 0], nrOfKeypadCodes := 0,
    listOfAuthorizationEntries := [], listOfLogEntries := [], listOfTimeControlEntries := [],
    listOfKeyPadEntries := [], preferences := [], written := [],
    authenticator := List.replicate 32 0, isPaired := false,
    myPublicKey := List.replicate 32 1, myPrivateKey := List.replicate 32 2,
    deviceId := 0x01020304, deviceName := [78, 117, 107, 105] }

/-- A tick at time 0 with the link up, a nonce of 24 bytes `9` and no
indication. -/
def sampleTick : Tick :=
  { now := 0, connected := true, nonce := List.replicate 24 9, inbound := [] }

/-- The frame `sampleSession` seals on `sampleTick` with `tagBox` for command
`0x0E` (Status) and payload `01`. -/
def sealedStatusFrame : Bytes :=
  List.replicate 24 9 ++ [1, 2, 3, 4] ++ [25, 0] ++ List.replicate 16 7 ++
    [1, 2, 3, 4, 14, 0, 1, 236, 237]

/-- A frame sealed with `tagBox` under the key of `sampleSession` by a sender
whose authorization id is `09 09 09 09`, in the envelope and in the plaintext:
command `0x0E` (Status), payload `00`. -/
def foreignIdFrame : Bytes :=
  List.replicate 24 9 ++ [9, 9, 9, 9] ++ [25, 0] ++ List.replicate 16 7 ++
    [9, 9, 9, 9, 14, 0, 0, 234, 210]

/-- A frame on the user characteristic whose 25-byte ciphertext is all zero, so
that its tag does not verify under the key of `sampleSession`. -/
def forgedFrame : Bytes :=
  List.replicate 24 9 ++ [1, 2, 3, 4] ++ [25, 0] ++ List.replicate 25 0

/-- Nine bytes left on the stack where `decrData` is placed: the plaintext of
an earlier Status message with payload `00` and its CRC. -/
def stalePlaintext : Bytes := [1, 2, 3, 4, 14, 0, 0, 205, 253]

/-- A pairing frame of 205 bytes with a valid CRC: command `0x0001`, 201
payload bytes `00`, and the CRC of these 203 bytes (`6C CD`). -/
def longPlainFrame : Bytes :=
  le16 1 ++ List.replicate 201 0 ++ le16 (crc16 (le16 1 ++ List.replicate 201 0))

/-- `sampleSession` with the four credentials in the store: the key of 32
bytes `7`, an address, the authorization id `01 02 03 04` and the PIN 12345. -/
def pairedSession : Session :=
  { sampleSession with
    preferences := [("secretKeyK", List.replicate 32 7), ("bleAddress", [1, 2, 3, 4, 5, 6]),
      ("authorizationId", [1, 2, 3, 4]), ("securityPinCode", [0x39, 0x30])] }

/-- `sampleSession` before pairing: an address found by the scanner, an
all-zero authorization id, an empty store. -/
def unpairedSession : Session :=
  { sampleSession with bleAddress := [1, 2, 3, 4, 5, 6], authorizationId := [0, 0, 0, 0] }

/-- A small instance of `Crypto` (bytewise sums, no security) on which the
statements can be evaluated. -/
def sampleCrypto : Crypto :=
  { scalarmult := fun n p => List.zipWith (fun a b => (a + b) % 256) n p,
    hsalsa20 := fun _ k _ => k.map (fun b => (b + 1) % 256),
    hmac := fun m k =>
      (List.zipWith (fun a b => (a + b) % 256) (m ++ List.replicate 32 0) k).take 32 }

/-- A tick at time `now` with the link up, 32 nonce bytes `9` and the given
indications. -/
def tickAt (now : Nat) (inbound : List (Characteristic × Bytes × Bytes)) : Tick :=
  { now := now, connected := true, nonce := List.replicate 32 9, inbound := inbound }

/-- The plain frame carrying command `c` and payload `p` with its CRC. -/
def plainReply (c : Nat) (p : Bytes) : Characteristic × Bytes × Bytes :=
  (Characteristic.gdio, le16 c ++ p ++ le16 (crc16 (le16 c ++ p)), [])

/-- The frame a lock holding the key and authorization id of `sampleSession`
seals with `tagBox` for command `c` and payload `p` (nonce of 24 bytes `5`). -/
def sealedReply (c : Nat) (p : Bytes) : Characteristic × Bytes × Bytes :=
  (Characteristic.usdio,
    List.replicate 24 5 ++ [1, 2, 3, 4] ++ le16 (p.length + 24) ++ tagOf (List.replicate 32 7) ++
      ([1, 2, 3, 4] ++ le16 c ++ p ++ le16 (crc16 ([1, 2, 3, 4] ++ le16 c ++ p))), [])

/-- The log `w'` is the log `w` followed by frames that all satisfy `P`. -/
def AppendsOn (P : Characteristic × Bytes → Prop) (w w' : List (Characteristic × Bytes)) : Prop :=
  ∃ added, w' = w ++ added ∧ ∀ x ∈ added, P x

/-- A pairing schedule on which the lock never answers: three steps, then a
step 40 seconds later. -/
def silentLock : List Tick := [tickAt 0 [], tickAt 50 [], tickAt 100 [], tickAt 40000 []]

/-- A pairing schedule on which the lock sends its public key (32 bytes `AA`)
and then falls silent. -/
def lockSilentAfterKey : List Tick :=
  [tickAt 0 [], tickAt 50 [plainReply 0x03 (List.replicate 32 0xAA)], tickAt 100 [],
   tickAt 150 [], tickAt 200 [], tickAt 250 [], tickAt 40000 []]

/-- A pairing schedule on which the lock answers every step: public key,
challenge, challenge, authorization id `05 06 07 08`, status Complete. -/
def cooperativeLock : List Tick :=
  [tickAt 0 [], tickAt 50 [plainReply 0x03 (List.replicate 32 0xAA)], tickAt 100 [],
   tickAt 150 [], tickAt 200 [plainReply 0x04 (List.replicate 32 0xBB)], tickAt 250 [],
   tickAt 300 [plainReply 0x04 (List.replicate 32 0xCC)],
   tickAt 350 [plainReply 0x07 (List.replicate 32 0x11 ++ [5, 6, 7, 8] ++ List.replicate 16 3 ++
     List.replicate 32 0xEE)],
   tickAt 400 [plainReply 0x0E [0]], tickAt 450 []]

/-- The lock action of the specification's scenario: `LockAction` (`0x0D`) with
payload action `01`, app id `00 00 00 00`, flags `00`, with challenge and
accept. -/
def lockActionSample : NukiAction :=
  { cmdType := NukiCommandType.CommandWithChallengeAndAccept, command := 0x0D,
    payload := [1, 0, 0, 0, 0, 0], payloadLen := 6 }

/-- `pairedSession` in state `ChallengeRespReceived`, holding the challenge
nonce of 32 bytes `DD`. -/
def challengedSession : Session :=
  { pairedSession with nukiCommandState := NukiCommandState.ChallengeRespReceived,
                       challengeNonceK := List.replicate 32 0xDD }

/-- A frame is sealed under `key`: it is what `sendEncryptedMessage` composes in
a session that holds `key` in `secretKeyK`. -/
def SealedUnder (box : SecretBox) (key : Bytes) (x : Characteristic × Bytes) : Prop :=
  x.1 = Characteristic.usdio ∧
  ∃ (σ : Session) (nonce : Bytes) (c : Nat) (p : Bytes) (n : Nat),
    σ.secretKeyK = key ∧ encryptedFrame box σ nonce c p n = some (some x.2)

/-- A tick of a command run at time `now`: the link up, 24 nonce bytes `9` and
the given indications. -/
def commandTick (now : Nat) (inbound : List (Characteristic × Bytes × Bytes)) : Tick :=
  { now := now, connected := true, nonce := List.replicate 24 9, inbound := inbound }

/-- The lock of the specification's accept scenario: it answers the request
with a challenge (32 bytes `DD`), the command with Status `01` (Accepted) and
then Status `00` (Complete); two more steps follow within the deadline. -/
def acceptingLock : List Tick :=
  [commandTick 0 [sealedReply 0x04 (List.replicate 32 0xDD)], commandTick 50 [],
   commandTick 100 [sealedReply 0x0E [1]], commandTick 150 [sealedReply 0x0E [0]],
   commandTick 200 [], commandTick 250 []]

/-- `pairedSession` waiting in `state` with `ErrorReport` as the last message
code. -/
def errorReported (state : NukiCommandState) : Session :=
  { pairedSession with nukiCommandState := state, lastMsgCodeReceived := 0x12 }

/-- A lock that, while the challenge is awaited, sends a CRC-valid
`AuthorizationId` message on the pairing characteristic carrying the id
`09 09 09 09`, and then the sealed challenge. -/
def idOverwritingLock : List Tick :=
  [commandTick 0
     [plainReply 0x07 (List.replicate 32 0x11 ++ [9, 9, 9, 9] ++ List.replicate 16 3 ++
        List.replicate 32 0xEE),
      sealedReply 0x04 (List.replicate 32 0xDD)],
   commandTick 50 [], commandTick 100 []]

/-- A lock that answers `RequestLogEntries` with a challenge (32 bytes `DD`)
and then sends three log entries (50 bytes `01`, `02`, `03`) one per tick,
the last one together with the terminating Status `00`. -/
def entryByEntryLock : List Tick :=
  [commandTick 0 [sealedReply 0x04 (List.replicate 32 0xDD)], commandTick 50 [],
   commandTick 100 [sealedReply 0x31 (List.replicate 50 1)],
   commandTick 150 [sealedReply 0x31 (List.replicate 50 2)],
   commandTick 200 [sealedReply 0x31 (List.replicate 50 3), sealedReply 0x0E [0]],
   commandTick 250 []]

/-- The indication `f` is dispatched as command `c` with payload `p` by every
session that holds `key` in `secretKeyK`. -/
def Carries (box : SecretBox) (key : Bytes) (f : Characteristic × Bytes × Bytes) (c : Nat)
    (p : Bytes) : Prop :=
  ∀ σ : Session, σ.secretKeyK = key →
    notifyDispatch box σ f.1 f.2.1 f.2.2 = some (Dispatch.accepted c p)

/-- The records `handleReturnMessage` appends to `listOfLogEntries` for a
sequence of dispatched messages (command, payload): one per `LogEntry`, the
first `sizeof(LogEntry)` bytes of its payload. -/
def recordsOf (K : NukiConstants) : List (Nat × Bytes) → List Bytes
  | [] => []
  | (c, p) :: rest =>
    if c = NukiCommand.LogEntry then p.take K.sizeofLogEntry :: recordsOf K rest
    else recordsOf K rest

/-- The lock of the specification's retrieval scenario: a challenge (32 bytes
`DD`), then three log entries (50 bytes `01`, `02`, `03`) and the terminating
Status `00`, all delivered before the step that follows the command. -/
def batchedLock : List Tick :=
  [commandTick 0 [sealedReply 0x04 (List.replicate 32 0xDD)], commandTick 50 [],
   commandTick 100 [sealedReply 0x31 (List.replicate 50 1), sealedReply 0x31 (List.replicate 50 2),
     sealedReply 0x31 (List.replicate 50 3), sealedReply 0x0E [0]],
   commandTick 150 []]

/-! ## Battery state -/

/-- The loop `for (value >>= 1; value; value >>= 1) { result <<= 1; result |=
value & 1; s--; }` of `getBatteryPerc` after its initial shift: `value` and
`result` are `uint8_t`; the counter `s` is never read.  `fuel` bounds the
number of iterations; a value below `2 ^ fuel` is exhausted within `fuel`
iterations. -/
def reverseLoop : Nat → Nat → Nat → Nat
  | 0, _, result => result
  | fuel + 1, value, result =>
    if value = 0 then result
    else reverseLoop fuel (value / 2) ((result * 2 % 256) ||| (value % 2))

/-- Model of `NukiBle::getBatteryPerc`; the argument is the member
`keyTurnerState.criticalBatteryState` (a `uint8_t`), the result a `uint8_t`. -/
def getBatteryPerc (criticalBatteryState : Nat) : Nat :=
  let value := (criticalBatteryState % 256) &&& 0xFC
  let result := value &&& 1
  2 * reverseLoop 8 (value / 2) result % 256

/-- The 6-bit number obtained by reversing the order of bits 7..2 of `s`: bit 7
of `s` is bit 0 of the result, bit 2 of `s` is bit 5. -/
def reverseUpperSix (s : Nat) : Nat :=
  s / 128 % 2 + 2 * (s / 64 % 2) + 4 * (s / 32 % 2) + 8 * (s / 16 % 2) + 16 * (s / 8 % 2) +
    32 * (s / 4 % 2)

/-! ## Configuration and entry retrieval -/

namespace NukiCommand

/-- Modelled from the spec: command id table (section 6). -/
def SetConfig : Nat := 0x13
/-- Modelled from the spec: command id table (section 6). -/
def RequestConfig : Nat := 0x14
/-- Modelled from the spec: command id table (section 6). -/
def RequestAuthorizationEntries : Nat := 0x24
/-- Modelled from the spec: command id table (section 6). -/
def RequestKeypadCodes : Nat := 0x43
/-- Modelled from the spec: command id table (section 6). -/
def RequestTimeControlEntries : Nat := 0x54

end NukiCommand

/-- The members of `Config` that `NukiBle.cpp` reads, each as the raw value it
holds (`name` as the bytes of the array); the other members of `Config` are
not read by the modelled functions. -/
structure Config where
  name : Bytes
  latitide : Nat
  longitude : Nat
  autoUnlatch : Nat
  pairingEnabled : Nat
  buttonEnabled : Nat
  ledEnabled : Nat
  ledBrightness : Nat
  timeZoneOffset : Nat
  dstMode : Nat
  fobAction1 : Nat
  fobAction2 : Nat
  fobAction3 : Nat
  singleLock : Nat
  advertisingMode : Nat
  timeZoneId : Nat
  deriving DecidableEq, Repr

/-- The members of `NewConfig` that `createNewConfig` writes. -/
structure NewConfig where
  name : Bytes
  latitide : Nat
  longitude : Nat
  autoUnlatch : Nat
  pairingEnabled : Nat
  buttonEnabled : Nat
  ledEnabled : Nat
  ledBrightness : Nat
  timeZoneOffset : Nat
  dstMode : Nat
  fobAction1 : Nat
  fobAction2 : Nat
  fobAction3 : Nat
  singleLock : Nat
  advertisingMode : Nat
  timeZoneId : Nat
  deriving DecidableEq, Repr

/-- What the configuration functions take from the declarations of `Config`
and `NewConfig` in `nukiConstants.h` (missing from the sources): how the bytes
of the member `config` are laid out as a `Config`, the bytes of a `NewConfig`
(`sizeof(NewConfig)` of them), and the size of the array `NewConfig::name`
(the field `name` of a decoded `Config` has the size of `Config::name`). -/
structure ConfigLayout where
  /-- The `Config` held in the bytes of the member `config`. -/
  decodeConfig : Bytes → Config
  /-- The object representation of a `NewConfig`. -/
  encodeNewConfig : NewConfig → Bytes
  /-- Size of the array `NewConfig::name`. -/
  sizeofNewConfigName : Nat

/-- Model of `NukiBle::requestConfig`: `fresh` is a default-constructed
`NukiAction` (the function sets neither `payload` nor `payloadLen`).  On
`Success` the out-parameter receives the member `config` of the session
returned. -/
def requestConfig (K : NukiConstants) (box : SecretBox) (s : Session) (fresh : NukiAction)
    (buff : Bytes) (ticks : List Tick) : Option (NukiCmdResult × Session) :=
  executeAction K box s
    { fresh with cmdType := NukiCommandType.CommandWithChallenge,
                 command := NukiCommand.RequestConfig } buff ticks

/-- Model of `NukiBle::setConfig`: the bytes of `newConfig` are copied into
the payload array of a default-constructed `NukiAction` (`fresh`); writing
more bytes than the array has is an access outside it. -/
def setConfig (K : NukiConstants) (L : ConfigLayout) (box : SecretBox) (s : Session)
    (fresh : NukiAction) (newConfig : NewConfig) (buff : Bytes) (ticks : List Tick) :
    Option (NukiCmdResult × Session) :=
  let payload := L.encodeNewConfig newConfig
  if fresh.payload.length < payload.length then none
  else
    executeAction K box s
      { cmdType := NukiCommandType.CommandWithChallengeAndPin,
        command := NukiCommand.SetConfig,
        payload := payload ++ fresh.payload.drop payload.length,
        payloadLen := payload.length % 256 } buff ticks

/-- Model of `NukiBle::createNewConfig`: `sizeof(newConfig->name)` bytes are
copied from `oldConfig->name`, the fifteen other members are assigned. -/
def createNewConfig (L : ConfigLayout) (oldConfig : Config) : Option NewConfig := do
  let name ← readBytes oldConfig.name 0 L.sizeofNewConfigName
  some { name := name, latitide := oldConfig.latitide, longitude := oldConfig.longitude,
         autoUnlatch := oldConfig.autoUnlatch, pairingEnabled := oldConfig.pairingEnabled,
         buttonEnabled := oldConfig.buttonEnabled, ledEnabled := oldConfig.ledEnabled,
         ledBrightness := oldConfig.ledBrightness, timeZoneOffset := oldConfig.timeZoneOffset,
         dstMode := oldConfig.dstMode, fobAction1 := oldConfig.fobAction1,
         fobAction2 := oldConfig.fobAction2, fobAction3 := oldConfig.fobAction3,
         singleLock := oldConfig.singleLock, advertisingMode := oldConfig.advertisingMode,
         timeZoneId := oldConfig.timeZoneId }

/-- Model of `NukiBle::setName`; `name` holds the bytes of the `std::string`.
`ticks1` is the schedule of the loop of `requestConfig`, `ticks2` the one of
`setConfig`; `buff1` and `buff2` are the initial contents of the local array of
`retrieveCredentials` in the two calls. -/
def setName (K : NukiConstants) (L : ConfigLayout) (box : SecretBox) (s : Session)
    (name : Bytes) (fresh : NukiAction) (buff1 buff2 : Bytes) (ticks1 ticks2 : List Tick) :
    Option (NukiCmdResult × Session) :=
  if name.length ≤ 32 then do
    let r ← requestConfig K box s fresh buff1 ticks1
    if r.1 = NukiCmdResult.Success then
      let oldConfig := L.decodeConfig r.2.config
      -- memcpy(oldConfig.name, name.c_str(), name.length())
      if oldConfig.name.length < name.length then none
      else do
        let oldConfig1 := { oldConfig with name := name ++ oldConfig.name.drop name.length }
        let newConfig ← createNewConfig L oldConfig1
        setConfig K L box r.2 fresh newConfig buff2 ticks2
    else some r
  else some (NukiCmdResult.Failed, s)

/-- Model of `NukiBle::retrieveAuthorizationEntries`: the payload is `offset`
and `count` (2 bytes each); `listOfAuthorizationEntries` is cleared before the
action runs. -/
def retrieveAuthorizationEntries (K : NukiConstants) (box : SecretBox) (s : Session)
    (offset count : Nat) (buff : Bytes) (ticks : List Tick) :
    Option (NukiCmdResult × Session) :=
  let action : NukiAction :=
    { cmdType := NukiCommandType.CommandWithChallengeAndPin,
      command := NukiCommand.RequestAuthorizationEntries,
      payload := le16 offset ++ le16 count, payloadLen := 4 }
  executeAction K box { s with listOfAuthorizationEntries := [] } action buff ticks

/-- Model of `NukiBle::retrieveKeypadEntries`: the payload is `offset` and
`count` (2 bytes each); `listOfKeyPadEntries` is cleared before the action
runs. -/
def retrieveKeypadEntries (K : NukiConstants) (box : SecretBox) (s : Session)
    (offset count : Nat) (buff : Bytes) (ticks : List Tick) :
    Option (NukiCmdResult × Session) :=
  let action : NukiAction :=
    { cmdType := NukiCommandType.CommandWithChallengeAndPin,
      command := NukiCommand.RequestKeypadCodes,
      payload := le16 offset ++ le16 count, payloadLen := 4 }
  executeAction K box { s with listOfKeyPadEntries := [] } action buff ticks

/-- Model of `NukiBle::retrieveTimeControlEntries`: no payload;
`listOfTimeControlEntries` is cleared before the action runs. -/
def retrieveTimeControlEntries (K : NukiConstants) (box : SecretBox) (s : Session)
    (buff : Bytes) (ticks : List Tick) : Option (NukiCmdResult × Session) :=
  let action : NukiAction :=
    { cmdType := NukiCommandType.CommandWithChallengeAndPin,
      command := NukiCommand.RequestTimeControlEntries, payload := [], payloadLen := 0 }
  executeAction K box { s with listOfTimeControlEntries := [] } action buff ticks

/-- A layout on which the statements can be evaluated: the `name` arrays have
32 bytes, the bytes of `config` start with the name, a `NewConfig` is encoded
as its name followed by one byte per member. -/
def sampleLayout : ConfigLayout :=
  { decodeConfig := fun b =>
      { name := b.take 32, latitide := b.getD 32 0, longitude := b.getD 33 0,
        autoUnlatch := b.getD 34 0, pairingEnabled := b.getD 35 0, buttonEnabled := b.getD 36 0,
        ledEnabled := b.getD 37 0, ledBrightness := b.getD 38 0, timeZoneOffset := b.getD 39 0,
        dstMode := b.getD 40 0, fobAction1 := b.getD 41 0, fobAction2 := b.getD 42 0,
        fobAction3 := b.getD 43 0, singleLock := b.getD 44 0, advertisingMode := b.getD 45 0,
        timeZoneId := b.getD 46 0 },
    encodeNewConfig := fun c =>
      c.name ++ [c.latitide % 256, c.longitude % 256, c.autoUnlatch % 256,
        c.pairingEnabled % 256, c.buttonEnabled % 256, c.ledEnabled % 256,
        c.ledBrightness % 256, c.timeZoneOffset % 256, c.dstMode % 256, c.fobAction1 % 256,
        c.fobAction2 % 256, c.fobAction3 % 256, c.singleLock % 256, c.advertisingMode % 256,
        c.timeZoneId % 256],
    sizeofNewConfigName := 32 }

/-- A default-constructed `NukiAction` with a payload array of 100 zero bytes
and `payloadLen` 0. -/
def freshAction : NukiAction :=
  { cmdType := NukiCommandType.Command, command := 0, payload := List.replicate 100 0,
    payloadLen := 0 }

/-- The number of payload bytes `handleReturnMessage` copies for command
`returnCode`: the highest offset read from `data`, plus one. -/
def handlerReads (K : NukiConstants) (returnCode : Nat) : Nat :=
  if returnCode = NukiCommand.PublicKey then 32
  else if returnCode = NukiCommand.Challenge then 32
  else if returnCode = NukiCommand.AuthorizationId then max (36 + K.sizeofLockId) 84
  else if returnCode = NukiCommand.AuthorizationEntry then K.sizeofAuthorizationEntry
  else if returnCode = NukiCommand.KeyturnerStates then K.sizeofKeyTurnerState
  else if returnCode = NukiCommand.Status then 1
  else if returnCode = NukiCommand.BatteryReport then K.sizeofBatteryReport
  else if returnCode = NukiCommand.ErrorReport then 1
  else if returnCode = NukiCommand.Config then K.sizeofConfig
  else if returnCode = K.AuthorizationEntryCount then 2
  else if returnCode = NukiCommand.LogEntry then K.sizeofLogEntry
  else if returnCode = NukiCommand.LogEntryCount then 1 + K.sizeofLogEntryCount
  else if returnCode = NukiCommand.AdvancedConfig then K.sizeofAdvancedConfig
  else if returnCode = NukiCommand.TimeControlEntry then K.sizeofTimeControlEntry
  else if returnCode = NukiCommand.KeypadCodeCount then 2
  else if returnCode = NukiCommand.KeypadCode then
    if K.debugReadableData then K.sizeofKeypadEntry else 0
  else 0

/-- The command ids for which `handleReturnMessage` copies payload bytes. -/
def copiedCommands (K : NukiConstants) : List Nat :=
  [NukiCommand.PublicKey, NukiCommand.Challenge, NukiCommand.AuthorizationId,
   NukiCommand.AuthorizationEntry, NukiCommand.KeyturnerStates, NukiCommand.Status,
   NukiCommand.BatteryReport, NukiCommand.ErrorReport, NukiCommand.Config,
   K.AuthorizationEntryCount, NukiCommand.LogEntry, NukiCommand.LogEntryCount,
   NukiCommand.AdvancedConfig, NukiCommand.TimeControlEntry, NukiCommand.KeypadCodeCount,
   NukiCommand.KeypadCode]

/-- A lock that answers `RequestKeypadCodes` with a challenge (32 bytes `DD`)
and then two keypad codes (50 bytes `01`, `02`) and the terminating Status
`00`. -/
def keypadLock : List Tick :=
  [commandTick 0 [sealedReply 0x04 (List.replicate 32 0xDD)], commandTick 50 [],
   commandTick 100 [sealedReply 0x44 (List.replicate 50 1), sealedReply 0x44 (List.replicate 50 2),
     sealedReply 0x0E [0]],
   commandTick 150 []]

/-! ## Statements on the pairing steps -/

/-- The successor of a state in the chain `InitPairing`, `ReqRemPubKey`,
`RecRemPubKey`, `SendPubKey`, `GenKeyPair`, `CalculateAuth`, `SendAuth`,
`SendAuthData`, `SendAuthIdConf`, `RecStatus`, `Success`; `Success` and
`Timeout` have none. -/
def nextInChain : NukiPairingState → Option NukiPairingState
  | NukiPairingState.InitPairing => some NukiPairingState.ReqRemPubKey
  | NukiPairingState.ReqRemPubKey => some NukiPairingState.RecRemPubKey
  | NukiPairingState.RecRemPubKey => some NukiPairingState.SendPubKey
  | NukiPairingState.SendPubKey => some NukiPairingState.GenKeyPair
  | NukiPairingState.GenKeyPair => some NukiPairingState.CalculateAuth
  | NukiPairingState.CalculateAuth => some NukiPairingState.SendAuth
  | NukiPairingState.SendAuth => some NukiPairingState.SendAuthData
  | NukiPairingState.SendAuthData => some NukiPairingState.SendAuthIdConf
  | NukiPairingState.SendAuthIdConf => some NukiPairingState.RecStatus
  | NukiPairingState.RecStatus => some NukiPairingState.Success
  | NukiPairingState.Success => none
  | NukiPairingState.Timeout => none

/-- The condition under which the step of a state moves on: the test of its
`if`, or true for the five states that have none. -/
def progressCondition (s : Session) : NukiPairingState → Bool
  | NukiPairingState.RecRemPubKey => isCharArrayNotEmpty s.remotePublicKey
  | NukiPairingState.CalculateAuth => isCharArrayNotEmpty s.challengeNonceK
  | NukiPairingState.SendAuthData => isCharArrayNotEmpty s.challengeNonceK
  | NukiPairingState.SendAuthIdConf => isCharArrayNotEmpty s.authorizationId
  | NukiPairingState.RecStatus => decide (s.receivedStatus = 0)
  | NukiPairingState.Success => false
  | NukiPairingState.Timeout => false
  | _ => true

/-- The sizes the declarations give to the buffers a pairing step copies from:
`myPublicKey`, `authenticator` and the output of `crypto_auth_hmacsha256` have
32 bytes, `authorizationId` has 4, `generateNonce` fills 32 bytes, and the
device name fits the 32-byte array `authorizationDataName`. -/
def PairingBuffers (C : Crypto) (s : Session) (t : Tick) : Prop :=
  s.myPublicKey.length = 32 ∧ s.authenticator.length = 32 ∧ s.authorizationId.length = 4 ∧
  s.deviceName.length ≤ 32 ∧ t.nonce.length = 32 ∧ ∀ m, (C.hmac m s.secretKeyK).length = 32

/-- `unpairedSession` holding an authorization id from an earlier pairing
(`01 02 03 04`), a derived key of 32 bytes `AD`, and an all-zero
`challengeNonceK`, as `SendAuthData` leaves it. -/
def staleIdSession : Session :=
  { unpairedSession with authorizationId := [1, 2, 3, 4],
                         secretKeyK := List.replicate 32 0xAD,
                         challengeNonceK := List.replicate 32 0 }

/-- A pairing schedule on which the lock sends its public key and the two
challenges and then nothing more: no `AuthorizationId` reply. -/
def lockWithoutAuthorizationId : List Tick :=
  [tickAt 0 [], tickAt 50 [plainReply 0x03 (List.replicate 32 0xAA)], tickAt 100 [],
   tickAt 150 [], tickAt 200 [plainReply 0x04 (List.replicate 32 0xBB)], tickAt 250 [],
   tickAt 300 [plainReply 0x04 (List.replicate 32 0xCC)], tickAt 350 [], tickAt 400 [],
   tickAt 450 [], tickAt 40000 []]

/-- A `Challenge` frame on the pairing characteristic (32 bytes `BB`) whose CRC
field holds `00 00`, not the CRC of the frame. -/
def corruptedChallenge : Characteristic × Bytes × Bytes :=
  (Characteristic.gdio, le16 0x04 ++ List.replicate 32 0xBB ++ [0, 0], [])

/-- The states for which the `switch` of the state machine that
`executeAction` selects for a category has a `case` label: `Idle` and `CmdSent`
in `cmdStateMachine`; these two, `ChallengeSent` and `ChallengeRespReceived` in
`cmdChallStateMachine` (with and without PIN); all five in
`cmdChallAccStateMachine`.  No machine is selected for another category. -/
def handledBy : NukiCommandType → NukiCommandState → Bool
  | NukiCommandType.Command, NukiCommandState.Idle => true
  | NukiCommandType.Command, NukiCommandState.CmdSent => true
  | NukiCommandType.Command, _ => false
  | NukiCommandType.CommandWithChallenge, NukiCommandState.CmdAccepted => false
  | NukiCommandType.CommandWithChallenge, _ => true
  | NukiCommandType.CommandWithChallengeAndPin, NukiCommandState.CmdAccepted => false
  | NukiCommandType.CommandWithChallengeAndPin, _ => true
  | NukiCommandType.CommandWithChallengeAndAccept, _ => true
  | NukiCommandType.Unknown, _ => false

/-- The step function that the loop of `executeAction` calls for the category
of `action`; for a category outside the four enumerators no loop runs and the
value here is the `Failed` that `executeAction` returns. -/
def machineFor (K : NukiConstants) (box : SecretBox) (action : NukiAction) :
    Session → Tick → Option (NukiCmdResult × Session) :=
  match action.cmdType with
  | NukiCommandType.Command => fun s t => cmdStateMachine K box s t action
  | NukiCommandType.CommandWithChallenge => fun s t => cmdChallStateMachine K box s t action false
  | NukiCommandType.CommandWithChallengeAndAccept =>
    fun s t => cmdChallAccStateMachine K box s t action
  | NukiCommandType.CommandWithChallengeAndPin =>
    fun s t => cmdChallStateMachine K box s t action true
  | NukiCommandType.Unknown => fun s _ => some (NukiCmdResult.Failed, s)

/-- The state is one in which a machine waits for the lock: `CmdSent`,
`ChallengeSent` or `CmdAccepted`. -/
def waitsForLock (st : NukiCommandState) : Bool :=
  match st with
  | NukiCommandState.CmdSent => true
  | NukiCommandState.ChallengeSent => true
  | NukiCommandState.CmdAccepted => true
  | _ => false

/-- A plain command (`RequestData` for the keyturner states, no challenge). -/
def plainCommandSample : NukiAction :=
  { cmdType := NukiCommandType.Command, command := 0x01, payload := [0x0C, 0x00],
    payloadLen := 2 }

/-- A lock that never answers: one step at time 0 and one at time 6000, after
the command deadline. -/
def unansweredCommand : List Tick := [commandTick 0 [], commandTick 6000 []]

/-- The common body of the single-field setters `enablePairing`,
`enableButton`, `enableLedFlash`, `setLedBrightness`, `enableSingleLock`,
`setAdvertisingMode`, `enableDst`, `setTimeZoneOffset` and `setTimeZoneId`:
`requestConfig(&oldConfig)`; on `Success` the assignment `change` to one member
of `oldConfig`, `createNewConfig(&oldConfig, &newConfig)` and
`result = setConfig(newConfig)`; the result is returned.  The schedules and
buffers are those of `setName`. -/
def changeConfig (K : NukiConstants) (L : ConfigLayout) (box : SecretBox) (s : Session)
    (change : Config → Config) (fresh : NukiAction) (buff1 buff2 : Bytes)
    (ticks1 ticks2 : List Tick) : Option (NukiCmdResult × Session) := do
  let r ← requestConfig K box s fresh buff1 ticks1
  if r.1 = NukiCmdResult.Success then do
    let oldConfig := change (L.decodeConfig r.2.config)
    let newConfig ← createNewConfig L oldConfig
    setConfig K L box r.2 fresh newConfig buff2 ticks2
  else some r

/-- Model of `NukiBle::enablePairing`: `oldConfig.pairingEnabled = enable`. -/
def enablePairing (K : NukiConstants) (L : ConfigLayout) (box : SecretBox) (s : Session)
    (enable : Bool) (fresh : NukiAction) (buff1 buff2 : Bytes) (ticks1 ticks2 : List Tick) :
    Option (NukiCmdResult × Session) :=
  changeConfig K L box s (fun oldConfig =>
    { oldConfig with pairingEnabled := if enable then 1 else 0 }) fresh buff1 buff2 ticks1 ticks2

/-- Model of `NukiBle::enableButton`: `oldConfig.buttonEnabled = enable`. -/
def enableButton (K : NukiConstants) (L : ConfigLayout) (box : SecretBox) (s : Session)
    (enable : Bool) (fresh : NukiAction) (buff1 buff2 : Bytes) (ticks1 ticks2 : List Tick) :
    Option (NukiCmdResult × Session) :=
  changeConfig K L box s (fun oldConfig =>
    { oldConfig with buttonEnabled := if enable then 1 else 0 }) fresh buff1 buff2 ticks1 ticks2

/-- Model of `NukiBle::enableLedFlash`: `oldConfig.ledEnabled = enable`. -/
def enableLedFlash (K : NukiConstants) (L : ConfigLayout) (box : SecretBox) (s : Session)
    (enable : Bool) (fresh : NukiAction) (buff1 buff2 : Bytes) (ticks1 ticks2 : List Tick) :
    Option (NukiCmdResult × Session) :=
  changeConfig K L box s (fun oldConfig =>
    { oldConfig with ledEnabled := if enable then 1 else 0 }) fresh buff1 buff2 ticks1 ticks2

/-- Model of `NukiBle::setLedBrightness`:
`oldConfig.ledBrightness = level > 5 ? 5 : level`; `level` is the value of the
`uint8_t` argument. -/
def setLedBrightness (K : NukiConstants) (L : ConfigLayout) (box : SecretBox) (s : Session)
    (level : Nat) (fresh : NukiAction) (buff1 buff2 : Bytes) (ticks1 ticks2 : List Tick) :
    Option (NukiCmdResult × Session) :=
  changeConfig K L box s (fun oldConfig =>
    { oldConfig with ledBrightness := if 5 < level then 5 else level })
    fresh buff1 buff2 ticks1 ticks2

/-- Model of `NukiBle::enableSingleLock`: `oldConfig.singleLock = enable`. -/
def enableSingleLock (K : NukiConstants) (L : ConfigLayout) (box : SecretBox) (s : Session)
    (enable : Bool) (fresh : NukiAction) (buff1 buff2 : Bytes) (ticks1 ticks2 : List Tick) :
    Option (NukiCmdResult × Session) :=
  changeConfig K L box s (fun oldConfig =>
    { oldConfig with singleLock := if enable then 1 else 0 }) fresh buff1 buff2 ticks1 ticks2

/-- Model of `NukiBle::setAdvertisingMode`: `oldConfig.advertisingMode = mode`;
`mode` is the value of the enumerator. -/
def setAdvertisingMode (K : NukiConstants) (L : ConfigLayout) (box : SecretBox) (s : Session)
    (mode : Nat) (fresh : NukiAction) (buff1 buff2 : Bytes) (ticks1 ticks2 : List Tick) :
    Option (NukiCmdResult × Session) :=
  changeConfig K L box s (fun oldConfig =>
    { oldConfig with advertisingMode := mode }) fresh buff1 buff2 ticks1 ticks2

/-- Model of `NukiBle::enableDst`: `oldConfig.dstMode = enable`. -/
def enableDst (K : NukiConstants) (L : ConfigLayout) (box : SecretBox) (s : Session)
    (enable : Bool) (fresh : NukiAction) (buff1 buff2 : Bytes) (ticks1 ticks2 : List Tick) :
    Option (NukiCmdResult × Session) :=
  changeConfig K L box s (fun oldConfig =>
    { oldConfig with dstMode := if enable then 1 else 0 }) fresh buff1 buff2 ticks1 ticks2

/-- Model of `NukiBle::setTimeZoneOffset`: `oldConfig.timeZoneOffset = minutes`;
`minutes` is the raw value the member then holds. -/
def setTimeZoneOffset (K : NukiConstants) (L : ConfigLayout) (box : SecretBox) (s : Session)
    (minutes : Nat) (fresh : NukiAction) (buff1 buff2 : Bytes) (ticks1 ticks2 : List Tick) :
    Option (NukiCmdResult × Session) :=
  changeConfig K L box s (fun oldConfig =>
    { oldConfig with timeZoneOffset := minutes }) fresh buff1 buff2 ticks1 ticks2

/-- Model of `NukiBle::setTimeZoneId`: `oldConfig.timeZoneId = timeZoneId`;
`timeZoneId` is the value of the enumerator. -/
def setTimeZoneId (K : NukiConstants) (L : ConfigLayout) (box : SecretBox) (s : Session)
    (timeZoneId : Nat) (fresh : NukiAction) (buff1 buff2 : Bytes) (ticks1 ticks2 : List Tick) :
    Option (NukiCmdResult × Session) :=
  changeConfig K L box s (fun oldConfig =>
    { oldConfig with timeZoneId := timeZoneId }) fresh buff1 buff2 ticks1 ticks2

/-- The `NewConfig` whose sixteen members hold what the members of the same
name hold in `c`. -/
def asNewConfig (c : Config) : NewConfig :=
  { name := c.name, latitide := c.latitide, longitude := c.longitude,
    autoUnlatch := c.autoUnlatch, pairingEnabled := c.pairingEnabled,
    buttonEnabled := c.buttonEnabled, ledEnabled := c.ledEnabled,
    ledBrightness := c.ledBrightness, timeZoneOffset := c.timeZoneOffset,
    dstMode := c.dstMode, fobAction1 := c.fobAction1, fobAction2 := c.fobAction2,
    fobAction3 := c.fobAction3, singleLock := c.singleLock,
    advertisingMode := c.advertisingMode, timeZoneId := c.timeZoneId }

/-- The 74 bytes of a `Config` message in `sampleLayout`: the name is 32 bytes
`41`, every other byte is 1. -/
def sampleConfigBytes : Bytes := List.replicate 32 0x41 ++ List.replicate 42 1

/-- A lock that answers the request with a challenge (32 bytes `DD`) and the
command with a `Config` message carrying `sampleConfigBytes`. -/
def configLock : List Tick :=
  [commandTick 0 [sealedReply 0x04 (List.replicate 32 0xDD)], commandTick 50 [],
   commandTick 100 [sealedReply 0x15 sampleConfigBytes], commandTick 150 []]

/-! ## Lemmas: CRC -/

theorem crcShift_lt (x : Nat) : crcShift x < 65536 := by
  unfold crcShift
  split
  · have h1 : (2 * x) % 65536 < 2 ^ 16 := by omega
    have h2 : (0x1021 : Nat) < 2 ^ 16 := by norm_num
    have := Nat.xor_lt_two_pow h1 h2
    simpa using this
  · omega

theorem crcShift_iterate_lt (n : Nat) (x : Nat) (hx : x < 65536) : crcShift^[n] x < 65536 := by
  induction n generalizing x with
  | zero => simpa using hx
  | succ n ih =>
    rw [Function.iterate_succ_apply]
    exact ih _ (crcShift_lt x)

theorem crcShift_injOn {x y : Nat} (hx : x < 65536) (hy : y < 65536)
    (h : crcShift x = crcShift y) : x = y := by
  unfold crcShift at h
  split at h <;> split at h
  · have := Nat.xor_left_inj.mp h
    omega
  · exfalso
    have hp := congrArg (· % 2) h
    simp only [Nat.xor_mod_two_eq] at hp
    omega
  · exfalso
    have hp := congrArg (· % 2) h
    simp only [Nat.xor_mod_two_eq] at hp
    omega
  · omega

theorem crcShift_iterate_injOn (n : Nat) {x y : Nat} (hx : x < 65536) (hy : y < 65536)
    (h : crcShift^[n] x = crcShift^[n] y) : x = y := by
  induction n generalizing x y with
  | zero => simpa using h
  | succ n ih =>
    rw [Function.iterate_succ_apply, Function.iterate_succ_apply] at h
    exact crcShift_injOn hx hy (ih (crcShift_lt x) (crcShift_lt y) h)

theorem crcByte_lt (crc b : Nat) : crcByte crc b < 65536 := by
  unfold crcByte
  rw [show (8 : Nat) = 7 + 1 from rfl, Function.iterate_succ_apply]
  exact crcShift_iterate_lt 7 _ (crcShift_lt _)

theorem xor_byte_lt {crc b : Nat} (hc : crc < 65536) (hb : b < 256) : crc ^^^ (b * 256) < 65536 := by
  have h1 : crc < 2 ^ 16 := by omega
  have h2 : b * 256 < 2 ^ 16 := by omega
  have := Nat.xor_lt_two_pow h1 h2
  simpa using this

theorem crcByte_inj_state {x y b : Nat} (hx : x < 65536) (hy : y < 65536) (hb : b < 256)
    (h : crcByte x b = crcByte y b) : x = y := by
  unfold crcByte at h
  have := crcShift_iterate_injOn 8 (xor_byte_lt hx hb) (xor_byte_lt hy hb) h
  exact Nat.xor_left_inj.mp this

theorem crcByte_inj_byte {x b c : Nat} (hx : x < 65536) (hb : b < 256) (hc : c < 256)
    (h : crcByte x b = crcByte x c) : b = c := by
  unfold crcByte at h
  have := crcShift_iterate_injOn 8 (xor_byte_lt hx hb) (xor_byte_lt hx hc) h
  have := Nat.xor_right_inj.mp this
  omega

theorem foldl_crcByte_lt (data : Bytes) (init : Nat) (h : init < 65536) :
    data.foldl crcByte init < 65536 := by
  induction data generalizing init with
  | nil => simpa using h
  | cons e es ih =>
    rw [List.foldl_cons]
    exact ih _ (crcByte_lt init e)

theorem crc16_lt (data : Bytes) : crc16 data < 65536 :=
  foldl_crcByte_lt data 0xFFFF (by norm_num)

theorem foldl_crcByte_inj (data : Bytes) (hd : ∀ e ∈ data, e < 256) {x y : Nat}
    (hx : x < 65536) (hy : y < 65536) (h : data.foldl crcByte x = data.foldl crcByte y) :
    x = y := by
  induction data generalizing x y with
  | nil => simpa using h
  | cons e es ih =>
    have he : e < 256 := hd e (List.mem_cons_self _ _)
    have hes : ∀ a ∈ es, a < 256 := fun a ha => hd a (List.mem_cons_of_mem _ ha)
    rw [List.foldl_cons, List.foldl_cons] at h
    exact crcByte_inj_state hx hy he (ih hes (crcByte_lt x e) (crcByte_lt y e) h)

theorem foldl_crcByte_set_ne (data : Bytes) (hd : ∀ e ∈ data, e < 256) (i b : Nat)
    (hi : i < data.length) (hb : b < 256) (hne : b ≠ data.getD i 0) (init : Nat)
    (hinit : init < 65536) :
    (data.set i b).foldl crcByte init ≠ data.foldl crcByte init := by
  induction data generalizing i init with
  | nil => simp at hi
  | cons e es ih =>
    have he : e < 256 := hd e (List.mem_cons_self _ _)
    have hes : ∀ a ∈ es, a < 256 := fun a ha => hd a (List.mem_cons_of_mem _ ha)
    cases i with
    | zero =>
      intro h
      simp only [List.set_cons_zero, List.foldl_cons] at h
      have h1 := foldl_crcByte_inj es hes (crcByte_lt init b) (crcByte_lt init e) h
      have h2 := crcByte_inj_byte hinit hb he h1
      simp at hne
      exact hne h2
    | succ k =>
      simp only [List.set_cons_succ, List.foldl_cons]
      apply ih hes k
      · simpa using hi
      · simpa using hne
      · exact crcByte_lt init e

theorem crc16_set_ne (data : Bytes) (hd : ∀ e ∈ data, e < 256) (i b : Nat)
    (hi : i < data.length) (hb : b < 256) (hne : b ≠ data.getD i 0) :
    crc16 (data.set i b) ≠ crc16 data :=
  foldl_crcByte_set_ne data hd i b hi hb hne 0xFFFF (by norm_num)

/-! ## Lemmas: buffers -/

theorem fromLe16_le16 {c : Nat} (hc : c < 65536) : fromLe16 (c % 256) (c / 256 % 256) = c := by
  unfold fromLe16
  omega

theorem le16_length (v : Nat) : (le16 v).length = 2 := rfl

theorem readBytes_all (a : Bytes) : readBytes a 0 a.length = some a := by
  simp [readBytes]

theorem readBytes_head (a b : Bytes) {n : Nat} (h : a.length = n) :
    readBytes (a ++ b) 0 n = some a := by
  subst h
  simp [readBytes]

theorem readBytes_skip (a b : Bytes) {k off n : Nat} (h : a.length = k) (hoff : k ≤ off) :
    readBytes (a ++ b) off n = readBytes b (off - k) n := by
  subst h
  obtain ⟨d, rfl⟩ := Nat.exists_eq_add_of_le hoff
  simp only [readBytes, List.length_append, List.drop_append, Nat.add_sub_cancel_left]
  by_cases h : d + n ≤ b.length
  · rw [if_pos h, if_pos (by omega)]
  · rw [if_neg h, if_neg (by omega)]

theorem crcValid_append (d : Bytes) (x y : Nat) :
    crcValid (d ++ [x, y]) = some (decide (fromLe16 x y = crc16 d)) := by
  unfold crcValid calculateCrc
  have hl : (d ++ [x, y]).length = d.length + 2 := by simp
  rw [if_neg (by omega)]
  simp only [hl, Nat.add_sub_cancel, List.drop_zero, List.take_left]
  rw [List.getD_append_right _ _ _ _ (le_refl _)]
  rw [show d.length + 2 - 1 = d.length + 1 from rfl]
  rw [List.getD_append_right _ _ _ _ (by omega)]
  simp

theorem crcValid_sealed (d : Bytes) : crcValid (d ++ le16 (crc16 d)) = some true := by
  unfold le16
  rw [crcValid_append, fromLe16_le16 (crc16_lt d)]
  simp

/-! ## Lemmas: frames -/

theorem plainFrame_eq (c : Nat) (p : Bytes) (hp : p.length ≤ 196) :
    plainFrame c p p.length = some (le16 c ++ p ++ le16 (crc16 (le16 c ++ p))) := by
  unfold plainFrame calculateCrc
  have h1 : ¬ 200 < p.length + 4 := by omega
  simp only [h1, if_false, readBytes_all, Option.bind_eq_bind, Option.some_bind, List.drop_zero]
  rw [List.take_of_length_le (by simp [le16_length]; omega)]

theorem notifyDispatch_gdio_frame (box : SecretBox) (s : Session) (decrInit : Bytes)
    (c : Nat) (p : Bytes) (x y : Nat) (hc : c < 65536) (hp : p.length ≤ 200) :
    notifyDispatch box s Characteristic.gdio (le16 c ++ p ++ [x, y]) decrInit =
      if fromLe16 x y = crc16 (le16 c ++ p) then some (Dispatch.accepted c p)
      else some Dispatch.rejected := by
  unfold notifyDispatch
  have hrc : readBytes (le16 c ++ p ++ [x, y]) 0 2 = some (le16 c) := by
    rw [List.append_assoc]
    exact readBytes_head _ _ (le16_length c)
  have hlen : (le16 c ++ p ++ [x, y]).length = p.length + 4 := by
    simp [le16_length]; omega
  have hpl : readBytes (le16 c ++ p ++ [x, y]) 2 (p.length + 4 - 4) = some p := by
    rw [List.append_assoc, readBytes_skip _ _ (le16_length c) (le_refl _)]
    simp only [Nat.sub_self, Nat.add_sub_cancel]
    exact readBytes_head _ _ rfl
  simp only [hrc, crcValid_append, Option.bind_eq_bind, Option.some_bind, hlen, hpl]
  have h4 : ¬ p.length + 4 < 4 := by omega
  have h200 : ¬ 200 < p.length + 4 - 4 := by omega
  have hcode : fromLe16 ((le16 c)[0]?.getD 0) ((le16 c)[1]?.getD 0) = c := by
    simpa [le16] using fromLe16_le16 hc
  by_cases hcrc : fromLe16 x y = crc16 (le16 c ++ p)
  · simp [hcrc, hcode, hp]
  · simp [hcrc]

theorem flip_lt {b j : Nat} (hb : b < 256) (hj : j < 8) : b ^^^ 2 ^ j < 256 := by
  have h1 : b < 2 ^ 8 := by omega
  have h2 : 2 ^ j < 2 ^ 8 := Nat.pow_lt_pow_right (by norm_num) hj
  have := Nat.xor_lt_two_pow h1 h2
  simpa using this

theorem flip_ne (b j : Nat) : b ^^^ 2 ^ j ≠ b := by
  intro h
  have h0 : b ^^^ 2 ^ j = b ^^^ 0 := by rw [Nat.xor_zero]; exact h
  have := Nat.xor_right_inj.mp h0
  have := Nat.two_pow_pos j
  omega

theorem notifyDispatch_gdio_rejected (box : SecretBox) (s : Session) (recData decrInit : Bytes)
    (h : crcValid recData = some false) :
    notifyDispatch box s Characteristic.gdio recData decrInit = some Dispatch.rejected := by
  have hlen : 2 ≤ recData.length := by
    unfold crcValid at h
    by_contra hc
    rw [if_pos (by omega)] at h
    simp at h
  unfold notifyDispatch
  have hrc : readBytes recData 0 2 = some ((recData.drop 0).take 2) := by
    unfold readBytes
    rw [if_pos (by omega)]
  simp [hrc, h]

theorem notifyCallback_of_rejected (K : NukiConstants) (box : SecretBox) (s : Session)
    (ch : Characteristic) (recData decrInit : Bytes)
    (h : notifyDispatch box s ch recData decrInit = some Dispatch.rejected) :
    notifyCallback K box s ch recData decrInit = some { s with crcCheckOke := false } := by
  unfold notifyCallback
  simp [h]

theorem notifyCallback_of_accepted (K : NukiConstants) (box : SecretBox) (s : Session)
    (ch : Characteristic) (recData decrInit : Bytes) (c : Nat) (p : Bytes)
    (h : notifyDispatch box s ch recData decrInit = some (Dispatch.accepted c p)) :
    notifyCallback K box s ch recData decrInit =
      handleReturnMessage K { s with crcCheckOke := true } c (handedOver ch p decrInit) := by
  unfold notifyCallback
  simp [h]

theorem readBytes_some (buf : Bytes) (off n : Nat) (h : off + n ≤ buf.length) :
    readBytes buf off n = some ((buf.drop off).take n) := by
  unfold readBytes
  rw [if_pos h]

theorem plainDataArray_length (p b : Bytes) (hp : p.length ≤ 200) :
    (plainDataArray p b).length = 200 := by
  unfold plainDataArray
  simp only [List.length_append, List.length_take, List.length_drop, List.length_replicate]
  omega

theorem readBytes_plainDataArray (p b : Bytes) (off n : Nat) (h : off + n ≤ p.length) :
    readBytes (plainDataArray p b) off n = readBytes p off n := by
  unfold readBytes plainDataArray
  rw [if_pos (by rw [List.length_append]; omega), if_pos h,
    List.drop_append_of_le_length (by omega),
    List.take_append_of_le_length (by rw [List.length_drop]; omega)]

theorem handleReturnMessage_plainDataArray (K : NukiConstants) (s : Session) (c : Nat)
    (p b : Bytes) (hlen : handlerReads K c ≤ p.length) :
    handleReturnMessage K s c (plainDataArray p b) = handleReturnMessage K s c p := by
  unfold handleReturnMessage
  unfold handlerReads at hlen
  dsimp only
  by_cases h0 : c = NukiCommand.PublicKey
  · rw [if_pos h0] at hlen
    rw [if_pos h0, if_pos h0]
    rw [readBytes_plainDataArray p b 0 (32) (by omega)]
  rw [if_neg h0] at hlen
  rw [if_neg h0, if_neg h0]
  by_cases h1 : c = NukiCommand.Challenge
  · rw [if_pos h1] at hlen
    rw [if_pos h1, if_pos h1]
    rw [readBytes_plainDataArray p b 0 (32) (by omega)]
  rw [if_neg h1] at hlen
  rw [if_neg h1, if_neg h1]
  by_cases h2 : c = NukiCommand.AuthorizationId
  · rw [if_pos h2] at hlen
    rw [if_pos h2, if_pos h2]
    have hl := le_max_left (36 + K.sizeofLockId) 84
    have hr := le_max_right (36 + K.sizeofLockId) 84
    rw [readBytes_plainDataArray p b 32 4 (by omega),
      readBytes_plainDataArray p b 36 K.sizeofLockId (by omega),
      readBytes_plainDataArray p b 52 32 (by omega)]
  rw [if_neg h2] at hlen
  rw [if_neg h2, if_neg h2]
  by_cases h3 : c = NukiCommand.AuthorizationEntry
  · rw [if_pos h3] at hlen
    rw [if_pos h3, if_pos h3]
    rw [readBytes_plainDataArray p b 0 (K.sizeofAuthorizationEntry) (by omega)]
  rw [if_neg h3] at hlen
  rw [if_neg h3, if_neg h3]
  by_cases h4 : c = NukiCommand.KeyturnerStates
  · rw [if_pos h4] at hlen
    rw [if_pos h4, if_pos h4]
    rw [readBytes_plainDataArray p b 0 (K.sizeofKeyTurnerState) (by omega)]
  rw [if_neg h4] at hlen
  rw [if_neg h4, if_neg h4]
  by_cases h5 : c = NukiCommand.Status
  · rw [if_pos h5] at hlen
    rw [if_pos h5, if_pos h5]
    rw [readBytes_plainDataArray p b 0 (1) (by omega)]
  rw [if_neg h5] at hlen
  rw [if_neg h5, if_neg h5]
  by_cases h6 : c = NukiCommand.BatteryReport
  · rw [if_pos h6] at hlen
    rw [if_pos h6, if_pos h6]
    rw [readBytes_plainDataArray p b 0 (K.sizeofBatteryReport) (by omega)]
  rw [if_neg h6] at hlen
  rw [if_neg h6, if_neg h6]
  by_cases h7 : c = NukiCommand.ErrorReport
  · rw [if_pos h7] at hlen
    rw [if_pos h7, if_pos h7]
    rw [readBytes_plainDataArray p b 0 (1) (by omega)]
  rw [if_neg h7] at hlen
  rw [if_neg h7, if_neg h7]
  by_cases h8 : c = NukiCommand.Config
  · rw [if_pos h8] at hlen
    rw [if_pos h8, if_pos h8]
    rw [readBytes_plainDataArray p b 0 (K.sizeofConfig) (by omega)]
  rw [if_neg h8] at hlen
  rw [if_neg h8, if_neg h8]
  by_cases h9 : c = K.AuthorizationEntryCount
  · rw [if_pos h9] at hlen
    rw [if_pos h9, if_pos h9]
    rw [readBytes_plainDataArray p b 0 (2) (by omega)]
  rw [if_neg h9] at hlen
  rw [if_neg h9, if_neg h9]
  by_cases h10 : c = NukiCommand.LogEntry
  · rw [if_pos h10] at hlen
    rw [if_pos h10, if_pos h10]
    rw [readBytes_plainDataArray p b 0 (K.sizeofLogEntry) (by omega)]
  rw [if_neg h10] at hlen
  rw [if_neg h10, if_neg h10]
  by_cases h11 : c = NukiCommand.LogEntryCount
  · rw [if_pos h11] at hlen
    rw [if_pos h11, if_pos h11]
    rw [readBytes_plainDataArray p b 0 (K.sizeofLogEntryCount) (by omega), readBytes_plainDataArray p b 1 (K.sizeofLogEntryCount) (by omega)]
  rw [if_neg h11] at hlen
  rw [if_neg h11, if_neg h11]
  by_cases h12 : c = NukiCommand.AdvancedConfig
  · rw [if_pos h12] at hlen
    rw [if_pos h12, if_pos h12]
    rw [readBytes_plainDataArray p b 0 (K.sizeofAdvancedConfig) (by omega)]
  rw [if_neg h12] at hlen
  rw [if_neg h12, if_neg h12]
  by_cases h13 : c = NukiCommand.TimeControlEntry
  · rw [if_pos h13] at hlen
    rw [if_pos h13, if_pos h13]
    rw [readBytes_plainDataArray p b 0 (K.sizeofTimeControlEntry) (by omega)]
  rw [if_neg h13] at hlen
  rw [if_neg h13, if_neg h13]
  by_cases h14 : c = NukiCommand.KeypadCodeCount
  · rw [if_pos h14] at hlen
    rw [if_pos h14, if_pos h14]
    rw [readBytes_plainDataArray p b 0 (2) (by omega)]
  rw [if_neg h14] at hlen
  rw [if_neg h14, if_neg h14]
  by_cases h15 : c = NukiCommand.KeypadCode
  · rw [if_pos h15] at hlen
    rw [if_pos h15, if_pos h15]
    cases hdbg : K.debugReadableData
    · rfl
    · rw [hdbg] at hlen
      simp only [if_true] at hlen ⊢
      rw [readBytes_plainDataArray p b 0 (K.sizeofKeypadEntry) (by omega)]
  rw [if_neg h15, if_neg h15]

theorem handlerReads_Challenge (K : NukiConstants) :
    handlerReads K NukiCommand.Challenge = 32 := by
  unfold handlerReads
  rw [if_neg (by decide), if_pos rfl]

theorem handlerReads_AuthorizationEntry (K : NukiConstants) :
    handlerReads K NukiCommand.AuthorizationEntry = K.sizeofAuthorizationEntry := by
  unfold handlerReads
  rw [if_neg (by decide), if_neg (by decide), if_neg (by decide), if_pos rfl]

theorem handlerReads_Status (K : NukiConstants) :
    handlerReads K NukiCommand.Status = 1 := by
  unfold handlerReads
  rw [if_neg (by decide), if_neg (by decide), if_neg (by decide), if_neg (by decide),
    if_neg (by decide), if_pos rfl]

theorem handlerReads_ErrorReport (K : NukiConstants) :
    handlerReads K NukiCommand.ErrorReport = 1 := by
  unfold handlerReads
  rw [if_neg (by decide), if_neg (by decide), if_neg (by decide), if_neg (by decide),
    if_neg (by decide), if_neg (by decide), if_neg (by decide), if_pos rfl]

theorem handlerReads_LogEntry (K : NukiConstants)
    (hK : K.AuthorizationEntryCount ≠ NukiCommand.LogEntry) :
    handlerReads K NukiCommand.LogEntry = K.sizeofLogEntry := by
  unfold handlerReads
  rw [if_neg (by decide), if_neg (by decide), if_neg (by decide), if_neg (by decide),
    if_neg (by decide), if_neg (by decide), if_neg (by decide), if_neg (by decide),
    if_neg (by decide), if_neg (fun h => hK h.symm), if_pos rfl]

theorem handlerReads_TimeControlEntry (K : NukiConstants)
    (hK : K.AuthorizationEntryCount ≠ NukiCommand.TimeControlEntry) :
    handlerReads K NukiCommand.TimeControlEntry = K.sizeofTimeControlEntry := by
  unfold handlerReads
  rw [if_neg (by decide), if_neg (by decide), if_neg (by decide), if_neg (by decide),
    if_neg (by decide), if_neg (by decide), if_neg (by decide), if_neg (by decide),
    if_neg (by decide), if_neg (fun h => hK h.symm), if_neg (by decide),
    if_neg (by decide), if_neg (by decide), if_pos rfl]

theorem handleReturnMessage_handedOver (K : NukiConstants) (s : Session) (c : Nat)
    (ch : Characteristic) (p b : Bytes) (h : handlerReads K c ≤ p.length) :
    handleReturnMessage K s c (handedOver ch p b) = handleReturnMessage K s c p := by
  cases ch
  · exact handleReturnMessage_plainDataArray K s c p b h
  · rfl
  · rfl

theorem sendPlainMessage_eq (s : Session) (t : Tick) (c : Nat) (p : Bytes) (hp : p.length ≤ 196) :
    sendPlainMessage s t c p p.length =
      some (if t.connected then
        { s with written := s.written ++
            [(Characteristic.gdio, le16 c ++ p ++ le16 (crc16 (le16 c ++ p)))] }
        else s) := by
  unfold sendPlainMessage
  rw [Nat.mod_eq_of_lt (by omega), plainFrame_eq c p hp]
  cases t.connected <;> simp

theorem mem_le16_lt (v b : Nat) (h : b ∈ le16 v) : b < 256 := by
  unfold le16 at h
  simp at h
  omega

theorem crcValid_flipBit (c : Nat) (p : Bytes) (hb : ∀ b ∈ p, b < 256) (i j : Nat)
    (hi : i < (le16 c ++ p ++ le16 (crc16 (le16 c ++ p))).length) (hj : j < 8) :
    crcValid (flipBit (le16 c ++ p ++ le16 (crc16 (le16 c ++ p))) i j) = some false := by
  have hd : ∀ e ∈ le16 c ++ p, e < 256 := by
    intro e he
    rcases List.mem_append.mp he with h | h
    · exact mem_le16_lt c e h
    · exact hb e h
  generalize hdata : le16 c ++ p = data at hi hd ⊢
  unfold flipBit
  rw [List.set_append]
  by_cases hlt : i < data.length
  · rw [if_pos hlt, List.getD_append _ _ _ _ hlt]
    have hbi : data.getD i 0 < 256 := by
      rw [List.getD_eq_getElem _ _ hlt]
      exact hd _ (List.getElem_mem _)
    have hne := crc16_set_ne data hd i (data.getD i 0 ^^^ 2 ^ j) hlt (flip_lt hbi hj)
      (flip_ne _ _)
    unfold le16
    rw [crcValid_append, fromLe16_le16 (crc16_lt data)]
    simp only [Option.some.injEq, decide_eq_false_iff_not]
    exact fun h => hne h.symm
  · rw [if_neg hlt, List.getD_append_right _ _ _ _ (by omega)]
    have hk : i - data.length = 0 ∨ i - data.length = 1 := by
      simp [le16_length] at hi
      omega
    have hv := fromLe16_le16 (crc16_lt data)
    unfold le16
    rcases hk with hk | hk
    · rw [hk]
      simp only [List.set_cons_zero, List.getD_cons_zero]
      rw [crcValid_append]
      simp only [Option.some.injEq, decide_eq_false_iff_not]
      have := flip_ne (crc16 data % 256) j
      unfold fromLe16 at hv ⊢
      omega
    · rw [hk]
      simp only [List.set_cons_succ, List.set_cons_zero, List.getD_cons_succ, List.getD_cons_zero]
      rw [crcValid_append]
      simp only [Option.some.injEq, decide_eq_false_iff_not]
      have := flip_ne (crc16 data / 256 % 256) j
      unfold fromLe16 at hv ⊢
      omega

/-- C5: for every command id `c` and payload `p` of `n ≤ 196` bytes,
`sendPlainMessage` writes to the pairing characteristic (when the link is up)
a frame of `n + 4` bytes: `c` in two little-endian bytes, `p`, and the two
little-endian bytes of `calculateCrc` over the first `n + 2` bytes of the
frame. -/
theorem sendPlainMessage_layout (s : Session) (t : Tick) (c : Nat) (p : Bytes)
    (hp : p.length ≤ 196) :
    ∃ frame crc,
      sendPlainMessage s t c p p.length =
        some (if t.connected then
          { s with written := s.written ++ [(Characteristic.gdio, frame)] } else s) ∧
      frame = le16 c ++ p ++ le16 crc ∧
      frame.length = p.length + 4 ∧
      crc = calculateCrc frame 0 (p.length + 2) := by
  refine ⟨le16 c ++ p ++ le16 (crc16 (le16 c ++ p)), crc16 (le16 c ++ p),
    sendPlainMessage_eq s t c p hp, rfl, ?_, ?_⟩
  · simp [le16_length]
    omega
  · unfold calculateCrc
    rw [List.drop_zero, List.take_left' (by simp [le16_length]; omega)]

/-- Witness of C5 on the request for the public key: payload `03 00`. -/
theorem sendPlainMessage_layout_witness :
    ([3, 0] : Bytes).length ≤ 196 ∧
    ∃ frame crc,
      sendPlainMessage sampleSession sampleTick 1 [3, 0] ([3, 0] : Bytes).length =
        some (if sampleTick.connected then
          { sampleSession with
            written := sampleSession.written ++ [(Characteristic.gdio, frame)] }
          else sampleSession) ∧
      frame = le16 1 ++ [3, 0] ++ le16 crc ∧
      frame.length = ([3, 0] : Bytes).length + 4 ∧
      crc = calculateCrc frame 0 (([3, 0] : Bytes).length + 2) :=
  ⟨by decide, sendPlainMessage_layout sampleSession sampleTick 1 [3, 0] (by decide)⟩

theorem handedOver_take (ch : Characteristic) (p b : Bytes) :
    (handedOver ch p b).take p.length = p := by
  cases ch
  · exact List.take_left' rfl
  · exact List.take_length _
  · exact List.take_length _

/-- C2: for every command id `c` and payload `p` of at most 196 bytes, the
frame `sendPlainMessage` writes to the pairing characteristic passes the CRC
check of `notifyCallback` on that characteristic, and `notifyCallback` calls
`handleReturnMessage` with exactly `c` and exactly `p`: with the id `c`, the
length `p.length`, and the array `plainData` whose first `p.length` bytes are
`p`; the call does what the handler does on `p` when `p` holds the bytes the
case of `c` copies. -/
theorem plain_round_trip (K : NukiConstants) (box : SecretBox) (s r : Session) (t : Tick)
    (c : Nat) (p decrInit : Bytes) (hc : c < 65536) (hp : p.length ≤ 196)
    (ht : t.connected = true) :
    ∃ frame,
      sendPlainMessage s t c p p.length =
        some { s with written := s.written ++ [(Characteristic.gdio, frame)] } ∧
      crcValid frame = some true ∧
      notifyDispatch box r Characteristic.gdio frame decrInit = some (Dispatch.accepted c p) ∧
      notifyCallback K box r Characteristic.gdio frame decrInit =
        handleReturnMessage K { r with crcCheckOke := true } c
          (handedOver Characteristic.gdio p decrInit) ∧
      (handedOver Characteristic.gdio p decrInit).take p.length = p ∧
      (handlerReads K c ≤ p.length →
        notifyCallback K box r Characteristic.gdio frame decrInit =
          handleReturnMessage K { r with crcCheckOke := true } c p) := by
  have hcall : notifyCallback K box r Characteristic.gdio
      (le16 c ++ p ++ le16 (crc16 (le16 c ++ p))) decrInit =
      handleReturnMessage K { r with crcCheckOke := true } c
        (handedOver Characteristic.gdio p decrInit) := by
    apply notifyCallback_of_accepted
    have := notifyDispatch_gdio_frame box r decrInit c p (crc16 (le16 c ++ p) % 256)
      (crc16 (le16 c ++ p) / 256 % 256) hc (by omega)
    rw [fromLe16_le16 (crc16_lt _), if_pos rfl] at this
    exact this
  refine ⟨le16 c ++ p ++ le16 (crc16 (le16 c ++ p)), ?_, crcValid_sealed _, ?_, hcall,
    handedOver_take _ _ _,
    fun h => hcall.trans (handleReturnMessage_handedOver K _ c _ p decrInit h)⟩
  · rw [sendPlainMessage_eq s t c p hp, ht]
    rfl
  · have := notifyDispatch_gdio_frame box r decrInit c p (crc16 (le16 c ++ p) % 256)
      (crc16 (le16 c ++ p) / 256 % 256) hc (by omega)
    rw [fromLe16_le16 (crc16_lt _), if_pos rfl] at this
    exact this

/-- C3: for every plain frame built by `sendPlainMessage` (payload bytes below
256, at most 196 of them) and every bit position of that frame, the frame with
that bit inverted is rejected by `notifyCallback` on the pairing
characteristic: `crcCheckOke` becomes false, `handleReturnMessage` is not
called and nothing else changes. -/
theorem plain_bit_flip_rejected (K : NukiConstants) (box : SecretBox) (s r : Session) (t : Tick)
    (c : Nat) (p decrInit : Bytes) (hp : p.length ≤ 196) (hb : ∀ b ∈ p, b < 256)
    (ht : t.connected = true) :
    ∃ frame,
      sendPlainMessage s t c p p.length =
        some { s with written := s.written ++ [(Characteristic.gdio, frame)] } ∧
      ∀ i j, i < frame.length → j < 8 →
        crcValid (flipBit frame i j) = some false ∧
        notifyDispatch box r Characteristic.gdio (flipBit frame i j) decrInit =
          some Dispatch.rejected ∧
        notifyCallback K box r Characteristic.gdio (flipBit frame i j) decrInit =
          some { r with crcCheckOke := false } := by
  refine ⟨le16 c ++ p ++ le16 (crc16 (le16 c ++ p)), ?_, ?_⟩
  · rw [sendPlainMessage_eq s t c p hp, ht]
    rfl
  · intro i j hi hj
    have h := crcValid_flipBit c p hb i j hi hj
    have hd := notifyDispatch_gdio_rejected box r _ decrInit h
    exact ⟨h, hd, notifyCallback_of_rejected K box r _ _ decrInit hd⟩

/-! ## Lemmas: encrypted frames -/

theorem usdio_fields (nonce e cipher : Bytes) (L : Nat) (hn : nonce.length = 24)
    (he : e.length = 4) :
    readBytes (nonce ++ e ++ le16 L ++ cipher) 0 24 = some nonce ∧
    readBytes (nonce ++ e ++ le16 L ++ cipher) 24 4 = some e ∧
    readBytes (nonce ++ e ++ le16 L ++ cipher) 28 2 = some (le16 L) ∧
    readBytes (nonce ++ e ++ le16 L ++ cipher) 30 cipher.length = some cipher := by
  simp only [List.append_assoc]
  refine ⟨readBytes_head _ _ hn, ?_, ?_, ?_⟩
  · rw [readBytes_skip _ _ hn (by omega)]
    exact readBytes_head _ _ he
  · rw [readBytes_skip _ _ hn (by omega), readBytes_skip _ _ he (by omega)]
    exact readBytes_head _ _ (le16_length L)
  · rw [readBytes_skip _ _ hn (by omega), readBytes_skip _ _ he (by omega),
      readBytes_skip _ _ (le16_length L) (by omega)]
    exact readBytes_all cipher

theorem plaintext_fields (a p : Bytes) (c x : Nat) (ha : a.length = 4) :
    readBytes (a ++ le16 c ++ p ++ le16 x) 4 2 = some (le16 c) ∧
    (a ++ le16 c ++ p ++ le16 x).length = p.length + 8 ∧
    readBytes (a ++ le16 c ++ p ++ le16 x) 6 p.length = some p := by
  simp only [List.append_assoc]
  refine ⟨?_, ?_, ?_⟩
  · rw [readBytes_skip _ _ ha (by omega)]
    exact readBytes_head _ _ (le16_length c)
  · simp [le16_length, ha]
    omega
  · rw [readBytes_skip _ _ ha (by omega), readBytes_skip _ _ (le16_length c) (by omega)]
    exact readBytes_head _ _ rfl

theorem notifyDispatch_usdio_open (box : SecretBox) (s : Session) (decrInit : Bytes)
    (nonce e cipher a p : Bytes) (c : Nat)
    (hn : nonce.length = 24) (he : e.length = 4) (ha : a.length = 4) (hc : c < 65536)
    (hL : cipher.length < 65536)
    (hdec : box.decode cipher nonce s.secretKeyK =
      some (a ++ le16 c ++ p ++ le16 (crc16 (a ++ le16 c ++ p)))) :
    notifyDispatch box s Characteristic.usdio (nonce ++ e ++ le16 cipher.length ++ cipher)
      decrInit = some (Dispatch.accepted c p) := by
  obtain ⟨h1, h2, h3, h4⟩ := usdio_fields nonce e cipher cipher.length hn he
  obtain ⟨g1, g2, g3⟩ := plaintext_fields a p c (crc16 (a ++ le16 c ++ p)) ha
  have hlen := box.decode_length _ _ _ _ hdec
  have hmsg : fromLe16 ((le16 cipher.length)[0]?.getD 0) ((le16 cipher.length)[1]?.getD 0)
      = cipher.length := by
    simpa [le16] using fromLe16_le16 hL
  have hcode : fromLe16 ((le16 c)[0]?.getD 0) ((le16 c)[1]?.getD 0) = c := by
    simpa [le16] using fromLe16_le16 hc
  have h16 : ¬ cipher.length < 16 := by omega
  have h8 : ¬ p.length + 8 < 8 := by omega
  unfold notifyDispatch
  simp only [h1, h2, h3, Option.bind_eq_bind, Option.some_bind, List.getD_eq_getElem?_getD, hmsg,
    h4, h16, if_false, hdec, crcValid_sealed, if_true, g1, g2, hcode, h8, Nat.add_sub_cancel, g3]

theorem sendEncryptedMessage_eq (box : SecretBox) (s : Session) (t : Tick) (c : Nat) (p : Bytes)
    (hp : p.length ≤ 255) :
    sendEncryptedMessage box s t c p p.length =
      match box.encode (s.authorizationId ++ le16 c ++ p ++
          le16 (crc16 (s.authorizationId ++ le16 c ++ p))) t.nonce s.secretKeyK with
      | some cipher =>
        if t.connected then
          some { s with sentNonce := t.nonce,
                        written := s.written ++ [(Characteristic.usdio,
                          t.nonce ++ s.authorizationId ++ le16 cipher.length ++ cipher)] }
        else some { s with sentNonce := t.nonce }
      | none => some { s with sentNonce := t.nonce } := by
  unfold sendEncryptedMessage encryptedFrame calculateCrc
  rw [Nat.mod_eq_of_lt (by omega)]
  simp only [readBytes_all, Option.bind_eq_bind, Option.some_bind, List.drop_zero, List.take_length]
  cases box.encode (s.authorizationId ++ le16 c ++ p ++
      le16 (crc16 (s.authorizationId ++ le16 c ++ p))) t.nonce s.secretKeyK with
  | none => rfl
  | some cipher => rfl

theorem written_ne_append (w : List (Characteristic × Bytes)) (x : Characteristic × Bytes) :
    w ≠ w ++ [x] := by
  intro h
  have := congrArg List.length h
  simp at this

/-- C4: for every command id `c` and payload `p` of `n ≤ 80` bytes (with a
24-byte nonce and a 4-byte authorization id), when `encode` succeeds the bytes
`sendEncryptedMessage` writes to the user characteristic are nonce (24),
authorizationId (4), msg_len (2, little-endian), ciphertext; the total length
is `n + 54`, msg_len is `n + 24`, the length of the ciphertext, and the
ciphertext is the secretbox under that nonce and `secretKeyK` of the plaintext
authorizationId, `c` (2, little-endian), `p`, crc (2, little-endian) of `n + 8`
bytes, with crc = `calculateCrc` over authorizationId, `c`, `p`. -/
theorem sendEncryptedMessage_layout (box : SecretBox) (s : Session) (t : Tick) (c : Nat)
    (p cipher : Bytes) (hp : p.length ≤ 80) (haid : s.authorizationId.length = 4)
    (hnonce : t.nonce.length = 24)
    (henc : box.encode (s.authorizationId ++ le16 c ++ p ++
        le16 (calculateCrc (s.authorizationId ++ le16 c ++ p) 0 (p.length + 6)))
        t.nonce s.secretKeyK = some cipher) :
    sendEncryptedMessage box s t c p p.length =
      some (if t.connected then
        { s with sentNonce := t.nonce,
                 written := s.written ++ [(Characteristic.usdio,
                   t.nonce ++ s.authorizationId ++ le16 (p.length + 24) ++ cipher)] }
        else { s with sentNonce := t.nonce }) ∧
    (t.nonce ++ s.authorizationId ++ le16 (p.length + 24) ++ cipher).length = p.length + 54 ∧
    le16 (p.length + 24) = [p.length + 24, 0] ∧
    cipher.length = p.length + 24 ∧
    (s.authorizationId ++ le16 c ++ p ++
        le16 (calculateCrc (s.authorizationId ++ le16 c ++ p) 0 (p.length + 6))).length
      = p.length + 8 := by
  have hcrc : calculateCrc (s.authorizationId ++ le16 c ++ p) 0 (p.length + 6)
      = crc16 (s.authorizationId ++ le16 c ++ p) := by
    unfold calculateCrc
    rw [List.drop_zero, List.take_of_length_le (by simp [le16_length, haid]; omega)]
  rw [hcrc] at henc ⊢
  have hplain : (s.authorizationId ++ le16 c ++ p ++
      le16 (crc16 (s.authorizationId ++ le16 c ++ p))).length = p.length + 8 := by
    simp [le16_length, haid]
    omega
  have hcl : cipher.length = p.length + 24 := by
    have := box.encode_length _ _ _ _ henc
    omega
  refine ⟨?_, ?_, ?_, hcl, hplain⟩
  · rw [sendEncryptedMessage_eq box s t c p (by omega), henc]
    simp only [hcl]
    cases t.connected <;> rfl
  · simp [le16_length, haid, hnonce, hcl]
    omega
  · unfold le16
    have h1 : (p.length + 24) % 256 = p.length + 24 := by omega
    have h2 : (p.length + 24) / 256 % 256 = 0 := by omega
    rw [h1, h2]

/-- C1: for every command id `c`, payload `p` of at most 80 bytes, key and
4-byte authorization id, when the frame `sendEncryptedMessage` writes to the
user characteristic is delivered to `notifyCallback` on the user
characteristic of a session holding the same key, `notifyCallback` calls
`handleReturnMessage` with exactly `c` and exactly `p`; `decode` is taken to
invert `encode` under the same key and nonce. -/
theorem encrypted_round_trip (K : NukiConstants) (box : SecretBox) (s s' r : Session) (t : Tick)
    (c : Nat) (p decrInit frame : Bytes)
    (hinv : ∀ m n k x, box.encode m n k = some x → box.decode x n k = some m)
    (hc : c < 65536) (hp : p.length ≤ 80) (haid : s.authorizationId.length = 4)
    (hnonce : t.nonce.length = 24) (hkey : r.secretKeyK = s.secretKeyK)
    (hsend : sendEncryptedMessage box s t c p p.length = some s')
    (hw : s'.written = s.written ++ [(Characteristic.usdio, frame)]) :
    notifyDispatch box r Characteristic.usdio frame decrInit = some (Dispatch.accepted c p) ∧
    notifyCallback K box r Characteristic.usdio frame decrInit =
      handleReturnMessage K { r with crcCheckOke := true } c p := by
  have hd : notifyDispatch box r Characteristic.usdio frame decrInit =
      some (Dispatch.accepted c p) := by
    rw [sendEncryptedMessage_eq box s t c p (by omega)] at hsend
    cases henc : box.encode (s.authorizationId ++ le16 c ++ p ++
        le16 (crc16 (s.authorizationId ++ le16 c ++ p))) t.nonce s.secretKeyK with
    | none =>
      rw [henc] at hsend
      simp only [Option.some.injEq] at hsend
      subst hsend
      exact absurd hw (written_ne_append _ _)
    | some cipher =>
      rw [henc] at hsend
      cases hconn : t.connected with
      | false =>
        rw [hconn] at hsend
        simp only [Bool.false_eq_true, if_false, Option.some.injEq] at hsend
        subst hsend
        exact absurd hw (written_ne_append _ _)
      | true =>
        rw [hconn] at hsend
        simp only [if_true, Option.some.injEq] at hsend
        subst hsend
        have hf := List.append_cancel_left hw
        simp only [List.cons.injEq, Prod.mk.injEq, true_and, and_true] at hf
        subst hf
        have hcl := box.encode_length _ _ _ _ henc
        have hdec := hinv _ _ _ _ henc
        rw [← hkey] at hdec
        apply notifyDispatch_usdio_open box r decrInit t.nonce s.authorizationId cipher
          s.authorizationId p c hnonce haid haid hc _ hdec
        simp [le16_length, haid] at hcl
        omega
  exact ⟨hd, notifyCallback_of_accepted K box r _ _ decrInit c p hd⟩

/-! ## The claims on inbound frames -/

set_option maxRecDepth 100000

theorem tagBox_inverts (m n k x : Bytes) (h : tagBox.encode m n k = some x) :
    tagBox.decode x n k = some m := by
  have hx : x = tagOf k ++ m := by
    simp only [tagBox, tagEncode, Option.some.injEq] at h
    exact h.symm
  subst hx
  have hl : (tagOf k).length = 16 := by simp [tagOf]
  show tagDecode (tagOf k ++ m) n k = some m
  unfold tagDecode
  rw [if_pos ⟨by simp [hl], List.take_left' hl⟩, List.drop_left' hl]

/-- Witness of C1: the frame `sampleSession` seals for Status with payload `01`
comes back as that command and payload. -/
theorem encrypted_round_trip_witness :
    sendEncryptedMessage tagBox sampleSession sampleTick 14 [1] ([1] : Bytes).length =
      some { sampleSession with sentNonce := sampleTick.nonce,
                                written := [(Characteristic.usdio, sealedStatusFrame)] } ∧
    notifyDispatch tagBox sampleSession Characteristic.usdio sealedStatusFrame [] =
      some (Dispatch.accepted 14 [1]) ∧
    notifyCallback sampleConstants tagBox sampleSession Characteristic.usdio sealedStatusFrame [] =
      handleReturnMessage sampleConstants { sampleSession with crcCheckOke := true } 14 [1] :=
  ⟨by decide,
   encrypted_round_trip sampleConstants tagBox sampleSession
    { sampleSession with sentNonce := sampleTick.nonce,
                         written := [(Characteristic.usdio, sealedStatusFrame)] }
    sampleSession sampleTick 14 [1] [] sealedStatusFrame tagBox_inverts (by decide) (by decide)
    (by decide) (by decide) rfl (by decide) (by decide)⟩

/-- Witness of C4 on `sampleSession`, command `0x0E`, payload `01`. -/
theorem sendEncryptedMessage_layout_witness :
    ([1] : Bytes).length ≤ 80 ∧
    sendEncryptedMessage tagBox sampleSession sampleTick 14 [1] ([1] : Bytes).length =
      some (if sampleTick.connected then
        { sampleSession with
          sentNonce := sampleTick.nonce,
          written := sampleSession.written ++ [(Characteristic.usdio,
            sampleTick.nonce ++ sampleSession.authorizationId ++ le16 (([1] : Bytes).length + 24)
              ++ (List.replicate 16 7 ++ [1, 2, 3, 4, 14, 0, 1, 236, 237]))] }
        else { sampleSession with sentNonce := sampleTick.nonce }) :=
  ⟨by decide,
   (sendEncryptedMessage_layout tagBox sampleSession sampleTick 14 [1]
    (List.replicate 16 7 ++ [1, 2, 3, 4, 14, 0, 1, 236, 237]) (by decide) (by decide) (by decide)
    (by decide)).1⟩

/-- Witness of C2 on the request for the public key. -/
theorem plain_round_trip_witness :
    (1 : Nat) < 65536 ∧ ([3, 0] : Bytes).length ≤ 196 ∧
    ∃ frame,
      sendPlainMessage sampleSession sampleTick 1 [3, 0] ([3, 0] : Bytes).length =
        some { sampleSession with
               written := sampleSession.written ++ [(Characteristic.gdio, frame)] } ∧
      crcValid frame = some true ∧
      notifyDispatch tagBox sampleSession Characteristic.gdio frame [] =
        some (Dispatch.accepted 1 [3, 0]) ∧
      notifyCallback sampleConstants tagBox sampleSession Characteristic.gdio frame [] =
        handleReturnMessage sampleConstants { sampleSession with crcCheckOke := true } 1
          (handedOver Characteristic.gdio [3, 0] []) ∧
      (handedOver Characteristic.gdio [3, 0] []).take ([3, 0] : Bytes).length = [3, 0] ∧
      (handlerReads sampleConstants 1 ≤ ([3, 0] : Bytes).length →
        notifyCallback sampleConstants tagBox sampleSession Characteristic.gdio frame [] =
          handleReturnMessage sampleConstants { sampleSession with crcCheckOke := true } 1
            [3, 0]) :=
  ⟨by decide, by decide,
   plain_round_trip sampleConstants tagBox sampleSession sampleSession sampleTick 1 [3, 0] []
    (by decide) (by decide) rfl⟩

/-- Witness of C3 on the request for the public key. -/
theorem plain_bit_flip_rejected_witness :
    ([3, 0] : Bytes).length ≤ 196 ∧ (∀ b ∈ ([3, 0] : Bytes), b < 256) ∧
    ∃ frame,
      sendPlainMessage sampleSession sampleTick 1 [3, 0] ([3, 0] : Bytes).length =
        some { sampleSession with
               written := sampleSession.written ++ [(Characteristic.gdio, frame)] } ∧
      ∀ i j, i < frame.length → j < 8 →
        crcValid (flipBit frame i j) = some false ∧
        notifyDispatch tagBox sampleSession Characteristic.gdio (flipBit frame i j) [] =
          some Dispatch.rejected ∧
        notifyCallback sampleConstants tagBox sampleSession Characteristic.gdio
          (flipBit frame i j) [] = some { sampleSession with crcCheckOke := false } :=
  ⟨by decide, by decide,
   plain_bit_flip_rejected sampleConstants tagBox sampleSession sampleSession sampleTick 1 [3, 0]
    [] (by decide) (by decide) rfl⟩

/-- C6, the code at a failing input: on `forgedFrame` the secretbox reports
failure, yet with `stalePlaintext` left in `decrData` the CRC check passes,
`handleReturnMessage` is called with Status and payload `00`, and
`lastMsgCodeReceived`, `receivedStatus` and `crcCheckOke` change. -/
theorem forged_frame_dispatched :
    tagBox.decode (forgedFrame.drop 30) (forgedFrame.take 24) sampleSession.secretKeyK = none ∧
    notifyDispatch tagBox sampleSession Characteristic.usdio forgedFrame stalePlaintext =
      some (Dispatch.accepted 14 [0]) ∧
    notifyCallback sampleConstants tagBox sampleSession Characteristic.usdio forgedFrame
        stalePlaintext =
      some { sampleSession with crcCheckOke := true, lastMsgCodeReceived := 14,
                                receivedStatus := 0 } := by
  refine ⟨by decide, by decide, by decide⟩

/-- When `decode` fails, the outcome of `notifyCallback` on a frame with a
complete header is decided by the CRC check of what `decrData` held before:
content that fails the check is rejected. -/
theorem notifyDispatch_usdio_decode_failed (box : SecretBox) (s : Session)
    (nonce e cipher decrInit : Bytes) (hn : nonce.length = 24) (he : e.length = 4)
    (hL : cipher.length < 65536) (h16 : 16 ≤ cipher.length)
    (hdec : box.decode cipher nonce s.secretKeyK = none)
    (hcrc : crcValid decrInit = some false) :
    notifyDispatch box s Characteristic.usdio (nonce ++ e ++ le16 cipher.length ++ cipher)
      decrInit = some Dispatch.rejected := by
  obtain ⟨h1, h2, h3, h4⟩ := usdio_fields nonce e cipher cipher.length hn he
  have hmsg : fromLe16 ((le16 cipher.length)[0]?.getD 0) ((le16 cipher.length)[1]?.getD 0)
      = cipher.length := by
    simpa [le16] using fromLe16_le16 hL
  have h16' : ¬ cipher.length < 16 := by omega
  unfold notifyDispatch
  simp only [h1, h2, h3, Option.bind_eq_bind, Option.some_bind, List.getD_eq_getElem?_getD, hmsg,
    h4, h16', if_false, hdec, hcrc, Bool.false_eq_true]

/-- C7 fails as stated: `foreignIdFrame` carries the authorization id
`09 09 09 09` in its envelope and in its plaintext, the session holds
`01 02 03 04`, and `notifyCallback` nevertheless calls `handleReturnMessage`
with Status and payload `00` and updates the session. -/
theorem authorizationId_mismatch_dispatched :
    (foreignIdFrame.drop 24).take 4 ≠ sampleSession.authorizationId ∧
    (tagBox.decode (foreignIdFrame.drop 30) (foreignIdFrame.take 24)
        sampleSession.secretKeyK).map (List.take 4) ≠ some sampleSession.authorizationId ∧
    notifyDispatch tagBox sampleSession Characteristic.usdio foreignIdFrame [] =
      some (Dispatch.accepted 14 [0]) ∧
    notifyCallback sampleConstants tagBox sampleSession Characteristic.usdio foreignIdFrame [] =
      some { sampleSession with crcCheckOke := true, lastMsgCodeReceived := 14,
                                receivedStatus := 0 } ∧
    notifyCallback sampleConstants tagBox sampleSession Characteristic.usdio foreignIdFrame []
      ≠ some sampleSession := by
  refine ⟨by decide, by decide, by decide, by decide, by decide⟩

/-- C7 as amended: `notifyCallback` does not compare authorization ids.  For
every frame on the user characteristic made of a 24-byte nonce, any four bytes
`e` in the place of the authorization id, the length of the ciphertext and a
ciphertext that opens under `secretKeyK` to `a` (any four bytes), `c` (2,
little-endian), `p` and the CRC of these, `handleReturnMessage` is called with
`c` and `p`, whether or not `e` and `a` equal `authorizationId`. -/
theorem authorizationId_not_compared (K : NukiConstants) (box : SecretBox) (s : Session)
    (decrInit nonce e cipher a p : Bytes) (c : Nat)
    (hn : nonce.length = 24) (he : e.length = 4) (ha : a.length = 4) (hc : c < 65536)
    (hL : cipher.length < 65536)
    (hdec : box.decode cipher nonce s.secretKeyK =
      some (a ++ le16 c ++ p ++ le16 (calculateCrc (a ++ le16 c ++ p) 0 (p.length + 6)))) :
    notifyDispatch box s Characteristic.usdio (nonce ++ e ++ le16 cipher.length ++ cipher)
      decrInit = some (Dispatch.accepted c p) ∧
    notifyCallback K box s Characteristic.usdio (nonce ++ e ++ le16 cipher.length ++ cipher)
      decrInit = handleReturnMessage K { s with crcCheckOke := true } c p := by
  have hcrc : calculateCrc (a ++ le16 c ++ p) 0 (p.length + 6) = crc16 (a ++ le16 c ++ p) := by
    unfold calculateCrc
    rw [List.drop_zero, List.take_of_length_le (by simp [le16_length, ha]; omega)]
  rw [hcrc] at hdec
  have hd := notifyDispatch_usdio_open box s decrInit nonce e cipher a p c hn he ha hc hL hdec
  exact ⟨hd, notifyCallback_of_accepted K box s _ _ decrInit c p hd⟩

/-- Witness of the amended C7 on a frame whose two authorization ids are
`09 09 09 09` while the session holds `01 02 03 04`. -/
theorem authorizationId_not_compared_witness :
    ([9, 9, 9, 9] : Bytes) ≠ sampleSession.authorizationId ∧
    notifyDispatch tagBox sampleSession Characteristic.usdio
      (List.replicate 24 9 ++ [9, 9, 9, 9] ++
        le16 (List.replicate 16 7 ++ [9, 9, 9, 9, 14, 0, 0, 234, 210] : Bytes).length ++
        (List.replicate 16 7 ++ [9, 9, 9, 9, 14, 0, 0, 234, 210])) []
      = some (Dispatch.accepted 14 [0]) :=
  ⟨by decide,
   (authorizationId_not_compared sampleConstants tagBox sampleSession [] (List.replicate 24 9)
    [9, 9, 9, 9] (List.replicate 16 7 ++ [9, 9, 9, 9, 14, 0, 0, 234, 210]) [9, 9, 9, 9] [0] 14
    (by decide) (by decide) (by decide) (by decide) (by decide) (by decide)).1⟩

/-- C8: for every frame delivered on the pairing characteristic for which
`crcValid` is false, `notifyCallback` does not call `handleReturnMessage` and
changes no member other than `crcCheckOke`, which becomes false; in particular
`lastMsgCodeReceived`, `remotePublicKey`, `challengeNonceK`, `authorizationId`
and `receivedStatus` keep their values. -/
theorem bad_crc_plain_frame_dropped (K : NukiConstants) (box : SecretBox) (s : Session)
    (recData decrInit : Bytes) (h : crcValid recData = some false) :
    notifyDispatch box s Characteristic.gdio recData decrInit = some Dispatch.rejected ∧
    notifyCallback K box s Characteristic.gdio recData decrInit =
      some { s with crcCheckOke := false } ∧
    ∃ s', notifyCallback K box s Characteristic.gdio recData decrInit = some s' ∧
      s'.crcCheckOke = false ∧
      s'.lastMsgCodeReceived = s.lastMsgCodeReceived ∧
      s'.remotePublicKey = s.remotePublicKey ∧
      s'.challengeNonceK = s.challengeNonceK ∧
      s'.authorizationId = s.authorizationId ∧
      s'.receivedStatus = s.receivedStatus := by
  have hd := notifyDispatch_gdio_rejected box s recData decrInit h
  have hc := notifyCallback_of_rejected K box s _ recData decrInit hd
  exact ⟨hd, hc, _, hc, rfl, rfl, rfl, rfl, rfl, rfl⟩

/-- Witness of C8: a Challenge frame whose CRC bytes are zero. -/
theorem bad_crc_plain_frame_dropped_witness :
    crcValid ([4, 0] ++ List.replicate 32 187 ++ [0, 0]) = some false ∧
    notifyCallback sampleConstants tagBox sampleSession Characteristic.gdio
      ([4, 0] ++ List.replicate 32 187 ++ [0, 0]) [] =
      some { sampleSession with crcCheckOke := false } :=
  ⟨by decide,
   (bad_crc_plain_frame_dropped sampleConstants tagBox sampleSession
    ([4, 0] ++ List.replicate 32 187 ++ [0, 0]) [] (by decide)).2.1⟩

theorem notifyDispatch_gdio_long (box : SecretBox) (s : Session) (decrInit : Bytes)
    (c : Nat) (p : Bytes) (hp : 200 < p.length) :
    notifyDispatch box s Characteristic.gdio (le16 c ++ p ++ le16 (crc16 (le16 c ++ p)))
      decrInit = none := by
  unfold notifyDispatch
  have hrc : readBytes (le16 c ++ p ++ le16 (crc16 (le16 c ++ p))) 0 2 = some (le16 c) := by
    rw [List.append_assoc]
    exact readBytes_head _ _ (le16_length c)
  have hlen : (le16 c ++ p ++ le16 (crc16 (le16 c ++ p))).length = p.length + 4 := by
    simp [le16_length]; omega
  have h4 : ¬ p.length + 4 < 4 := by omega
  have h200 : 200 < p.length + 4 - 4 := by omega
  simp only [hrc, crcValid_sealed, Option.bind_eq_bind, Option.some_bind, hlen, if_true, h4,
    if_false, h200]

/-- C9, the code at failing inputs: each of the first, second and fourth
indications makes `notifyCallback` access memory outside the received frame
or outside a destination array (`none`): a user frame shorter than the 30-byte
header; a 3-byte pairing frame with a valid CRC (`length - 4` wraps); a
CRC-valid pairing frame of 205 bytes (201 bytes are copied into
`plainData[200]`).  The third, a CRC-valid PublicKey frame with an empty
payload, is not rejected: 32 bytes are copied into `remotePublicKey` from the
array `plainData`, none of which was received (it is what the array held
before). -/
theorem malformed_frames_out_of_bounds (K : NukiConstants) (box : SecretBox) (s : Session)
    (decrInit : Bytes) :
    notifyCallback K box s Characteristic.usdio (List.replicate 10 0) decrInit = none ∧
    (crcValid [1, 209, 241] = some true ∧
      notifyCallback K box s Characteristic.gdio [1, 209, 241] decrInit = none) ∧
    (notifyDispatch box s Characteristic.gdio [3, 0, 92, 72] decrInit =
        some (Dispatch.accepted NukiCommand.PublicKey []) ∧
      notifyCallback K box s Characteristic.gdio [3, 0, 92, 72] decrInit =
        some { s with crcCheckOke := true, lastMsgCodeReceived := NukiCommand.PublicKey,
                      remotePublicKey := (decrInit ++ List.replicate 200 0).take 32 }) ∧
    (longPlainFrame.length = 205 ∧ crcValid longPlainFrame = some true ∧
      notifyCallback K box s Characteristic.gdio longPlainFrame decrInit = none) := by
  have h1 : crcValid [1, 209, 241] = some true := by decide
  have h2 : crcValid [3, 0, 92, 72] = some true := by decide
  have h3 : crcValid longPlainFrame = some true := crcValid_sealed _
  have h4 : notifyDispatch box s Characteristic.gdio longPlainFrame decrInit = none :=
    notifyDispatch_gdio_long box s decrInit 1 (List.replicate 201 0) (by simp)
  have h5 : notifyDispatch box s Characteristic.gdio [3, 0, 92, 72] decrInit =
      some (Dispatch.accepted NukiCommand.PublicKey []) := by
    simp [notifyDispatch, readBytes, h2, fromLe16, NukiCommand.PublicKey]
  refine ⟨?_, ⟨h1, ?_⟩, ⟨h5, ?_⟩, ⟨by simp [longPlainFrame, le16_length], h3, ?_⟩⟩
  · simp [notifyCallback, notifyDispatch, readBytes]
  · simp [notifyCallback, notifyDispatch, readBytes, h1]
  · rw [notifyCallback_of_accepted K box s _ _ decrInit _ _ h5]
    have hlen := plainDataArray_length [] decrInit (by simp)
    have hread : readBytes (plainDataArray [] decrInit) 0 32 =
        some ((decrInit ++ List.replicate 200 0).take 32) := by
      rw [readBytes_some _ 0 32 (by omega)]
      simp [plainDataArray, List.take_take]
    unfold handleReturnMessage handedOver
    dsimp only
    rw [if_pos rfl, hread]
    rfl
  · simp [notifyCallback, h4]

/-! ## The claims on credentials -/

theorem retrieveCredentials_frame (s : Session) (buff : Bytes) :
    (retrieveCredentials s buff).2.written = s.written ∧
    (retrieveCredentials s buff).2.nukiCommandState = s.nukiCommandState := by
  unfold retrieveCredentials
  simp only
  split
  · exact ⟨rfl, rfl⟩
  · split
    · exact ⟨rfl, rfl⟩
    · split
      · exact ⟨rfl, rfl⟩
      · split <;> exact ⟨rfl, rfl⟩

theorem getBytes_missing (prefs : List (String × Bytes)) (key : String) (buf : Bytes)
    (maxLen : Nat) (h : prefs.lookup key = none) : (getBytes prefs key buf maxLen).1 = 0 := by
  unfold getBytes
  rw [h]

theorem retrieveCredentials_missing (s : Session) (buff : Bytes)
    (h : s.preferences.lookup "secretKeyK" = none ∨ s.preferences.lookup "bleAddress" = none ∨
      s.preferences.lookup "authorizationId" = none ∨
      s.preferences.lookup "securityPinCode" = none) :
    (retrieveCredentials s buff).1 = false := by
  unfold retrieveCredentials
  simp only
  split
  · rfl
  · split
    · rfl
    · split
      · rfl
      · split
        · rfl
        · rename_i h1 h2 h3 h4
          rcases h with h | h | h | h
          · exact absurd (getBytes_missing _ _ _ _ h) h1
          · exact absurd (getBytes_missing _ _ _ _ h) h2
          · exact absurd (getBytes_missing _ _ _ _ h) h3
          · exact absurd (getBytes_missing _ _ _ _ h) h4

/-- C10: for every action, store, schedule and session, if
`retrieveCredentials` fails then `executeAction` returns `NotPaired`, writes no
frame on either characteristic and leaves `nukiCommandState` unchanged. -/
theorem notPaired_sends_nothing (K : NukiConstants) (box : SecretBox) (s : Session)
    (action : NukiAction) (buff : Bytes) (ticks : List Tick)
    (h : (retrieveCredentials s buff).1 = false) :
    ∃ s', executeAction K box s action buff ticks = some (NukiCmdResult.NotPaired, s') ∧
      s'.written = s.written ∧ s'.nukiCommandState = s.nukiCommandState := by
  refine ⟨(retrieveCredentials s buff).2, ?_, (retrieveCredentials_frame s buff).1,
    (retrieveCredentials_frame s buff).2⟩
  unfold executeAction
  simp only [h, Bool.false_eq_true, if_false]

/-- Witness of C10: a lock action on `sampleSession`, whose store is empty. -/
theorem notPaired_sends_nothing_witness :
    (retrieveCredentials sampleSession []).1 = false ∧
    ∃ s', executeAction sampleConstants tagBox sampleSession
        ⟨NukiCommandType.CommandWithChallengeAndAccept, 0x0D, [1, 0, 0, 0, 0, 0], 6⟩ []
        [sampleTick] = some (NukiCmdResult.NotPaired, s') ∧
      s'.written = sampleSession.written ∧
      s'.nukiCommandState = sampleSession.nukiCommandState :=
  ⟨by decide,
   notPaired_sends_nothing sampleConstants tagBox sampleSession
    ⟨NukiCommandType.CommandWithChallengeAndAccept, 0x0D, [1, 0, 0, 0, 0, 0], 6⟩ []
    [sampleTick] (by decide)⟩

/-! ## The claims on pairing and unpairing -/

theorem lookup_remove_self (prefs : List (String × Bytes)) (key : String) :
    (remove prefs key).lookup key = none := by
  unfold remove
  induction prefs with
  | nil => rfl
  | cons e es ih =>
    by_cases h : e.1 = key
    · simpa [List.filter_cons, h] using ih
    · have hb : (key == e.1) = false := by
        simp only [beq_eq_false_iff_ne, ne_eq]
        exact fun h' => h h'.symm
      cases e with
      | mk k v =>
        simp only [] at h hb
        simp only [List.filter_cons, ne_eq, h, not_false_eq_true, decide_True, if_true,
          List.lookup_cons, hb]
        exact ih

theorem lookup_remove_other (prefs : List (String × Bytes)) (key other : String)
    (hne : other ≠ key) : (remove prefs key).lookup other = prefs.lookup other := by
  unfold remove
  induction prefs with
  | nil => rfl
  | cons e es ih =>
    cases e with
    | mk k v =>
      by_cases h : k = key
      · have hb : (other == k) = false := by
          simp only [beq_eq_false_iff_ne, ne_eq]
          exact fun h' => hne (h'.trans h)
        simp only [List.filter_cons, ne_eq, h, not_true_eq_false, decide_False,
          Bool.false_eq_true, if_false, List.lookup_cons]
        rw [← h, hb]
        simpa [h] using ih
      · simp only [List.filter_cons, ne_eq, h, not_false_eq_true, decide_True, if_true,
          List.lookup_cons]
        cases other == k
        · exact ih
        · rfl

theorem unPairNuki_removes_three (s : Session) :
    (unPairNuki s).preferences.lookup "secretKeyK" = none ∧
    (unPairNuki s).preferences.lookup "bleAddress" = none ∧
    (unPairNuki s).preferences.lookup "authorizationId" = none := by
  unfold unPairNuki deleteCredentials
  refine ⟨?_, ?_, ?_⟩
  · simp only
    rw [lookup_remove_other _ _ _ (by decide), lookup_remove_other _ _ _ (by decide),
      lookup_remove_self]
  · simp only
    rw [lookup_remove_other _ _ _ (by decide), lookup_remove_self]
  · simp only
    rw [lookup_remove_self]

theorem unPairNuki_keeps_pin (s : Session) :
    (unPairNuki s).preferences.lookup "securityPinCode" =
      s.preferences.lookup "securityPinCode" := by
  unfold unPairNuki deleteCredentials
  simp only
  rw [lookup_remove_other _ _ _ (by decide), lookup_remove_other _ _ _ (by decide),
    lookup_remove_other _ _ _ (by decide)]

/-- C12, the code at a failing input: after `unPairNuki` on a store that holds
the four credentials, `"secretKeyK"`, `"bleAddress"` and `"authorizationId"`
are gone but `"securityPinCode"` still holds the PIN. -/
theorem unPairNuki_leaves_securityPinCode :
    (unPairNuki pairedSession).preferences.lookup "secretKeyK" = none ∧
    (unPairNuki pairedSession).preferences.lookup "bleAddress" = none ∧
    (unPairNuki pairedSession).preferences.lookup "authorizationId" = none ∧
    (unPairNuki pairedSession).preferences.lookup "securityPinCode" = some [0x39, 0x30] ∧
    (unPairNuki pairedSession).preferences = [("securityPinCode", [0x39, 0x30])] := by
  refine ⟨by decide, by decide, by decide, by decide, by decide⟩

/-! ## Lemmas: what the dispatcher leaves alone -/

/-- The members `handleReturnMessage` never writes, and the one it always
writes. -/
theorem handleReturnMessage_frame (K : NukiConstants) (s s' : Session) (c : Nat) (d : Bytes)
    (h : handleReturnMessage K s c d = some s') :
    s'.preferences = s.preferences ∧ s'.written = s.written ∧ s'.secretKeyK = s.secretKeyK ∧
    s'.sentNonce = s.sentNonce ∧ s'.authenticator = s.authenticator ∧
    s'.nukiCommandState = s.nukiCommandState ∧ s'.timeNow = s.timeNow ∧
    s'.crcCheckOke = s.crcCheckOke ∧ s'.lastMsgCodeReceived = c ∧ s'.pinCode = s.pinCode ∧
    s'.isPaired = s.isPaired ∧ s'.bleAddress = s.bleAddress := by
  unfold handleReturnMessage at h
  simp only [Option.bind_eq_bind] at h
  by_cases h0 : c = NukiCommand.PublicKey
  · rw [if_pos h0] at h
    obtain ⟨_, _, h2⟩ := Option.bind_eq_some.mp h
    cases h2
    exact ⟨rfl, rfl, rfl, rfl, rfl, rfl, rfl, rfl, rfl, rfl, rfl, rfl⟩
  rw [if_neg h0] at h
  by_cases h1 : c = NukiCommand.Challenge
  · rw [if_pos h1] at h
    obtain ⟨_, _, h2⟩ := Option.bind_eq_some.mp h
    cases h2
    exact ⟨rfl, rfl, rfl, rfl, rfl, rfl, rfl, rfl, rfl, rfl, rfl, rfl⟩
  rw [if_neg h1] at h
  by_cases h2 : c = NukiCommand.AuthorizationId
  · rw [if_pos h2] at h
    obtain ⟨_, _, h2⟩ := Option.bind_eq_some.mp h
    obtain ⟨_, _, h3⟩ := Option.bind_eq_some.mp h2
    obtain ⟨_, _, h4⟩ := Option.bind_eq_some.mp h3
    cases h4
    exact ⟨rfl, rfl, rfl, rfl, rfl, rfl, rfl, rfl, rfl, rfl, rfl, rfl⟩
  rw [if_neg h2] at h
  by_cases h3 : c = NukiCommand.AuthorizationEntry
  · rw [if_pos h3] at h
    obtain ⟨_, _, h2⟩ := Option.bind_eq_some.mp h
    cases h2
    exact ⟨rfl, rfl, rfl, rfl, rfl, rfl, rfl, rfl, rfl, rfl, rfl, rfl⟩
  rw [if_neg h3] at h
  by_cases h4 : c = NukiCommand.KeyturnerStates
  · rw [if_pos h4] at h
    obtain ⟨_, _, h2⟩ := Option.bind_eq_some.mp h
    cases h2
    exact ⟨rfl, rfl, rfl, rfl, rfl, rfl, rfl, rfl, rfl, rfl, rfl, rfl⟩
  rw [if_neg h4] at h
  by_cases h5 : c = NukiCommand.Status
  · rw [if_pos h5] at h
    obtain ⟨_, _, h2⟩ := Option.bind_eq_some.mp h
    cases h2
    exact ⟨rfl, rfl, rfl, rfl, rfl, rfl, rfl, rfl, rfl, rfl, rfl, rfl⟩
  rw [if_neg h5] at h
  by_cases h6 : c = NukiCommand.BatteryReport
  · rw [if_pos h6] at h
    obtain ⟨_, _, h2⟩ := Option.bind_eq_some.mp h
    cases h2
    exact ⟨rfl, rfl, rfl, rfl, rfl, rfl, rfl, rfl, rfl, rfl, rfl, rfl⟩
  rw [if_neg h6] at h
  by_cases h7 : c = NukiCommand.ErrorReport
  · rw [if_pos h7] at h
    obtain ⟨_, _, h2⟩ := Option.bind_eq_some.mp h
    cases h2
    exact ⟨rfl, rfl, rfl, rfl, rfl, rfl, rfl, rfl, rfl, rfl, rfl, rfl⟩
  rw [if_neg h7] at h
  by_cases h8 : c = NukiCommand.Config
  · rw [if_pos h8] at h
    obtain ⟨_, _, h2⟩ := Option.bind_eq_some.mp h
    cases h2
    exact ⟨rfl, rfl, rfl, rfl, rfl, rfl, rfl, rfl, rfl, rfl, rfl, rfl⟩
  rw [if_neg h8] at h
  by_cases h9 : c = K.AuthorizationEntryCount
  · rw [if_pos h9] at h
    obtain ⟨_, _, h2⟩ := Option.bind_eq_some.mp h
    cases h2
    exact ⟨rfl, rfl, rfl, rfl, rfl, rfl, rfl, rfl, rfl, rfl, rfl, rfl⟩
  rw [if_neg h9] at h
  by_cases h10 : c = NukiCommand.LogEntry
  · rw [if_pos h10] at h
    obtain ⟨_, _, h2⟩ := Option.bind_eq_some.mp h
    cases h2
    exact ⟨rfl, rfl, rfl, rfl, rfl, rfl, rfl, rfl, rfl, rfl, rfl, rfl⟩
  rw [if_neg h10] at h
  by_cases h11 : c = NukiCommand.LogEntryCount
  · rw [if_pos h11] at h
    obtain ⟨_, _, h2⟩ := Option.bind_eq_some.mp h
    split at h2
    · cases h2
    · obtain ⟨_, _, h3⟩ := Option.bind_eq_some.mp h2
      cases h3
      exact ⟨rfl, rfl, rfl, rfl, rfl, rfl, rfl, rfl, rfl, rfl, rfl, rfl⟩
  rw [if_neg h11] at h
  by_cases h12 : c = NukiCommand.AdvancedConfig
  · rw [if_pos h12] at h
    obtain ⟨_, _, h2⟩ := Option.bind_eq_some.mp h
    cases h2
    exact ⟨rfl, rfl, rfl, rfl, rfl, rfl, rfl, rfl, rfl, rfl, rfl, rfl⟩
  rw [if_neg h12] at h
  by_cases h13 : c = NukiCommand.TimeControlEntry
  · rw [if_pos h13] at h
    obtain ⟨_, _, h2⟩ := Option.bind_eq_some.mp h
    cases h2
    exact ⟨rfl, rfl, rfl, rfl, rfl, rfl, rfl, rfl, rfl, rfl, rfl, rfl⟩
  rw [if_neg h13] at h
  by_cases h14 : c = NukiCommand.KeypadCodeCount
  · rw [if_pos h14] at h
    obtain ⟨_, _, h2⟩ := Option.bind_eq_some.mp h
    cases h2
    exact ⟨rfl, rfl, rfl, rfl, rfl, rfl, rfl, rfl, rfl, rfl, rfl, rfl⟩
  rw [if_neg h14] at h
  by_cases h15 : c = NukiCommand.KeypadCode
  · rw [if_pos h15] at h
    split at h
    · obtain ⟨_, _, h2⟩ := Option.bind_eq_some.mp h
      cases h2
      exact ⟨rfl, rfl, rfl, rfl, rfl, rfl, rfl, rfl, rfl, rfl, rfl, rfl⟩
    · cases h
      exact ⟨rfl, rfl, rfl, rfl, rfl, rfl, rfl, rfl, rfl, rfl, rfl, rfl⟩
  rw [if_neg h15] at h
  cases h
  exact ⟨rfl, rfl, rfl, rfl, rfl, rfl, rfl, rfl, rfl, rfl, rfl, rfl⟩

theorem AppendsOn.refl (P : Characteristic × Bytes → Prop) (w : List (Characteristic × Bytes)) :
    AppendsOn P w w :=
  ⟨[], by simp, by simp⟩

theorem AppendsOn.trans {P : Characteristic × Bytes → Prop}
    {w1 w2 w3 : List (Characteristic × Bytes)} (h1 : AppendsOn P w1 w2)
    (h2 : AppendsOn P w2 w3) : AppendsOn P w1 w3 := by
  obtain ⟨a, rfl, ha⟩ := h1
  obtain ⟨b, rfl, hb⟩ := h2
  refine ⟨a ++ b, by simp, ?_⟩
  intro x hx
  rcases List.mem_append.mp hx with h | h
  · exact ha x h
  · exact hb x h

theorem AppendsOn.single {P : Characteristic × Bytes → Prop}
    (w : List (Characteristic × Bytes)) (x : Characteristic × Bytes) (hx : P x) :
    AppendsOn P w (w ++ [x]) :=
  ⟨[x], rfl, by simpa using hx⟩

theorem notifyCallback_frame (K : NukiConstants) (box : SecretBox) (s s' : Session)
    (ch : Characteristic) (f d : Bytes) (h : notifyCallback K box s ch f d = some s') :
    s'.preferences = s.preferences ∧ s'.written = s.written ∧ s'.secretKeyK = s.secretKeyK ∧
    s'.sentNonce = s.sentNonce ∧ s'.authenticator = s.authenticator ∧
    s'.nukiCommandState = s.nukiCommandState ∧ s'.timeNow = s.timeNow ∧
    s'.pinCode = s.pinCode ∧ s'.isPaired = s.isPaired ∧ s'.bleAddress = s.bleAddress := by
  unfold notifyCallback at h
  simp only [Option.bind_eq_bind] at h
  obtain ⟨r, _, h2⟩ := Option.bind_eq_some.mp h
  cases r with
  | ignored =>
    cases h2
    exact ⟨rfl, rfl, rfl, rfl, rfl, rfl, rfl, rfl, rfl, rfl⟩
  | rejected =>
    cases h2
    exact ⟨rfl, rfl, rfl, rfl, rfl, rfl, rfl, rfl, rfl, rfl⟩
  | accepted c p =>
    obtain ⟨a1, a2, a3, a4, a5, a6, a7, _, _, a10, a11, a12⟩ :=
      handleReturnMessage_frame K _ s' c _ h2
    exact ⟨a1, a2, a3, a4, a5, a6, a7, a10, a11, a12⟩

theorem deliver_frame (K : NukiConstants) (box : SecretBox)
    (inbound : List (Characteristic × Bytes × Bytes)) (s s' : Session)
    (h : deliver K box s inbound = some s') :
    s'.preferences = s.preferences ∧ s'.written = s.written ∧ s'.secretKeyK = s.secretKeyK ∧
    s'.sentNonce = s.sentNonce ∧ s'.authenticator = s.authenticator ∧
    s'.nukiCommandState = s.nukiCommandState ∧ s'.timeNow = s.timeNow ∧
    s'.pinCode = s.pinCode ∧ s'.isPaired = s.isPaired ∧ s'.bleAddress = s.bleAddress := by
  induction inbound generalizing s with
  | nil =>
    unfold deliver at h
    cases h
    exact ⟨rfl, rfl, rfl, rfl, rfl, rfl, rfl, rfl, rfl, rfl⟩
  | cons x rest ih =>
    obtain ⟨ch, f, d⟩ := x
    unfold deliver at h
    simp only [Option.bind_eq_bind] at h
    obtain ⟨s1, h1, h2⟩ := Option.bind_eq_some.mp h
    obtain ⟨a1, a2, a3, a4, a5, a6, a7, a8, a9, a10⟩ := notifyCallback_frame K box s s1 ch f d h1
    obtain ⟨b1, b2, b3, b4, b5, b6, b7, b8, b9, b10⟩ := ih s1 h2
    exact ⟨b1.trans a1, b2.trans a2, b3.trans a3, b4.trans a4, b5.trans a5, b6.trans a6,
      b7.trans a7, b8.trans a8, b9.trans a9, b10.trans a10⟩

theorem retrieveCredentials_keeps (s : Session) (buff : Bytes) :
    (retrieveCredentials s buff).2.preferences = s.preferences ∧
    (retrieveCredentials s buff).2.sentNonce = s.sentNonce ∧
    (retrieveCredentials s buff).2.isPaired = s.isPaired ∧
    (retrieveCredentials s buff).2.remotePublicKey = s.remotePublicKey ∧
    (retrieveCredentials s buff).2.challengeNonceK = s.challengeNonceK ∧
    (retrieveCredentials s buff).2.authenticator = s.authenticator ∧
    (retrieveCredentials s buff).2.receivedStatus = s.receivedStatus ∧
    (retrieveCredentials s buff).2.timeNow = s.timeNow ∧
    (retrieveCredentials s buff).2.listOfLogEntries = s.listOfLogEntries := by
  unfold retrieveCredentials
  simp only
  split
  · exact ⟨rfl, rfl, rfl, rfl, rfl, rfl, rfl, rfl, rfl⟩
  · split
    · exact ⟨rfl, rfl, rfl, rfl, rfl, rfl, rfl, rfl, rfl⟩
    · split
      · exact ⟨rfl, rfl, rfl, rfl, rfl, rfl, rfl, rfl, rfl⟩
      · split <;> exact ⟨rfl, rfl, rfl, rfl, rfl, rfl, rfl, rfl, rfl⟩

theorem sendPlainMessage_cases (s s' : Session) (t : Tick) (c : Nat) (p : Bytes) (n : Nat)
    (h : sendPlainMessage s t c p n = some s') :
    s' = s ∨ ∃ f, s' = { s with written := s.written ++ [(Characteristic.gdio, f)] } := by
  unfold sendPlainMessage at h
  simp only [Option.bind_eq_bind] at h
  obtain ⟨f, _, h2⟩ := Option.bind_eq_some.mp h
  split at h2
  · cases h2
    exact Or.inr ⟨f, rfl⟩
  · cases h2
    exact Or.inl rfl

theorem sendPlainMessage_frame (s s' : Session) (t : Tick) (c : Nat) (p : Bytes) (n : Nat)
    (h : sendPlainMessage s t c p n = some s') :
    AppendsOn (fun x => x.1 = Characteristic.gdio) s.written s'.written ∧
    s'.preferences = s.preferences ∧ s'.sentNonce = s.sentNonce ∧
    s'.secretKeyK = s.secretKeyK ∧ s'.challengeNonceK = s.challengeNonceK ∧
    s'.authenticator = s.authenticator ∧ s'.isPaired = s.isPaired := by
  rcases sendPlainMessage_cases s s' t c p n h with rfl | ⟨f, rfl⟩
  · exact ⟨AppendsOn.refl _ _, rfl, rfl, rfl, rfl, rfl, rfl⟩
  · exact ⟨AppendsOn.single _ _ rfl, rfl, rfl, rfl, rfl, rfl, rfl⟩

theorem afterSwitch_cases (K : NukiConstants) (s s' : Session) (t : Tick)
    (st st' : NukiPairingState)
    (h : (if K.PAIRING_TIMEOUT < elapsed t.now s.timeNow then some (NukiPairingState.Timeout, s)
      else some (st, s)) = some (st', s')) :
    s' = s ∧ (st' = NukiPairingState.Timeout ∨ st' = st) := by
  split at h
  · cases h
    exact ⟨rfl, Or.inl rfl⟩
  · cases h
    exact ⟨rfl, Or.inr rfl⟩

theorem pairStateMachine_frame (K : NukiConstants) (C : Crypto) (s s' : Session) (t : Tick)
    (st st' : NukiPairingState) (h : pairStateMachine K C s t st = some (st', s')) :
    AppendsOn (fun x => x.1 = Characteristic.gdio) s.written s'.written ∧
    s'.preferences = s.preferences ∧ s'.sentNonce = s.sentNonce ∧
    s'.isPaired = s.isPaired := by
  have base : AppendsOn (fun x => x.1 = Characteristic.gdio) s.written s.written ∧
      s.preferences = s.preferences ∧ s.sentNonce = s.sentNonce ∧ s.isPaired = s.isPaired :=
    ⟨AppendsOn.refl _ _, rfl, rfl, rfl⟩
  cases st <;> simp only [pairStateMachine, Option.bind_eq_bind] at h
  case InitPairing =>
    cases h
    exact base
  case ReqRemPubKey =>
    obtain ⟨s1, h1, h2⟩ := Option.bind_eq_some.mp h
    cases h2
    obtain ⟨a, b, c, _, _, _, d⟩ := sendPlainMessage_frame _ _ _ _ _ _ h1
    exact ⟨a, b, c, d⟩
  case RecRemPubKey =>
    split at h
    · cases h
      exact base
    · obtain ⟨rfl, _⟩ := afterSwitch_cases K s s' t _ st' h
      exact base
  case SendPubKey =>
    obtain ⟨s1, h1, h2⟩ := Option.bind_eq_some.mp h
    cases h2
    obtain ⟨a, b, c, _, _, _, d⟩ := sendPlainMessage_frame _ _ _ _ _ _ h1
    exact ⟨a, b, c, d⟩
  case GenKeyPair =>
    cases h
    exact base
  case CalculateAuth =>
    split at h
    · cases h
      exact base
    · obtain ⟨rfl, _⟩ := afterSwitch_cases K s s' t _ st' h
      exact base
  case SendAuth =>
    obtain ⟨s1, h1, h2⟩ := Option.bind_eq_some.mp h
    cases h2
    obtain ⟨a, b, c, _, _, _, d⟩ := sendPlainMessage_frame _ _ _ _ _ _ h1
    exact ⟨a, b, c, d⟩
  case SendAuthData =>
    split at h
    · split at h
      · cases h
      · obtain ⟨s1, h1, h2⟩ := Option.bind_eq_some.mp h
        cases h2
        obtain ⟨a, b, c, _, _, _, d⟩ := sendPlainMessage_frame _ _ _ _ _ _ h1
        exact ⟨a, b, c, d⟩
    · obtain ⟨rfl, _⟩ := afterSwitch_cases K s s' t _ st' h
      exact base
  case SendAuthIdConf =>
    split at h
    · obtain ⟨s1, h1, h2⟩ := Option.bind_eq_some.mp h
      cases h2
      obtain ⟨a, b, c, _, _, _, d⟩ := sendPlainMessage_frame _ _ _ _ _ _ h1
      exact ⟨a, b, c, d⟩
    · obtain ⟨rfl, _⟩ := afterSwitch_cases K s s' t _ st' h
      exact base
  case RecStatus =>
    split at h
    · cases h
      exact base
    · obtain ⟨rfl, _⟩ := afterSwitch_cases K s s' t _ st' h
      exact base
  case Success =>
    cases h
    exact base
  case Timeout =>
    cases h
    exact base

theorem pairStateMachine_timeout (K : NukiConstants) (C : Crypto) (s s' : Session) (t : Tick)
    (st : NukiPairingState)
    (h : pairStateMachine K C s t st = some (NukiPairingState.Timeout, s')) : s' = s := by
  cases st <;> simp only [pairStateMachine, Option.bind_eq_bind] at h
  case InitPairing => cases h
  case ReqRemPubKey =>
    obtain ⟨s1, h1, h2⟩ := Option.bind_eq_some.mp h
    cases h2
  case RecRemPubKey =>
    split at h
    · cases h
    · exact (afterSwitch_cases K s s' t _ _ h).1
  case SendPubKey =>
    obtain ⟨s1, h1, h2⟩ := Option.bind_eq_some.mp h
    cases h2
  case GenKeyPair => cases h
  case CalculateAuth =>
    split at h
    · cases h
    · exact (afterSwitch_cases K s s' t _ _ h).1
  case SendAuth =>
    obtain ⟨s1, h1, h2⟩ := Option.bind_eq_some.mp h
    cases h2
  case SendAuthData =>
    split at h
    · split at h
      · cases h
      · obtain ⟨s1, h1, h2⟩ := Option.bind_eq_some.mp h
        cases h2
    · exact (afterSwitch_cases K s s' t _ _ h).1
  case SendAuthIdConf =>
    split at h
    · obtain ⟨s1, h1, h2⟩ := Option.bind_eq_some.mp h
      cases h2
    · exact (afterSwitch_cases K s s' t _ _ h).1
  case RecStatus =>
    split at h
    · cases h
    · exact (afterSwitch_cases K s s' t _ _ h).1
  case Success =>
    cases h
    rfl
  case Timeout =>
    cases h
    rfl

theorem pairLoop_frame (K : NukiConstants) (C : Crypto) (box : SecretBox) (ticks : List Tick)
    (st st' : NukiPairingState) (s s' : Session)
    (h : pairLoop K C box st s ticks = some (st', s')) :
    AppendsOn (fun x => x.1 = Characteristic.gdio) s.written s'.written ∧
    s'.preferences = s.preferences ∧ s'.sentNonce = s.sentNonce ∧
    s'.isPaired = s.isPaired := by
  induction ticks generalizing st s with
  | nil =>
    unfold pairLoop at h
    cases h
    exact ⟨AppendsOn.refl _ _, rfl, rfl, rfl⟩
  | cons t ts ih =>
    unfold pairLoop at h
    simp only [Option.bind_eq_bind] at h
    obtain ⟨r, h1, h2⟩ := Option.bind_eq_some.mp h
    obtain ⟨s1, h3, h4⟩ := Option.bind_eq_some.mp h2
    obtain ⟨st1, s0⟩ := r
    obtain ⟨a1, a2, a3, a4⟩ := pairStateMachine_frame K C s s0 t st st1 h1
    obtain ⟨b1, b2, _, b4, _, _, _, _, b9, _⟩ := deliver_frame K box t.inbound s0 s1 h3
    have hs1 : AppendsOn (fun x => x.1 = Characteristic.gdio) s.written s1.written ∧
        s1.preferences = s.preferences ∧ s1.sentNonce = s.sentNonce ∧
        s1.isPaired = s.isPaired := by
      refine ⟨?_, b1.trans a2, b4.trans a3, b9.trans a4⟩
      rw [b2]
      exact a1
    split at h4
    · cases h4
      exact hs1
    · obtain ⟨c1, c2, c3, c4⟩ := ih st1 s1 h4
      exact ⟨hs1.1.trans c1, c2.trans hs1.2.1, c3.trans hs1.2.2.1, c4.trans hs1.2.2.2⟩

/-- C13: if `retrieveCredentials` succeeds, `pairNuki` returns true with
`isPaired = true`, whatever the link and the schedule are: the session is the
one `retrieveCredentials` left, so no frame is written, the store is not
written and no member a pairing step writes (`remotePublicKey`,
`challengeNonceK`, `receivedStatus`, `timeNow`, `authenticator`) changes. -/
theorem pairNuki_noop_when_credentials (K : NukiConstants) (C : Crypto) (box : SecretBox)
    (s : Session) (buff : Bytes) (connected : Bool) (canWrite : String → Bool)
    (ticks : List Tick) (h : (retrieveCredentials s buff).1 = true) :
    ∃ s', pairNuki K C box s buff connected canWrite ticks = some (some true, s') ∧
      s' = { (retrieveCredentials s buff).2 with isPaired := true } ∧
      s'.isPaired = true ∧ s'.written = s.written ∧ s'.preferences = s.preferences ∧
      s'.remotePublicKey = s.remotePublicKey ∧ s'.challengeNonceK = s.challengeNonceK ∧
      s'.receivedStatus = s.receivedStatus ∧ s'.timeNow = s.timeNow ∧
      s'.authenticator = s.authenticator := by
  obtain ⟨a1, _, _, a4, a5, a6, a7, a8, _⟩ := retrieveCredentials_keeps s buff
  refine ⟨_, ?_, rfl, rfl, (retrieveCredentials_frame s buff).1, a1, a4, a5, a7, a8, a6⟩
  unfold pairNuki
  simp only [h, if_true]

/-- Witness of C13 on `pairedSession`, with the link up and a lock that would
answer every pairing step. -/
theorem pairNuki_noop_when_credentials_witness :
    (retrieveCredentials pairedSession []).1 = true ∧
    ∃ s', pairNuki sampleConstants sampleCrypto tagBox pairedSession [] true (fun _ => true)
        cooperativeLock = some (some true, s') ∧
      s' = { (retrieveCredentials pairedSession []).2 with isPaired := true } ∧
      s'.isPaired = true ∧ s'.written = pairedSession.written ∧
      s'.preferences = pairedSession.preferences ∧
      s'.remotePublicKey = pairedSession.remotePublicKey ∧
      s'.challengeNonceK = pairedSession.challengeNonceK ∧
      s'.receivedStatus = pairedSession.receivedStatus ∧ s'.timeNow = pairedSession.timeNow ∧
      s'.authenticator = pairedSession.authenticator :=
  ⟨by decide,
   pairNuki_noop_when_credentials sampleConstants sampleCrypto tagBox pairedSession [] true
    (fun _ => true) cooperativeLock (by decide)⟩

/-- C14: when `retrieveCredentials` fails, `pairNuki` calls `saveCredentials`
exactly when the pairing loop ends in `Success` (it then returns true with
`isPaired = true`); when no address was discovered, the connection failed or
the loop ends in `Timeout`, the store is unchanged, `pairNuki` returns false
and `isPaired` is false.  Up to `saveCredentials` the store is never written. -/
theorem pairNuki_persists_only_on_success (K : NukiConstants) (C : Crypto) (box : SecretBox)
    (s : Session) (buff : Bytes) (connected : Bool) (canWrite : String → Bool)
    (ticks : List Tick) (hfail : (retrieveCredentials s buff).1 = false) :
    ((retrieveCredentials s buff).2.bleAddress = List.replicate 6 0 ∨ connected = false →
      ∃ s', pairNuki K C box s buff connected canWrite ticks = some (some false, s') ∧
        s'.preferences = s.preferences ∧ s'.isPaired = false) ∧
    (∀ st e, (retrieveCredentials s buff).2.bleAddress ≠ List.replicate 6 0 →
      connected = true →
      pairLoop K C box NukiPairingState.InitPairing (retrieveCredentials s buff).2 ticks =
        some (st, e) →
      e.preferences = s.preferences ∧
      (st = NukiPairingState.Success →
        pairNuki K C box s buff connected canWrite ticks =
          some (some true, { saveCredentials e canWrite with isPaired := true })) ∧
      (st = NukiPairingState.Timeout →
        pairNuki K C box s buff connected canWrite ticks =
          some (some false, { e with isPaired := false })) ∧
      (st ≠ NukiPairingState.Success → st ≠ NukiPairingState.Timeout →
        pairNuki K C box s buff connected canWrite ticks = some (none, e))) := by
  have hp := (retrieveCredentials_keeps s buff).1
  constructor
  · intro hno
    refine ⟨{ (retrieveCredentials s buff).2 with isPaired := false }, ?_, hp, rfl⟩
    unfold pairNuki
    simp only [hfail, Bool.false_eq_true, if_false]
    rcases hno with h0 | h0
    · simp only [h0, ne_eq, not_true_eq_false, if_false]
    · simp only [h0, Bool.false_eq_true, if_false, ite_self]
  · intro st e haddr hconn hloop
    obtain ⟨_, b2, _, _⟩ := pairLoop_frame K C box ticks _ st _ e hloop
    refine ⟨b2.trans hp, ?_, ?_, ?_⟩
    · intro hst
      subst hst
      unfold pairNuki
      simp only [hfail, Bool.false_eq_true, if_false, ne_eq, haddr, not_false_eq_true, if_true,
        hconn, hloop, Option.bind_eq_bind, Option.some_bind]
    · intro hst
      subst hst
      unfold pairNuki
      simp only [hfail, Bool.false_eq_true, if_false, ne_eq, haddr, not_false_eq_true, if_true,
        hconn, hloop, Option.bind_eq_bind, Option.some_bind]
    · intro h1 h2
      unfold pairNuki
      simp only [hfail, Bool.false_eq_true, if_false, ne_eq, haddr, not_false_eq_true, if_true,
        hconn, hloop, Option.bind_eq_bind, Option.some_bind]

/-- Witness of C14: `unpairedSession` with the connection failing. -/
theorem pairNuki_persists_only_on_success_witness :
    (retrieveCredentials unpairedSession []).1 = false ∧
    ∃ s', pairNuki sampleConstants sampleCrypto tagBox unpairedSession [] false (fun _ => true)
        cooperativeLock = some (some false, s') ∧
      s'.preferences = unpairedSession.preferences ∧ s'.isPaired = false :=
  ⟨by decide,
   (pairNuki_persists_only_on_success sampleConstants sampleCrypto tagBox unpairedSession []
    false (fun _ => true) cooperativeLock (by decide)).1 (Or.inr rfl)⟩

/-- The pairing-timeout scenario of the specification on the model: a lock that
never answers gives false with the store unchanged. -/
theorem pairNuki_timeout_scenario :
    (pairNuki sampleConstants sampleCrypto tagBox unpairedSession [] true (fun _ => true)
        silentLock).map (fun r => (r.1, r.2.isPaired, r.2.preferences)) =
      some (some false, false, []) := by
  decide

/-- C20 fails as stated: `unPairNuki` leaves the key of `pairedSession` (32
bytes `7`) in `secretKeyK`; and after the pairing run `lockSilentAfterKey`,
which ends in `Timeout`, `pairNuki` returns false while `secretKeyK` holds the
key derived in `GenKeyPair` (32 bytes `AD`), not zeros. -/
theorem secrets_not_zeroized :
    (unPairNuki pairedSession).secretKeyK = List.replicate 32 7 ∧
    (unPairNuki pairedSession).secretKeyK ≠ List.replicate 32 0 ∧
    (pairNuki sampleConstants sampleCrypto tagBox unpairedSession [] true (fun _ => true)
        lockSilentAfterKey).map (fun r => (r.1, r.2.secretKeyK)) =
      some (some false, List.replicate 32 0xAD) := by
  refine ⟨by decide, by decide, by decide⟩

/-- C20 as amended: nothing is zeroized in memory.  `unPairNuki` leaves
`secretKeyK`, `challengeNonceK` and `authenticator` as they were; a pairing
step that returns `Timeout` changes no member; and when the pairing loop ends
in `Timeout`, `pairNuki` returns false with the three buffers as the loop left
them. -/
theorem no_zeroization (K : NukiConstants) (C : Crypto) (box : SecretBox) (s : Session)
    (buff : Bytes) (canWrite : String → Bool) (ticks : List Tick) (t : Tick)
    (st : NukiPairingState) :
    ((unPairNuki s).secretKeyK = s.secretKeyK ∧
      (unPairNuki s).challengeNonceK = s.challengeNonceK ∧
      (unPairNuki s).authenticator = s.authenticator) ∧
    (∀ s', pairStateMachine K C s t st = some (NukiPairingState.Timeout, s') → s' = s) ∧
    (∀ e, (retrieveCredentials s buff).1 = false →
      (retrieveCredentials s buff).2.bleAddress ≠ List.replicate 6 0 →
      pairLoop K C box NukiPairingState.InitPairing (retrieveCredentials s buff).2 ticks =
        some (NukiPairingState.Timeout, e) →
      ∃ s', pairNuki K C box s buff true canWrite ticks = some (some false, s') ∧
        s'.secretKeyK = e.secretKeyK ∧ s'.challengeNonceK = e.challengeNonceK ∧
        s'.authenticator = e.authenticator) := by
  refine ⟨⟨rfl, rfl, rfl⟩, fun s' h => pairStateMachine_timeout K C s s' t st h, ?_⟩
  intro e hfail haddr hloop
  refine ⟨{ e with isPaired := false }, ?_, rfl, rfl, rfl⟩
  unfold pairNuki
  simp only [hfail, Bool.false_eq_true, if_false, ne_eq, haddr, not_false_eq_true, if_true,
    hloop, Option.bind_eq_bind, Option.some_bind]

/-- Witness of the amended C20: the step taken 40 seconds after the request,
while the challenge is awaited, returns `Timeout` and changes nothing. -/
theorem no_zeroization_witness :
    pairStateMachine sampleConstants sampleCrypto unpairedSession (tickAt 40000 [])
        NukiPairingState.CalculateAuth = some (NukiPairingState.Timeout, unpairedSession) ∧
    (unPairNuki pairedSession).secretKeyK = pairedSession.secretKeyK :=
  ⟨by decide,
   (no_zeroization sampleConstants sampleCrypto tagBox pairedSession [] (fun _ => true) []
    (tickAt 0 []) NukiPairingState.InitPairing).1.1⟩

/-! ## The claims on the command state machines -/

theorem sendEncryptedMessage_cases (box : SecretBox) (s s' : Session) (t : Tick) (c : Nat)
    (p : Bytes) (n : Nat) (h : sendEncryptedMessage box s t c p n = some s') :
    s' = { s with sentNonce := t.nonce } ∨
    ∃ f, encryptedFrame box s t.nonce c p (n % 256) = some (some f) ∧
      s' = { s with sentNonce := t.nonce,
                    written := s.written ++ [(Characteristic.usdio, f)] } := by
  unfold sendEncryptedMessage at h
  simp only [Option.bind_eq_bind] at h
  obtain ⟨fr, h1, h2⟩ := Option.bind_eq_some.mp h
  cases fr with
  | none =>
    cases h2
    exact Or.inl rfl
  | some f =>
    simp only at h2
    split at h2
    · cases h2
      exact Or.inr ⟨f, h1, rfl⟩
    · cases h2
      exact Or.inl rfl

theorem sendEncryptedMessage_frame (box : SecretBox) (s s' : Session) (t : Tick) (c : Nat)
    (p : Bytes) (n : Nat) (h : sendEncryptedMessage box s t c p n = some s') :
    AppendsOn (SealedUnder box s.secretKeyK) s.written s'.written ∧
    s'.secretKeyK = s.secretKeyK ∧ s'.challengeNonceK = s.challengeNonceK ∧
    s'.preferences = s.preferences ∧ s'.nukiCommandState = s.nukiCommandState ∧
    s'.lastMsgCodeReceived = s.lastMsgCodeReceived ∧ s'.crcCheckOke = s.crcCheckOke ∧
    s'.timeNow = s.timeNow ∧ s'.listOfLogEntries = s.listOfLogEntries ∧
    s'.errorCode = s.errorCode := by
  rcases sendEncryptedMessage_cases box s s' t c p n h with rfl | ⟨f, hf, rfl⟩
  · exact ⟨AppendsOn.refl _ _, rfl, rfl, rfl, rfl, rfl, rfl, rfl, rfl, rfl⟩
  · exact ⟨AppendsOn.single _ _ ⟨rfl, s, t.nonce, c, p, n % 256, rfl, hf⟩, rfl, rfl, rfl, rfl,
      rfl, rfl, rfl, rfl, rfl⟩

/-- C19 fails as stated: the step `ChallengeRespReceived` of
`cmdChallStateMachine` puts the nonce of 32 bytes `DD` into the frame it
writes and returns with `challengeNonceK` still holding it. -/
theorem challenge_nonce_kept_after_use :
    (cmdChallStateMachine sampleConstants tagBox challengedSession sampleTick lockActionSample
        true).map (fun r => (r.1, r.2.challengeNonceK, r.2.written.length)) =
      some (NukiCmdResult.Working, List.replicate 32 0xDD, 1) ∧
    List.replicate 32 0xDD ≠ List.replicate 32 0 := by
  refine ⟨by decide, by decide⟩

/-- C19 as amended: the pairing steps `CalculateAuth` and `SendAuthData`, when
they use `challengeNonceK`, leave it all-zero; the pairing step
`SendAuthIdConf` and the step `ChallengeRespReceived` of `cmdChallStateMachine`
and of `cmdChallAccStateMachine` use it and leave it as it was. -/
theorem challenge_nonce_after_use (K : NukiConstants) (C : Crypto) (box : SecretBox)
    (s s' : Session) (t : Tick) (action : NukiAction) (sendPinCode : Bool) (r : NukiCmdResult) :
    (pairStateMachine K C s t NukiPairingState.CalculateAuth =
        some (NukiPairingState.SendAuth, s') → s'.challengeNonceK = List.replicate 32 0) ∧
    (pairStateMachine K C s t NukiPairingState.SendAuthData =
        some (NukiPairingState.SendAuthIdConf, s') →
      s'.challengeNonceK = List.replicate 32 0) ∧
    (pairStateMachine K C s t NukiPairingState.SendAuthIdConf =
        some (NukiPairingState.RecStatus, s') → s'.challengeNonceK = s.challengeNonceK) ∧
    (s.nukiCommandState = NukiCommandState.ChallengeRespReceived →
      cmdChallStateMachine K box s t action sendPinCode = some (r, s') →
      s'.challengeNonceK = s.challengeNonceK) ∧
    (s.nukiCommandState = NukiCommandState.ChallengeRespReceived →
      cmdChallAccStateMachine K box s t action = some (r, s') →
      s'.challengeNonceK = s.challengeNonceK) := by
  refine ⟨?_, ?_, ?_, ?_, ?_⟩
  · intro h
    simp only [pairStateMachine] at h
    split at h
    · cases h
      rfl
    · cases (afterSwitch_cases K s s' t _ _ h).2 <;> rename_i h' <;> cases h'
  · intro h
    simp only [pairStateMachine, Option.bind_eq_bind] at h
    split at h
    · split at h
      · cases h
      · obtain ⟨s1, h1, h2⟩ := Option.bind_eq_some.mp h
        cases h2
        exact (sendPlainMessage_frame _ _ _ _ _ _ h1).2.2.2.2.1
    · cases (afterSwitch_cases K s s' t _ _ h).2 <;> rename_i h' <;> cases h'
  · intro h
    simp only [pairStateMachine, Option.bind_eq_bind] at h
    split at h
    · obtain ⟨s1, h1, h2⟩ := Option.bind_eq_some.mp h
      cases h2
      exact (sendPlainMessage_frame _ _ _ _ _ _ h1).2.2.2.2.1
    · cases (afterSwitch_cases K s s' t _ _ h).2 <;> rename_i h' <;> cases h'
  · intro hst h
    unfold cmdChallStateMachine at h
    rw [hst] at h
    cases sendPinCode
    · simp only [Option.bind_eq_bind, Bool.false_eq_true, if_false, false_and] at h
      obtain ⟨a, _, h2⟩ := Option.bind_eq_some.mp h
      split at h2
      · cases h2
      · obtain ⟨s2, h3, h4⟩ := Option.bind_eq_some.mp h2
        cases h4
        exact (sendEncryptedMessage_frame _ _ _ _ _ _ _ h3).2.2.1
    · simp only [Option.bind_eq_bind, if_true, true_and] at h
      obtain ⟨a, _, h2⟩ := Option.bind_eq_some.mp h
      split at h2
      · cases h2
      · split at h2
        · cases h2
        · obtain ⟨s2, h3, h4⟩ := Option.bind_eq_some.mp h2
          cases h4
          exact (sendEncryptedMessage_frame _ _ _ _ _ _ _ h3).2.2.1
  · intro hst h
    unfold cmdChallAccStateMachine at h
    rw [hst] at h
    simp only [Option.bind_eq_bind] at h
    obtain ⟨a, _, h2⟩ := Option.bind_eq_some.mp h
    split at h2
    · cases h2
    · obtain ⟨s2, h3, h4⟩ := Option.bind_eq_some.mp h2
      cases h4
      exact (sendEncryptedMessage_frame _ _ _ _ _ _ _ h3).2.2.1

/-- Witness of the amended C19 on `challengedSession`: the step
`ChallengeRespReceived` of `cmdChallAccStateMachine` keeps the nonce. -/
theorem challenge_nonce_after_use_witness :
    challengedSession.nukiCommandState = NukiCommandState.ChallengeRespReceived ∧
    ∃ s', cmdChallAccStateMachine sampleConstants tagBox challengedSession sampleTick
        lockActionSample = some (NukiCmdResult.Working, s') ∧
      s'.challengeNonceK = challengedSession.challengeNonceK := by
  refine ⟨by decide, ?_⟩
  have hs : ∃ s', cmdChallAccStateMachine sampleConstants tagBox challengedSession sampleTick
      lockActionSample = some (NukiCmdResult.Working, s') := by
    cases h : cmdChallAccStateMachine sampleConstants tagBox challengedSession sampleTick
        lockActionSample with
    | none => exact absurd h (by decide)
    | some r =>
      obtain ⟨r1, s'⟩ := r
      have h1 : (cmdChallAccStateMachine sampleConstants tagBox challengedSession sampleTick
          lockActionSample).map Prod.fst = some NukiCmdResult.Working := by decide
      rw [h] at h1
      simp only [Option.map_some', Option.some.injEq] at h1
      subst h1
      exact ⟨s', rfl⟩
  obtain ⟨s', hs'⟩ := hs
  exact ⟨s', hs',
    (challenge_nonce_after_use sampleConstants sampleCrypto tagBox challengedSession s'
      sampleTick lockActionSample false NukiCmdResult.Working).2.2.2.2 (by decide) hs'⟩

theorem handleReturnMessage_ErrorReport (K : NukiConstants) (s : Session) (e : Nat)
    (rest : Bytes) :
    handleReturnMessage K s NukiCommand.ErrorReport (e :: rest) =
      some { s with lastMsgCodeReceived := NukiCommand.ErrorReport, errorCode := e } := by
  simp [handleReturnMessage, NukiCommand.ErrorReport, NukiCommand.PublicKey,
    NukiCommand.Challenge, NukiCommand.AuthorizationId, NukiCommand.AuthorizationEntry,
    NukiCommand.KeyturnerStates, NukiCommand.Status, NukiCommand.BatteryReport, readBytes]

theorem cmdStateMachine_CmdSent_error (K : NukiConstants) (box : SecretBox) (s : Session)
    (t : Tick) (action : NukiAction) (hstate : s.nukiCommandState = NukiCommandState.CmdSent)
    (hlast : s.lastMsgCodeReceived = NukiCommand.ErrorReport)
    (ht : ¬ K.CMD_TIMEOUT < elapsed t.now s.timeNow) :
    cmdStateMachine K box s t action =
      some (NukiCmdResult.Failed,
        { s with nukiCommandState := NukiCommandState.Idle, lastMsgCodeReceived := K.Empty }) := by
  unfold cmdStateMachine
  simp only [hstate]
  rw [if_neg ht, if_neg (by rw [hlast]; simp), if_pos hlast]

/-- C15: for every error byte `e`, when a CRC-valid `ErrorReport` whose first
payload byte is `e` is dispatched while `cmdStateMachine` waits in `CmdSent`,
the next step before the deadline returns `Failed`, so the loop of
`executeAction` returns `Failed`, the machine is back in `Idle`, and
`getLastError` returns `e`. -/
theorem errorReport_fails_plain_command (K : NukiConstants) (box : SecretBox) (s : Session)
    (ch : Characteristic) (frame d : Bytes) (e : Nat) (rest : Bytes) (t : Tick) (ts : List Tick)
    (action : NukiAction) (hstate : s.nukiCommandState = NukiCommandState.CmdSent)
    (hd : notifyDispatch box s ch frame d =
      some (Dispatch.accepted NukiCommand.ErrorReport (e :: rest)))
    (ht : ¬ K.CMD_TIMEOUT < elapsed t.now s.timeNow) :
    ∃ s1 s2, notifyCallback K box s ch frame d = some s1 ∧
      cmdStateMachine K box s1 t action = some (NukiCmdResult.Failed, s2) ∧
      runLoop K box (fun s t => cmdStateMachine K box s t action) s1 (t :: ts) =
        some (NukiCmdResult.Failed, s2) ∧
      getLastError s2 = e ∧ s2.nukiCommandState = NukiCommandState.Idle := by
  have h1 := notifyCallback_of_accepted K box s ch frame d _ _ hd
  rw [handleReturnMessage_handedOver K _ _ ch (e :: rest) d (by
      rw [handlerReads_ErrorReport]
      exact Nat.succ_le_succ (Nat.zero_le _)),
    handleReturnMessage_ErrorReport] at h1
  have h2 := cmdStateMachine_CmdSent_error K box
    { s with crcCheckOke := true, lastMsgCodeReceived := NukiCommand.ErrorReport,
             errorCode := e } t action hstate rfl ht
  refine ⟨_, _, h1, h2, ?_, rfl, rfl⟩
  unfold runLoop
  simp only [Option.bind_eq_bind]
  rw [h2]
  simp

/-- Witness of C15, the scenario of the specification: `ErrorReport` with
error byte `0x20` arrives, sealed, while the request is awaited. -/
theorem errorReport_fails_plain_command_witness :
    ∃ s1 s2,
      notifyCallback sampleConstants tagBox
          { pairedSession with nukiCommandState := NukiCommandState.CmdSent }
          (sealedReply 0x12 [0x20, 0x0C, 0x00]).1 (sealedReply 0x12 [0x20, 0x0C, 0x00]).2.1 []
        = some s1 ∧
      cmdStateMachine sampleConstants tagBox s1 (commandTick 50 [])
          ⟨NukiCommandType.Command, 0x01, [0x0C, 0x00], 2⟩ = some (NukiCmdResult.Failed, s2) ∧
      runLoop sampleConstants tagBox
          (fun s t => cmdStateMachine sampleConstants tagBox s t
            ⟨NukiCommandType.Command, 0x01, [0x0C, 0x00], 2⟩) s1 (commandTick 50 [] :: []) =
        some (NukiCmdResult.Failed, s2) ∧
      getLastError s2 = 0x20 ∧ s2.nukiCommandState = NukiCommandState.Idle :=
  errorReport_fails_plain_command sampleConstants tagBox
    { pairedSession with nukiCommandState := NukiCommandState.CmdSent }
    (sealedReply 0x12 [0x20, 0x0C, 0x00]).1 (sealedReply 0x12 [0x20, 0x0C, 0x00]).2.1 [] 0x20
    [0x0C, 0x00] (commandTick 50 []) [] ⟨NukiCommandType.Command, 0x01, [0x0C, 0x00], 2⟩
    (by decide) (by decide) (by decide)

/-- The error scenario of the specification end to end: the request for the
keyturner states is answered by `ErrorReport` with error byte `0x20`;
`executeAction` returns `Failed` and `getLastError` returns `0x20`. -/
theorem errorReport_scenario :
    (executeAction sampleConstants tagBox pairedSession
        ⟨NukiCommandType.Command, 0x01, [0x0C, 0x00], 2⟩ []
        [commandTick 0 [sealedReply 0x12 [0x20, 0x0C, 0x00]], commandTick 50 []]).map
      (fun r => (r.1, getLastError r.2, r.2.nukiCommandState)) =
      some (NukiCmdResult.Failed, 0x20, NukiCommandState.Idle) := by
  decide

theorem cmdChallAcc_CmdSent_ignores_Status (K : NukiConstants) (box : SecretBox) (s : Session)
    (t : Tick) (action : NukiAction) (hstate : s.nukiCommandState = NukiCommandState.CmdSent)
    (hlast : s.lastMsgCodeReceived = NukiCommand.Status)
    (ht : ¬ K.CMD_TIMEOUT < elapsed t.now s.timeNow) :
    cmdChallAccStateMachine K box s t action = some (NukiCmdResult.Working, s) := by
  unfold cmdChallAccStateMachine
  simp only [hstate]
  rw [if_neg ht, if_neg (by rw [hlast]; decide)]

/-- C16, the code at a failing input: against the lock of the specification
(Challenge, then Status `01`, then Status `00`, all sealed and CRC-valid) the
action is still `Working` in state `CmdSent` after both Status messages were
dispatched (`receivedStatus` is 0), and the step taken after the deadline
returns `TimeOut`, not `Success`: the step compares `lastMsgCodeReceived`, the
command id `0x0E`, with the status value 1. -/
theorem accept_handshake_times_out :
    (executeAction sampleConstants tagBox pairedSession lockActionSample [] acceptingLock).map
      (fun r => (r.1, r.2.nukiCommandState, r.2.lastMsgCodeReceived, r.2.receivedStatus)) =
      some (NukiCmdResult.Working, NukiCommandState.CmdSent, 0x0E, 0) ∧
    (executeAction sampleConstants tagBox pairedSession lockActionSample []
        (acceptingLock ++ [commandTick 6000 []])).map
      (fun r => (r.1, r.2.nukiCommandState, r.2.receivedStatus)) =
      some (NukiCmdResult.TimeOut, NukiCommandState.Idle, 0) := by
  refine ⟨by decide, by decide⟩

/-- C17 fails as stated: with `ErrorReport` as the last message code and the
deadline not passed, the step of `cmdChallAccStateMachine` in `ChallengeSent`
and in `CmdSent` returns `Working` and leaves the session as it is. -/
theorem errorReport_ignored_while_waiting :
    cmdChallAccStateMachine sampleConstants tagBox (errorReported NukiCommandState.ChallengeSent)
        (commandTick 50 []) lockActionSample =
      some (NukiCmdResult.Working, errorReported NukiCommandState.ChallengeSent) ∧
    cmdChallAccStateMachine sampleConstants tagBox (errorReported NukiCommandState.CmdSent)
        (commandTick 50 []) lockActionSample =
      some (NukiCmdResult.Working, errorReported NukiCommandState.CmdSent) ∧
    (errorReported NukiCommandState.CmdSent).lastMsgCodeReceived = NukiCommand.ErrorReport := by
  refine ⟨by decide, by decide, by decide⟩

/-- C17 as amended: in `cmdChallAccStateMachine`, with `ErrorReport` as the
last message code and the deadline not passed, the step in `CmdAccepted`
returns `Failed` and the machine returns to `Idle`; the step in
`ChallengeSent` does not look at it: it returns `Working` and the machine
stays in `ChallengeSent`. -/
theorem errorReport_in_accept_variant (K : NukiConstants) (box : SecretBox) (s : Session)
    (t : Tick) (action : NukiAction)
    (hlast : s.lastMsgCodeReceived = NukiCommand.ErrorReport)
    (ht : ¬ K.CMD_TIMEOUT < elapsed t.now s.timeNow) :
    (s.nukiCommandState = NukiCommandState.CmdAccepted →
      cmdChallAccStateMachine K box s t action =
        some (NukiCmdResult.Failed,
          { s with nukiCommandState := NukiCommandState.Idle, lastMsgCodeReceived := K.Empty })) ∧
    (s.nukiCommandState = NukiCommandState.ChallengeSent →
      cmdChallAccStateMachine K box s t action = some (NukiCmdResult.Working, s)) := by
  constructor
  · intro hstate
    unfold cmdChallAccStateMachine
    simp only [hstate]
    rw [if_neg ht, if_pos hlast]
  · intro hstate
    unfold cmdChallAccStateMachine
    simp only [hstate]
    rw [if_neg ht, if_neg (by rw [hlast]; decide)]

/-- Witness of the amended C17 on `pairedSession` in `CmdAccepted`. -/
theorem errorReport_in_accept_variant_witness :
    (errorReported NukiCommandState.CmdAccepted).lastMsgCodeReceived = NukiCommand.ErrorReport ∧
    cmdChallAccStateMachine sampleConstants tagBox (errorReported NukiCommandState.CmdAccepted)
        (commandTick 50 []) lockActionSample =
      some (NukiCmdResult.Failed,
        { errorReported NukiCommandState.CmdAccepted with
          nukiCommandState := NukiCommandState.Idle,
          lastMsgCodeReceived := sampleConstants.Empty }) :=
  ⟨by decide,
   (errorReport_in_accept_variant sampleConstants tagBox
    (errorReported NukiCommandState.CmdAccepted) (commandTick 50 []) lockActionSample (by decide)
    (by decide)).1 (by decide)⟩

/-! ## The claims on whole runs -/

theorem cmdStateMachine_seals (K : NukiConstants) (box : SecretBox) (action : NukiAction)
    (s s' : Session) (t : Tick) (r : NukiCmdResult)
    (h : cmdStateMachine K box s t action = some (r, s')) :
    AppendsOn (SealedUnder box s.secretKeyK) s.written s'.written ∧
    s'.secretKeyK = s.secretKeyK := by
  unfold cmdStateMachine at h
  split at h
  · simp only [Option.bind_eq_bind] at h
    obtain ⟨s2, h1, h2⟩ := Option.bind_eq_some.mp h
    cases h2
    obtain ⟨a, b, _⟩ := sendEncryptedMessage_frame _ _ _ _ _ _ _ h1
    exact ⟨a, b⟩
  · split at h
    · cases h
      exact ⟨AppendsOn.refl _ _, rfl⟩
    · split at h
      · cases h
        exact ⟨AppendsOn.refl _ _, rfl⟩
      · split at h
        · cases h
          exact ⟨AppendsOn.refl _ _, rfl⟩
        · cases h
          exact ⟨AppendsOn.refl _ _, rfl⟩
  · cases h
    exact ⟨AppendsOn.refl _ _, rfl⟩

theorem cmdChallStateMachine_seals (K : NukiConstants) (box : SecretBox) (action : NukiAction)
    (pin : Bool) (s s' : Session) (t : Tick) (r : NukiCmdResult)
    (h : cmdChallStateMachine K box s t action pin = some (r, s')) :
    AppendsOn (SealedUnder box s.secretKeyK) s.written s'.written ∧
    s'.secretKeyK = s.secretKeyK := by
  unfold cmdChallStateMachine at h
  split at h
  · simp only [Option.bind_eq_bind] at h
    obtain ⟨s2, h1, h2⟩ := Option.bind_eq_some.mp h
    cases h2
    obtain ⟨a, b, _⟩ := sendEncryptedMessage_frame _ _ _ _ _ _ _ h1
    exact ⟨a, b⟩
  · split at h
    · cases h
      exact ⟨AppendsOn.refl _ _, rfl⟩
    · split at h
      · cases h
        exact ⟨AppendsOn.refl _ _, rfl⟩
      · cases h
        exact ⟨AppendsOn.refl _ _, rfl⟩
  · cases pin
    · simp only [Option.bind_eq_bind, Bool.false_eq_true, if_false, false_and] at h
      obtain ⟨a, _, h2⟩ := Option.bind_eq_some.mp h
      split at h2
      · cases h2
      · obtain ⟨s2, h3, h4⟩ := Option.bind_eq_some.mp h2
        cases h4
        obtain ⟨a, b, _⟩ := sendEncryptedMessage_frame _ _ _ _ _ _ _ h3
        exact ⟨a, b⟩
    · simp only [Option.bind_eq_bind, if_true, true_and] at h
      obtain ⟨a, _, h2⟩ := Option.bind_eq_some.mp h
      split at h2
      · cases h2
      · split at h2
        · cases h2
        · obtain ⟨s2, h3, h4⟩ := Option.bind_eq_some.mp h2
          cases h4
          obtain ⟨a, b, _⟩ := sendEncryptedMessage_frame _ _ _ _ _ _ _ h3
          exact ⟨a, b⟩
  · split at h
    · cases h
      exact ⟨AppendsOn.refl _ _, rfl⟩
    · split at h
      · cases h
        exact ⟨AppendsOn.refl _ _, rfl⟩
      · split at h
        · cases h
          exact ⟨AppendsOn.refl _ _, rfl⟩
        · cases h
          exact ⟨AppendsOn.refl _ _, rfl⟩
  · cases h
    exact ⟨AppendsOn.refl _ _, rfl⟩

theorem cmdChallAccStateMachine_seals (K : NukiConstants) (box : SecretBox)
    (action : NukiAction) (s s' : Session) (t : Tick) (r : NukiCmdResult)
    (h : cmdChallAccStateMachine K box s t action = some (r, s')) :
    AppendsOn (SealedUnder box s.secretKeyK) s.written s'.written ∧
    s'.secretKeyK = s.secretKeyK := by
  unfold cmdChallAccStateMachine at h
  split at h
  · simp only [Option.bind_eq_bind] at h
    obtain ⟨s2, h1, h2⟩ := Option.bind_eq_some.mp h
    cases h2
    obtain ⟨a, b, _⟩ := sendEncryptedMessage_frame _ _ _ _ _ _ _ h1
    exact ⟨a, b⟩
  · split at h
    · cases h
      exact ⟨AppendsOn.refl _ _, rfl⟩
    · split at h
      · cases h
        exact ⟨AppendsOn.refl _ _, rfl⟩
      · cases h
        exact ⟨AppendsOn.refl _ _, rfl⟩
  · simp only [Option.bind_eq_bind] at h
    obtain ⟨a, _, h2⟩ := Option.bind_eq_some.mp h
    split at h2
    · cases h2
    · obtain ⟨s2, h3, h4⟩ := Option.bind_eq_some.mp h2
      cases h4
      obtain ⟨a, b, _⟩ := sendEncryptedMessage_frame _ _ _ _ _ _ _ h3
      exact ⟨a, b⟩
  · split at h
    · cases h
      exact ⟨AppendsOn.refl _ _, rfl⟩
    · split at h
      · cases h
        exact ⟨AppendsOn.refl _ _, rfl⟩
      · cases h
        exact ⟨AppendsOn.refl _ _, rfl⟩
  · split at h
    · cases h
      exact ⟨AppendsOn.refl _ _, rfl⟩
    · split at h
      · cases h
        exact ⟨AppendsOn.refl _ _, rfl⟩
      · split at h
        · cases h
          exact ⟨AppendsOn.refl _ _, rfl⟩
        · cases h
          exact ⟨AppendsOn.refl _ _, rfl⟩

theorem runLoop_seals (K : NukiConstants) (box : SecretBox)
    (step : Session → Tick → Option (NukiCmdResult × Session))
    (hstep : ∀ s t r s', step s t = some (r, s') →
      AppendsOn (SealedUnder box s.secretKeyK) s.written s'.written ∧
      s'.secretKeyK = s.secretKeyK)
    (ticks : List Tick) (s s' : Session) (r : NukiCmdResult)
    (h : runLoop K box step s ticks = some (r, s')) :
    AppendsOn (SealedUnder box s.secretKeyK) s.written s'.written ∧
    s'.secretKeyK = s.secretKeyK := by
  induction ticks generalizing s with
  | nil =>
    unfold runLoop at h
    cases h
    exact ⟨AppendsOn.refl _ _, rfl⟩
  | cons t ts ih =>
    unfold runLoop at h
    simp only [Option.bind_eq_bind] at h
    obtain ⟨x, h1, h2⟩ := Option.bind_eq_some.mp h
    obtain ⟨r1, s1⟩ := x
    obtain ⟨a1, a2⟩ := hstep s t r1 s1 h1
    split at h2
    · cases h2
      exact ⟨a1, a2⟩
    · obtain ⟨s2, h3, h4⟩ := Option.bind_eq_some.mp h2
      obtain ⟨_, b2, b3, _⟩ := deliver_frame K box t.inbound s1 s2 h3
      obtain ⟨c1, c2⟩ := ih s2 h4
      rw [b3, a2, b2] at c1
      exact ⟨a1.trans c1, c2.trans (b3.trans a2)⟩

theorem saveCredentials_frame (s : Session) (canWrite : String → Bool) :
    (saveCredentials s canWrite).written = s.written ∧
    (saveCredentials s canWrite).sentNonce = s.sentNonce ∧
    (saveCredentials s canWrite).secretKeyK = s.secretKeyK := by
  unfold saveCredentials
  simp only
  split
  · exact ⟨rfl, rfl, rfl⟩
  · split
    · exact ⟨rfl, rfl, rfl⟩
    · split <;> exact ⟨rfl, rfl, rfl⟩

theorem retrieveCredentials_key (s : Session) (buff : Bytes)
    (h : (retrieveCredentials s buff).1 = true) :
    ∃ v, s.preferences.lookup "secretKeyK" = some v ∧
      (retrieveCredentials s buff).2.secretKeyK = v ++ s.secretKeyK.drop v.length := by
  cases hl : s.preferences.lookup "secretKeyK" with
  | none =>
    have := retrieveCredentials_missing s buff (Or.inl hl)
    rw [this] at h
    cases h
  | some v =>
    refine ⟨v, rfl, ?_⟩
    have hg : (getBytes s.preferences "secretKeyK" s.secretKeyK 32).1 ≠ 0 := by
      intro h0
      unfold retrieveCredentials at h
      simp only [h0, if_true] at h
      cases h
    have hk : (getBytes s.preferences "secretKeyK" s.secretKeyK 32).2 =
        v ++ s.secretKeyK.drop v.length := by
      unfold getBytes at hg ⊢
      rw [hl] at hg ⊢
      simp only at hg ⊢
      split
      · rename_i hc
        rw [if_pos hc] at hg
        exact absurd rfl hg
      · rfl
    have hsk : (retrieveCredentials s buff).2.secretKeyK =
        (getBytes s.preferences "secretKeyK" s.secretKeyK 32).2 := by
      unfold retrieveCredentials
      simp only
      split
      · rfl
      · split
        · rfl
        · split
          · rfl
          · split <;> rfl
    rw [hsk, hk]

theorem runLoop_cons (K : NukiConstants) (box : SecretBox)
    (step : Session → Tick → Option (NukiCmdResult × Session)) (s : Session) (t : Tick)
    (ts : List Tick) :
    runLoop K box step s (t :: ts) =
      (step s t).bind (fun r =>
        if r.1 ≠ NukiCmdResult.Working then some r
        else (deliver K box r.2 t.inbound).bind (fun s1 => runLoop K box step s1 ts)) := by
  rw [runLoop]
  rfl

theorem deliver_cons (K : NukiConstants) (box : SecretBox) (s : Session)
    (x : Characteristic × Bytes × Bytes) (rest : List (Characteristic × Bytes × Bytes)) :
    deliver K box s (x :: rest) =
      (notifyCallback K box s x.1 x.2.1 x.2.2).bind (fun s1 => deliver K box s1 rest) := by
  obtain ⟨ch, f, d⟩ := x
  rw [deliver]
  rfl

theorem notifyCallback_plainReply (K : NukiConstants) (box : SecretBox) (s : Session) (c : Nat)
    (p : Bytes) (hc : c < 65536) (hp : p.length ≤ 200) (hlen : handlerReads K c ≤ p.length) :
    notifyCallback K box s (plainReply c p).1 (plainReply c p).2.1 (plainReply c p).2.2 =
      handleReturnMessage K { s with crcCheckOke := true } c p := by
  rw [← handleReturnMessage_handedOver K _ c (plainReply c p).1 p (plainReply c p).2.2 hlen]
  apply notifyCallback_of_accepted
  have := notifyDispatch_gdio_frame box s [] c p (crc16 (le16 c ++ p) % 256)
    (crc16 (le16 c ++ p) / 256 % 256) hc hp
  rw [fromLe16_le16 (crc16_lt _), if_pos rfl] at this
  exact this

/-- C11 fails as stated: `pairedSession` stores the authorization id
`01 02 03 04` and `retrieveCredentials` succeeds, but after the indications of
`idOverwritingLock` the second encrypted frame of the action is sealed with
the authorization id `09 09 09 09` in its envelope. -/
theorem frame_sealed_with_other_authorizationId :
    (retrieveCredentials pairedSession []).1 = true ∧
    pairedSession.preferences.lookup "authorizationId" = some [1, 2, 3, 4] ∧
    (executeAction sampleConstants tagBox pairedSession lockActionSample []
        idOverwritingLock).map
      (fun r => (r.1, r.2.written.map (fun w => (w.1, (w.2.drop 24).take 4)))) =
      some (NukiCmdResult.Working,
        [(Characteristic.usdio, [1, 2, 3, 4]), (Characteristic.usdio, [9, 9, 9, 9])]) := by
  refine ⟨by decide, by decide, ?_⟩
  have h0 : executeAction sampleConstants tagBox pairedSession lockActionSample []
      idOverwritingLock =
      runLoop sampleConstants tagBox
        (fun s t => cmdChallAccStateMachine sampleConstants tagBox s t lockActionSample)
        (retrieveCredentials pairedSession []).2 idOverwritingLock := by
    unfold executeAction
    simp only
    rw [if_pos (by decide)]
    rfl
  have hs1 : cmdChallAccStateMachine sampleConstants tagBox
      (retrieveCredentials pairedSession []).2
      (commandTick 0
        [plainReply 0x07 (List.replicate 32 0x11 ++ [9, 9, 9, 9] ++ List.replicate 16 3 ++
          List.replicate 32 0xEE),
         sealedReply 0x04 (List.replicate 32 0xDD)]) lockActionSample =
      some (NukiCmdResult.Working,
        ((cmdChallAccStateMachine sampleConstants tagBox
          (retrieveCredentials pairedSession []).2 (commandTick 0 []) lockActionSample).getD
            (NukiCmdResult.Working, pairedSession)).2) := by
    decide
  rw [h0]
  unfold idOverwritingLock
  rw [runLoop_cons, hs1]
  simp only [Option.some_bind, ne_eq, not_true_eq_false, if_false]
  have hin : (commandTick 0
      [plainReply 0x07 (List.replicate 32 0x11 ++ [9, 9, 9, 9] ++ List.replicate 16 3 ++
        List.replicate 32 0xEE),
       sealedReply 0x04 (List.replicate 32 0xDD)]).inbound =
      [plainReply 0x07 (List.replicate 32 0x11 ++ [9, 9, 9, 9] ++ List.replicate 16 3 ++
        List.replicate 32 0xEE),
       sealedReply 0x04 (List.replicate 32 0xDD)] := rfl
  rw [hin, deliver_cons, notifyCallback_plainReply _ _ _ _ _ (by decide) (by decide) (by decide)]
  decide

/-- C11 as amended: every frame `executeAction` writes is an encrypted frame
sealed under the `secretKeyK` that `retrieveCredentials` read from the store at
the start of the call, which no step and no inbound message changes during the
call; a call whose `retrieveCredentials` fails returns `NotPaired`, writes
nothing and draws no nonce; and `pairNuki`, with the pairing state machine in
it, writes only to the pairing characteristic and draws no nonce for an
encrypted frame.  (The authorization id of a frame is the one the session holds
when the frame is sealed.) -/
theorem encrypted_frames_need_credentials (K : NukiConstants) (C : Crypto) (box : SecretBox)
    (s : Session) (action : NukiAction) (buff : Bytes) (ticks : List Tick) (connected : Bool)
    (canWrite : String → Bool) :
    (∀ r s', executeAction K box s action buff ticks = some (r, s') →
      s'.secretKeyK = (retrieveCredentials s buff).2.secretKeyK ∧
      AppendsOn (SealedUnder box (retrieveCredentials s buff).2.secretKeyK) s.written
        s'.written ∧
      ((retrieveCredentials s buff).1 = false →
        r = NukiCmdResult.NotPaired ∧ s'.written = s.written ∧ s'.sentNonce = s.sentNonce)) ∧
    ((retrieveCredentials s buff).1 = true →
      ∃ v, s.preferences.lookup "secretKeyK" = some v ∧
        (retrieveCredentials s buff).2.secretKeyK = v ++ s.secretKeyK.drop v.length) ∧
    (∀ b p, pairNuki K C box s buff connected canWrite ticks = some (b, p) →
      AppendsOn (fun x => x.1 = Characteristic.gdio) s.written p.written ∧
      p.sentNonce = s.sentNonce) := by
  have hw := (retrieveCredentials_frame s buff).1
  have hn := (retrieveCredentials_keeps s buff).2.1
  refine ⟨?_, retrieveCredentials_key s buff, ?_⟩
  · intro r s' h
    unfold executeAction at h
    simp only at h
    cases hr : (retrieveCredentials s buff).1 with
    | false =>
      rw [hr] at h
      simp only [Bool.false_eq_true, if_false, Option.some.injEq, Prod.mk.injEq] at h
      obtain ⟨rfl, rfl⟩ := h
      refine ⟨rfl, ?_, fun _ => ⟨rfl, hw, hn⟩⟩
      rw [hw]
      exact AppendsOn.refl _ _
    | true =>
      rw [hr] at h
      simp only [if_true] at h
      have key : AppendsOn (SealedUnder box (retrieveCredentials s buff).2.secretKeyK)
          (retrieveCredentials s buff).2.written s'.written ∧
          s'.secretKeyK = (retrieveCredentials s buff).2.secretKeyK := by
        cases hc : action.cmdType <;> rw [hc] at h <;> simp only at h
        · exact runLoop_seals K box _ (fun a t r b hh => cmdStateMachine_seals K box action a b t r hh) ticks _ _ r h
        · exact runLoop_seals K box _ (fun a t r b hh => cmdChallStateMachine_seals K box action false a b t r hh) ticks
            _ _ r h
        · exact runLoop_seals K box _ (fun a t r b hh => cmdChallAccStateMachine_seals K box action a b t r hh) ticks _ _ r h
        · exact runLoop_seals K box _ (fun a t r b hh => cmdChallStateMachine_seals K box action true a b t r hh) ticks
            _ _ r h
        · cases h
          exact ⟨AppendsOn.refl _ _, rfl⟩
      rw [hw] at key
      exact ⟨key.2, key.1, fun hf => by cases hf⟩
  · intro b p h
    unfold pairNuki at h
    simp only at h
    have base : AppendsOn (fun x => x.1 = Characteristic.gdio) s.written
        (retrieveCredentials s buff).2.written ∧
        (retrieveCredentials s buff).2.sentNonce = s.sentNonce := by
      rw [hw]
      exact ⟨AppendsOn.refl _ _, hn⟩
    split at h
    · cases h
      exact base
    · split at h
      · split at h
        · simp only [Option.bind_eq_bind] at h
          obtain ⟨e, h1, h2⟩ := Option.bind_eq_some.mp h
          obtain ⟨st, e2⟩ := e
          obtain ⟨a1, _, a3, _⟩ := pairLoop_frame K C box ticks _ st _ e2 h1
          have he : AppendsOn (fun x => x.1 = Characteristic.gdio) s.written e2.written ∧
              e2.sentNonce = s.sentNonce := ⟨base.1.trans a1, a3.trans base.2⟩
          obtain ⟨c1, c2, _⟩ := saveCredentials_frame e2 canWrite
          cases st <;> simp only [Option.some.injEq, Prod.mk.injEq] at h2 <;>
            obtain ⟨_, rfl⟩ := h2
          all_goals first
            | exact he
            | (refine ⟨?_, ?_⟩
               · show AppendsOn _ s.written (saveCredentials e2 canWrite).written
                 rw [c1]
                 exact he.1
               · show (saveCredentials e2 canWrite).sentNonce = s.sentNonce
                 rw [c2]
                 exact he.2)
        · cases h
          exact base
      · cases h
        exact base

/-- Witness of the amended C11 on `pairedSession`: the key the frames are
sealed under is the stored one. -/
theorem encrypted_frames_need_credentials_witness :
    (retrieveCredentials pairedSession []).1 = true ∧
    ∃ v, pairedSession.preferences.lookup "secretKeyK" = some v ∧
      (retrieveCredentials pairedSession []).2.secretKeyK =
        v ++ pairedSession.secretKeyK.drop v.length :=
  ⟨by decide,
   (encrypted_frames_need_credentials sampleConstants sampleCrypto tagBox pairedSession
    lockActionSample [] acceptingLock true (fun _ => true)).2.1 (by decide)⟩

/-! ## The claims on log retrieval -/

theorem sendEncryptedMessage_some (box : SecretBox) (s : Session) (t : Tick) (c : Nat)
    (p : Bytes) (n : Nat) (h : n % 256 ≤ p.length) :
    ∃ s', sendEncryptedMessage box s t c p n = some s' := by
  unfold sendEncryptedMessage encryptedFrame readBytes
  rw [if_pos (by omega)]
  simp only [Option.bind_eq_bind, Option.some_bind]
  cases box.encode _ t.nonce s.secretKeyK with
  | none => exact ⟨_, rfl⟩
  | some cipher =>
    simp only [Option.some_bind]
    cases t.connected with
    | true => exact ⟨_, rfl⟩
    | false => exact ⟨_, rfl⟩

theorem cmdChall_Idle (K : NukiConstants) (box : SecretBox) (s : Session) (t : Tick)
    (a : NukiAction) (b : Bool) (hstate : s.nukiCommandState = NukiCommandState.Idle) :
    ∃ s2, cmdChallStateMachine K box s t a b = some (NukiCmdResult.Working, s2) ∧
      s2.nukiCommandState = NukiCommandState.ChallengeSent ∧
      s2.lastMsgCodeReceived = K.Empty ∧ s2.timeNow = t.now ∧
      s2.secretKeyK = s.secretKeyK ∧ s2.listOfLogEntries = s.listOfLogEntries := by
  obtain ⟨s1, h1⟩ := sendEncryptedMessage_some box
    { s with lastMsgCodeReceived := K.Empty, timeNow := t.now } t NukiCommand.RequestData
    [0x04, 0x00] 2 (by decide)
  obtain ⟨_, f1, _, _, _, f5, _, f7, f8, _⟩ := sendEncryptedMessage_frame _ _ _ _ _ _ _ h1
  refine ⟨{ s1 with nukiCommandState := NukiCommandState.ChallengeSent }, ?_, rfl, f5, f7, f1, f8⟩
  unfold cmdChallStateMachine
  split
  · simp only [Option.bind_eq_bind]
    rw [h1]
    rfl
  all_goals first
    | (rename_i h; rw [hstate] at h; cases h)
    | (rename_i h1 _ _ _; exact absurd hstate h1)

theorem cmdChall_ChallengeSent_wait (K : NukiConstants) (box : SecretBox) (s : Session)
    (t : Tick) (a : NukiAction) (b : Bool)
    (hstate : s.nukiCommandState = NukiCommandState.ChallengeSent)
    (hlast : s.lastMsgCodeReceived ≠ NukiCommand.Challenge)
    (ht : ¬ K.CMD_TIMEOUT < elapsed t.now s.timeNow) :
    cmdChallStateMachine K box s t a b = some (NukiCmdResult.Working, s) := by
  unfold cmdChallStateMachine
  simp only [hstate]
  rw [if_neg ht, if_neg hlast]

theorem cmdChall_ChallengeSent_go (K : NukiConstants) (box : SecretBox) (s : Session)
    (t : Tick) (a : NukiAction) (b : Bool)
    (hstate : s.nukiCommandState = NukiCommandState.ChallengeSent)
    (hlast : s.lastMsgCodeReceived = NukiCommand.Challenge)
    (ht : ¬ K.CMD_TIMEOUT < elapsed t.now s.timeNow) :
    cmdChallStateMachine K box s t a b =
      some (NukiCmdResult.Working,
        { s with nukiCommandState := NukiCommandState.ChallengeRespReceived,
                 lastMsgCodeReceived := K.Empty }) := by
  unfold cmdChallStateMachine
  simp only [hstate]
  rw [if_neg ht, if_pos hlast]

theorem cmdChall_send (K : NukiConstants) (box : SecretBox) (s : Session) (t : Tick)
    (a : NukiAction)
    (hstate : s.nukiCommandState = NukiCommandState.ChallengeRespReceived)
    (ha : a.payloadLen ≤ a.payload.length) (ha2 : a.payloadLen + 34 < 256)
    (hn : 32 ≤ s.challengeNonceK.length) :
    ∃ s2, cmdChallStateMachine K box s t a true = some (NukiCmdResult.Working, s2) ∧
      s2.nukiCommandState = NukiCommandState.CmdSent ∧
      s2.lastMsgCodeReceived = K.Empty ∧ s2.crcCheckOke = false ∧ s2.timeNow = t.now ∧
      s2.secretKeyK = s.secretKeyK ∧ s2.listOfLogEntries = s.listOfLogEntries := by
  have hlen : ((a.payloadLen + 32) % 256 + 2) % 256 = a.payloadLen + 34 := by omega
  have hread : readBytes a.payload 0 a.payloadLen = some (a.payload.take a.payloadLen) := by
    unfold readBytes
    rw [if_pos (by omega)]
    rfl
  obtain ⟨s1, h1⟩ := sendEncryptedMessage_some box
    { s with lastMsgCodeReceived := K.Empty, timeNow := t.now, crcCheckOke := false } t
    a.command (a.payload.take a.payloadLen ++ s.challengeNonceK ++ le16 s.pinCode)
    (a.payloadLen + 34) (by
      simp only [List.length_append, List.length_take, le16_length]
      omega)
  obtain ⟨_, f1, _, _, _, f5, f6, f7, f8, _⟩ := sendEncryptedMessage_frame _ _ _ _ _ _ _ h1
  refine ⟨{ s1 with nukiCommandState := NukiCommandState.CmdSent }, ?_, rfl, f5, f6, f7, f1, f8⟩
  unfold cmdChallStateMachine
  split
  case h_3 =>
    simp only [Option.bind_eq_bind, hread, Option.some_bind, if_true, true_and, hlen]
    rw [if_neg (by omega), if_neg (by omega), h1]
    rfl
  all_goals first
    | (rename_i h; rw [hstate] at h; cases h)
    | (rename_i h3 _; exact absurd hstate h3)

theorem cmdChall_CmdSent_wait (K : NukiConstants) (box : SecretBox) (s : Session)
    (t : Tick) (a : NukiAction) (b : Bool)
    (hstate : s.nukiCommandState = NukiCommandState.CmdSent)
    (hlast : s.lastMsgCodeReceived ≠ NukiCommand.ErrorReport)
    (hcrc : s.crcCheckOke = false)
    (ht : ¬ K.CMD_TIMEOUT < elapsed t.now s.timeNow) :
    cmdChallStateMachine K box s t a b = some (NukiCmdResult.Working, s) := by
  unfold cmdChallStateMachine
  simp only [hstate]
  rw [if_neg ht, if_neg hlast, if_neg (by rw [hcrc]; decide)]

theorem cmdChall_CmdSent_success (K : NukiConstants) (box : SecretBox) (s : Session)
    (t : Tick) (a : NukiAction) (b : Bool)
    (hstate : s.nukiCommandState = NukiCommandState.CmdSent)
    (hlast : s.lastMsgCodeReceived ≠ NukiCommand.ErrorReport)
    (hcrc : s.crcCheckOke = true)
    (ht : ¬ K.CMD_TIMEOUT < elapsed t.now s.timeNow) :
    cmdChallStateMachine K box s t a b =
      some (NukiCmdResult.Success, { s with nukiCommandState := NukiCommandState.Idle }) := by
  unfold cmdChallStateMachine
  simp only [hstate]
  rw [if_neg ht, if_neg hlast, if_pos hcrc]

theorem runLoop_quiet (K : NukiConstants) (box : SecretBox)
    (step : Session → Tick → Option (NukiCmdResult × Session)) (s : Session)
    (ws rest : List Tick)
    (h : ∀ t ∈ ws, t.inbound = [] ∧ step s t = some (NukiCmdResult.Working, s)) :
    runLoop K box step s (ws ++ rest) = runLoop K box step s rest := by
  induction ws with
  | nil => rfl
  | cons w ws ih =>
    obtain ⟨hq, hw⟩ := h w (List.mem_cons_self _ _)
    rw [List.cons_append, runLoop_cons, hw, hq]
    simp only [Option.some_bind, ne_eq, not_true_eq_false, if_false]
    rw [deliver]
    exact ih (fun t ht => h t (List.mem_cons_of_mem _ ht))

theorem runLoop_phase (K : NukiConstants) (box : SecretBox)
    (step : Session → Tick → Option (NukiCmdResult × Session)) (s s1 : Session)
    (ws : List Tick) (last : Tick) (rest : List Tick)
    (hfirst : step s (ws.headD last) = some (NukiCmdResult.Working, s1))
    (hwait : ∀ t ∈ ws ++ [last], step s1 t = some (NukiCmdResult.Working, s1))
    (hquiet : ∀ t ∈ ws, t.inbound = []) :
    runLoop K box step s (ws ++ [last] ++ rest) =
      (deliver K box s1 last.inbound).bind (fun s2 => runLoop K box step s2 rest) := by
  cases ws with
  | nil =>
    rw [List.nil_append, List.singleton_append, runLoop_cons]
    rw [show step s last = some (NukiCmdResult.Working, s1) from hfirst]
    simp only [Option.some_bind, ne_eq, not_true_eq_false, if_false]
  | cons w ws =>
    rw [List.cons_append, List.cons_append, runLoop_cons]
    rw [show step s w = some (NukiCmdResult.Working, s1) from hfirst,
      hquiet w (List.mem_cons_self _ _)]
    simp only [Option.some_bind, ne_eq, not_true_eq_false, if_false]
    rw [deliver]
    simp only [Option.some_bind]
    rw [List.append_assoc, runLoop_quiet K box step s1 ws ([last] ++ rest)
      (fun t ht => ⟨hquiet t (List.mem_cons_of_mem _ ht),
        hwait t (List.mem_cons_of_mem _ (List.mem_append_left _ ht))⟩)]
    rw [List.singleton_append, runLoop_cons,
      hwait last (List.mem_cons_of_mem _ (List.mem_append_right _ (List.mem_singleton_self _)))]
    simp only [Option.some_bind, ne_eq, not_true_eq_false, if_false]

theorem notifyCallback_carried (K : NukiConstants) (box : SecretBox) (s : Session)
    (f : Characteristic × Bytes × Bytes) (c : Nat) (p : Bytes)
    (h : Carries box s.secretKeyK f c p) (hlen : handlerReads K c ≤ p.length) :
    notifyCallback K box s f.1 f.2.1 f.2.2 =
      handleReturnMessage K { s with crcCheckOke := true } c p :=
  (notifyCallback_of_accepted K box s f.1 f.2.1 f.2.2 c p (h s rfl)).trans
    (handleReturnMessage_handedOver K _ c f.1 p f.2.2 hlen)

theorem handleReturnMessage_Challenge (K : NukiConstants) (s : Session) (p : Bytes)
    (hp : 32 ≤ p.length) :
    handleReturnMessage K s NukiCommand.Challenge p =
      some { s with lastMsgCodeReceived := NukiCommand.Challenge,
                    challengeNonceK := p.take 32 } := by
  have hread : readBytes p 0 32 = some (p.take 32) := by
    unfold readBytes
    rw [if_pos (by omega)]
    rfl
  unfold handleReturnMessage
  dsimp only
  rw [if_neg (by decide), if_pos rfl, hread]
  rfl

theorem handleReturnMessage_Status (K : NukiConstants) (s : Session) (p : Bytes)
    (hp : 1 ≤ p.length) :
    handleReturnMessage K s NukiCommand.Status p =
      some { s with lastMsgCodeReceived := NukiCommand.Status,
                    receivedStatus := p.getD 0 0 } := by
  have hread : readBytes p 0 1 = some (p.take 1) := by
    unfold readBytes
    rw [if_pos (by omega)]
    rfl
  have hget : (p.take 1).getD 0 0 = p.getD 0 0 := by
    cases p with
    | nil => rfl
    | cons x xs => rfl
  unfold handleReturnMessage
  dsimp only
  rw [if_neg (by decide), if_neg (by decide), if_neg (by decide), if_neg (by decide),
    if_neg (by decide), if_pos rfl, hread]
  simp only [Option.bind_eq_bind, Option.some_bind, hget]

theorem handleReturnMessage_LogEntry (K : NukiConstants) (s : Session) (p : Bytes)
    (hK : K.AuthorizationEntryCount ≠ NukiCommand.LogEntry)
    (hp : K.sizeofLogEntry ≤ p.length) :
    handleReturnMessage K s NukiCommand.LogEntry p =
      some { s with lastMsgCodeReceived := NukiCommand.LogEntry,
                    listOfLogEntries := s.listOfLogEntries ++ [p.take K.sizeofLogEntry] } := by
  have hread : readBytes p 0 K.sizeofLogEntry = some (p.take K.sizeofLogEntry) := by
    unfold readBytes
    rw [if_pos (by omega)]
    rfl
  unfold handleReturnMessage
  dsimp only
  rw [if_neg (by decide), if_neg (by decide), if_neg (by decide), if_neg (by decide),
    if_neg (by decide), if_neg (by decide), if_neg (by decide), if_neg (by decide),
    if_neg (by decide), if_neg (fun h => hK h.symm), if_pos rfl, hread]
  rfl

theorem deliver_nil (K : NukiConstants) (box : SecretBox) (s : Session) :
    deliver K box s [] = some s := by
  rw [deliver]

theorem deliver_batch (K : NukiConstants) (box : SecretBox) (key : Bytes)
    (hK : K.AuthorizationEntryCount ≠ NukiCommand.LogEntry)
    (batch : List ((Characteristic × Bytes × Bytes) × Nat × Bytes))
    (hb : ∀ x ∈ batch, Carries box key x.1 x.2.1 x.2.2 ∧
      ((x.2.1 = NukiCommand.LogEntry ∧ K.sizeofLogEntry ≤ x.2.2.length) ∨
       (x.2.1 = NukiCommand.Status ∧ 1 ≤ x.2.2.length)))
    (s : Session) (hs : s.secretKeyK = key) :
    ∃ s', deliver K box s (batch.map Prod.fst) = some s' ∧
      s'.secretKeyK = key ∧
      s'.listOfLogEntries = s.listOfLogEntries ++ recordsOf K (batch.map Prod.snd) ∧
      s'.nukiCommandState = s.nukiCommandState ∧ s'.timeNow = s.timeNow ∧
      ((s.crcCheckOke = true ∧ s.lastMsgCodeReceived ≠ NukiCommand.ErrorReport) ∨ batch ≠ [] →
        s'.crcCheckOke = true ∧ s'.lastMsgCodeReceived ≠ NukiCommand.ErrorReport) := by
  induction batch generalizing s with
  | nil =>
    refine ⟨s, deliver_nil K box s, hs, ?_, rfl, rfl, fun h => h.resolve_right (fun h => h rfl)⟩
    simp [recordsOf]
  | cons x rest ih =>
    obtain ⟨f, c, p⟩ := x
    obtain ⟨hc, hkind⟩ := hb (f, c, p) (List.mem_cons_self _ _)
    have hrest := fun y hy => hb y (List.mem_cons_of_mem _ hy)
    have hreads : handlerReads K c ≤ p.length := by
      rcases hkind with ⟨h1, h2⟩ | ⟨h1, h2⟩
      · have h1 : c = NukiCommand.LogEntry := h1
        rw [h1, handlerReads_LogEntry K hK]
        exact h2
      · have h1 : c = NukiCommand.Status := h1
        rw [h1, handlerReads_Status]
        exact h2
    have hcall := notifyCallback_carried K box s f c p (by rw [hs]; exact hc) hreads
    rw [List.map_cons, deliver_cons, hcall]
    rcases hkind with ⟨h1, h2⟩ | ⟨h1, h2⟩
    · have h1 : c = NukiCommand.LogEntry := h1
      subst h1
      rw [handleReturnMessage_LogEntry K _ p hK h2]
      obtain ⟨s', e1, e2, e3, e4, e5, e6⟩ := ih hrest
        { { s with crcCheckOke := true } with
          lastMsgCodeReceived := NukiCommand.LogEntry,
          listOfLogEntries := s.listOfLogEntries ++ [p.take K.sizeofLogEntry] } hs
      refine ⟨s', e1, e2, ?_, e4, e5, fun _ => e6 (Or.inl ⟨rfl,
        (by decide : NukiCommand.LogEntry ≠ NukiCommand.ErrorReport)⟩)⟩
      rw [e3]
      simp [recordsOf]
    · have h1 : c = NukiCommand.Status := h1
      subst h1
      rw [handleReturnMessage_Status K _ p h2]
      obtain ⟨s', e1, e2, e3, e4, e5, e6⟩ := ih hrest
        { { s with crcCheckOke := true } with
          lastMsgCodeReceived := NukiCommand.Status, receivedStatus := p.getD 0 0 } hs
      refine ⟨s', e1, e2, ?_, e4, e5, fun _ => e6 (Or.inl ⟨rfl,
        (by decide : NukiCommand.Status ≠ NukiCommand.ErrorReport)⟩)⟩
      rw [e3]
      simp [recordsOf, NukiCommand.Status, NukiCommand.LogEntry]

theorem cmdChall_request_phase (K : NukiConstants) (box : SecretBox) (a : NukiAction)
    (s : Session) (ws : List Tick) (last : Tick) (rest : List Tick)
    (chal : Characteristic × Bytes × Bytes) (nonceK : Bytes)
    (hstate : s.nukiCommandState = NukiCommandState.Idle)
    (hE : K.Empty ≠ NukiCommand.Challenge)
    (hchal : Carries box s.secretKeyK chal NukiCommand.Challenge nonceK)
    (hn : 32 ≤ nonceK.length)
    (hquiet : ∀ t ∈ ws, t.inbound = []) (hlast : last.inbound = [chal])
    (htime : ∀ t ∈ ws ++ [last], ¬ K.CMD_TIMEOUT < elapsed t.now (ws.headD last).now) :
    ∃ s', runLoop K box (fun s t => cmdChallStateMachine K box s t a true) s
        (ws ++ [last] ++ rest) =
        runLoop K box (fun s t => cmdChallStateMachine K box s t a true) s' rest ∧
      s'.nukiCommandState = NukiCommandState.ChallengeSent ∧
      s'.lastMsgCodeReceived = NukiCommand.Challenge ∧
      s'.timeNow = (ws.headD last).now ∧ s'.secretKeyK = s.secretKeyK ∧
      s'.listOfLogEntries = s.listOfLogEntries ∧ 32 ≤ s'.challengeNonceK.length := by
  obtain ⟨sA, hA1, hA2, hA3, hA4, hA5, hA6⟩ := cmdChall_Idle K box s (ws.headD last) a true hstate
  rw [runLoop_phase K box _ s sA ws last rest hA1
    (fun t ht => cmdChall_ChallengeSent_wait K box sA t a true hA2 (by rw [hA3]; exact hE)
      (by rw [hA4]; exact htime t ht)) hquiet]
  rw [hlast, deliver_cons,
    notifyCallback_carried K box sA chal _ _ (by rw [hA5]; exact hchal)
      (by rw [handlerReads_Challenge]; exact hn),
    handleReturnMessage_Challenge _ _ _ hn]
  simp only [Option.some_bind]
  rw [deliver_nil]
  simp only [Option.some_bind]
  refine ⟨_, rfl, hA2, rfl, hA4, hA5, hA6, ?_⟩
  show 32 ≤ (nonceK.take 32).length
  rw [List.length_take]
  omega

theorem cmdChall_challenge_seen (K : NukiConstants) (box : SecretBox) (a : NukiAction)
    (s : Session) (t : Tick) (rest : List Tick)
    (hstate : s.nukiCommandState = NukiCommandState.ChallengeSent)
    (hlast : s.lastMsgCodeReceived = NukiCommand.Challenge)
    (hquiet : t.inbound = [])
    (htime : ¬ K.CMD_TIMEOUT < elapsed t.now s.timeNow) :
    ∃ s', runLoop K box (fun s t => cmdChallStateMachine K box s t a true) s (t :: rest) =
        runLoop K box (fun s t => cmdChallStateMachine K box s t a true) s' rest ∧
      s'.nukiCommandState = NukiCommandState.ChallengeRespReceived ∧
      s'.secretKeyK = s.secretKeyK ∧ s'.listOfLogEntries = s.listOfLogEntries ∧
      s'.challengeNonceK = s.challengeNonceK := by
  rw [runLoop_cons, cmdChall_ChallengeSent_go K box s t a true hstate hlast htime]
  simp only [Option.some_bind, ne_eq, not_true_eq_false, if_false]
  rw [hquiet, deliver_nil]
  simp only [Option.some_bind]
  exact ⟨_, rfl, rfl, rfl, rfl, rfl⟩

theorem cmdChall_command_phase (K : NukiConstants) (box : SecretBox) (a : NukiAction)
    (s : Session) (ws : List Tick) (last : Tick) (rest : List Tick)
    (batch : List ((Characteristic × Bytes × Bytes) × Nat × Bytes))
    (hstate : s.nukiCommandState = NukiCommandState.ChallengeRespReceived)
    (ha : a.payloadLen ≤ a.payload.length) (ha2 : a.payloadLen + 34 < 256)
    (hn : 32 ≤ s.challengeNonceK.length)
    (hE : K.Empty ≠ NukiCommand.ErrorReport)
    (hK : K.AuthorizationEntryCount ≠ NukiCommand.LogEntry)
    (hb : ∀ x ∈ batch, Carries box s.secretKeyK x.1 x.2.1 x.2.2 ∧
      ((x.2.1 = NukiCommand.LogEntry ∧ K.sizeofLogEntry ≤ x.2.2.length) ∨
       (x.2.1 = NukiCommand.Status ∧ 1 ≤ x.2.2.length)))
    (hne : batch ≠ [])
    (hquiet : ∀ t ∈ ws, t.inbound = []) (hlast : last.inbound = batch.map Prod.fst)
    (htime : ∀ t ∈ ws ++ [last], ¬ K.CMD_TIMEOUT < elapsed t.now (ws.headD last).now) :
    ∃ s', runLoop K box (fun s t => cmdChallStateMachine K box s t a true) s
        (ws ++ [last] ++ rest) =
        runLoop K box (fun s t => cmdChallStateMachine K box s t a true) s' rest ∧
      s'.nukiCommandState = NukiCommandState.CmdSent ∧
      s'.lastMsgCodeReceived ≠ NukiCommand.ErrorReport ∧ s'.crcCheckOke = true ∧
      s'.timeNow = (ws.headD last).now ∧
      s'.listOfLogEntries = s.listOfLogEntries ++ recordsOf K (batch.map Prod.snd) := by
  obtain ⟨sB, hB1, hB2, hB3, hB4, hB5, hB6, hB7⟩ :=
    cmdChall_send K box s (ws.headD last) a hstate ha ha2 hn
  rw [runLoop_phase K box _ s sB ws last rest hB1
    (fun t ht => cmdChall_CmdSent_wait K box sB t a true hB2 (by rw [hB3]; exact hE) hB4
      (by rw [hB5]; exact htime t ht)) hquiet]
  obtain ⟨s', e1, _, e3, e4, e5, e6⟩ := deliver_batch K box s.secretKeyK hK batch hb sB hB6
  rw [hlast, e1]
  simp only [Option.some_bind]
  obtain ⟨c1, c2⟩ := e6 (Or.inr hne)
  exact ⟨s', rfl, e4.trans hB2, c2, c1, e5.trans hB5, by rw [e3, hB7]⟩

theorem cmdChall_batch_run (K : NukiConstants) (box : SecretBox) (a : NukiAction)
    (s : Session) (wsA : List Tick) (tA t1 : Tick) (wsB : List Tick) (tB t3 : Tick)
    (rest : List Tick) (chal : Characteristic × Bytes × Bytes) (nonceK : Bytes)
    (batch : List ((Characteristic × Bytes × Bytes) × Nat × Bytes))
    (hstate : s.nukiCommandState = NukiCommandState.Idle)
    (ha : a.payloadLen ≤ a.payload.length) (ha2 : a.payloadLen + 34 < 256)
    (hE1 : K.Empty ≠ NukiCommand.Challenge) (hE2 : K.Empty ≠ NukiCommand.ErrorReport)
    (hK : K.AuthorizationEntryCount ≠ NukiCommand.LogEntry)
    (hchal : Carries box s.secretKeyK chal NukiCommand.Challenge nonceK)
    (hn : 32 ≤ nonceK.length)
    (hb : ∀ x ∈ batch, Carries box s.secretKeyK x.1 x.2.1 x.2.2 ∧
      ((x.2.1 = NukiCommand.LogEntry ∧ K.sizeofLogEntry ≤ x.2.2.length) ∨
       (x.2.1 = NukiCommand.Status ∧ 1 ≤ x.2.2.length)))
    (hne : batch ≠ [])
    (hqA : ∀ t ∈ wsA, t.inbound = []) (hA : tA.inbound = [chal]) (h1 : t1.inbound = [])
    (hqB : ∀ t ∈ wsB, t.inbound = []) (hB : tB.inbound = batch.map Prod.fst)
    (htimeA : ∀ t ∈ wsA ++ [tA, t1], ¬ K.CMD_TIMEOUT < elapsed t.now (wsA.headD tA).now)
    (htimeB : ∀ t ∈ wsB ++ [tB, t3], ¬ K.CMD_TIMEOUT < elapsed t.now (wsB.headD tB).now) :
    ∃ s', runLoop K box (fun s t => cmdChallStateMachine K box s t a true) s
        (wsA ++ [tA] ++ (t1 :: (wsB ++ [tB] ++ (t3 :: rest)))) =
        some (NukiCmdResult.Success, s') ∧
      s'.nukiCommandState = NukiCommandState.Idle ∧
      s'.listOfLogEntries = s.listOfLogEntries ++ recordsOf K (batch.map Prod.snd) := by
  obtain ⟨sC, c0, c1, c2, c3, c4, c5, c6⟩ := cmdChall_request_phase K box a s wsA tA
    (t1 :: (wsB ++ [tB] ++ (t3 :: rest))) chal nonceK hstate hE1 hchal hn hqA hA
    (fun t ht => htimeA t (by
      rcases List.mem_append.mp ht with h | h
      · exact List.mem_append_left _ h
      · rw [List.mem_singleton.mp h]
        exact List.mem_append_right _ (List.mem_cons_self _ _)))
  obtain ⟨sD, d0, d1, d2, d3, d4⟩ := cmdChall_challenge_seen K box a sC t1
    (wsB ++ [tB] ++ (t3 :: rest)) c1 c2 h1 (by
      rw [c3]
      exact htimeA t1 (List.mem_append_right _ (List.mem_cons_of_mem _ (List.mem_singleton_self _))))
  obtain ⟨sE, e0, e1, e2, e3, e4, e5⟩ := cmdChall_command_phase K box a sD wsB tB (t3 :: rest)
    batch d1 ha ha2 (by rw [d4]; exact c6) hE2 hK (by rw [d2, c4]; exact hb) hne hqB hB
    (fun t ht => htimeB t (by
      rcases List.mem_append.mp ht with h | h
      · exact List.mem_append_left _ h
      · rw [List.mem_singleton.mp h]
        exact List.mem_append_right _ (List.mem_cons_self _ _)))
  rw [c0, d0, e0, runLoop_cons, cmdChall_CmdSent_success K box sE t3 a true e1 e2 e3 (by
    rw [e4]
    exact htimeB t3 (List.mem_append_right _ (List.mem_cons_of_mem _ (List.mem_singleton_self _))))]
  simp only [Option.some_bind, ne_eq, reduceCtorEq, not_false_eq_true, if_true]
  exact ⟨_, rfl, rfl, by
    show sE.listOfLogEntries = _
    rw [e5, d3, c5]⟩

theorem retrieveCredentials_cleared (s : Session) (buff : Bytes) :
    (retrieveCredentials { s with listOfLogEntries := [] } buff).1 =
      (retrieveCredentials s buff).1 ∧
    (retrieveCredentials { s with listOfLogEntries := [] } buff).2.secretKeyK =
      (retrieveCredentials s buff).2.secretKeyK := by
  unfold retrieveCredentials
  simp only
  split
  · exact ⟨rfl, rfl⟩
  · split
    · exact ⟨rfl, rfl⟩
    · split
      · exact ⟨rfl, rfl⟩
      · split <;> exact ⟨rfl, rfl⟩

theorem carries_sealedReply (c : Nat) (p : Bytes) (hc : c < 65536) (hp : p.length + 24 < 65536) :
    Carries tagBox (List.replicate 32 7) (sealedReply c p) c p := by
  intro σ hσ
  have hlen : (tagOf (List.replicate 32 7) ++ ([1, 2, 3, 4] ++ le16 c ++ p ++
      le16 (crc16 ([1, 2, 3, 4] ++ le16 c ++ p)))).length = p.length + 24 := by
    simp [tagOf, le16_length]
    omega
  have := notifyDispatch_usdio_open tagBox σ [] (List.replicate 24 5) [1, 2, 3, 4]
    (tagOf (List.replicate 32 7) ++ ([1, 2, 3, 4] ++ le16 c ++ p ++
      le16 (crc16 ([1, 2, 3, 4] ++ le16 c ++ p)))) [1, 2, 3, 4] p c (by simp) rfl rfl hc
    (by rw [hlen]; exact hp)
    (by
      rw [hσ]
      exact tagBox_inverts _ _ _ _ rfl)
  rw [hlen] at this
  exact this

theorem recordsOf_entries (K : NukiConstants) (entries : List Bytes) (tail : List (Nat × Bytes))
    : recordsOf K (entries.map (fun e => (NukiCommand.LogEntry, e)) ++ tail) =
      entries.map (fun e => e.take K.sizeofLogEntry) ++ recordsOf K tail := by
  induction entries with
  | nil => rfl
  | cons e es ih =>
    rw [List.map_cons, List.cons_append, recordsOf, if_pos rfl, ih]
    rfl

theorem retrieveLogEntries_batch (K : NukiConstants) (box : SecretBox) (s : Session)
    (startIndex count sortOrder : Nat) (totalCount : Bool) (buff : Bytes)
    (wsA : List Tick) (tA t1 : Tick) (wsB : List Tick) (tB t3 : Tick)
    (rest : List Tick) (chal : Characteristic × Bytes × Bytes) (nonceK : Bytes)
    (batch : List ((Characteristic × Bytes × Bytes) × Nat × Bytes))
    (hcred : (retrieveCredentials s buff).1 = true)
    (hstate : s.nukiCommandState = NukiCommandState.Idle)
    (hE1 : K.Empty ≠ NukiCommand.Challenge) (hE2 : K.Empty ≠ NukiCommand.ErrorReport)
    (hK : K.AuthorizationEntryCount ≠ NukiCommand.LogEntry)
    (hchal : Carries box (retrieveCredentials s buff).2.secretKeyK chal NukiCommand.Challenge
      nonceK)
    (hn : 32 ≤ nonceK.length)
    (hb : ∀ x ∈ batch, Carries box (retrieveCredentials s buff).2.secretKeyK x.1 x.2.1 x.2.2 ∧
      ((x.2.1 = NukiCommand.LogEntry ∧ K.sizeofLogEntry ≤ x.2.2.length) ∨
       (x.2.1 = NukiCommand.Status ∧ 1 ≤ x.2.2.length)))
    (hne : batch ≠ [])
    (hqA : ∀ t ∈ wsA, t.inbound = []) (hA : tA.inbound = [chal]) (h1 : t1.inbound = [])
    (hqB : ∀ t ∈ wsB, t.inbound = []) (hB : tB.inbound = batch.map Prod.fst)
    (htimeA : ∀ t ∈ wsA ++ [tA, t1], ¬ K.CMD_TIMEOUT < elapsed t.now (wsA.headD tA).now)
    (htimeB : ∀ t ∈ wsB ++ [tB, t3], ¬ K.CMD_TIMEOUT < elapsed t.now (wsB.headD tB).now) :
    ∃ s', retrieveLogEntries K box s startIndex count sortOrder totalCount buff
        (wsA ++ [tA] ++ (t1 :: (wsB ++ [tB] ++ (t3 :: rest)))) =
        some (NukiCmdResult.Success, s') ∧
      s'.nukiCommandState = NukiCommandState.Idle ∧
      s'.listOfLogEntries = recordsOf K (batch.map Prod.snd) := by
  obtain ⟨k1, k2⟩ := retrieveCredentials_cleared s buff
  have hst := (retrieveCredentials_frame { s with listOfLogEntries := [] } buff).2
  have hlog := (retrieveCredentials_keeps { s with listOfLogEntries := [] } buff).2.2.2.2.2.2.2.2
  obtain ⟨s', r1, r2, r3⟩ := cmdChall_batch_run K box
    { cmdType := NukiCommandType.CommandWithChallengeAndPin,
      command := NukiCommand.RequestLogEntries,
      payload := le32 startIndex ++ le16 count ++ [sortOrder % 256] ++
        [if totalCount then 1 else 0],
      payloadLen := 8 }
    (retrieveCredentials { s with listOfLogEntries := [] } buff).2
    wsA tA t1 wsB tB t3 rest chal nonceK batch (hst.trans hstate) (by simp [le32, le16])
    (by show 8 + 34 < 256; omega) hE1 hE2 hK (by rw [k2]; exact hchal) hn (by rw [k2]; exact hb) hne hqA hA h1 hqB hB
    htimeA htimeB
  refine ⟨s', ?_, r2, by rw [r3, hlog]; rfl⟩
  unfold retrieveLogEntries executeAction
  simp only
  rw [k1, hcred]
  exact r1

/-- C18 fails as stated: against a lock that answers the challenge and then
sends its three log entries one per tick, `retrieveLogEntries` returns
`Success` at the first step after the first entry, with one entry in
`listOfLogEntries` and two entries of the reply still outstanding. -/
theorem success_with_entries_outstanding :
    (retrieveLogEntries sampleConstants tagBox pairedSession 0 3 1 false []
        entryByEntryLock).map (fun r => (r.1, r.2.listOfLogEntries)) =
      some (NukiCmdResult.Success, [List.replicate 50 1]) := by
  obtain ⟨s', h1, _, h3⟩ := retrieveLogEntries_batch sampleConstants tagBox pairedSession 0 3 1
    false [] [] (commandTick 0 [sealedReply 0x04 (List.replicate 32 0xDD)]) (commandTick 50 [])
    [] (commandTick 100 [sealedReply 0x31 (List.replicate 50 1)])
    (commandTick 150 [sealedReply 0x31 (List.replicate 50 2)])
    [commandTick 200 [sealedReply 0x31 (List.replicate 50 3), sealedReply 0x0E [0]],
     commandTick 250 []]
    (sealedReply 0x04 (List.replicate 32 0xDD)) (List.replicate 32 0xDD)
    [(sealedReply 0x31 (List.replicate 50 1), 0x31, List.replicate 50 1)]
    (by decide) (by decide) (by decide) (by decide) (by decide)
    (carries_sealedReply 0x04 _ (by decide) (by decide)) (by decide)
    (by
      intro x hx
      rw [List.mem_singleton.mp hx]
      exact ⟨carries_sealedReply 0x31 _ (by decide) (by decide), Or.inl ⟨rfl, by decide⟩⟩)
    (by decide) (by decide) rfl rfl (by decide) rfl (by decide) (by decide)
  have h1 : retrieveLogEntries sampleConstants tagBox pairedSession 0 3 1 false []
      entryByEntryLock = some (NukiCmdResult.Success, s') := h1
  rw [h1, Option.map_some', h3]
  rfl

/-- C18 as amended: for every `k`, when the lock answers the request of a
`RequestLogEntries` action with a Challenge and then, after the command was
sent, its `k` LogEntry frames and the terminating Status reply are all
delivered between two consecutive steps of the state machine (on any schedule
of steps that stays within `CMD_TIMEOUT`, the other steps receiving nothing),
`retrieveLogEntries` (`executeAction`, `cmdChallStateMachine` with PIN) returns
`Success` and `listOfLogEntries` holds exactly those `k` entries, in order. -/
theorem logEntries_delivered_together (K : NukiConstants) (box : SecretBox) (s : Session)
    (startIndex count sortOrder : Nat) (totalCount : Bool) (buff : Bytes)
    (wsA : List Tick) (tA t1 : Tick) (wsB : List Tick) (tB t3 : Tick)
    (rest : List Tick) (chal : Characteristic × Bytes × Bytes) (nonceK : Bytes)
    (entries : List ((Characteristic × Bytes × Bytes) × Bytes))
    (term : Characteristic × Bytes × Bytes) (status : Bytes)
    (hcred : (retrieveCredentials s buff).1 = true)
    (hstate : s.nukiCommandState = NukiCommandState.Idle)
    (hE1 : K.Empty ≠ NukiCommand.Challenge) (hE2 : K.Empty ≠ NukiCommand.ErrorReport)
    (hK : K.AuthorizationEntryCount ≠ NukiCommand.LogEntry)
    (hchal : Carries box (retrieveCredentials s buff).2.secretKeyK chal NukiCommand.Challenge
      nonceK)
    (hn : 32 ≤ nonceK.length)
    (hentries : ∀ e ∈ entries,
      Carries box (retrieveCredentials s buff).2.secretKeyK e.1 NukiCommand.LogEntry e.2 ∧
      K.sizeofLogEntry ≤ e.2.length)
    (hterm : Carries box (retrieveCredentials s buff).2.secretKeyK term NukiCommand.Status status)
    (hstatus : 1 ≤ status.length)
    (hqA : ∀ t ∈ wsA, t.inbound = []) (hA : tA.inbound = [chal]) (h1 : t1.inbound = [])
    (hqB : ∀ t ∈ wsB, t.inbound = [])
    (hB : tB.inbound = entries.map Prod.fst ++ [term])
    (htimeA : ∀ t ∈ wsA ++ [tA, t1], ¬ K.CMD_TIMEOUT < elapsed t.now (wsA.headD tA).now)
    (htimeB : ∀ t ∈ wsB ++ [tB, t3], ¬ K.CMD_TIMEOUT < elapsed t.now (wsB.headD tB).now) :
    ∃ s', retrieveLogEntries K box s startIndex count sortOrder totalCount buff
        (wsA ++ [tA] ++ (t1 :: (wsB ++ [tB] ++ (t3 :: rest)))) =
        some (NukiCmdResult.Success, s') ∧
      s'.listOfLogEntries = entries.map (fun e => e.2.take K.sizeofLogEntry) ∧
      s'.listOfLogEntries.length = entries.length := by
  obtain ⟨s', r1, _, r3⟩ := retrieveLogEntries_batch K box s startIndex count sortOrder totalCount
    buff wsA tA t1 wsB tB t3 rest chal nonceK
    (entries.map (fun e => (e.1, NukiCommand.LogEntry, e.2)) ++
      [(term, NukiCommand.Status, status)])
    hcred hstate hE1 hE2 hK hchal hn
    (by
      intro x hx
      rcases List.mem_append.mp hx with h | h
      · obtain ⟨e, he, rfl⟩ := List.mem_map.mp h
        exact ⟨(hentries e he).1, Or.inl ⟨rfl, (hentries e he).2⟩⟩
      · rw [List.mem_singleton.mp h]
        exact ⟨hterm, Or.inr ⟨rfl, hstatus⟩⟩)
    (by simp) hqA hA h1 hqB
    (by
      rw [hB, List.map_append, List.map_map]
      rfl)
    htimeA htimeB
  have hrec : recordsOf K ((entries.map (fun e => (e.1, NukiCommand.LogEntry, e.2)) ++
      [(term, NukiCommand.Status, status)]).map Prod.snd) =
      entries.map (fun e => e.2.take K.sizeofLogEntry) := by
    have := recordsOf_entries K (entries.map Prod.snd) [(NukiCommand.Status, status)]
    rw [List.map_map] at this
    rw [List.map_append, List.map_map]
    rw [show (Prod.snd ∘ fun e : (Characteristic × Bytes × Bytes) × Bytes =>
        (e.1, NukiCommand.LogEntry, e.2)) = ((fun e => (NukiCommand.LogEntry, e)) ∘ Prod.snd)
      from rfl]
    rw [List.map_cons, List.map_nil, this, List.map_map]
    simp [recordsOf, NukiCommand.Status, NukiCommand.LogEntry]
  refine ⟨s', r1, by rw [r3, hrec], by rw [r3, hrec, List.length_map]⟩

/-- Witness of the amended C18, the scenario of the specification: a Challenge,
then three LogEntry frames and the terminator in one batch give `Success` and
three entries. -/
theorem logEntries_delivered_together_witness :
    ∃ s', retrieveLogEntries sampleConstants tagBox pairedSession 0 3 1 false [] batchedLock =
        some (NukiCmdResult.Success, s') ∧
      s'.listOfLogEntries = [List.replicate 50 1, List.replicate 50 2, List.replicate 50 3] := by
  obtain ⟨s', h1, h2, _⟩ := logEntries_delivered_together sampleConstants tagBox pairedSession
    0 3 1 false [] [] (commandTick 0 [sealedReply 0x04 (List.replicate 32 0xDD)])
    (commandTick 50 []) []
    (commandTick 100 [sealedReply 0x31 (List.replicate 50 1),
      sealedReply 0x31 (List.replicate 50 2), sealedReply 0x31 (List.replicate 50 3),
      sealedReply 0x0E [0]])
    (commandTick 150 []) [] (sealedReply 0x04 (List.replicate 32 0xDD)) (List.replicate 32 0xDD)
    [(sealedReply 0x31 (List.replicate 50 1), List.replicate 50 1),
     (sealedReply 0x31 (List.replicate 50 2), List.replicate 50 2),
     (sealedReply 0x31 (List.replicate 50 3), List.replicate 50 3)]
    (sealedReply 0x0E [0]) [0]
    (by decide) (by decide) (by decide) (by decide) (by decide)
    (carries_sealedReply 0x04 _ (by decide) (by decide)) (by decide)
    (by
      intro e he
      simp only [List.mem_cons, List.mem_singleton, List.not_mem_nil, or_false] at he
      rcases he with rfl | rfl | rfl <;>
        exact ⟨carries_sealedReply 0x31 _ (by decide) (by decide), by decide⟩)
    (carries_sealedReply 0x0E _ (by decide) (by decide)) (by decide)
    (by decide) rfl rfl (by decide) rfl (by decide) (by decide)
  exact ⟨s', h1, by rw [h2]; rfl⟩

/-! ## The claims on the battery state -/

theorem reverseLoop_fuel (fuel k value result : Nat) (h : value < 2 ^ fuel) :
    reverseLoop (fuel + k) value result = reverseLoop fuel value result := by
  induction fuel generalizing value result with
  | zero =>
    have hv : value = 0 := by simpa using h
    subst hv
    cases k with
    | zero => rfl
    | succ k =>
      rw [Nat.zero_add]
      simp [reverseLoop]
  | succ n ih =>
    rw [Nat.add_right_comm, reverseLoop, reverseLoop]
    split
    · rfl
    · exact ih _ _ (by
        rw [Nat.pow_succ] at h
        omega)

theorem getBatteryPerc_reverses_when_bit7 :
    ∀ s < 256, 128 ≤ s → getBatteryPerc s = 2 * reverseUpperSix s := by
  decide

theorem getBatteryPerc_ignores_low_bits :
    ∀ s < 256, getBatteryPerc s = getBatteryPerc (s - s % 4) := by
  decide

theorem getBatteryPerc_below_256 : ∀ s < 256, getBatteryPerc s < 256 := by
  decide

theorem getBatteryPerc_enough_fuel (c k : Nat) :
    reverseLoop (8 + k) (((c % 256) &&& 0xFC) / 2) (((c % 256) &&& 0xFC) &&& 1) =
      reverseLoop 8 (((c % 256) &&& 0xFC) / 2) (((c % 256) &&& 0xFC) &&& 1) := by
  apply reverseLoop_fuel
  have h1 : (c % 256) &&& 0xFC ≤ c % 256 := Nat.and_le_left
  have h2 : c % 256 < 256 := Nat.mod_lt _ (by decide)
  have h3 : ((c % 256) &&& 0xFC) / 2 ≤ (c % 256) &&& 0xFC := Nat.div_le_self _ _
  have h4 : (2 : Nat) ^ 8 = 256 := by decide
  omega

/-- C22, the code at failing inputs: with bit 7 of `criticalBatteryState`
clear the loop of `getBatteryPerc` stops at the highest set bit and the bits
are reversed within that shorter width: for `0x04` (only bit 2 set) it returns
2 where twice the six-bit reversal is 64, and for `0x64` it returns 38 where
twice the six-bit reversal is 76. -/
theorem getBatteryPerc_stops_at_highest_bit :
    getBatteryPerc 0x04 = 2 ∧ 2 * reverseUpperSix 0x04 = 64 ∧
    getBatteryPerc 0x64 = 38 ∧ 2 * reverseUpperSix 0x64 = 76 := by
  decide

/-- C23, the code at a failing input: when bits 2-7 of `criticalBatteryState`
hold 25 (the value is `0x64`), `getBatteryPerc` returns 38, not 50; for the
value 6 in bits 2-7 (`0x18`) it returns 6, not 12. -/
theorem getBatteryPerc_not_twice_the_field :
    0x64 / 4 = 25 ∧ getBatteryPerc 0x64 = 38 ∧
    0x18 / 4 = 6 ∧ getBatteryPerc 0x18 = 6 := by
  decide

/-! ## The claims on the transitions of the command state machines -/

/-- C24: in state `CmdSent` of `cmdStateMachine`, before the deadline the step
returns `Success` when `lastMsgCodeReceived` is neither `Empty` nor
`ErrorReport`, `Failed` when it is `ErrorReport`, and `Working` without any
change when it is `Empty`; after the deadline it returns `TimeOut`.  After
each of the three terminal results `nukiCommandState` is `Idle`. -/
theorem cmdStateMachine_CmdSent_transitions (K : NukiConstants) (box : SecretBox) (s : Session)
    (t : Tick) (action : NukiAction)
    (hstate : s.nukiCommandState = NukiCommandState.CmdSent)
    (hE : K.Empty ≠ NukiCommand.ErrorReport) :
    (¬ K.CMD_TIMEOUT < elapsed t.now s.timeNow →
      s.lastMsgCodeReceived ≠ K.Empty → s.lastMsgCodeReceived ≠ NukiCommand.ErrorReport →
      cmdStateMachine K box s t action =
        some (NukiCmdResult.Success,
          { s with nukiCommandState := NukiCommandState.Idle,
                   lastMsgCodeReceived := K.Empty })) ∧
    (¬ K.CMD_TIMEOUT < elapsed t.now s.timeNow →
      s.lastMsgCodeReceived = NukiCommand.ErrorReport →
      cmdStateMachine K box s t action =
        some (NukiCmdResult.Failed,
          { s with nukiCommandState := NukiCommandState.Idle,
                   lastMsgCodeReceived := K.Empty })) ∧
    (¬ K.CMD_TIMEOUT < elapsed t.now s.timeNow → s.lastMsgCodeReceived = K.Empty →
      cmdStateMachine K box s t action = some (NukiCmdResult.Working, s)) ∧
    (K.CMD_TIMEOUT < elapsed t.now s.timeNow →
      cmdStateMachine K box s t action =
        some (NukiCmdResult.TimeOut,
          { s with timeNow := t.now, nukiCommandState := NukiCommandState.Idle })) ∧
    (∀ r s', cmdStateMachine K box s t action = some (r, s') → r ≠ NukiCmdResult.Working →
      s'.nukiCommandState = NukiCommandState.Idle) := by
  have hstep : cmdStateMachine K box s t action =
      if K.CMD_TIMEOUT < elapsed t.now s.timeNow then
        some (NukiCmdResult.TimeOut,
          { s with timeNow := t.now, nukiCommandState := NukiCommandState.Idle })
      else if s.lastMsgCodeReceived ≠ NukiCommand.ErrorReport ∧
          s.lastMsgCodeReceived ≠ K.Empty then
        some (NukiCmdResult.Success,
          { s with nukiCommandState := NukiCommandState.Idle,
                   lastMsgCodeReceived := K.Empty })
      else if s.lastMsgCodeReceived = NukiCommand.ErrorReport then
        some (NukiCmdResult.Failed,
          { s with nukiCommandState := NukiCommandState.Idle,
                   lastMsgCodeReceived := K.Empty })
      else some (NukiCmdResult.Working, s) := by
    unfold cmdStateMachine
    split
    case h_2 => rfl
    all_goals first
      | (rename_i h; rw [hstate] at h; cases h)
      | (rename_i _ h2; exact absurd hstate h2)
  refine ⟨?_, ?_, ?_, ?_, ?_⟩
  · intro ht h1 h2
    rw [hstep, if_neg ht, if_pos ⟨h2, h1⟩]
  · intro ht h1
    rw [hstep, if_neg ht, if_neg (fun h => h.1 h1), if_pos h1]
  · intro ht h1
    rw [hstep, if_neg ht, if_neg (fun h => h.2 h1), if_neg (by rw [h1]; exact hE)]
  · intro ht
    rw [hstep, if_pos ht]
  · intro r s' h hr
    rw [hstep] at h
    split at h
    · cases h
      rfl
    · split at h
      · cases h
        rfl
      · split at h
        · cases h
          rfl
        · cases h
          exact absurd rfl hr

/-- Witness of C24: `pairedSession` waiting in `CmdSent` with a `KeyturnerStates`
message (`0x0C`) as the last message returns `Success` and is `Idle`. -/
theorem cmdStateMachine_CmdSent_transitions_witness :
    cmdStateMachine sampleConstants tagBox
        { pairedSession with nukiCommandState := NukiCommandState.CmdSent,
                             lastMsgCodeReceived := 0x0C }
        (commandTick 50 []) lockActionSample =
      some (NukiCmdResult.Success,
        { pairedSession with nukiCommandState := NukiCommandState.Idle,
                             lastMsgCodeReceived := 0 }) :=
  (cmdStateMachine_CmdSent_transitions sampleConstants tagBox
    { pairedSession with nukiCommandState := NukiCommandState.CmdSent,
                         lastMsgCodeReceived := 0x0C }
    (commandTick 50 []) lockActionSample rfl (by decide)).1 (by decide) (by decide) (by decide)

/-- C25 fails as stated: a step of `cmdStateMachine` and a step of
`cmdChallStateMachine` taken in `CmdSent` after the deadline return `TimeOut`
and leave `lastMsgCodeReceived` holding `0x0C`, while `Empty` is 0. -/
theorem timeOut_keeps_last_message_code :
    (cmdStateMachine sampleConstants tagBox
        { pairedSession with nukiCommandState := NukiCommandState.CmdSent,
                             lastMsgCodeReceived := 0x0C }
        (commandTick 6000 []) lockActionSample).map
      (fun r => (r.1, r.2.lastMsgCodeReceived, r.2.nukiCommandState)) =
      some (NukiCmdResult.TimeOut, 0x0C, NukiCommandState.Idle) ∧
    (cmdChallStateMachine sampleConstants tagBox
        { pairedSession with nukiCommandState := NukiCommandState.CmdSent,
                             lastMsgCodeReceived := 0x0C }
        (commandTick 6000 []) lockActionSample false).map
      (fun r => (r.1, r.2.lastMsgCodeReceived, r.2.nukiCommandState)) =
      some (NukiCmdResult.TimeOut, 0x0C, NukiCommandState.Idle) ∧
    sampleConstants.Empty = 0 := by
  decide

theorem cmdChall_success_keeps_last_message_code :
    (cmdChallStateMachine sampleConstants tagBox
        { pairedSession with nukiCommandState := NukiCommandState.CmdSent,
                             lastMsgCodeReceived := 0x15, crcCheckOke := true }
        (commandTick 50 []) lockActionSample false).map
      (fun r => (r.1, r.2.lastMsgCodeReceived, r.2.nukiCommandState)) =
      some (NukiCmdResult.Success, 0x15, NukiCommandState.Idle) := by
  decide

/-- C25 as amended: a step that returns `Success` or `Failed` out of `CmdSent`
in `cmdStateMachine`, `Failed` out of `CmdSent` in `cmdChallStateMachine`, or
`Success` or `Failed` in `cmdChallAccStateMachine`, leaves
`lastMsgCodeReceived` equal to `Empty`; a step of any of the three machines
that returns `TimeOut` leaves `lastMsgCodeReceived` as it was, and so does the
`Failed` that `cmdStateMachine` and `cmdChallStateMachine` return for a state
they do not handle (the session is unchanged). -/
theorem terminal_steps_and_last_message_code (K : NukiConstants) (box : SecretBox)
    (s s' : Session) (t : Tick) (action : NukiAction) (pin : Bool) (r : NukiCmdResult) :
    (cmdStateMachine K box s t action = some (r, s') →
      (s.nukiCommandState = NukiCommandState.CmdSent →
        r = NukiCmdResult.Success ∨ r = NukiCmdResult.Failed →
        s'.lastMsgCodeReceived = K.Empty) ∧
      (r = NukiCmdResult.TimeOut → s'.lastMsgCodeReceived = s.lastMsgCodeReceived) ∧
      (s.nukiCommandState ≠ NukiCommandState.CmdSent → r = NukiCmdResult.Failed → s' = s)) ∧
    (cmdChallStateMachine K box s t action pin = some (r, s') →
      (s.nukiCommandState = NukiCommandState.CmdSent → r = NukiCmdResult.Failed →
        s'.lastMsgCodeReceived = K.Empty) ∧
      (r = NukiCmdResult.TimeOut → s'.lastMsgCodeReceived = s.lastMsgCodeReceived) ∧
      (s.nukiCommandState ≠ NukiCommandState.CmdSent → r = NukiCmdResult.Failed → s' = s)) ∧
    (cmdChallAccStateMachine K box s t action = some (r, s') →
      (r = NukiCmdResult.Success ∨ r = NukiCmdResult.Failed →
        s'.lastMsgCodeReceived = K.Empty) ∧
      (r = NukiCmdResult.TimeOut → s'.lastMsgCodeReceived = s.lastMsgCodeReceived)) := by
  refine ⟨?_, ?_, ?_⟩
  · intro h
    unfold cmdStateMachine at h
    split at h
    · simp only [Option.bind_eq_bind] at h
      obtain ⟨s2, _, h2⟩ := Option.bind_eq_some.mp h
      cases h2
      refine ⟨?_, ?_, ?_⟩ <;> intros <;> first | rfl | contradiction
    · split at h
      · cases h
        refine ⟨?_, ?_, ?_⟩ <;> intros <;> first | rfl | contradiction
      · split at h
        · cases h
          refine ⟨?_, ?_, ?_⟩ <;> intros <;> first | rfl | contradiction
        · split at h
          · cases h
            refine ⟨?_, ?_, ?_⟩ <;> intros <;> first | rfl | contradiction
          · cases h
            refine ⟨?_, ?_, ?_⟩ <;> intros <;> first | rfl | contradiction
    · cases h
      refine ⟨?_, ?_, ?_⟩ <;> intros <;> first | rfl | contradiction
  · intro h
    unfold cmdChallStateMachine at h
    split at h
    · simp only [Option.bind_eq_bind] at h
      obtain ⟨s2, _, h2⟩ := Option.bind_eq_some.mp h
      cases h2
      refine ⟨?_, ?_, ?_⟩ <;> intros <;> first | rfl | contradiction
    · split at h
      · cases h
        refine ⟨?_, ?_, ?_⟩ <;> intros <;> first | rfl | contradiction
      · split at h
        · cases h
          refine ⟨?_, ?_, ?_⟩ <;> intros <;> first | rfl | contradiction
        · cases h
          refine ⟨?_, ?_, ?_⟩ <;> intros <;> first | rfl | contradiction
    · have hr : r = NukiCmdResult.Working := by
        cases pin
        · simp only [Option.bind_eq_bind, Bool.false_eq_true, if_false, false_and] at h
          obtain ⟨a, _, h2⟩ := Option.bind_eq_some.mp h
          split at h2
          · cases h2
          · obtain ⟨s2, _, h4⟩ := Option.bind_eq_some.mp h2
            cases h4
            rfl
        · simp only [Option.bind_eq_bind, if_true, true_and] at h
          obtain ⟨a, _, h2⟩ := Option.bind_eq_some.mp h
          split at h2
          · cases h2
          · split at h2
            · cases h2
            · obtain ⟨s2, _, h4⟩ := Option.bind_eq_some.mp h2
              cases h4
              rfl
      subst hr
      refine ⟨?_, ?_, ?_⟩ <;> intros <;> first | rfl | contradiction
    · split at h
      · cases h
        refine ⟨?_, ?_, ?_⟩ <;> intros <;> first | rfl | contradiction
      · split at h
        · cases h
          refine ⟨?_, ?_, ?_⟩ <;> intros <;> first | rfl | contradiction
        · split at h
          · cases h
            refine ⟨?_, ?_, ?_⟩ <;> intros <;> first | rfl | contradiction
          · cases h
            refine ⟨?_, ?_, ?_⟩ <;> intros <;> first | rfl | contradiction
    · cases h
      refine ⟨?_, ?_, ?_⟩ <;> intros <;> first | rfl | contradiction
  · intro h
    unfold cmdChallAccStateMachine at h
    split at h
    · simp only [Option.bind_eq_bind] at h
      obtain ⟨s2, _, h2⟩ := Option.bind_eq_some.mp h
      cases h2
      refine ⟨?_, ?_⟩ <;> intros <;> first | rfl | contradiction
    · split at h
      · cases h
        refine ⟨?_, ?_⟩ <;> intros <;> first | rfl | contradiction
      · split at h
        · cases h
          refine ⟨?_, ?_⟩ <;> intros <;> first | rfl | contradiction
        · cases h
          refine ⟨?_, ?_⟩ <;> intros <;> first | rfl | contradiction
    · simp only [Option.bind_eq_bind] at h
      obtain ⟨a, _, h2⟩ := Option.bind_eq_some.mp h
      split at h2
      · cases h2
      · obtain ⟨s2, _, h4⟩ := Option.bind_eq_some.mp h2
        cases h4
        refine ⟨?_, ?_⟩ <;> intros <;> first | rfl | contradiction
    · split at h
      · cases h
        refine ⟨?_, ?_⟩ <;> intros <;> first | rfl | contradiction
      · split at h
        · cases h
          refine ⟨?_, ?_⟩ <;> intros <;> first | rfl | contradiction
        · cases h
          refine ⟨?_, ?_⟩ <;> intros <;> first | rfl | contradiction
    · split at h
      · cases h
        refine ⟨?_, ?_⟩ <;> intros <;> first | rfl | contradiction
      · split at h
        · cases h
          refine ⟨?_, ?_⟩ <;> intros <;> first | rfl | contradiction
        · split at h
          · cases h
            refine ⟨?_, ?_⟩ <;> intros <;> first | rfl | contradiction
          · cases h
            refine ⟨?_, ?_⟩ <;> intros <;> first | rfl | contradiction

/-- Witness of the amended C25: in `CmdAccepted` with `ErrorReport` as the last
message the accept machine returns `Failed` and `lastMsgCodeReceived` is
`Empty`. -/
theorem terminal_steps_and_last_message_code_witness :
    cmdChallAccStateMachine sampleConstants tagBox (errorReported NukiCommandState.CmdAccepted)
        (commandTick 50 []) lockActionSample =
      some (NukiCmdResult.Failed,
        { errorReported NukiCommandState.CmdAccepted with
          nukiCommandState := NukiCommandState.Idle, lastMsgCodeReceived := 0 }) ∧
    ({ errorReported NukiCommandState.CmdAccepted with
          nukiCommandState := NukiCommandState.Idle,
          lastMsgCodeReceived := 0 } : Session).lastMsgCodeReceived = sampleConstants.Empty :=
  ⟨by decide,
   ((terminal_steps_and_last_message_code sampleConstants tagBox
      (errorReported NukiCommandState.CmdAccepted)
      { errorReported NukiCommandState.CmdAccepted with
        nukiCommandState := NukiCommandState.Idle, lastMsgCodeReceived := 0 }
      (commandTick 50 []) lockActionSample false NukiCmdResult.Failed).2.2 (by decide)).1
    (Or.inr rfl)⟩

/-- C26: for every action with `payloadLen ≤ 80` whose payload array holds
`payloadLen` bytes, the step of `cmdChallStateMachine` in
`ChallengeRespReceived` makes one call of `sendEncryptedMessage`, in a session
with `crcCheckOke` false, with command `action.command` and the payload
`action.payload[0..payloadLen) ‖ challengeNonceK`, followed by `pinCode` as two
little-endian bytes exactly when `sendPinCode` is true; the length passed is
`payloadLen + 32`, or `payloadLen + 34` with PIN, which is the length of that
payload; the machine is in `CmdSent` afterwards with `crcCheckOke` false, and
at most one frame, on the user characteristic, has been written. -/
theorem challengeResponse_payload (K : NukiConstants) (box : SecretBox) (s : Session) (t : Tick)
    (action : NukiAction) (sendPinCode : Bool)
    (hstate : s.nukiCommandState = NukiCommandState.ChallengeRespReceived)
    (hlen : action.payloadLen ≤ 80) (hfit : action.payloadLen ≤ action.payload.length)
    (hn : s.challengeNonceK.length = 32) :
    (action.payload.take action.payloadLen ++ s.challengeNonceK ++
        (if sendPinCode then le16 s.pinCode else [])).length =
      action.payloadLen + 32 + (if sendPinCode then 2 else 0) ∧
    ∃ s2, sendEncryptedMessage box
        { s with lastMsgCodeReceived := K.Empty, timeNow := t.now, crcCheckOke := false } t
        action.command
        (action.payload.take action.payloadLen ++ s.challengeNonceK ++
          (if sendPinCode then le16 s.pinCode else []))
        (action.payloadLen + 32 + (if sendPinCode then 2 else 0)) = some s2 ∧
      cmdChallStateMachine K box s t action sendPinCode =
        some (NukiCmdResult.Working, { s2 with nukiCommandState := NukiCommandState.CmdSent }) ∧
      s2.crcCheckOke = false ∧
      (s2.written = s.written ∨ ∃ f, s2.written = s.written ++ [(Characteristic.usdio, f)]) := by
  have hread : readBytes action.payload 0 action.payloadLen =
      some (action.payload.take action.payloadLen) := by
    unfold readBytes
    rw [if_pos (by omega)]
    rfl
  have hplen : (action.payload.take action.payloadLen ++ s.challengeNonceK ++
      (if sendPinCode then le16 s.pinCode else [])).length =
      action.payloadLen + 32 + (if sendPinCode then 2 else 0) := by
    cases sendPinCode
    · simp only [Bool.false_eq_true, if_false, List.append_nil, List.length_append,
        List.length_take, hn]
      omega
    · simp only [if_true, List.length_append, List.length_take, hn, le16_length]
      omega
  refine ⟨hplen, ?_⟩
  obtain ⟨s2, h2⟩ := sendEncryptedMessage_some box
    { s with lastMsgCodeReceived := K.Empty, timeNow := t.now, crcCheckOke := false } t
    action.command
    (action.payload.take action.payloadLen ++ s.challengeNonceK ++
      (if sendPinCode then le16 s.pinCode else []))
    (action.payloadLen + 32 + (if sendPinCode then 2 else 0)) (by
      rw [hplen]
      exact Nat.mod_le _ _)
  refine ⟨s2, h2, ?_, ?_, ?_⟩
  · unfold cmdChallStateMachine
    split
    case h_3 =>
      cases sendPinCode
      · have e1 : (action.payloadLen + 32) % 256 = action.payloadLen + 32 := by omega
        simp only [Bool.false_eq_true, if_false, Nat.add_zero, List.append_nil] at h2
        simp only [Option.bind_eq_bind, hread, Option.some_bind, Bool.false_eq_true, if_false,
          false_and, e1, List.append_nil]
        rw [if_neg (by omega), h2]
        rfl
      · have e1 : ((action.payloadLen + 32) % 256 + 2) % 256 = action.payloadLen + 32 + 2 := by
          omega
        simp only [if_true] at h2
        simp only [Option.bind_eq_bind, hread, Option.some_bind, if_true, true_and, e1]
        rw [if_neg (by omega), if_neg (by omega), h2]
        rfl
    all_goals first
      | (rename_i h; rw [hstate] at h; cases h)
      | (rename_i h3 _; exact absurd hstate h3)
  · exact (sendEncryptedMessage_frame _ _ _ _ _ _ _ h2).2.2.2.2.2.2.1
  · rcases sendEncryptedMessage_cases _ _ _ _ _ _ _ h2 with rfl | ⟨f, _, rfl⟩
    · exact Or.inl rfl
    · exact Or.inr ⟨f, rfl⟩

/-- Witness of C26: `challengedSession` with the lock action of the scenario
and the PIN. -/
theorem challengeResponse_payload_witness :
    ∃ s2 : Session, cmdChallStateMachine sampleConstants tagBox challengedSession sampleTick
        lockActionSample true =
        some (NukiCmdResult.Working, { s2 with nukiCommandState := NukiCommandState.CmdSent }) ∧
      s2.crcCheckOke = false := by
  obtain ⟨_, s2, _, h2, h3, _⟩ := challengeResponse_payload sampleConstants tagBox
    challengedSession sampleTick lockActionSample true rfl (by decide) (by decide) (by decide)
  exact ⟨s2, h2, h3⟩

/-! ## The claims on the configuration setters -/

/-- C21 fails as stated: for a name of 33 bytes `setName` returns `Failed`,
the result the command machines return after an `ErrorReport`, not a result
distinct from it; the session is unchanged. -/
theorem setName_too_long_is_Failed :
    setName sampleConstants sampleLayout tagBox pairedSession (List.replicate 33 0x41) freshAction
        [] [] acceptingLock acceptingLock = some (NukiCmdResult.Failed, pairedSession) ∧
    cmdStateMachine sampleConstants tagBox (errorReported NukiCommandState.CmdSent)
        (commandTick 50 []) lockActionSample =
      some (NukiCmdResult.Failed,
        { errorReported NukiCommandState.CmdSent with
          nukiCommandState := NukiCommandState.Idle, lastMsgCodeReceived := 0 }) := by
  refine ⟨by decide, by decide⟩

/-- C21 as amended: for every name longer than 32 bytes `setName` returns
`Failed` (the result also used when the lock answered with an `ErrorReport`)
and leaves the session as it was: no credentials are read, no frame is
written, no nonce is drawn and `nukiCommandState` does not change. -/
theorem setName_rejects_long_names (K : NukiConstants) (L : ConfigLayout) (box : SecretBox)
    (s : Session) (name : Bytes) (fresh : NukiAction) (buff1 buff2 : Bytes)
    (ticks1 ticks2 : List Tick) (h : 32 < name.length) :
    setName K L box s name fresh buff1 buff2 ticks1 ticks2 = some (NukiCmdResult.Failed, s) := by
  unfold setName
  rw [if_neg (by omega)]

/-- Witness of the amended C21: a name of 33 bytes. -/
theorem setName_rejects_long_names_witness :
    setName sampleConstants sampleLayout tagBox pairedSession (List.replicate 33 0x41) freshAction
        [] [] acceptingLock acceptingLock = some (NukiCmdResult.Failed, pairedSession) :=
  setName_rejects_long_names sampleConstants sampleLayout tagBox pairedSession
    (List.replicate 33 0x41) freshAction [] [] acceptingLock acceptingLock (by decide)

/-! ## The claims on the dispatcher -/

theorem handleReturnMessage_total (K : NukiConstants) (s : Session) (c : Nat) (p : Bytes)
    (hlen : handlerReads K c ≤ p.length)
    (hdst : c = NukiCommand.LogEntryCount → K.sizeofLogEntryCount ≤ K.sizeofLoggingEnabled) :
    ∃ s', handleReturnMessage K s c p = some s' := by
  unfold handleReturnMessage
  unfold handlerReads at hlen
  dsimp only
  by_cases h0 : c = NukiCommand.PublicKey
  · rw [if_pos h0] at hlen ⊢
    rw [readBytes_some p 0 (32) (by omega)]
    exact ⟨_, rfl⟩
  rw [if_neg h0] at hlen ⊢
  by_cases h1 : c = NukiCommand.Challenge
  · rw [if_pos h1] at hlen ⊢
    rw [readBytes_some p 0 (32) (by omega)]
    exact ⟨_, rfl⟩
  rw [if_neg h1] at hlen ⊢
  by_cases h2 : c = NukiCommand.AuthorizationId
  · rw [if_pos h2] at hlen ⊢
    have hl := le_max_left (36 + K.sizeofLockId) 84
    have hr := le_max_right (36 + K.sizeofLockId) 84
    rw [readBytes_some p 32 (4) (by omega), readBytes_some p 36 (K.sizeofLockId) (by omega), readBytes_some p 52 (32) (by omega)]
    exact ⟨_, rfl⟩
  rw [if_neg h2] at hlen ⊢
  by_cases h3 : c = NukiCommand.AuthorizationEntry
  · rw [if_pos h3] at hlen ⊢
    rw [readBytes_some p 0 (K.sizeofAuthorizationEntry) (by omega)]
    exact ⟨_, rfl⟩
  rw [if_neg h3] at hlen ⊢
  by_cases h4 : c = NukiCommand.KeyturnerStates
  · rw [if_pos h4] at hlen ⊢
    rw [readBytes_some p 0 (K.sizeofKeyTurnerState) (by omega)]
    exact ⟨_, rfl⟩
  rw [if_neg h4] at hlen ⊢
  by_cases h5 : c = NukiCommand.Status
  · rw [if_pos h5] at hlen ⊢
    rw [readBytes_some p 0 (1) (by omega)]
    exact ⟨_, rfl⟩
  rw [if_neg h5] at hlen ⊢
  by_cases h6 : c = NukiCommand.BatteryReport
  · rw [if_pos h6] at hlen ⊢
    rw [readBytes_some p 0 (K.sizeofBatteryReport) (by omega)]
    exact ⟨_, rfl⟩
  rw [if_neg h6] at hlen ⊢
  by_cases h7 : c = NukiCommand.ErrorReport
  · rw [if_pos h7] at hlen ⊢
    rw [readBytes_some p 0 (1) (by omega)]
    exact ⟨_, rfl⟩
  rw [if_neg h7] at hlen ⊢
  by_cases h8 : c = NukiCommand.Config
  · rw [if_pos h8] at hlen ⊢
    rw [readBytes_some p 0 (K.sizeofConfig) (by omega)]
    exact ⟨_, rfl⟩
  rw [if_neg h8] at hlen ⊢
  by_cases h9 : c = K.AuthorizationEntryCount
  · rw [if_pos h9] at hlen ⊢
    rw [readBytes_some p 0 (2) (by omega)]
    exact ⟨_, rfl⟩
  rw [if_neg h9] at hlen ⊢
  by_cases h10 : c = NukiCommand.LogEntry
  · rw [if_pos h10] at hlen ⊢
    rw [readBytes_some p 0 (K.sizeofLogEntry) (by omega)]
    exact ⟨_, rfl⟩
  rw [if_neg h10] at hlen ⊢
  by_cases h11 : c = NukiCommand.LogEntryCount
  · rw [if_pos h11] at hlen ⊢
    have hd := hdst h11
    rw [readBytes_some p 0 (K.sizeofLogEntryCount) (by omega), readBytes_some p 1 (K.sizeofLogEntryCount) (by omega)]
    simp only [Option.bind_eq_bind, Option.some_bind]
    rw [if_neg (by omega)]
    exact ⟨_, rfl⟩
  rw [if_neg h11] at hlen ⊢
  by_cases h12 : c = NukiCommand.AdvancedConfig
  · rw [if_pos h12] at hlen ⊢
    rw [readBytes_some p 0 (K.sizeofAdvancedConfig) (by omega)]
    exact ⟨_, rfl⟩
  rw [if_neg h12] at hlen ⊢
  by_cases h13 : c = NukiCommand.TimeControlEntry
  · rw [if_pos h13] at hlen ⊢
    rw [readBytes_some p 0 (K.sizeofTimeControlEntry) (by omega)]
    exact ⟨_, rfl⟩
  rw [if_neg h13] at hlen ⊢
  by_cases h14 : c = NukiCommand.KeypadCodeCount
  · rw [if_pos h14] at hlen ⊢
    rw [readBytes_some p 0 (2) (by omega)]
    exact ⟨_, rfl⟩
  rw [if_neg h14] at hlen ⊢
  by_cases h15 : c = NukiCommand.KeypadCode
  · rw [if_pos h15] at hlen ⊢
    cases hdbg : K.debugReadableData
    · simp only [Bool.false_eq_true, if_false]
      exact ⟨_, rfl⟩
    · rw [hdbg] at hlen
      simp only [if_true] at hlen ⊢
      rw [readBytes_some p 0 (K.sizeofKeypadEntry) (by omega)]
      exact ⟨_, rfl⟩
  rw [if_neg h15] at hlen ⊢
  exact ⟨_, rfl⟩

theorem handleReturnMessage_unknown (K : NukiConstants) (s : Session) (c : Nat) (p : Bytes)
    (h : c ∉ copiedCommands K) :
    handleReturnMessage K s c p = some { s with lastMsgCodeReceived := c } := by
  simp only [copiedCommands, List.mem_cons, List.mem_singleton, List.not_mem_nil, or_false,
    not_or] at h
  obtain ⟨h0, h1, h2, h3, h4, h5, h6, h7, h8, h9, h10, h11, h12, h13, h14, h15⟩ := h
  unfold handleReturnMessage
  dsimp only
  rw [if_neg h0, if_neg h1, if_neg h2, if_neg h3, if_neg h4, if_neg h5, if_neg h6, if_neg h7, if_neg h8, if_neg h9, if_neg h10, if_neg h11, if_neg h12, if_neg h13, if_neg h14, if_neg h15]

theorem plainDataArray_length_ge (p b : Bytes) : 200 ≤ (plainDataArray p b).length := by
  unfold plainDataArray
  simp only [List.length_append, List.length_take, List.length_drop, List.length_replicate]
  omega

theorem take_two_getD (frame : Bytes) (h : 2 ≤ frame.length) :
    ((frame.drop 0).take 2).getD 0 0 = frame.getD 0 0 ∧
    ((frame.drop 0).take 2).getD 1 0 = frame.getD 1 0 := by
  match frame, h with
  | a :: b :: rest, _ => exact ⟨rfl, rfl⟩

theorem notifyDispatch_gdio_valid (box : SecretBox) (s : Session) (frame decrInit : Bytes)
    (hcrc : crcValid frame = some true) (h4 : 4 ≤ frame.length) (h204 : frame.length ≤ 204) :
    notifyDispatch box s Characteristic.gdio frame decrInit =
      some (Dispatch.accepted (fromLe16 (frame.getD 0 0) (frame.getD 1 0))
        ((frame.drop 2).take (frame.length - 4))) := by
  unfold notifyDispatch
  dsimp only
  rw [readBytes_some frame 0 2 (by omega), hcrc]
  simp only [Option.bind_eq_bind, Option.some_bind, if_true]
  rw [if_neg (by omega), if_neg (by omega), readBytes_some frame 2 _ (by omega),
    (take_two_getD frame (by omega)).1, (take_two_getD frame (by omega)).2]
  rfl

/-- C27: for every frame that is dispatched with command id `c` (it passed the
CRC check), on either characteristic: whenever `notifyCallback` returns,
`lastMsgCodeReceived` is `c` and `crcCheckOke` is true; it does return when the
array handed to the handler holds the bytes the case of `c` copies (and the
copy of a `LogEntryCount` fits `loggingEnabled`); for an id without a copying
case it returns for every payload, having changed nothing but these two
members.  On the pairing characteristic the array handed over is
`plainData[200]`, so for every frame of 4 to 204 bytes that passes the CRC
check, whatever the length of its payload, `notifyCallback` returns with
`lastMsgCodeReceived` the id in the first two bytes and `crcCheckOke` true
(no case copying more than 200 bytes). -/
theorem dispatcher_signals (K : NukiConstants) (box : SecretBox) (s : Session)
    (ch : Characteristic) (recData decrInit : Bytes) :
    (∀ c p, notifyDispatch box s ch recData decrInit = some (Dispatch.accepted c p) →
      (∀ s', notifyCallback K box s ch recData decrInit = some s' →
        s'.lastMsgCodeReceived = c ∧ s'.crcCheckOke = true) ∧
      (handlerReads K c ≤ (handedOver ch p decrInit).length →
        (c = NukiCommand.LogEntryCount → K.sizeofLogEntryCount ≤ K.sizeofLoggingEnabled) →
        ∃ s', notifyCallback K box s ch recData decrInit = some s' ∧
          s'.lastMsgCodeReceived = c ∧ s'.crcCheckOke = true) ∧
      (c ∉ copiedCommands K →
        notifyCallback K box s ch recData decrInit =
          some { s with crcCheckOke := true, lastMsgCodeReceived := c })) ∧
    (ch = Characteristic.gdio → crcValid recData = some true → 4 ≤ recData.length →
      recData.length ≤ 204 →
      handlerReads K (fromLe16 (recData.getD 0 0) (recData.getD 1 0)) ≤ 200 →
      (fromLe16 (recData.getD 0 0) (recData.getD 1 0) = NukiCommand.LogEntryCount →
        K.sizeofLogEntryCount ≤ K.sizeofLoggingEnabled) →
      ∃ s', notifyCallback K box s ch recData decrInit = some s' ∧
        s'.lastMsgCodeReceived = fromLe16 (recData.getD 0 0) (recData.getD 1 0) ∧
        s'.crcCheckOke = true) := by
  have hmain : ∀ c p, notifyDispatch box s ch recData decrInit = some (Dispatch.accepted c p) →
      (∀ s', notifyCallback K box s ch recData decrInit = some s' →
        s'.lastMsgCodeReceived = c ∧ s'.crcCheckOke = true) ∧
      (handlerReads K c ≤ (handedOver ch p decrInit).length →
        (c = NukiCommand.LogEntryCount → K.sizeofLogEntryCount ≤ K.sizeofLoggingEnabled) →
        ∃ s', notifyCallback K box s ch recData decrInit = some s' ∧
          s'.lastMsgCodeReceived = c ∧ s'.crcCheckOke = true) ∧
      (c ∉ copiedCommands K →
        notifyCallback K box s ch recData decrInit =
          some { s with crcCheckOke := true, lastMsgCodeReceived := c }) := by
    intro c p hd
    have hcall := notifyCallback_of_accepted K box s ch recData decrInit c p hd
    have hflags : ∀ s', notifyCallback K box s ch recData decrInit = some s' →
        s'.lastMsgCodeReceived = c ∧ s'.crcCheckOke = true := by
      intro s' h
      rw [hcall] at h
      obtain ⟨_, _, _, _, _, _, _, h8, h9, _⟩ := handleReturnMessage_frame K _ s' c _ h
      exact ⟨h9, h8⟩
    refine ⟨hflags, ?_, ?_⟩
    · intro hlen hdst
      obtain ⟨s', hs'⟩ := handleReturnMessage_total K { s with crcCheckOke := true } c
        (handedOver ch p decrInit) hlen hdst
      rw [← hcall] at hs'
      exact ⟨s', hs', hflags s' hs'⟩
    · intro hc
      rw [hcall, handleReturnMessage_unknown K _ c _ hc]
  refine ⟨hmain, ?_⟩
  intro hch hcrc h4 h204 hreads hdst
  subst hch
  have hd := notifyDispatch_gdio_valid box s recData decrInit hcrc h4 h204
  exact (hmain _ _ hd).2.1
    (Nat.le_trans hreads (plainDataArray_length_ge _ _)) hdst

/-- Witness of C27: the CRC-valid pairing frame `03 00 5C 48` (`PublicKey`,
no payload): `notifyCallback` returns with both signals set. -/
theorem dispatcher_signals_witness :
    ∃ s', notifyCallback sampleConstants tagBox pairedSession Characteristic.gdio
        [3, 0, 92, 72] [] = some s' ∧
      s'.lastMsgCodeReceived = fromLe16 (([3, 0, 92, 72] : Bytes).getD 0 0)
        (([3, 0, 92, 72] : Bytes).getD 1 0) ∧
      s'.crcCheckOke = true :=
  (dispatcher_signals sampleConstants tagBox pairedSession Characteristic.gdio
    [3, 0, 92, 72] []).2 rfl (by decide) (by decide) (by decide) (by decide) (by decide)

theorem handleReturnMessage_KeypadCode (K : NukiConstants) (s : Session) (p : Bytes)
    (hK : K.AuthorizationEntryCount ≠ NukiCommand.KeypadCode) :
    (K.debugReadableData = false →
      handleReturnMessage K s NukiCommand.KeypadCode p =
        some { s with lastMsgCodeReceived := NukiCommand.KeypadCode }) ∧
    (K.debugReadableData = true → K.sizeofKeypadEntry ≤ p.length →
      handleReturnMessage K s NukiCommand.KeypadCode p =
        some { s with lastMsgCodeReceived := NukiCommand.KeypadCode,
                      listOfKeyPadEntries :=
                        s.listOfKeyPadEntries ++ [p.take K.sizeofKeypadEntry] }) := by
  have hchain : handleReturnMessage K s NukiCommand.KeypadCode p =
      if K.debugReadableData then do
        let e ← readBytes p 0 K.sizeofKeypadEntry
        some { { s with lastMsgCodeReceived := NukiCommand.KeypadCode } with
          listOfKeyPadEntries := s.listOfKeyPadEntries ++ [e] }
      else some { s with lastMsgCodeReceived := NukiCommand.KeypadCode } := by
    unfold handleReturnMessage
    dsimp only
    rw [if_neg (by decide), if_neg (by decide), if_neg (by decide), if_neg (by decide),
      if_neg (by decide), if_neg (by decide), if_neg (by decide), if_neg (by decide),
      if_neg (by decide), if_neg (fun h => hK h.symm), if_neg (by decide), if_neg (by decide),
      if_neg (by decide), if_neg (by decide), if_neg (by decide), if_pos rfl]
  refine ⟨?_, ?_⟩
  · intro hd
    rw [hchain, hd]
    rfl
  · intro hd hp
    rw [hchain, hd, if_pos rfl, readBytes_some p 0 _ (by omega)]
    rfl

/-- C28, the code at a failing input: in a build without
`DEBUG_NUKI_READABLE_DATA` a `KeypadCode` message leaves `listOfKeyPadEntries`
as it was, and `retrieveKeypadEntries` against a lock that sends two keypad
codes and the terminator returns `Success` with an empty list. -/
theorem keypadCodes_not_collected :
    sampleConstants.debugReadableData = false ∧
    (handleReturnMessage sampleConstants pairedSession NukiCommand.KeypadCode
        (List.replicate 50 1)).map (fun s => (s.lastMsgCodeReceived, s.listOfKeyPadEntries)) =
      some (0x44, []) ∧
    (retrieveKeypadEntries sampleConstants tagBox pairedSession 0 2 [] keypadLock).map
        (fun r => (r.1, r.2.listOfKeyPadEntries)) = some (NukiCmdResult.Success, []) := by
  refine ⟨rfl, by decide, by decide!⟩

theorem logEntryCount_copies_count_bytes (K : NukiConstants) (s s' : Session) (d : Bytes)
    (hK : K.AuthorizationEntryCount ≠ NukiCommand.LogEntryCount)
    (h : handleReturnMessage K s NukiCommand.LogEntryCount d = some s') :
    K.sizeofLogEntryCount ≤ K.sizeofLoggingEnabled ∧
    s'.loggingEnabled.take K.sizeofLogEntryCount = d.take K.sizeofLogEntryCount ∧
    s'.logEntryCount = (d.drop 1).take K.sizeofLogEntryCount := by
  unfold handleReturnMessage at h
  dsimp only at h
  rw [if_neg (by decide), if_neg (by decide), if_neg (by decide), if_neg (by decide),
    if_neg (by decide), if_neg (by decide), if_neg (by decide), if_neg (by decide),
    if_neg (by decide), if_neg (fun h => hK h.symm), if_neg (by decide), if_pos rfl] at h
  simp only [Option.bind_eq_bind] at h
  obtain ⟨e, h1, h2⟩ := Option.bind_eq_some.mp h
  split at h2
  · cases h2
  · obtain ⟨c, h3, h4⟩ := Option.bind_eq_some.mp h2
    cases h4
    unfold readBytes at h1 h3
    split at h1
    · split at h3
      · cases h1
        cases h3
        refine ⟨by omega, ?_, rfl⟩
        show ((d.drop 0).take K.sizeofLogEntryCount ++ _).take K.sizeofLogEntryCount = _
        rw [List.drop_zero, List.take_append_of_le_length (by simp; omega), List.take_take]
        simp
      · cases h3
    · cases h1

/-- C30, the code at a failing input: with a one-byte `loggingEnabled` and a
two-byte `logEntryCount` the first copy of the `LogEntryCount` case writes two
bytes at `loggingEnabled`, one of them outside the member. -/
theorem logEntryCount_copy_overruns :
    sampleConstants.sizeofLoggingEnabled = 1 ∧ sampleConstants.sizeofLogEntryCount = 2 ∧
    handleReturnMessage sampleConstants pairedSession NukiCommand.LogEntryCount [1, 5, 0] =
      none := by
  refine ⟨rfl, rfl, by decide⟩

theorem handleReturnMessage_AuthorizationEntry (K : NukiConstants) (s : Session) (p : Bytes)
    (hp : K.sizeofAuthorizationEntry ≤ p.length) :
    handleReturnMessage K s NukiCommand.AuthorizationEntry p =
      some { s with lastMsgCodeReceived := NukiCommand.AuthorizationEntry,
                    listOfAuthorizationEntries :=
                      s.listOfAuthorizationEntries ++ [p.take K.sizeofAuthorizationEntry] } := by
  unfold handleReturnMessage
  dsimp only
  rw [if_neg (by decide), if_neg (by decide), if_neg (by decide), if_pos rfl,
    readBytes_some p 0 _ (by omega)]
  rfl

theorem handleReturnMessage_TimeControlEntry (K : NukiConstants) (s : Session) (p : Bytes)
    (hK : K.AuthorizationEntryCount ≠ NukiCommand.TimeControlEntry)
    (hp : K.sizeofTimeControlEntry ≤ p.length) :
    handleReturnMessage K s NukiCommand.TimeControlEntry p =
      some { s with lastMsgCodeReceived := NukiCommand.TimeControlEntry,
                    listOfTimeControlEntries :=
                      s.listOfTimeControlEntries ++ [p.take K.sizeofTimeControlEntry] } := by
  unfold handleReturnMessage
  dsimp only
  rw [if_neg (by decide), if_neg (by decide), if_neg (by decide), if_neg (by decide),
    if_neg (by decide), if_neg (by decide), if_neg (by decide), if_neg (by decide),
    if_neg (by decide), if_neg (fun h => hK h.symm), if_neg (by decide), if_neg (by decide),
    if_neg (by decide), if_pos rfl, readBytes_some p 0 _ (by omega)]
  rfl

theorem deliver_same_kind (K : NukiConstants) (box : SecretBox) (key : Bytes) (c : Nat)
    (ok : Bytes → Prop) (f : Session → Bytes → Session)
    (hf : ∀ σ p, ok p → handleReturnMessage K { σ with crcCheckOke := true } c p = some (f σ p))
    (hkey : ∀ σ p, (f σ p).secretKeyK = σ.secretKeyK)
    (hreads : ∀ p, ok p → handlerReads K c ≤ p.length)
    (batch : List ((Characteristic × Bytes × Bytes) × Bytes))
    (hb : ∀ x ∈ batch, Carries box key x.1 c x.2 ∧ ok x.2)
    (s : Session) (hs : s.secretKeyK = key) :
    deliver K box s (batch.map Prod.fst) = some (batch.foldl (fun σ x => f σ x.2) s) := by
  induction batch generalizing s with
  | nil => exact deliver_nil K box s
  | cons x rest ih =>
    obtain ⟨hc, hok⟩ := hb x (List.mem_cons_self _ _)
    rw [List.map_cons, deliver_cons,
      notifyCallback_carried K box s x.1 c x.2 (by rw [hs]; exact hc) (hreads x.2 hok),
      hf s x.2 hok]
    simp only [Option.some_bind, List.foldl_cons]
    exact ih (fun y hy => hb y (List.mem_cons_of_mem _ hy)) _ ((hkey s x.2).trans hs)

theorem retrieveCredentials_lists (s : Session) (buff : Bytes) :
    (retrieveCredentials s buff).2.listOfAuthorizationEntries = s.listOfAuthorizationEntries ∧
    (retrieveCredentials s buff).2.listOfLogEntries = s.listOfLogEntries ∧
    (retrieveCredentials s buff).2.listOfTimeControlEntries = s.listOfTimeControlEntries ∧
    (retrieveCredentials s buff).2.listOfKeyPadEntries = s.listOfKeyPadEntries := by
  unfold retrieveCredentials
  simp only
  split
  · exact ⟨rfl, rfl, rfl, rfl⟩
  · split
    · exact ⟨rfl, rfl, rfl, rfl⟩
    · split
      · exact ⟨rfl, rfl, rfl, rfl⟩
      · split <;> exact ⟨rfl, rfl, rfl, rfl⟩

theorem executeAction_no_ticks (K : NukiConstants) (box : SecretBox) (s : Session)
    (action : NukiAction) (buff : Bytes) :
    ∃ r, executeAction K box s action buff [] = some (r, (retrieveCredentials s buff).2) := by
  unfold executeAction
  simp only
  split
  · cases action.cmdType <;> exact ⟨_, rfl⟩
  · exact ⟨_, rfl⟩

/-- C29: for each of `AuthorizationEntry`, `LogEntry` and `TimeControlEntry`,
`handleReturnMessage` appends the record copied from the payload at the end of
the corresponding list and changes nothing else but `lastMsgCodeReceived`
(the earlier elements, their order and the other lists are kept); after the
frames of `n` such messages have been dispatched the list is the list before
followed by the `n` records in arrival order, and the other entry lists are as
before; and each retrieve operation starts its action with its list empty. -/
theorem entry_lists_grow_in_arrival_order (K : NukiConstants) (box : SecretBox) (key : Bytes)
    (hL : K.AuthorizationEntryCount ≠ NukiCommand.LogEntry)
    (hT : K.AuthorizationEntryCount ≠ NukiCommand.TimeControlEntry) :
    (∀ (s : Session) (p : Bytes),
      (K.sizeofAuthorizationEntry ≤ p.length →
        handleReturnMessage K s NukiCommand.AuthorizationEntry p =
          some { s with lastMsgCodeReceived := NukiCommand.AuthorizationEntry,
                        listOfAuthorizationEntries :=
                          s.listOfAuthorizationEntries ++ [p.take K.sizeofAuthorizationEntry] }) ∧
      (K.sizeofLogEntry ≤ p.length →
        handleReturnMessage K s NukiCommand.LogEntry p =
          some { s with lastMsgCodeReceived := NukiCommand.LogEntry,
                        listOfLogEntries := s.listOfLogEntries ++ [p.take K.sizeofLogEntry] }) ∧
      (K.sizeofTimeControlEntry ≤ p.length →
        handleReturnMessage K s NukiCommand.TimeControlEntry p =
          some { s with lastMsgCodeReceived := NukiCommand.TimeControlEntry,
                        listOfTimeControlEntries :=
                          s.listOfTimeControlEntries ++ [p.take K.sizeofTimeControlEntry] })) ∧
    (∀ (s : Session) (batch : List ((Characteristic × Bytes × Bytes) × Bytes)),
      s.secretKeyK = key →
      ((∀ x ∈ batch, Carries box key x.1 NukiCommand.AuthorizationEntry x.2 ∧
          K.sizeofAuthorizationEntry ≤ x.2.length) →
        ∃ s', deliver K box s (batch.map Prod.fst) = some s' ∧
          s'.listOfAuthorizationEntries = s.listOfAuthorizationEntries ++
            batch.map (fun x => x.2.take K.sizeofAuthorizationEntry) ∧
          s'.listOfLogEntries = s.listOfLogEntries ∧
          s'.listOfTimeControlEntries = s.listOfTimeControlEntries ∧
          s'.listOfKeyPadEntries = s.listOfKeyPadEntries) ∧
      ((∀ x ∈ batch, Carries box key x.1 NukiCommand.LogEntry x.2 ∧
          K.sizeofLogEntry ≤ x.2.length) →
        ∃ s', deliver K box s (batch.map Prod.fst) = some s' ∧
          s'.listOfLogEntries = s.listOfLogEntries ++
            batch.map (fun x => x.2.take K.sizeofLogEntry) ∧
          s'.listOfAuthorizationEntries = s.listOfAuthorizationEntries ∧
          s'.listOfTimeControlEntries = s.listOfTimeControlEntries ∧
          s'.listOfKeyPadEntries = s.listOfKeyPadEntries) ∧
      ((∀ x ∈ batch, Carries box key x.1 NukiCommand.TimeControlEntry x.2 ∧
          K.sizeofTimeControlEntry ≤ x.2.length) →
        ∃ s', deliver K box s (batch.map Prod.fst) = some s' ∧
          s'.listOfTimeControlEntries = s.listOfTimeControlEntries ++
            batch.map (fun x => x.2.take K.sizeofTimeControlEntry) ∧
          s'.listOfAuthorizationEntries = s.listOfAuthorizationEntries ∧
          s'.listOfLogEntries = s.listOfLogEntries ∧
          s'.listOfKeyPadEntries = s.listOfKeyPadEntries)) ∧
    (∀ (s : Session) (a b c : Nat) (d : Bool) (buff : Bytes),
      (retrieveAuthorizationEntries K box s a b buff []).map
          (fun r => r.2.listOfAuthorizationEntries) = some [] ∧
      (retrieveLogEntries K box s a b c d buff []).map (fun r => r.2.listOfLogEntries) =
          some [] ∧
      (retrieveTimeControlEntries K box s buff []).map
          (fun r => r.2.listOfTimeControlEntries) = some []) := by
  refine ⟨fun s p => ⟨handleReturnMessage_AuthorizationEntry K s p,
    handleReturnMessage_LogEntry K s p hL, handleReturnMessage_TimeControlEntry K s p hT⟩,
    ?_, ?_⟩
  · intro s batch hs
    refine ⟨?_, ?_, ?_⟩
    · intro hb
      refine ⟨_, deliver_same_kind K box key NukiCommand.AuthorizationEntry
        (fun p => K.sizeofAuthorizationEntry ≤ p.length)
        (fun σ p => { { σ with crcCheckOke := true } with
          lastMsgCodeReceived := NukiCommand.AuthorizationEntry,
          listOfAuthorizationEntries :=
            σ.listOfAuthorizationEntries ++ [p.take K.sizeofAuthorizationEntry] })
        (fun σ p hp => handleReturnMessage_AuthorizationEntry K _ p hp) (fun _ _ => rfl)
        (fun p hp => by rw [handlerReads_AuthorizationEntry K]; exact hp)
        batch hb s hs, ?_⟩
      clear hb hs
      induction batch generalizing s with
      | nil => exact ⟨by simp, rfl, rfl, rfl⟩
      | cons x rest ih =>
        obtain ⟨a1, a2, a3, a4⟩ := ih
          { { s with crcCheckOke := true } with
            lastMsgCodeReceived := NukiCommand.AuthorizationEntry,
            listOfAuthorizationEntries :=
              s.listOfAuthorizationEntries ++ [x.2.take K.sizeofAuthorizationEntry] }
        rw [List.foldl_cons]
        exact ⟨by rw [a1]; simp, a2, a3, a4⟩
    · intro hb
      refine ⟨_, deliver_same_kind K box key NukiCommand.LogEntry
        (fun p => K.sizeofLogEntry ≤ p.length)
        (fun σ p => { { σ with crcCheckOke := true } with
          lastMsgCodeReceived := NukiCommand.LogEntry,
          listOfLogEntries := σ.listOfLogEntries ++ [p.take K.sizeofLogEntry] })
        (fun σ p hp => handleReturnMessage_LogEntry K _ p hL hp) (fun _ _ => rfl)
        (fun p hp => by rw [handlerReads_LogEntry K hL]; exact hp)
        batch hb s hs, ?_⟩
      clear hb hs
      induction batch generalizing s with
      | nil => exact ⟨by simp, rfl, rfl, rfl⟩
      | cons x rest ih =>
        obtain ⟨a1, a2, a3, a4⟩ := ih
          { { s with crcCheckOke := true } with
            lastMsgCodeReceived := NukiCommand.LogEntry,
            listOfLogEntries := s.listOfLogEntries ++ [x.2.take K.sizeofLogEntry] }
        rw [List.foldl_cons]
        exact ⟨by rw [a1]; simp, a2, a3, a4⟩
    · intro hb
      refine ⟨_, deliver_same_kind K box key NukiCommand.TimeControlEntry
        (fun p => K.sizeofTimeControlEntry ≤ p.length)
        (fun σ p => { { σ with crcCheckOke := true } with
          lastMsgCodeReceived := NukiCommand.TimeControlEntry,
          listOfTimeControlEntries :=
            σ.listOfTimeControlEntries ++ [p.take K.sizeofTimeControlEntry] })
        (fun σ p hp => handleReturnMessage_TimeControlEntry K _ p hT hp) (fun _ _ => rfl)
        (fun p hp => by rw [handlerReads_TimeControlEntry K hT]; exact hp)
        batch hb s hs, ?_⟩
      clear hb hs
      induction batch generalizing s with
      | nil => exact ⟨by simp, rfl, rfl, rfl⟩
      | cons x rest ih =>
        obtain ⟨a1, a2, a3, a4⟩ := ih
          { { s with crcCheckOke := true } with
            lastMsgCodeReceived := NukiCommand.TimeControlEntry,
            listOfTimeControlEntries :=
              s.listOfTimeControlEntries ++ [x.2.take K.sizeofTimeControlEntry] }
        rw [List.foldl_cons]
        exact ⟨by rw [a1]; simp, a2, a3, a4⟩
  · intro s a b c d buff
    refine ⟨?_, ?_, ?_⟩
    · obtain ⟨r, hr⟩ := executeAction_no_ticks K box { s with listOfAuthorizationEntries := [] }
        { cmdType := NukiCommandType.CommandWithChallengeAndPin,
          command := NukiCommand.RequestAuthorizationEntries,
          payload := le16 a ++ le16 b, payloadLen := 4 } buff
      unfold retrieveAuthorizationEntries
      simp only
      rw [hr, Option.map_some', (retrieveCredentials_lists _ buff).1]
    · obtain ⟨r, hr⟩ := executeAction_no_ticks K box { s with listOfLogEntries := [] }
        { cmdType := NukiCommandType.CommandWithChallengeAndPin,
          command := NukiCommand.RequestLogEntries,
          payload := le32 a ++ le16 b ++ [c % 256] ++ [if d then 1 else 0],
          payloadLen := 8 } buff
      unfold retrieveLogEntries
      simp only
      rw [hr, Option.map_some', (retrieveCredentials_lists _ buff).2.1]
    · obtain ⟨r, hr⟩ := executeAction_no_ticks K box { s with listOfTimeControlEntries := [] }
        { cmdType := NukiCommandType.CommandWithChallengeAndPin,
          command := NukiCommand.RequestTimeControlEntries, payload := [], payloadLen := 0 } buff
      unfold retrieveTimeControlEntries
      simp only
      rw [hr, Option.map_some', (retrieveCredentials_lists _ buff).2.2.1]

/-- Witness of C29: two sealed `LogEntry` frames dispatched in a session whose
log list is empty give the two records in arrival order. -/
theorem entry_lists_grow_in_arrival_order_witness :
    ∃ s', deliver sampleConstants tagBox pairedSession
        [sealedReply 0x31 (List.replicate 50 1), sealedReply 0x31 (List.replicate 50 2)] =
        some s' ∧
      s'.listOfLogEntries = [List.replicate 50 1, List.replicate 50 2] := by
  obtain ⟨s', h1, h2, _⟩ := ((entry_lists_grow_in_arrival_order sampleConstants tagBox
    (List.replicate 32 7) (by decide) (by decide)).2.1 pairedSession
    [(sealedReply 0x31 (List.replicate 50 1), List.replicate 50 1),
     (sealedReply 0x31 (List.replicate 50 2), List.replicate 50 2)] rfl).2.1
    (by
      intro x hx
      simp only [List.mem_cons, List.mem_singleton, List.not_mem_nil, or_false] at hx
      rcases hx with rfl | rfl <;>
        exact ⟨carries_sealedReply 0x31 _ (by decide) (by decide), by decide⟩)
  exact ⟨s', h1, by rw [h2]; rfl⟩

/-! ## The claims on the pairing steps -/

theorem sendPlainMessage_take (s : Session) (t : Tick) (c : Nat) (p : Bytes) (n : Nat)
    (hn : n ≤ 196) (hp : n ≤ p.length) :
    sendPlainMessage s t c p n =
      some (if t.connected then
        { s with written := s.written ++
            [(Characteristic.gdio, le16 c ++ p.take n ++ le16 (crc16 (le16 c ++ p.take n)))] }
        else s) := by
  have h := sendPlainMessage_eq s t c (p.take n) (by rw [List.length_take]; omega)
  have hl : (p.take n).length = n := by rw [List.length_take]; omega
  rw [hl] at h
  rw [← h]
  unfold sendPlainMessage plainFrame readBytes
  rw [Nat.mod_eq_of_lt (by omega)]
  simp only [Nat.zero_add, List.drop_zero, hl, le_refl, if_true, hp, List.take_take, min_self]

theorem sampleCrypto_hmac_length (m k : Bytes) (hk : k.length = 32) :
    (sampleCrypto.hmac m k).length = 32 := by
  simp [sampleCrypto, hk]

theorem pairingBuffers_sample (now : Nat) (inbound : List (Characteristic × Bytes × Bytes)) :
    PairingBuffers sampleCrypto unpairedSession (tickAt now inbound) :=
  ⟨rfl, rfl, rfl, by decide, rfl, fun m => sampleCrypto_hmac_length m _ rfl⟩

/-- The step relation of C31 for sessions whose device name fits the array
`authorizationDataName`: for each of the ten states that have a successor in
the chain, the step
returns the successor when the progress condition of the state holds (it
always holds for `InitPairing`, `ReqRemPubKey`, `SendPubKey`, `GenKeyPair` and
`SendAuth`), `Timeout` when it does not hold and `millis() - timeNow` exceeds
`PAIRING_TIMEOUT`, and the state itself otherwise; for `Success` and `Timeout`
the default case returns `Timeout`.  So the state returned is the state
itself, its successor or `Timeout`. -/
theorem pairing_step_relation (K : NukiConstants) (C : Crypto) (s : Session) (t : Tick)
    (st : NukiPairingState) (hb : PairingBuffers C s t) :
    ∃ st' s', pairStateMachine K C s t st = some (st', s') ∧
      (∀ n, nextInChain st = some n →
        st' = if progressCondition s st then n
              else if K.PAIRING_TIMEOUT < elapsed t.now s.timeNow then NukiPairingState.Timeout
              else st) ∧
      (nextInChain st = none → st' = NukiPairingState.Timeout ∧ s' = s) ∧
      (st' = st ∨ nextInChain st = some st' ∨ st' = NukiPairingState.Timeout) := by
  obtain ⟨b1, b2, b3, b4, b5, b6⟩ := hb
  cases st
  case InitPairing =>
    have heq : ∃ s', pairStateMachine K C s t NukiPairingState.InitPairing = some (NukiPairingState.ReqRemPubKey, s') := ⟨_, by
      unfold pairStateMachine
      dsimp only
      ⟩
    obtain ⟨s', heq⟩ := heq
    refine ⟨NukiPairingState.ReqRemPubKey, s', heq, ?h1, ?h2, ?h3⟩
    case h1 =>
      intro n h
      simp only [nextInChain, Option.some.injEq] at h
      subst h
      simp [progressCondition]
    case h2 =>
      intro h
      simp [nextInChain] at h
    case h3 =>
      simp [nextInChain]
  case ReqRemPubKey =>
    have heq : ∃ s', pairStateMachine K C s t NukiPairingState.ReqRemPubKey = some (NukiPairingState.RecRemPubKey, s') := ⟨_, by
      unfold pairStateMachine
      dsimp only
      simp only [Option.bind_eq_bind]
      rw [sendPlainMessage_take s t _ _ 2 (by omega) (by simp [le16])]
      rfl
      ⟩
    obtain ⟨s', heq⟩ := heq
    refine ⟨NukiPairingState.RecRemPubKey, s', heq, ?h1, ?h2, ?h3⟩
    case h1 =>
      intro n h
      simp only [nextInChain, Option.some.injEq] at h
      subst h
      simp [progressCondition]
    case h2 =>
      intro h
      simp [nextInChain] at h
    case h3 =>
      simp [nextInChain]
  case RecRemPubKey =>
    by_cases hc : isCharArrayNotEmpty s.remotePublicKey = true
    · have heq : ∃ s', pairStateMachine K C s t NukiPairingState.RecRemPubKey = some (NukiPairingState.SendPubKey, s') := ⟨_, by
        unfold pairStateMachine
        dsimp only
        rw [if_pos hc]
        ⟩
      obtain ⟨s', heq⟩ := heq
      refine ⟨NukiPairingState.SendPubKey, s', heq, ?h1, ?h2, ?h3⟩
      case h1 =>
        intro n h
        simp only [nextInChain, Option.some.injEq] at h
        subst h
        simp [progressCondition, hc]
      case h2 =>
        intro h
        simp [nextInChain] at h
      case h3 =>
        simp [nextInChain]
    · by_cases ht : K.PAIRING_TIMEOUT < elapsed t.now s.timeNow
      · have heq : ∃ s', pairStateMachine K C s t NukiPairingState.RecRemPubKey = some (NukiPairingState.Timeout, s') := ⟨_, by
          unfold pairStateMachine
          dsimp only
          rw [if_neg hc, if_pos ht]
          ⟩
        obtain ⟨s', heq⟩ := heq
        refine ⟨NukiPairingState.Timeout, s', heq, ?h1, ?h2, ?h3⟩
        case h1 =>
          intro n h
          simp only [nextInChain, Option.some.injEq] at h
          subst h
          simp [progressCondition, hc, ht]
        case h2 =>
          intro h
          simp [nextInChain] at h
        case h3 =>
          simp [nextInChain]
      · have heq : ∃ s', pairStateMachine K C s t NukiPairingState.RecRemPubKey = some (NukiPairingState.RecRemPubKey, s') := ⟨_, by
          unfold pairStateMachine
          dsimp only
          rw [if_neg hc, if_neg ht]
          ⟩
        obtain ⟨s', heq⟩ := heq
        refine ⟨NukiPairingState.RecRemPubKey, s', heq, ?h1, ?h2, ?h3⟩
        case h1 =>
          intro n h
          simp only [nextInChain, Option.some.injEq] at h
          subst h
          simp [progressCondition, hc, ht]
        case h2 =>
          intro h
          simp [nextInChain] at h
        case h3 =>
          simp [nextInChain]
  case SendPubKey =>
    have heq : ∃ s', pairStateMachine K C s t NukiPairingState.SendPubKey = some (NukiPairingState.GenKeyPair, s') := ⟨_, by
      unfold pairStateMachine
      dsimp only
      simp only [Option.bind_eq_bind]
      rw [sendPlainMessage_take s t _ _ 32 (by omega) (by omega)]
      rfl
      ⟩
    obtain ⟨s', heq⟩ := heq
    refine ⟨NukiPairingState.GenKeyPair, s', heq, ?h1, ?h2, ?h3⟩
    case h1 =>
      intro n h
      simp only [nextInChain, Option.some.injEq] at h
      subst h
      simp [progressCondition]
    case h2 =>
      intro h
      simp [nextInChain] at h
    case h3 =>
      simp [nextInChain]
  case GenKeyPair =>
    have heq : ∃ s', pairStateMachine K C s t NukiPairingState.GenKeyPair = some (NukiPairingState.CalculateAuth, s') := ⟨_, by
      unfold pairStateMachine
      dsimp only
      ⟩
    obtain ⟨s', heq⟩ := heq
    refine ⟨NukiPairingState.CalculateAuth, s', heq, ?h1, ?h2, ?h3⟩
    case h1 =>
      intro n h
      simp only [nextInChain, Option.some.injEq] at h
      subst h
      simp [progressCondition]
    case h2 =>
      intro h
      simp [nextInChain] at h
    case h3 =>
      simp [nextInChain]
  case CalculateAuth =>
    by_cases hc : isCharArrayNotEmpty s.challengeNonceK = true
    · have heq : ∃ s', pairStateMachine K C s t NukiPairingState.CalculateAuth = some (NukiPairingState.SendAuth, s') := ⟨_, by
        unfold pairStateMachine
        dsimp only
        rw [if_pos hc]
        ⟩
      obtain ⟨s', heq⟩ := heq
      refine ⟨NukiPairingState.SendAuth, s', heq, ?h1, ?h2, ?h3⟩
      case h1 =>
        intro n h
        simp only [nextInChain, Option.some.injEq] at h
        subst h
        simp [progressCondition, hc]
      case h2 =>
        intro h
        simp [nextInChain] at h
      case h3 =>
        simp [nextInChain]
    · by_cases ht : K.PAIRING_TIMEOUT < elapsed t.now s.timeNow
      · have heq : ∃ s', pairStateMachine K C s t NukiPairingState.CalculateAuth = some (NukiPairingState.Timeout, s') := ⟨_, by
          unfold pairStateMachine
          dsimp only
          rw [if_neg hc, if_pos ht]
          ⟩
        obtain ⟨s', heq⟩ := heq
        refine ⟨NukiPairingState.Timeout, s', heq, ?h1, ?h2, ?h3⟩
        case h1 =>
          intro n h
          simp only [nextInChain, Option.some.injEq] at h
          subst h
          simp [progressCondition, hc, ht]
        case h2 =>
          intro h
          simp [nextInChain] at h
        case h3 =>
          simp [nextInChain]
      · have heq : ∃ s', pairStateMachine K C s t NukiPairingState.CalculateAuth = some (NukiPairingState.CalculateAuth, s') := ⟨_, by
          unfold pairStateMachine
          dsimp only
          rw [if_neg hc, if_neg ht]
          ⟩
        obtain ⟨s', heq⟩ := heq
        refine ⟨NukiPairingState.CalculateAuth, s', heq, ?h1, ?h2, ?h3⟩
        case h1 =>
          intro n h
          simp only [nextInChain, Option.some.injEq] at h
          subst h
          simp [progressCondition, hc, ht]
        case h2 =>
          intro h
          simp [nextInChain] at h
        case h3 =>
          simp [nextInChain]
  case SendAuth =>
    have heq : ∃ s', pairStateMachine K C s t NukiPairingState.SendAuth = some (NukiPairingState.SendAuthData, s') := ⟨_, by
      unfold pairStateMachine
      dsimp only
      simp only [Option.bind_eq_bind]
      rw [sendPlainMessage_take s t _ _ 32 (by omega) (by omega)]
      rfl
      ⟩
    obtain ⟨s', heq⟩ := heq
    refine ⟨NukiPairingState.SendAuthData, s', heq, ?h1, ?h2, ?h3⟩
    case h1 =>
      intro n h
      simp only [nextInChain, Option.some.injEq] at h
      subst h
      simp [progressCondition]
    case h2 =>
      intro h
      simp [nextInChain] at h
    case h3 =>
      simp [nextInChain]
  case SendAuthData =>
    by_cases hc : isCharArrayNotEmpty s.challengeNonceK = true
    · have heq : ∃ s', pairStateMachine K C s t NukiPairingState.SendAuthData = some (NukiPairingState.SendAuthIdConf, s') := ⟨_, by
        unfold pairStateMachine
        dsimp only
        rw [if_pos hc]
        simp only [Option.bind_eq_bind]
        rw [if_neg (by omega), sendPlainMessage_take _ t _ _ 101 (by omega) (by
          simp only [List.length_append, b6, List.length_replicate, b5, le32, List.length_cons,
            List.length_nil]
          omega)]
        rfl
        ⟩
      obtain ⟨s', heq⟩ := heq
      refine ⟨NukiPairingState.SendAuthIdConf, s', heq, ?h1, ?h2, ?h3⟩
      case h1 =>
        intro n h
        simp only [nextInChain, Option.some.injEq] at h
        subst h
        simp [progressCondition, hc]
      case h2 =>
        intro h
        simp [nextInChain] at h
      case h3 =>
        simp [nextInChain]
    · by_cases ht : K.PAIRING_TIMEOUT < elapsed t.now s.timeNow
      · have heq : ∃ s', pairStateMachine K C s t NukiPairingState.SendAuthData = some (NukiPairingState.Timeout, s') := ⟨_, by
          unfold pairStateMachine
          dsimp only
          rw [if_neg hc, if_pos ht]
          ⟩
        obtain ⟨s', heq⟩ := heq
        refine ⟨NukiPairingState.Timeout, s', heq, ?h1, ?h2, ?h3⟩
        case h1 =>
          intro n h
          simp only [nextInChain, Option.some.injEq] at h
          subst h
          simp [progressCondition, hc, ht]
        case h2 =>
          intro h
          simp [nextInChain] at h
        case h3 =>
          simp [nextInChain]
      · have heq : ∃ s', pairStateMachine K C s t NukiPairingState.SendAuthData = some (NukiPairingState.SendAuthData, s') := ⟨_, by
          unfold pairStateMachine
          dsimp only
          rw [if_neg hc, if_neg ht]
          ⟩
        obtain ⟨s', heq⟩ := heq
        refine ⟨NukiPairingState.SendAuthData, s', heq, ?h1, ?h2, ?h3⟩
        case h1 =>
          intro n h
          simp only [nextInChain, Option.some.injEq] at h
          subst h
          simp [progressCondition, hc, ht]
        case h2 =>
          intro h
          simp [nextInChain] at h
        case h3 =>
          simp [nextInChain]
  case SendAuthIdConf =>
    by_cases hc : isCharArrayNotEmpty s.authorizationId = true
    · have heq : ∃ s', pairStateMachine K C s t NukiPairingState.SendAuthIdConf = some (NukiPairingState.RecStatus, s') := ⟨_, by
        unfold pairStateMachine
        dsimp only
        rw [if_pos hc]
        simp only [Option.bind_eq_bind]
        rw [sendPlainMessage_take _ t _ _ 36 (by omega) (by
          simp only [List.length_append, b6, b3]
          omega)]
        rfl
        ⟩
      obtain ⟨s', heq⟩ := heq
      refine ⟨NukiPairingState.RecStatus, s', heq, ?h1, ?h2, ?h3⟩
      case h1 =>
        intro n h
        simp only [nextInChain, Option.some.injEq] at h
        subst h
        simp [progressCondition, hc]
      case h2 =>
        intro h
        simp [nextInChain] at h
      case h3 =>
        simp [nextInChain]
    · by_cases ht : K.PAIRING_TIMEOUT < elapsed t.now s.timeNow
      · have heq : ∃ s', pairStateMachine K C s t NukiPairingState.SendAuthIdConf = some (NukiPairingState.Timeout, s') := ⟨_, by
          unfold pairStateMachine
          dsimp only
          rw [if_neg hc, if_pos ht]
          ⟩
        obtain ⟨s', heq⟩ := heq
        refine ⟨NukiPairingState.Timeout, s', heq, ?h1, ?h2, ?h3⟩
        case h1 =>
          intro n h
          simp only [nextInChain, Option.some.injEq] at h
          subst h
          simp [progressCondition, hc, ht]
        case h2 =>
          intro h
          simp [nextInChain] at h
        case h3 =>
          simp [nextInChain]
      · have heq : ∃ s', pairStateMachine K C s t NukiPairingState.SendAuthIdConf = some (NukiPairingState.SendAuthIdConf, s') := ⟨_, by
          unfold pairStateMachine
          dsimp only
          rw [if_neg hc, if_neg ht]
          ⟩
        obtain ⟨s', heq⟩ := heq
        refine ⟨NukiPairingState.SendAuthIdConf, s', heq, ?h1, ?h2, ?h3⟩
        case h1 =>
          intro n h
          simp only [nextInChain, Option.some.injEq] at h
          subst h
          simp [progressCondition, hc, ht]
        case h2 =>
          intro h
          simp [nextInChain] at h
        case h3 =>
          simp [nextInChain]
  case RecStatus =>
    by_cases hc : s.receivedStatus = 0
    · have heq : ∃ s', pairStateMachine K C s t NukiPairingState.RecStatus = some (NukiPairingState.Success, s') := ⟨_, by
        unfold pairStateMachine
        dsimp only
        rw [if_pos hc]
        ⟩
      obtain ⟨s', heq⟩ := heq
      refine ⟨NukiPairingState.Success, s', heq, ?h1, ?h2, ?h3⟩
      case h1 =>
        intro n h
        simp only [nextInChain, Option.some.injEq] at h
        subst h
        simp [progressCondition, hc]
      case h2 =>
        intro h
        simp [nextInChain] at h
      case h3 =>
        simp [nextInChain]
    · by_cases ht : K.PAIRING_TIMEOUT < elapsed t.now s.timeNow
      · have heq : ∃ s', pairStateMachine K C s t NukiPairingState.RecStatus = some (NukiPairingState.Timeout, s') := ⟨_, by
          unfold pairStateMachine
          dsimp only
          rw [if_neg hc, if_pos ht]
          ⟩
        obtain ⟨s', heq⟩ := heq
        refine ⟨NukiPairingState.Timeout, s', heq, ?h1, ?h2, ?h3⟩
        case h1 =>
          intro n h
          simp only [nextInChain, Option.some.injEq] at h
          subst h
          simp [progressCondition, hc, ht]
        case h2 =>
          intro h
          simp [nextInChain] at h
        case h3 =>
          simp [nextInChain]
      · have heq : ∃ s', pairStateMachine K C s t NukiPairingState.RecStatus = some (NukiPairingState.RecStatus, s') := ⟨_, by
          unfold pairStateMachine
          dsimp only
          rw [if_neg hc, if_neg ht]
          ⟩
        obtain ⟨s', heq⟩ := heq
        refine ⟨NukiPairingState.RecStatus, s', heq, ?h1, ?h2, ?h3⟩
        case h1 =>
          intro n h
          simp only [nextInChain, Option.some.injEq] at h
          subst h
          simp [progressCondition, hc, ht]
        case h2 =>
          intro h
          simp [nextInChain] at h
        case h3 =>
          simp [nextInChain]
  case Success =>
    exact ⟨_, _, rfl, fun n h => (by simp [nextInChain] at h), fun _ => ⟨rfl, rfl⟩,
      Or.inr (Or.inr rfl)⟩
  case Timeout =>
    exact ⟨_, _, rfl, fun n h => (by simp [nextInChain] at h), fun _ => ⟨rfl, rfl⟩, Or.inl rfl⟩

/-- The step relation at a concrete input: in `RecRemPubKey` with no public key
received, the step taken after the deadline returns `Timeout`. -/
theorem pairing_step_relation_witness :
    ∃ s', pairStateMachine sampleConstants sampleCrypto unpairedSession (tickAt 40000 [])
      NukiPairingState.RecRemPubKey = some (NukiPairingState.Timeout, s') := by
  obtain ⟨st', s', h, h1, _, _⟩ := pairing_step_relation sampleConstants sampleCrypto
    unpairedSession (tickAt 40000 []) NukiPairingState.RecRemPubKey (pairingBuffers_sample _ _)
  have e : st' = NukiPairingState.Timeout := by
    rw [h1 _ rfl]
    decide
  rw [e] at h
  exact ⟨s', h⟩

theorem sendAuthData_long_name (K : NukiConstants) (C : Crypto) (s : Session) (t : Tick)
    (hname : 32 < s.deviceName.length)
    (hnonce : isCharArrayNotEmpty s.challengeNonceK = true) :
    pairStateMachine K C s t NukiPairingState.SendAuthData = none := by
  unfold pairStateMachine
  dsimp only
  rw [if_pos hnonce, if_pos hname]

/-- C31, the code at a failing input: the constructor stores a device name of
any length and the step of `SendAuthData` copies `deviceName.size()` bytes
into the 32-byte array `authorizationDataName` without a test.  With a name of
33 bytes and a challenge nonce received the copy leaves the array (`none`):
the step returns no state, neither `SendAuthData` nor its successor nor
`Timeout`.  With a name of 32 bytes the same step returns `SendAuthIdConf`. -/
theorem sendAuthData_overruns_name_array :
    ({ unpairedSession with challengeNonceK := List.replicate 32 0xBB,
                            deviceName := List.replicate 33 0x41 } : Session).deviceName.length
      = 33 ∧
    progressCondition
      { unpairedSession with challengeNonceK := List.replicate 32 0xBB,
                             deviceName := List.replicate 33 0x41 }
      NukiPairingState.SendAuthData = true ∧
    pairStateMachine sampleConstants sampleCrypto
      { unpairedSession with challengeNonceK := List.replicate 32 0xBB,
                             deviceName := List.replicate 33 0x41 }
      (tickAt 200 []) NukiPairingState.SendAuthData = none ∧
    (pairStateMachine sampleConstants sampleCrypto
      { unpairedSession with challengeNonceK := List.replicate 32 0xBB,
                             deviceName := List.replicate 32 0x41 }
      (tickAt 200 []) NukiPairingState.SendAuthData).map Prod.fst =
      some NukiPairingState.SendAuthIdConf := by
  refine ⟨by decide, by decide, by decide, by decide!⟩

/-- C32: the step of `ReqRemPubKey` returns `RecRemPubKey` with `timeNow` set to
the current time; when the link is up it has written to the pairing
characteristic exactly the six bytes `01 00 03 00 27 A7`, and nothing when it
is not. -/
theorem publicKey_request_frame (K : NukiConstants) (C : Crypto) (s : Session) (t : Tick) :
    (t.connected = true →
      pairStateMachine K C s t NukiPairingState.ReqRemPubKey =
        some (NukiPairingState.RecRemPubKey,
          { s with written := s.written ++
                     [(Characteristic.gdio, [0x01, 0x00, 0x03, 0x00, 0x27, 0xA7])],
                   timeNow := t.now })) ∧
    (t.connected = false →
      pairStateMachine K C s t NukiPairingState.ReqRemPubKey =
        some (NukiPairingState.RecRemPubKey, { s with timeNow := t.now })) ∧
    le16 NukiCommand.RequestData ++ le16 NukiCommand.PublicKey ++
        le16 (crc16 (le16 NukiCommand.RequestData ++ le16 NukiCommand.PublicKey)) =
      [0x01, 0x00, 0x03, 0x00, 0x27, 0xA7] ∧
    crc16 [0x01, 0x00, 0x03, 0x00] = 0xA727 := by
  have hframe : le16 NukiCommand.RequestData ++ le16 NukiCommand.PublicKey ++
      le16 (crc16 (le16 NukiCommand.RequestData ++ le16 NukiCommand.PublicKey)) =
      [0x01, 0x00, 0x03, 0x00, 0x27, 0xA7] := by decide
  have hstep : pairStateMachine K C s t NukiPairingState.ReqRemPubKey =
      some (NukiPairingState.RecRemPubKey,
        { (if t.connected then
            { s with written := s.written ++
                [(Characteristic.gdio, [0x01, 0x00, 0x03, 0x00, 0x27, 0xA7])] }
           else s) with timeNow := t.now }) := by
    have hs : sendPlainMessage s t NukiCommand.RequestData (le16 NukiCommand.PublicKey) 2 =
        some (if t.connected then
          { s with written := s.written ++
              [(Characteristic.gdio, [0x01, 0x00, 0x03, 0x00, 0x27, 0xA7])] }
          else s) := by
      have h := sendPlainMessage_eq s t NukiCommand.RequestData (le16 NukiCommand.PublicKey)
        (by decide)
      rw [hframe] at h
      exact h
    unfold pairStateMachine
    dsimp only
    simp only [Option.bind_eq_bind]
    rw [hs]
    rfl
  refine ⟨fun h => ?_, fun h => ?_, hframe, by decide⟩
  · rw [hstep, h]
    rfl
  · rw [hstep, h]
    rfl

/-- Witness of C32 on `unpairedSession`. -/
theorem publicKey_request_frame_witness :
    pairStateMachine sampleConstants sampleCrypto unpairedSession (tickAt 100 [])
        NukiPairingState.ReqRemPubKey =
      some (NukiPairingState.RecRemPubKey,
        { unpairedSession with
          written := [(Characteristic.gdio, [0x01, 0x00, 0x03, 0x00, 0x27, 0xA7])],
          timeNow := 100 }) :=
  (publicKey_request_frame sampleConstants sampleCrypto unpairedSession (tickAt 100 [])).1 rfl

/-- C34, the code at a failing input: `SendAuthIdConf` tests `authorizationId`,
which `InitPairing` does not clear.  With an authorization id left from an
earlier pairing and `challengeNonceK` all-zero, the step sends the
`AuthorizationIdConfirmation` frame (command `1E 00`, authenticator computed
over the id and 32 zero bytes) and returns `RecStatus`; in a whole pairing run
against a lock that never sends an `AuthorizationId` reply the confirmation is
the fifth frame written. -/
theorem confirmation_sent_without_reply :
    isCharArrayNotEmpty staleIdSession.challengeNonceK = false ∧
    (pairStateMachine sampleConstants sampleCrypto staleIdSession (tickAt 100 [])
        NukiPairingState.SendAuthIdConf).map
      (fun r => (r.1, r.2.written.map (fun w => (w.2.take 2, w.2.length)))) =
      some (NukiPairingState.RecStatus, [([0x1E, 0x00], 40)]) ∧
    (pairNuki sampleConstants sampleCrypto tagBox
        { unpairedSession with authorizationId := [1, 2, 3, 4] } [] true (fun _ => true)
        lockWithoutAuthorizationId).map
      (fun r => (r.1, r.2.written.map (fun w => w.2.take 2))) =
      some (some false, [[0x01, 0x00], [0x03, 0x00], [0x05, 0x00], [0x06, 0x00], [0x1E, 0x00]]) ∧
    (pairNuki sampleConstants sampleCrypto tagBox unpairedSession [] true (fun _ => true)
        lockWithoutAuthorizationId).map
      (fun r => (r.1, r.2.written.map (fun w => w.2.take 2))) =
      some (some false, [[0x01, 0x00], [0x03, 0x00], [0x05, 0x00], [0x06, 0x00]]) := by
  refine ⟨by decide, by decide!, by decide!, by decide!⟩

theorem deliver_corrupted (K : NukiConstants) (box : SecretBox)
    (frames : List (Characteristic × Bytes × Bytes))
    (hbad : ∀ f ∈ frames, f.1 = Characteristic.gdio ∧ crcValid f.2.1 = some false)
    (s : Session) :
    ∃ s', deliver K box s frames = some s' ∧ s'.challengeNonceK = s.challengeNonceK ∧
      s'.timeNow = s.timeNow := by
  induction frames generalizing s with
  | nil => exact ⟨s, deliver_nil K box s, rfl, rfl⟩
  | cons f rest ih =>
    obtain ⟨h1, h2⟩ := hbad f (List.mem_cons_self _ _)
    obtain ⟨s', e1, e2, e3⟩ := ih (fun g hg => hbad g (List.mem_cons_of_mem _ hg))
      { s with crcCheckOke := false }
    refine ⟨s', ?_, e2, e3⟩
    rw [deliver_cons, h1, notifyCallback_of_rejected K box s _ _ _
      (notifyDispatch_gdio_rejected box s _ _ h2)]
    exact e1

theorem isCharArrayNotEmpty_zeros (n : Nat) : isCharArrayNotEmpty (List.replicate n 0) = false := by
  unfold isCharArrayNotEmpty
  induction n with
  | zero => rfl
  | succ n ih =>
    rw [List.replicate_succ, List.any_cons, ih]
    simp

theorem calculateAuth_waits (K : NukiConstants) (C : Crypto) (σ : Session) (t : Tick)
    (hz : isCharArrayNotEmpty σ.challengeNonceK = false) :
    pairStateMachine K C σ t NukiPairingState.CalculateAuth =
      if K.PAIRING_TIMEOUT < elapsed t.now σ.timeNow then some (NukiPairingState.Timeout, σ)
      else some (NukiPairingState.CalculateAuth, σ) := by
  unfold pairStateMachine
  dsimp only
  rw [if_neg (by rw [hz]; decide)]

theorem pairLoop_corrupted (K : NukiConstants) (C : Crypto) (box : SecretBox)
    (ws : List Tick) (s : Session)
    (hz : s.challengeNonceK = List.replicate 32 0)
    (hbad : ∀ t ∈ ws, ∀ f ∈ t.inbound, f.1 = Characteristic.gdio ∧ crcValid f.2.1 = some false)
    (hearly : ∀ t ∈ ws, ¬ K.PAIRING_TIMEOUT < elapsed t.now s.timeNow) (rest : List Tick) :
    ∃ s1, pairLoop K C box NukiPairingState.CalculateAuth s (ws ++ rest) =
        pairLoop K C box NukiPairingState.CalculateAuth s1 rest ∧
      s1.challengeNonceK = List.replicate 32 0 ∧ s1.timeNow = s.timeNow := by
  induction ws generalizing s with
  | nil => exact ⟨s, rfl, hz, rfl⟩
  | cons w ws ih =>
    obtain ⟨s0, d1, d2, d3⟩ := deliver_corrupted K box w.inbound
      (hbad w (List.mem_cons_self _ _)) s
    obtain ⟨s1, e1, e2, e3⟩ := ih s0 (d2.trans hz)
      (fun t ht => hbad t (List.mem_cons_of_mem _ ht))
      (fun t ht => by rw [d3]; exact hearly t (List.mem_cons_of_mem _ ht))
    refine ⟨s1, ?_, e2, e3.trans d3⟩
    rw [List.cons_append, pairLoop, calculateAuth_waits K C s w
      (by rw [hz]; exact isCharArrayNotEmpty_zeros 32),
      if_neg (hearly w (List.mem_cons_self _ _))]
    simp only [Option.bind_eq_bind, Option.some_bind, d1, reduceCtorEq, or_self, if_false]
    exact e1

/-- C35: while pairing waits in `CalculateAuth` with `challengeNonceK` all-zero
and every frame delivered is a frame on the pairing characteristic whose CRC
is wrong, `challengeNonceK` stays all-zero and `timeNow` unchanged, every step
taken before the deadline returns `CalculateAuth` with the session as it is
(so the loop is still in `CalculateAuth` after any number of such steps), and
the first step after the deadline returns `Timeout`, which ends the loop. -/
theorem corrupted_challenge_does_not_advance (K : NukiConstants) (C : Crypto) (box : SecretBox)
    (s : Session) (ws : List Tick) (late : Tick) (rest : List Tick)
    (hz : s.challengeNonceK = List.replicate 32 0)
    (hbad : ∀ t ∈ ws ++ [late], ∀ f ∈ t.inbound,
      f.1 = Characteristic.gdio ∧ crcValid f.2.1 = some false)
    (hearly : ∀ t ∈ ws, ¬ K.PAIRING_TIMEOUT < elapsed t.now s.timeNow)
    (hlate : K.PAIRING_TIMEOUT < elapsed late.now s.timeNow) :
    (∃ s1, pairLoop K C box NukiPairingState.CalculateAuth s ws =
        some (NukiPairingState.CalculateAuth, s1) ∧
      s1.challengeNonceK = List.replicate 32 0 ∧ s1.timeNow = s.timeNow) ∧
    (∀ (σ : Session) (t : Tick), σ.challengeNonceK = List.replicate 32 0 →
      σ.timeNow = s.timeNow →
      (¬ K.PAIRING_TIMEOUT < elapsed t.now s.timeNow →
        pairStateMachine K C σ t NukiPairingState.CalculateAuth =
          some (NukiPairingState.CalculateAuth, σ)) ∧
      (K.PAIRING_TIMEOUT < elapsed t.now s.timeNow →
        pairStateMachine K C σ t NukiPairingState.CalculateAuth =
          some (NukiPairingState.Timeout, σ))) ∧
    (∃ s', pairLoop K C box NukiPairingState.CalculateAuth s (ws ++ late :: rest) =
        some (NukiPairingState.Timeout, s') ∧
      s'.challengeNonceK = List.replicate 32 0) := by
  have hbad1 : ∀ t ∈ ws, ∀ f ∈ t.inbound,
      f.1 = Characteristic.gdio ∧ crcValid f.2.1 = some false :=
    fun t ht => hbad t (List.mem_append_left _ ht)
  refine ⟨?_, ?_, ?_⟩
  · obtain ⟨s1, e1, e2, e3⟩ := pairLoop_corrupted K C box ws s hz hbad1 hearly []
    rw [List.append_nil] at e1
    refine ⟨s1, ?_, e2, e3⟩
    rw [e1, pairLoop]
  · intro σ t h1 h2
    have hw := calculateAuth_waits K C σ t (by rw [h1]; exact isCharArrayNotEmpty_zeros 32)
    rw [h2] at hw
    exact ⟨fun h => by rw [hw, if_neg h], fun h => by rw [hw, if_pos h]⟩
  · obtain ⟨s1, e1, e2, e3⟩ := pairLoop_corrupted K C box ws s hz hbad1 hearly (late :: rest)
    obtain ⟨s', d1, d2, _⟩ := deliver_corrupted K box late.inbound
      (hbad late (List.mem_append_right _ (List.mem_singleton_self _))) s1
    refine ⟨s', ?_, d2.trans e2⟩
    rw [e1, pairLoop, calculateAuth_waits K C s1 late
      (by rw [e2]; exact isCharArrayNotEmpty_zeros 32), e3, if_pos hlate]
    simp only [Option.bind_eq_bind, Option.some_bind, d1, or_true, if_true]

/-- Witness of C35: two corrupted challenges before the deadline, then a step
after it. -/
theorem corrupted_challenge_does_not_advance_witness :
    ∃ s', pairLoop sampleConstants sampleCrypto tagBox NukiPairingState.CalculateAuth
        staleIdSession
        ([tickAt 50 [corruptedChallenge], tickAt 100 [corruptedChallenge]] ++
          tickAt 40000 [] :: []) = some (NukiPairingState.Timeout, s') ∧
      s'.challengeNonceK = List.replicate 32 0 :=
  (corrupted_challenge_does_not_advance sampleConstants sampleCrypto tagBox staleIdSession
    [tickAt 50 [corruptedChallenge], tickAt 100 [corruptedChallenge]] (tickAt 40000 []) []
    rfl (by decide) (by decide) (by decide)).2.2

theorem sendPlainMessage_length (s s' : Session) (t : Tick) (c : Nat) (p : Bytes) (n : Nat)
    (hn : n < 256) (h : sendPlainMessage s t c p n = some s') :
    s'.written = s.written ∨
      ∃ f, s'.written = s.written ++ [(Characteristic.gdio, f)] ∧ f.length = n + 4 ∧
        n + 4 ≤ 200 := by
  unfold sendPlainMessage at h
  rw [Nat.mod_eq_of_lt hn] at h
  simp only [Option.bind_eq_bind] at h
  obtain ⟨f, h1, h2⟩ := Option.bind_eq_some.mp h
  have hf : f.length = n + 4 ∧ n + 4 ≤ 200 := by
    unfold plainFrame at h1
    split at h1
    · cases h1
    · simp only [Option.bind_eq_bind] at h1
      obtain ⟨q, h3, h4⟩ := Option.bind_eq_some.mp h1
      cases h4
      unfold readBytes at h3
      split at h3
      · cases h3
        simp only [List.length_append, le16_length, List.length_take, List.drop_zero]
        omega
      · cases h3
  split at h2
  · cases h2
    exact Or.inr ⟨f, rfl, hf⟩
  · cases h2
    exact Or.inl rfl

/-- C40: `sendPlainMessage` composes `payloadLen + 4` bytes in an array of 200,
which is inside the array exactly when `payloadLen ≤ 196` (for a payload that
holds `payloadLen` bytes); and a pairing step writes no frame or one frame on
the pairing characteristic of 6, 36, 105 or 40 bytes, that is, with
`payloadLen` 2, 32, 101 or 36, all within the array. -/
theorem plain_frames_fit_the_buffer (K : NukiConstants) (C : Crypto) (s s' : Session)
    (t : Tick) (st st' : NukiPairingState) (c : Nat) (p : Bytes) (n : Nat) :
    (n ≤ p.length → ((plainFrame c p n).isSome = true ↔ n ≤ 196)) ∧
    (∀ f, plainFrame c p n = some f → f.length = n + 4 ∧ n + 4 ≤ 200) ∧
    (pairStateMachine K C s t st = some (st', s') →
      s'.written = s.written ∨
      ∃ f, s'.written = s.written ++ [(Characteristic.gdio, f)] ∧
        (f.length = 2 + 4 ∨ f.length = 32 + 4 ∨ f.length = 101 + 4 ∨ f.length = 36 + 4) ∧
        f.length ≤ 200) := by
  refine ⟨?_, ?_, ?_⟩
  · intro hp
    unfold plainFrame readBytes
    by_cases h : 200 < n + 4
    · rw [if_pos h]
      simp only [Option.isSome_none, Bool.false_eq_true, false_iff]
      omega
    · rw [if_neg h, if_pos (by omega)]
      simp only [Option.bind_eq_bind, Option.some_bind, Option.isSome_some, true_iff]
      omega
  · intro f h
    unfold plainFrame at h
    split at h
    · cases h
    · simp only [Option.bind_eq_bind] at h
      obtain ⟨q, h3, h4⟩ := Option.bind_eq_some.mp h
      cases h4
      unfold readBytes at h3
      split at h3
      · cases h3
        simp only [List.length_append, le16_length, List.length_take, List.drop_zero]
        omega
      · cases h3
  · intro h
    unfold pairStateMachine at h
    dsimp only at h
    cases st <;> dsimp only at h
    case InitPairing =>
      cases h
      exact Or.inl rfl
    case ReqRemPubKey =>
      simp only [Option.bind_eq_bind] at h
      obtain ⟨s1, h1, h2⟩ := Option.bind_eq_some.mp h
      cases h2
      rcases sendPlainMessage_length _ _ _ _ _ _ (by omega) h1 with e | ⟨f, e1, e2, _⟩
      · exact Or.inl e
      · exact Or.inr ⟨f, e1, Or.inl e2, by omega⟩
    case RecRemPubKey =>
      split at h
      · cases h
        exact Or.inl rfl
      · exact Or.inl (by rw [(afterSwitch_cases K s s' t _ st' h).1])
    case SendPubKey =>
      simp only [Option.bind_eq_bind] at h
      obtain ⟨s1, h1, h2⟩ := Option.bind_eq_some.mp h
      cases h2
      rcases sendPlainMessage_length _ _ _ _ _ _ (by omega) h1 with e | ⟨f, e1, e2, _⟩
      · exact Or.inl e
      · exact Or.inr ⟨f, e1, Or.inr (Or.inl e2), by omega⟩
    case GenKeyPair =>
      cases h
      exact Or.inl rfl
    case CalculateAuth =>
      split at h
      · cases h
        exact Or.inl rfl
      · exact Or.inl (by rw [(afterSwitch_cases K s s' t _ st' h).1])
    case SendAuth =>
      simp only [Option.bind_eq_bind] at h
      obtain ⟨s1, h1, h2⟩ := Option.bind_eq_some.mp h
      cases h2
      rcases sendPlainMessage_length _ _ _ _ _ _ (by omega) h1 with e | ⟨f, e1, e2, _⟩
      · exact Or.inl e
      · exact Or.inr ⟨f, e1, Or.inr (Or.inl e2), by omega⟩
    case SendAuthData =>
      split at h
      · split at h
        · cases h
        · simp only [Option.bind_eq_bind] at h
          obtain ⟨s1, h1, h2⟩ := Option.bind_eq_some.mp h
          cases h2
          rcases sendPlainMessage_length _ _ _ _ _ _ (by omega) h1 with e | ⟨f, e1, e2, _⟩
          · exact Or.inl e
          · exact Or.inr ⟨f, e1, Or.inr (Or.inr (Or.inl e2)), by omega⟩
      · exact Or.inl (by rw [(afterSwitch_cases K s s' t _ st' h).1])
    case SendAuthIdConf =>
      split at h
      · simp only [Option.bind_eq_bind] at h
        obtain ⟨s1, h1, h2⟩ := Option.bind_eq_some.mp h
        cases h2
        rcases sendPlainMessage_length _ _ _ _ _ _ (by omega) h1 with e | ⟨f, e1, e2, _⟩
        · exact Or.inl e
        · exact Or.inr ⟨f, e1, Or.inr (Or.inr (Or.inr e2)), by omega⟩
      · exact Or.inl (by rw [(afterSwitch_cases K s s' t _ st' h).1])
    case RecStatus =>
      split at h
      · cases h
        exact Or.inl rfl
      · exact Or.inl (by rw [(afterSwitch_cases K s s' t _ st' h).1])
    case Success =>
      cases h
      exact Or.inl rfl
    case Timeout =>
      cases h
      exact Or.inl rfl

/-- Witness of C40: the step of `ReqRemPubKey` on `unpairedSession` writes one
frame of six bytes. -/
theorem plain_frames_fit_the_buffer_witness :
    ∃ f, ({ unpairedSession with
        written := [(Characteristic.gdio, [0x01, 0x00, 0x03, 0x00, 0x27, 0xA7])],
        timeNow := 100 } : Session).written =
        unpairedSession.written ++ [(Characteristic.gdio, f)] ∧
      (f.length = 2 + 4 ∨ f.length = 32 + 4 ∨ f.length = 101 + 4 ∨ f.length = 36 + 4) ∧
      f.length ≤ 200 :=
  Or.elim
    ((plain_frames_fit_the_buffer sampleConstants sampleCrypto unpairedSession
      { unpairedSession with
        written := [(Characteristic.gdio, [0x01, 0x00, 0x03, 0x00, 0x27, 0xA7])],
        timeNow := 100 }
      (tickAt 100 []) NukiPairingState.ReqRemPubKey NukiPairingState.RecRemPubKey 0x01
      (le16 0x03) 2).2.2 (by decide))
    (fun h => absurd h (by decide)) id

/-! ## The claims on lengths and on the command state -/

theorem cmdChall_ChallengeRespReceived_eq (K : NukiConstants) (box : SecretBox) (s : Session)
    (t : Tick) (a : NukiAction) (pin : Bool)
    (hstate : s.nukiCommandState = NukiCommandState.ChallengeRespReceived)
    (ha : a.payloadLen ≤ a.payload.length) :
    cmdChallStateMachine K box s t a pin =
      if (if pin then ((a.payloadLen + 32) % 256 + 2) % 256 else (a.payloadLen + 32) % 256) <
          a.payloadLen + 32 then none
      else if pin = true ∧
          (if pin then ((a.payloadLen + 32) % 256 + 2) % 256 else (a.payloadLen + 32) % 256) <
            a.payloadLen + 34 then none
      else
        (sendEncryptedMessage box
          { s with lastMsgCodeReceived := K.Empty, timeNow := t.now, crcCheckOke := false } t
          a.command
          (a.payload.take a.payloadLen ++ s.challengeNonceK ++
            (if pin then le16 s.pinCode else []))
          (if pin then ((a.payloadLen + 32) % 256 + 2) % 256
            else (a.payloadLen + 32) % 256)).bind
          (fun s2 => some (NukiCmdResult.Working,
            { s2 with nukiCommandState := NukiCommandState.CmdSent })) := by
  have hread : readBytes a.payload 0 a.payloadLen = some (a.payload.take a.payloadLen) := by
    unfold readBytes
    rw [if_pos (by omega)]
    rfl
  unfold cmdChallStateMachine
  split
  case h_3 =>
    simp only [Option.bind_eq_bind, hread, Option.some_bind]
  all_goals first
    | (rename_i h; rw [hstate] at h; cases h)
    | (rename_i h3 _; exact absurd hstate h3)

theorem cmdChallAcc_ChallengeRespReceived_eq (K : NukiConstants) (box : SecretBox)
    (s : Session) (t : Tick) (a : NukiAction)
    (hstate : s.nukiCommandState = NukiCommandState.ChallengeRespReceived)
    (ha : a.payloadLen ≤ a.payload.length) :
    cmdChallAccStateMachine K box s t a =
      if (a.payloadLen + 32) % 256 < a.payloadLen + 32 then none
      else
        (sendEncryptedMessage box
          { s with lastMsgCodeReceived := K.Empty, timeNow := t.now } t a.command
          (a.payload.take a.payloadLen ++ s.challengeNonceK) (a.payloadLen + 32)).bind
          (fun s2 => some (NukiCmdResult.Working,
            { s2 with nukiCommandState := NukiCommandState.CmdSent })) := by
  have hread : readBytes a.payload 0 a.payloadLen = some (a.payload.take a.payloadLen) := by
    unfold readBytes
    rw [if_pos (by omega)]
    rfl
  unfold cmdChallAccStateMachine
  split
  case h_3 =>
    simp only [Option.bind_eq_bind, hread, Option.some_bind]
  all_goals (rename_i h; rw [hstate] at h; cases h)

/-- C39: in state `ChallengeRespReceived` of `cmdChallStateMachine` and
`cmdChallAccStateMachine`, for an action whose payload holds `payloadLen` bytes
and a challenge nonce of 32 bytes: the 8-bit length `(payloadLen + 32) mod 256`
equals `payloadLen + 32` exactly when `payloadLen ≤ 223`, and with the PIN the
8-bit length equals `payloadLen + 34` exactly when `payloadLen ≤ 221`; beyond
these bounds the 8-bit length is smaller than the number of bytes copied and
the step leaves the array; for `payloadLen ≤ 80` the composed payload has
`payloadLen + 32` bytes (`+ 2` with the PIN), fewer than 256, and the step is
the send of exactly that payload with exactly that length, followed by
`CmdSent`, and it returns `Working`. -/
theorem challenge_payload_length_within_bounds (K : NukiConstants) (box : SecretBox)
    (s : Session) (t : Tick) (a : NukiAction)
    (hstate : s.nukiCommandState = NukiCommandState.ChallengeRespReceived)
    (ha : a.payloadLen ≤ a.payload.length) (hn : s.challengeNonceK.length = 32) :
    ((a.payloadLen + 32) % 256 = a.payloadLen + 32 ↔ a.payloadLen ≤ 223) ∧
    (((a.payloadLen + 32) % 256 + 2) % 256 = a.payloadLen + 34 ↔ a.payloadLen ≤ 221) ∧
    (223 < a.payloadLen →
      (a.payloadLen + 32) % 256 < a.payloadLen + 32 ∧
      cmdChallStateMachine K box s t a false = none ∧
      cmdChallAccStateMachine K box s t a = none) ∧
    (221 < a.payloadLen →
      ((a.payloadLen + 32) % 256 + 2) % 256 < a.payloadLen + 34 ∧
      cmdChallStateMachine K box s t a true = none) ∧
    (a.payloadLen ≤ 80 →
      (∀ pin : Bool,
        (a.payload.take a.payloadLen ++ s.challengeNonceK ++
          (if pin then le16 s.pinCode else [])).length =
          a.payloadLen + 32 + (if pin then 2 else 0) ∧
        a.payloadLen + 32 + (if pin then 2 else 0) < 256 ∧
        ∃ s2,
          sendEncryptedMessage box
            { s with lastMsgCodeReceived := K.Empty, timeNow := t.now, crcCheckOke := false }
            t a.command
            (a.payload.take a.payloadLen ++ s.challengeNonceK ++
              (if pin then le16 s.pinCode else []))
            (a.payloadLen + 32 + (if pin then 2 else 0)) = some s2 ∧
          cmdChallStateMachine K box s t a pin =
            some (NukiCmdResult.Working,
              { s2 with nukiCommandState := NukiCommandState.CmdSent })) ∧
      (a.payload.take a.payloadLen ++ s.challengeNonceK).length = a.payloadLen + 32 ∧
      ∃ s2,
        sendEncryptedMessage box { s with lastMsgCodeReceived := K.Empty, timeNow := t.now }
          t a.command (a.payload.take a.payloadLen ++ s.challengeNonceK)
          (a.payloadLen + 32) = some s2 ∧
        cmdChallAccStateMachine K box s t a =
          some (NukiCmdResult.Working,
            { s2 with nukiCommandState := NukiCommandState.CmdSent })) := by
  refine ⟨by omega, by omega, ?_, ?_, ?_⟩
  · intro h
    refine ⟨by omega, ?_, ?_⟩
    · rw [cmdChall_ChallengeRespReceived_eq K box s t a false hstate ha]
      simp only [Bool.false_eq_true, if_false]
      rw [if_pos (by omega)]
    · rw [cmdChallAcc_ChallengeRespReceived_eq K box s t a hstate ha, if_pos (by omega)]
  · intro h
    refine ⟨by omega, ?_⟩
    rw [cmdChall_ChallengeRespReceived_eq K box s t a true hstate ha]
    simp only [if_true, true_and]
    by_cases h1 : ((a.payloadLen + 32) % 256 + 2) % 256 < a.payloadLen + 32
    · rw [if_pos h1]
    · rw [if_neg h1, if_pos (by omega)]
  · intro h
    refine ⟨?_, ?_, ?_⟩
    · intro pin
      cases pin
      · have hlen : (a.payload.take a.payloadLen ++ s.challengeNonceK ++
            (if false = true then le16 s.pinCode else [])).length = a.payloadLen + 32 := by
          simp only [Bool.false_eq_true, if_false, List.append_nil, List.length_append,
            List.length_take]
          omega
        obtain ⟨s2, h2⟩ := sendEncryptedMessage_some box
          { s with lastMsgCodeReceived := K.Empty, timeNow := t.now, crcCheckOke := false } t
          a.command
          (a.payload.take a.payloadLen ++ s.challengeNonceK ++
            (if false = true then le16 s.pinCode else []))
          (a.payloadLen + 32) (by rw [hlen]; omega)
        refine ⟨hlen, by simp only [Bool.false_eq_true, if_false]; omega, s2, h2, ?_⟩
        rw [cmdChall_ChallengeRespReceived_eq K box s t a false hstate ha]
        simp only [Bool.false_eq_true, if_false, false_and] at h2 ⊢
        rw [if_neg (by omega), Nat.mod_eq_of_lt (by omega), h2]
        rfl
      · have hlen : (a.payload.take a.payloadLen ++ s.challengeNonceK ++
            (if true = true then le16 s.pinCode else [])).length = a.payloadLen + 32 + 2 := by
          simp only [if_true, List.length_append, List.length_take, le16_length]
          omega
        obtain ⟨s2, h2⟩ := sendEncryptedMessage_some box
          { s with lastMsgCodeReceived := K.Empty, timeNow := t.now, crcCheckOke := false } t
          a.command
          (a.payload.take a.payloadLen ++ s.challengeNonceK ++
            (if true = true then le16 s.pinCode else []))
          (a.payloadLen + 32 + 2) (by rw [hlen]; omega)
        refine ⟨hlen, by simp only [if_true]; omega, s2, h2, ?_⟩
        rw [cmdChall_ChallengeRespReceived_eq K box s t a true hstate ha]
        simp only [if_true, true_and] at h2 ⊢
        have e : ((a.payloadLen + 32) % 256 + 2) % 256 = a.payloadLen + 32 + 2 := by omega
        rw [e, if_neg (by omega), if_neg (by omega), h2]
        rfl
    · simp only [List.length_append, List.length_take]
      omega
    · obtain ⟨s2, h2⟩ := sendEncryptedMessage_some box
        { s with lastMsgCodeReceived := K.Empty, timeNow := t.now } t a.command
        (a.payload.take a.payloadLen ++ s.challengeNonceK) (a.payloadLen + 32) (by
          simp only [List.length_append, List.length_take]
          omega)
      refine ⟨s2, h2, ?_⟩
      rw [cmdChallAcc_ChallengeRespReceived_eq K box s t a hstate ha, if_neg (by omega), h2]
      rfl

/-- Witness of C39: `lockActionSample` (six payload bytes) on
`challengedSession`. -/
theorem challenge_payload_length_within_bounds_witness :
    ((lockActionSample.payloadLen + 32) % 256 = lockActionSample.payloadLen + 32 ↔
      lockActionSample.payloadLen ≤ 223) ∧
    (lockActionSample.payload.take lockActionSample.payloadLen ++
      challengedSession.challengeNonceK).length = lockActionSample.payloadLen + 32 :=
  have h := challenge_payload_length_within_bounds sampleConstants tagBox challengedSession
    (commandTick 100 []) lockActionSample (by decide) (by decide) (by decide)
  ⟨h.1, (h.2.2.2.2 (by decide)).2.1⟩

theorem retrieveCredentials_state (s : Session) (buff : Bytes) :
    (retrieveCredentials s buff).2.nukiCommandState = s.nukiCommandState := by
  unfold retrieveCredentials
  simp only
  split
  · rfl
  · split
    · rfl
    · split
      · rfl
      · split <;> rfl

theorem cmdStateMachine_state (K : NukiConstants) (box : SecretBox) (s s' : Session)
    (t : Tick) (a : NukiAction) (r : NukiCmdResult)
    (hh : handledBy NukiCommandType.Command s.nukiCommandState = true)
    (h : cmdStateMachine K box s t a = some (r, s')) :
    (r = NukiCmdResult.Working →
      handledBy NukiCommandType.Command s'.nukiCommandState = true) ∧
    (r ≠ NukiCmdResult.Working → s'.nukiCommandState = NukiCommandState.Idle) := by
  unfold cmdStateMachine at h
  split at h
  · simp only [Option.bind_eq_bind] at h
    obtain ⟨s2, _, h2⟩ := Option.bind_eq_some.mp h
    cases h2
    exact ⟨fun _ => rfl, fun hr => absurd rfl hr⟩
  · split at h
    · cases h
      exact ⟨fun hr => (by cases hr), fun _ => rfl⟩
    · split at h
      · cases h
        exact ⟨fun hr => (by cases hr), fun _ => rfl⟩
      · split at h
        · cases h
          exact ⟨fun hr => (by cases hr), fun _ => rfl⟩
        · cases h
          exact ⟨fun _ => hh, fun hr => absurd rfl hr⟩
  · rename_i h1 h2
    exfalso
    revert hh h1 h2
    generalize s.nukiCommandState = st
    intro hh h1 h2
    cases st <;> first | exact h1 rfl | exact h2 rfl | cases hh

theorem cmdChallStateMachine_state (K : NukiConstants) (box : SecretBox) (s s' : Session)
    (t : Tick) (a : NukiAction) (pin : Bool) (r : NukiCmdResult)
    (hh : s.nukiCommandState ≠ NukiCommandState.CmdAccepted)
    (h : cmdChallStateMachine K box s t a pin = some (r, s')) :
    (r = NukiCmdResult.Working → s'.nukiCommandState ≠ NukiCommandState.CmdAccepted) ∧
    (r ≠ NukiCmdResult.Working → s'.nukiCommandState = NukiCommandState.Idle) := by
  unfold cmdChallStateMachine at h
  split at h
  · simp only [Option.bind_eq_bind] at h
    obtain ⟨s2, _, h2⟩ := Option.bind_eq_some.mp h
    cases h2
    exact ⟨fun _ hc => (by cases hc), fun hr => absurd rfl hr⟩
  · split at h
    · cases h
      exact ⟨fun hr => (by cases hr), fun _ => rfl⟩
    · split at h
      · cases h
        exact ⟨fun _ hc => (by cases hc), fun hr => absurd rfl hr⟩
      · cases h
        exact ⟨fun _ => hh, fun hr => absurd rfl hr⟩
  · cases pin
    · simp only [Option.bind_eq_bind, Bool.false_eq_true, if_false, false_and] at h
      obtain ⟨p, _, h2⟩ := Option.bind_eq_some.mp h
      split at h2
      · cases h2
      · obtain ⟨s2, _, h3⟩ := Option.bind_eq_some.mp h2
        cases h3
        exact ⟨fun _ hc => (by cases hc), fun hr => absurd rfl hr⟩
    · simp only [Option.bind_eq_bind, if_true, true_and] at h
      obtain ⟨p, _, h2⟩ := Option.bind_eq_some.mp h
      split at h2
      · cases h2
      · split at h2
        · cases h2
        · obtain ⟨s2, _, h3⟩ := Option.bind_eq_some.mp h2
          cases h3
          exact ⟨fun _ hc => (by cases hc), fun hr => absurd rfl hr⟩
  · split at h
    · cases h
      exact ⟨fun hr => (by cases hr), fun _ => rfl⟩
    · split at h
      · cases h
        exact ⟨fun hr => (by cases hr), fun _ => rfl⟩
      · split at h
        · cases h
          exact ⟨fun hr => (by cases hr), fun _ => rfl⟩
        · cases h
          exact ⟨fun _ => hh, fun hr => absurd rfl hr⟩
  · rename_i h1 h2 h3 h4
    exfalso
    revert hh h1 h2 h3 h4
    generalize s.nukiCommandState = st
    intro hh h1 h2 h3 h4
    cases st <;> first | exact h1 rfl | exact h2 rfl | exact h3 rfl | exact h4 rfl | exact hh rfl

theorem cmdChallAccStateMachine_state (K : NukiConstants) (box : SecretBox) (s s' : Session)
    (t : Tick) (a : NukiAction) (r : NukiCmdResult)
    (h : cmdChallAccStateMachine K box s t a = some (r, s')) :
    r ≠ NukiCmdResult.Working → s'.nukiCommandState = NukiCommandState.Idle := by
  unfold cmdChallAccStateMachine at h
  split at h
  · simp only [Option.bind_eq_bind] at h
    obtain ⟨s2, _, h2⟩ := Option.bind_eq_some.mp h
    cases h2
    exact fun hr => absurd rfl hr
  · split at h
    · cases h
      exact fun _ => rfl
    · split at h
      · cases h
        exact fun hr => absurd rfl hr
      · cases h
        exact fun hr => absurd rfl hr
  · simp only [Option.bind_eq_bind] at h
    obtain ⟨p, _, h2⟩ := Option.bind_eq_some.mp h
    split at h2
    · cases h2
    · obtain ⟨s2, _, h3⟩ := Option.bind_eq_some.mp h2
      cases h3
      exact fun hr => absurd rfl hr
  · split at h
    · cases h
      exact fun _ => rfl
    · split at h
      · cases h
        exact fun hr => absurd rfl hr
      · cases h
        exact fun hr => absurd rfl hr
  · split at h
    · cases h
      exact fun _ => rfl
    · split at h
      · cases h
        exact fun _ => rfl
      · split at h
        · cases h
          exact fun _ => rfl
        · cases h
          exact fun hr => absurd rfl hr

theorem handledBy_challenge (st : NukiCommandState) :
    (handledBy NukiCommandType.CommandWithChallenge st = true ↔
      st ≠ NukiCommandState.CmdAccepted) ∧
    (handledBy NukiCommandType.CommandWithChallengeAndPin st = true ↔
      st ≠ NukiCommandState.CmdAccepted) := by
  cases st <;> decide

theorem machineFor_state (K : NukiConstants) (box : SecretBox) (a : NukiAction)
    (s s' : Session) (t : Tick) (r : NukiCmdResult)
    (hh : handledBy a.cmdType s.nukiCommandState = true)
    (h : machineFor K box a s t = some (r, s')) :
    (r = NukiCmdResult.Working → handledBy a.cmdType s'.nukiCommandState = true) ∧
    (r ≠ NukiCmdResult.Working → s'.nukiCommandState = NukiCommandState.Idle) := by
  unfold machineFor at h
  cases hc : a.cmdType <;> rw [hc] at h hh <;> dsimp only at h
  · exact cmdStateMachine_state K box s s' t a r hh h
  · obtain ⟨h1, h2⟩ := cmdChallStateMachine_state K box s s' t a false r
      ((handledBy_challenge _).1.mp hh) h
    exact ⟨fun hr => (handledBy_challenge _).1.mpr (h1 hr), h2⟩
  · exact ⟨fun _ => rfl, cmdChallAccStateMachine_state K box s s' t a r h⟩
  · obtain ⟨h1, h2⟩ := cmdChallStateMachine_state K box s s' t a true r
      ((handledBy_challenge _).2.mp hh) h
    exact ⟨fun hr => (handledBy_challenge _).2.mpr (h1 hr), h2⟩
  · cases hh

theorem machineFor_late (K : NukiConstants) (box : SecretBox) (a : NukiAction)
    (s : Session) (t : Tick)
    (hh : handledBy a.cmdType s.nukiCommandState = true)
    (hw : waitsForLock s.nukiCommandState = true)
    (ht : K.CMD_TIMEOUT < elapsed t.now s.timeNow) :
    machineFor K box a s t =
      some (NukiCmdResult.TimeOut,
        { s with timeNow := t.now, nukiCommandState := NukiCommandState.Idle }) := by
  unfold machineFor
  cases hc : a.cmdType <;> rw [hc] at hh <;> dsimp only <;>
    cases hst : s.nukiCommandState <;> rw [hst] at hh hw <;>
    first
    | exact absurd hh (by decide)
    | exact absurd hw (by decide)
    | (unfold cmdStateMachine; simp only [hst]; rw [if_pos ht])
    | (unfold cmdChallStateMachine; simp only [hst]; rw [if_pos ht])
    | (unfold cmdChallAccStateMachine; simp only [hst]; rw [if_pos ht])

theorem runLoop_state (K : NukiConstants) (box : SecretBox)
    (step : Session → Tick → Option (NukiCmdResult × Session))
    (H : NukiCommandState → Prop)
    (hstep : ∀ s t r s', H s.nukiCommandState → step s t = some (r, s') →
      (r = NukiCmdResult.Working → H s'.nukiCommandState) ∧
      (r ≠ NukiCmdResult.Working → s'.nukiCommandState = NukiCommandState.Idle))
    (ticks : List Tick) (s : Session) (r : NukiCmdResult) (s' : Session)
    (hs : H s.nukiCommandState)
    (h : runLoop K box step s ticks = some (r, s')) :
    (r = NukiCmdResult.Working → H s'.nukiCommandState) ∧
    (r ≠ NukiCmdResult.Working → s'.nukiCommandState = NukiCommandState.Idle) := by
  induction ticks generalizing s with
  | nil =>
    unfold runLoop at h
    cases h
    exact ⟨fun _ => hs, fun hr => absurd rfl hr⟩
  | cons t ts ih =>
    rw [runLoop_cons] at h
    obtain ⟨r0, h0, h1⟩ := Option.bind_eq_some.mp h
    obtain ⟨a0, s0⟩ := r0
    obtain ⟨g1, g2⟩ := hstep s t a0 s0 hs h0
    by_cases hw : a0 ≠ NukiCmdResult.Working
    · rw [if_pos hw] at h1
      cases h1
      exact ⟨fun hr => absurd hr hw, g2⟩
    · rw [if_neg hw] at h1
      obtain ⟨s1, h2, h3⟩ := Option.bind_eq_some.mp h1
      have e := (deliver_frame K box t.inbound s0 s1 h2).2.2.2.2.2.1
      exact ih s1 (by rw [e]; exact g1 (not_not.mp hw)) h3

theorem runLoop_prefix (K : NukiConstants) (box : SecretBox)
    (step : Session → Tick → Option (NukiCmdResult × Session))
    (pre post : List Tick) (s : Session) (r : NukiCmdResult) (s' : Session)
    (h : runLoop K box step s (pre ++ post) = some (r, s')) :
    ∃ r1 s1, runLoop K box step s pre = some (r1, s1) := by
  induction pre generalizing s with
  | nil => exact ⟨_, _, by unfold runLoop; rfl⟩
  | cons t ts ih =>
    rw [List.cons_append, runLoop_cons] at h
    rw [runLoop_cons]
    obtain ⟨r0, h0, h1⟩ := Option.bind_eq_some.mp h
    rw [h0]
    simp only [Option.some_bind]
    by_cases hw : r0.1 ≠ NukiCmdResult.Working
    · rw [if_pos hw]
      exact ⟨r0.1, r0.2, rfl⟩
    · rw [if_neg hw] at h1 ⊢
      obtain ⟨s1, h2, h3⟩ := Option.bind_eq_some.mp h1
      rw [h2]
      exact ih s1 h3

theorem runLoop_continue (K : NukiConstants) (box : SecretBox)
    (step : Session → Tick → Option (NukiCmdResult × Session))
    (pre post : List Tick) (s s1 : Session)
    (h : runLoop K box step s pre = some (NukiCmdResult.Working, s1)) :
    runLoop K box step s (pre ++ post) = runLoop K box step s1 post := by
  induction pre generalizing s with
  | nil =>
    unfold runLoop at h
    cases h
    rfl
  | cons t ts ih =>
    rw [runLoop_cons] at h
    rw [List.cons_append, runLoop_cons]
    obtain ⟨r0, h0, h1⟩ := Option.bind_eq_some.mp h
    rw [h0]
    simp only [Option.some_bind]
    by_cases hw : r0.1 ≠ NukiCmdResult.Working
    · rw [if_pos hw] at h1
      cases h1
      exact absurd rfl hw
    · rw [if_neg hw] at h1 ⊢
      obtain ⟨s2, h2, h3⟩ := Option.bind_eq_some.mp h1
      rw [h2]
      exact ih s2 h3

theorem executeAction_machineFor (K : NukiConstants) (box : SecretBox) (s : Session)
    (a : NukiAction) (buff : Bytes) (ticks : List Tick)
    (hc : (retrieveCredentials s buff).1 = true) (hk : a.cmdType ≠ NukiCommandType.Unknown) :
    executeAction K box s a buff ticks =
      runLoop K box (machineFor K box a) (retrieveCredentials s buff).2 ticks := by
  unfold executeAction machineFor
  simp only [hc, if_true]
  cases h : a.cmdType
  case Unknown => exact absurd h hk
  all_goals rfl

theorem handledBy_Idle (c : NukiCommandType) (hk : c ≠ NukiCommandType.Unknown) :
    handledBy c NukiCommandState.Idle = true := by
  cases c
  case Unknown => exact absurd rfl hk
  all_goals rfl

theorem executeAction_state (K : NukiConstants) (box : SecretBox) (s : Session)
    (action : NukiAction) (buff : Bytes) (ticks : List Tick) (r : NukiCmdResult) (s' : Session)
    (hidle : s.nukiCommandState = NukiCommandState.Idle)
    (hrun : executeAction K box s action buff ticks = some (r, s')) :
    (r ≠ NukiCmdResult.Working → s'.nukiCommandState = NukiCommandState.Idle) ∧
    (r = NukiCmdResult.Working → handledBy action.cmdType s'.nukiCommandState = true) ∧
    (r = NukiCmdResult.Working →
      (retrieveCredentials s buff).1 = true ∧ action.cmdType ≠ NukiCommandType.Unknown) := by
  by_cases hc : (retrieveCredentials s buff).1 = true
  · by_cases hk : action.cmdType = NukiCommandType.Unknown
    · unfold executeAction at hrun
      simp only [hc, if_true, hk] at hrun
      cases hrun
      exact ⟨fun _ => (retrieveCredentials_state s buff).trans hidle, fun hr => (by cases hr),
        fun hr => (by cases hr)⟩
    · rw [executeAction_machineFor K box s action buff ticks hc hk] at hrun
      obtain ⟨h1, h2⟩ := runLoop_state K box (machineFor K box action)
        (fun st => handledBy action.cmdType st = true)
        (fun σ t ρ σ' hh h => machineFor_state K box action σ σ' t ρ hh h)
        ticks _ r s'
        (by rw [retrieveCredentials_state, hidle]; exact handledBy_Idle _ hk) hrun
      exact ⟨h2, h1, fun _ => ⟨hc, hk⟩⟩
  · unfold executeAction at hrun
    simp only [hc, Bool.false_eq_true, if_false] at hrun
    cases hrun
    exact ⟨fun _ => (retrieveCredentials_state s buff).trans hidle, fun hr => (by cases hr),
      fun hr => (by cases hr)⟩

theorem executeAction_prefix (K : NukiConstants) (box : SecretBox) (s : Session)
    (action : NukiAction) (buff : Bytes) (pre post : List Tick) (r : NukiCmdResult)
    (s' : Session)
    (hrun : executeAction K box s action buff (pre ++ post) = some (r, s')) :
    ∃ r1 s1, executeAction K box s action buff pre = some (r1, s1) := by
  by_cases hc : (retrieveCredentials s buff).1 = true
  · by_cases hk : action.cmdType = NukiCommandType.Unknown
    · refine ⟨NukiCmdResult.Failed, (retrieveCredentials s buff).2, ?_⟩
      unfold executeAction
      simp only [hc, if_true, hk]
    · rw [executeAction_machineFor K box s action buff _ hc hk] at hrun
      rw [executeAction_machineFor K box s action buff _ hc hk]
      exact runLoop_prefix K box _ pre post _ r s' hrun
  · refine ⟨NukiCmdResult.NotPaired, (retrieveCredentials s buff).2, ?_⟩
    unfold executeAction
    simp only [hc, Bool.false_eq_true, if_false]

/-- C36: for a session in `Idle` and an `executeAction` call that yields
`(r, s')` on a schedule of steps and inbound messages: a result other than
`Working` leaves `nukiCommandState = Idle`; `Working` (in the model: the
schedule ended with the loop still running, `executeAction` has not returned)
leaves a state for which the selected machine has a case; the same holds after
every initial part of the schedule, so every state on which a step is called is
handled; only for a state that is not handled do `cmdStateMachine` and
`cmdChallStateMachine` take the default branch (`Failed`, nothing changed), and
`cmdChallAccStateMachine` handles all five states; and a loop that waits for
the lock returns `TimeOut` in state `Idle` on the first step after the
deadline. -/
theorem command_state_returns_to_Idle (K : NukiConstants) (box : SecretBox) (s : Session)
    (action : NukiAction) (buff : Bytes) (ticks : List Tick) (r : NukiCmdResult) (s' : Session)
    (hidle : s.nukiCommandState = NukiCommandState.Idle)
    (hrun : executeAction K box s action buff ticks = some (r, s')) :
    (r ≠ NukiCmdResult.Working → s'.nukiCommandState = NukiCommandState.Idle) ∧
    (r = NukiCmdResult.Working → handledBy action.cmdType s'.nukiCommandState = true) ∧
    (∀ pre post, ticks = pre ++ post →
      ∃ r1 s1, executeAction K box s action buff pre = some (r1, s1) ∧
        (r1 ≠ NukiCmdResult.Working → s1.nukiCommandState = NukiCommandState.Idle) ∧
        (r1 = NukiCmdResult.Working →
          handledBy action.cmdType s1.nukiCommandState = true)) ∧
    (∀ (σ : Session) (t : Tick) (pin : Bool),
      (handledBy NukiCommandType.Command σ.nukiCommandState = false →
        cmdStateMachine K box σ t action = some (NukiCmdResult.Failed, σ)) ∧
      (handledBy NukiCommandType.CommandWithChallenge σ.nukiCommandState = false →
        cmdChallStateMachine K box σ t action pin = some (NukiCmdResult.Failed, σ)) ∧
      handledBy NukiCommandType.CommandWithChallengeAndPin σ.nukiCommandState =
        handledBy NukiCommandType.CommandWithChallenge σ.nukiCommandState ∧
      handledBy NukiCommandType.CommandWithChallengeAndAccept σ.nukiCommandState = true) ∧
    (r = NukiCmdResult.Working → waitsForLock s'.nukiCommandState = true →
      ∀ late : Tick, K.CMD_TIMEOUT < elapsed late.now s'.timeNow →
        executeAction K box s action buff (ticks ++ [late]) =
          some (NukiCmdResult.TimeOut,
            { s' with timeNow := late.now, nukiCommandState := NukiCommandState.Idle })) := by
  obtain ⟨c1, c2, c3⟩ := executeAction_state K box s action buff ticks r s' hidle hrun
  refine ⟨c1, c2, ?_, ?_, ?_⟩
  · intro pre post hsplit
    rw [hsplit] at hrun
    obtain ⟨r1, s1, h1⟩ := executeAction_prefix K box s action buff pre post r s' hrun
    obtain ⟨d1, d2, _⟩ := executeAction_state K box s action buff pre r1 s1 hidle h1
    exact ⟨r1, s1, h1, d1, d2⟩
  · intro σ t pin
    refine ⟨?_, ?_, ?_, ?_⟩
    · intro hh
      unfold cmdStateMachine
      cases hst : σ.nukiCommandState <;> rw [hst] at hh <;> exact absurd hh (by decide)
    · intro hh
      unfold cmdChallStateMachine
      cases hst : σ.nukiCommandState <;> rw [hst] at hh <;> exact absurd hh (by decide)
    · cases σ.nukiCommandState <;> rfl
    · cases σ.nukiCommandState <;> rfl
  · intro hr hw late hlate
    subst hr
    obtain ⟨hc, hk⟩ := c3 rfl
    rw [executeAction_machineFor K box s action buff _ hc hk] at hrun
    rw [executeAction_machineFor K box s action buff _ hc hk,
      runLoop_continue K box _ ticks [late] _ s' hrun, runLoop_cons,
      machineFor_late K box action s' late (c2 rfl) hw hlate]
    rfl

/-- Witness of C36: a plain command to a lock that never answers; the step
after the deadline returns `TimeOut` and the state is `Idle`. -/
theorem command_state_returns_to_Idle_witness :
    ∃ s', executeAction sampleConstants tagBox pairedSession plainCommandSample []
        unansweredCommand = some (NukiCmdResult.TimeOut, s') ∧
      s'.nukiCommandState = NukiCommandState.Idle :=
  Exists.elim
    (⟨_, rfl⟩ : ∃ s', executeAction sampleConstants tagBox pairedSession plainCommandSample []
        unansweredCommand = some (NukiCmdResult.TimeOut, s'))
    (fun s' h => ⟨s', h,
      (command_state_returns_to_Idle sampleConstants tagBox pairedSession plainCommandSample []
        unansweredCommand NukiCmdResult.TimeOut s' (by decide) h).1 (by decide)⟩)

/-! ## The claims on the configuration setters: one field changes -/

theorem createNewConfig_eq (L : ConfigLayout) (c : Config)
    (h : c.name.length = L.sizeofNewConfigName) :
    createNewConfig L c = some (asNewConfig c) := by
  unfold createNewConfig
  rw [readBytes_some c.name 0 _ (by omega)]
  simp only [Option.bind_eq_bind, Option.some_bind, List.drop_zero]
  rw [← h, List.take_length]
  rfl

theorem sample_requestConfig :
    (requestConfig sampleConstants tagBox pairedSession freshAction [] configLock).map
      (fun r => (r.1, r.2.config)) = some (NukiCmdResult.Success, sampleConfigBytes) := by
  decide!

/-- C37: for a name of `k ≤ 32` bytes, when `requestConfig` succeeds and the
name arrays of `Config` and `NewConfig` have 32 bytes, `setName` is `setConfig`
on a `NewConfig` whose name field is the `k` bytes of the name followed by the
bytes `k..32` of the old name `o` (the other fifteen members are those of the
retrieved `Config`): only the first `k` bytes are overwritten, and the field is
the zero-padded name exactly when `o[k..32)` is all-zero. -/
theorem setName_keeps_old_tail (K : NukiConstants) (L : ConfigLayout) (box : SecretBox)
    (s : Session) (name : Bytes) (fresh : NukiAction) (buff1 buff2 : Bytes)
    (ticks1 ticks2 : List Tick) (r : NukiCmdResult × Session)
    (hlen : name.length ≤ 32)
    (hreq : requestConfig K box s fresh buff1 ticks1 = some r)
    (hok : r.1 = NukiCmdResult.Success)
    (hold : (L.decodeConfig r.2.config).name.length = 32)
    (hnew : L.sizeofNewConfigName = 32) :
    ∃ newConfig : NewConfig,
      setName K L box s name fresh buff1 buff2 ticks1 ticks2 =
        setConfig K L box r.2 fresh newConfig buff2 ticks2 ∧
      newConfig = asNewConfig
        { L.decodeConfig r.2.config with
          name := name ++ (L.decodeConfig r.2.config).name.drop name.length } ∧
      newConfig.name = name ++ (L.decodeConfig r.2.config).name.drop name.length ∧
      newConfig.name.length = 32 ∧
      newConfig.name.take name.length = name ∧
      newConfig.name.drop name.length = (L.decodeConfig r.2.config).name.drop name.length ∧
      (newConfig.name = name ++ List.replicate (32 - name.length) 0 ↔
        (L.decodeConfig r.2.config).name.drop name.length =
          List.replicate (32 - name.length) 0) := by
  have hl : (name ++ (L.decodeConfig r.2.config).name.drop name.length).length = 32 := by
    rw [List.length_append, List.length_drop]
    omega
  refine ⟨_, ?_, rfl, rfl, hl, ?_, ?_, ?_⟩
  · unfold setName
    rw [if_pos hlen, hreq]
    simp only [Option.bind_eq_bind, Option.some_bind]
    rw [if_pos hok, if_neg (by omega),
      createNewConfig_eq L _ (by rw [hnew]; exact hl)]
    rfl
  · exact List.take_left' rfl
  · exact List.drop_left' rfl
  · exact ⟨fun h => List.append_cancel_left h, fun h => by rw [← h]; rfl⟩

/-- Witness of C37: the name `Bob` on a lock whose `Config` holds a name of 32
bytes `41`: the field is `Bob` followed by 29 bytes `41`. -/
theorem setName_keeps_old_tail_witness :
    ∃ (r : NukiCmdResult × Session) (newConfig : NewConfig),
      requestConfig sampleConstants tagBox pairedSession freshAction [] configLock = some r ∧
      r.1 = NukiCmdResult.Success ∧
      setName sampleConstants sampleLayout tagBox pairedSession [0x42, 0x6F, 0x62] freshAction
          [] [] configLock acceptingLock =
        setConfig sampleConstants sampleLayout tagBox r.2 freshAction newConfig []
          acceptingLock ∧
      newConfig.name = [0x42, 0x6F, 0x62] ++ List.replicate 29 0x41 := by
  obtain ⟨r, hr, he⟩ := Option.map_eq_some'.mp sample_requestConfig
  have hok : r.1 = NukiCmdResult.Success := (Prod.mk.inj he).1
  have hcfg : r.2.config = sampleConfigBytes := (Prod.mk.inj he).2
  obtain ⟨newConfig, h1, _, h3, _⟩ := setName_keeps_old_tail sampleConstants sampleLayout tagBox
    pairedSession [0x42, 0x6F, 0x62] freshAction [] [] configLock acceptingLock r (by decide) hr
    hok (by rw [hcfg]; decide) rfl
  refine ⟨r, newConfig, hr, hok, h1, ?_⟩
  rw [h3, hcfg]
  decide

/-- C38: when `requestConfig` does not return `Success`, each of the nine
single-field setters returns the result of `requestConfig` and nothing more
happens (`setConfig` is not called); when it returns `Success` (the name arrays
of `Config` and `NewConfig` having the same size), each setter is `setConfig`
on the `NewConfig` that holds, member for member, the sixteen members of the
retrieved `Config`, except the one member the setter names, which holds the
argument (for `setLedBrightness`, 5 when the level exceeds 5). -/
theorem setters_change_one_field (K : NukiConstants) (L : ConfigLayout) (box : SecretBox)
    (s : Session) (fresh : NukiAction) (buff1 buff2 : Bytes) (ticks1 ticks2 : List Tick)
    (r : NukiCmdResult × Session) (enable : Bool) (v : Nat)
    (hreq : requestConfig K box s fresh buff1 ticks1 = some r) :
    (r.1 ≠ NukiCmdResult.Success →
      enablePairing K L box s enable fresh buff1 buff2 ticks1 ticks2 = some r ∧
      enableButton K L box s enable fresh buff1 buff2 ticks1 ticks2 = some r ∧
      enableLedFlash K L box s enable fresh buff1 buff2 ticks1 ticks2 = some r ∧
      setLedBrightness K L box s v fresh buff1 buff2 ticks1 ticks2 = some r ∧
      enableSingleLock K L box s enable fresh buff1 buff2 ticks1 ticks2 = some r ∧
      setAdvertisingMode K L box s v fresh buff1 buff2 ticks1 ticks2 = some r ∧
      enableDst K L box s enable fresh buff1 buff2 ticks1 ticks2 = some r ∧
      setTimeZoneOffset K L box s v fresh buff1 buff2 ticks1 ticks2 = some r ∧
      setTimeZoneId K L box s v fresh buff1 buff2 ticks1 ticks2 = some r) ∧
    (r.1 = NukiCmdResult.Success →
      (L.decodeConfig r.2.config).name.length = L.sizeofNewConfigName →
      enablePairing K L box s enable fresh buff1 buff2 ticks1 ticks2 =
        setConfig K L box r.2 fresh
          { asNewConfig (L.decodeConfig r.2.config) with
            pairingEnabled := if enable then 1 else 0 } buff2 ticks2 ∧
      enableButton K L box s enable fresh buff1 buff2 ticks1 ticks2 =
        setConfig K L box r.2 fresh
          { asNewConfig (L.decodeConfig r.2.config) with
            buttonEnabled := if enable then 1 else 0 } buff2 ticks2 ∧
      enableLedFlash K L box s enable fresh buff1 buff2 ticks1 ticks2 =
        setConfig K L box r.2 fresh
          { asNewConfig (L.decodeConfig r.2.config) with
            ledEnabled := if enable then 1 else 0 } buff2 ticks2 ∧
      setLedBrightness K L box s v fresh buff1 buff2 ticks1 ticks2 =
        setConfig K L box r.2 fresh
          { asNewConfig (L.decodeConfig r.2.config) with
            ledBrightness := min v 5 } buff2 ticks2 ∧
      enableSingleLock K L box s enable fresh buff1 buff2 ticks1 ticks2 =
        setConfig K L box r.2 fresh
          { asNewConfig (L.decodeConfig r.2.config) with
            singleLock := if enable then 1 else 0 } buff2 ticks2 ∧
      setAdvertisingMode K L box s v fresh buff1 buff2 ticks1 ticks2 =
        setConfig K L box r.2 fresh
          { asNewConfig (L.decodeConfig r.2.config) with advertisingMode := v } buff2 ticks2 ∧
      enableDst K L box s enable fresh buff1 buff2 ticks1 ticks2 =
        setConfig K L box r.2 fresh
          { asNewConfig (L.decodeConfig r.2.config) with
            dstMode := if enable then 1 else 0 } buff2 ticks2 ∧
      setTimeZoneOffset K L box s v fresh buff1 buff2 ticks1 ticks2 =
        setConfig K L box r.2 fresh
          { asNewConfig (L.decodeConfig r.2.config) with timeZoneOffset := v } buff2 ticks2 ∧
      setTimeZoneId K L box s v fresh buff1 buff2 ticks1 ticks2 =
        setConfig K L box r.2 fresh
          { asNewConfig (L.decodeConfig r.2.config) with timeZoneId := v } buff2 ticks2) := by
  have hfail : r.1 ≠ NukiCmdResult.Success → ∀ change : Config → Config,
      changeConfig K L box s change fresh buff1 buff2 ticks1 ticks2 = some r := by
    intro hr change
    unfold changeConfig
    rw [hreq]
    simp only [Option.bind_eq_bind, Option.some_bind]
    rw [if_neg hr]
  have hgo : r.1 = NukiCmdResult.Success → ∀ change : Config → Config,
      (change (L.decodeConfig r.2.config)).name.length = L.sizeofNewConfigName →
      changeConfig K L box s change fresh buff1 buff2 ticks1 ticks2 =
        setConfig K L box r.2 fresh (asNewConfig (change (L.decodeConfig r.2.config)))
          buff2 ticks2 := by
    intro hr change hn
    unfold changeConfig
    rw [hreq]
    simp only [Option.bind_eq_bind, Option.some_bind]
    rw [if_pos hr, createNewConfig_eq L _ hn]
    rfl
  have hmin : (if 5 < v then 5 else v) = min v 5 := by
    by_cases h : 5 < v
    · rw [if_pos h]
      omega
    · rw [if_neg h]
      omega
  refine ⟨fun hr => ⟨hfail hr _, hfail hr _, hfail hr _, hfail hr _, hfail hr _, hfail hr _,
    hfail hr _, hfail hr _, hfail hr _⟩, fun hr hn => ⟨?_, ?_, ?_, ?_, ?_, ?_, ?_, ?_, ?_⟩⟩
  · exact hgo hr _ hn
  · exact hgo hr _ hn
  · exact hgo hr _ hn
  · rw [← hmin]
    exact hgo hr _ hn
  · exact hgo hr _ hn
  · exact hgo hr _ hn
  · exact hgo hr _ hn
  · exact hgo hr _ hn
  · exact hgo hr _ hn

/-- Witness of C38: `setLedBrightness(9)` on a lock whose `Config` is
`sampleConfigBytes`: the `NewConfig` holds brightness 5 and, in every other
member, what the retrieved `Config` holds. -/
theorem setters_change_one_field_witness :
    ∃ r : NukiCmdResult × Session,
      requestConfig sampleConstants tagBox pairedSession freshAction [] configLock = some r ∧
      r.1 = NukiCmdResult.Success ∧
      setLedBrightness sampleConstants sampleLayout tagBox pairedSession 9 freshAction [] []
          configLock acceptingLock =
        setConfig sampleConstants sampleLayout tagBox r.2 freshAction
          { asNewConfig (sampleLayout.decodeConfig sampleConfigBytes) with ledBrightness := 5 }
          [] acceptingLock := by
  obtain ⟨r, hr, he⟩ := Option.map_eq_some'.mp sample_requestConfig
  have hok : r.1 = NukiCmdResult.Success := (Prod.mk.inj he).1
  have hcfg : r.2.config = sampleConfigBytes := (Prod.mk.inj he).2
  have h := ((setters_change_one_field sampleConstants sampleLayout tagBox pairedSession
    freshAction [] [] configLock acceptingLock r true 9 hr).2 hok
    (by rw [hcfg]; decide)).2.2.2.1
  rw [hcfg] at h
  exact ⟨r, hr, hok, h⟩

end NukiBle
